import Mathlib

/-! AOgmaNeo: the sparse predictive hierarchy.

A shallow embedding of `source/aogmaneo/hierarchy.h`, `source/aogmaneo/hierarchy.cpp`
and of the helpers of `ogmaneo/Helpers.h`, followed by the properties proved about them.

Conventions of the embedding.

* `Array<T>` is a `List T`; `Array<T>::size()` is the length of the list.
* A C++ `int` is an `Int`.  Loop counters that start at `0` and count upwards are `Nat`.
* A `Byte` is a `Nat` (the values stored by the hierarchy are `0`, `1`, `2`).
* A `float` is carried as an uninterpreted 32-bit pattern: the hierarchy only stores
  and forwards floats, it never computes with them.
* Reading an array outside its bounds yields the default value and writing outside its
  bounds leaves the array as it is; the theorems below are stated on states in which the
  accesses they speak about are inside the bounds.
* The methods of `Encoder`, `Decoder` and `Actor` are declared in `encoder.h`,
  `decoder.h` and `actor.h`, their bodies are in translation units that are not part of
  the sources; they are the fields of `Kernels` and every theorem holds for every choice
  of them.
-/

namespace aon

/-! ## Basic types -/

/-- The C++ type `float`, carried as a bit pattern. -/
abbrev float := Nat

/-- The C++ type `Byte` (`unsigned char`). -/
abbrev Byte := Nat

/-- The bit pattern of `1.0f`. -/
def float_one : float := 0x3F800000

/-- The struct `Int3` (`Vec3<int>`). -/
structure Int3 where
  x : Int
  y : Int
  z : Int
deriving DecidableEq, Repr

/-- The value `Int3(4, 4, 16)` used by the default constructors of the descriptors. -/
instance : Inhabited Int3 := ⟨⟨4, 4, 16⟩⟩

abbrev Int_Buffer := List Int
abbrev Float_Buffer := List float
abbrev Byte_Buffer := List Byte

/-- An `Int_Buffer_View` is read through, so it is the list of the values it shows. -/
abbrev Int_Buffer_View := List Int

/-! ## Arrays -/

/-- `Array<T>::operator[]` at a C++ `int` index (read). -/
def Array_at {α : Type} [Inhabited α] (xs : List α) (i : Int) : α :=
  if 0 ≤ i then xs.getD i.toNat default else default

/-- `Array<T>::operator[]` at a C++ `int` index (write). -/
def Array_put {α : Type} (xs : List α) (i : Int) (v : α) : List α :=
  if 0 ≤ i then xs.set i.toNat v else xs

/-- In-place change of the element at position `i`: `f(xs[i])`. -/
def Array_update {α : Type} [Inhabited α] (xs : List α) (i : Nat) (f : α → α) : List α :=
  xs.set i (f (xs.getD i default))

/-- `Array<T>::resize(size, value)`: the first `size` elements are kept, new places hold
`value`.  An element count is never negative; for a negative `size` the model gives the
empty array. -/
def Array_resize_fill {α : Type} (xs : List α) (size : Int) (value : α) : List α :=
  xs.take size.toNat ++ List.replicate (size.toNat - xs.length) value

/-- `Array<T>::resize(size)`: new places hold a default-constructed element. -/
def Array_resize {α : Type} [Inhabited α] (xs : List α) (size : Int) : List α :=
  Array_resize_fill xs size default

/-- `Array<T>(size, value)`. -/
def Array_new {α : Type} (size : Int) (value : α) : List α :=
  List.replicate size.toNat value

/-- `Array<T>::fill(value)`. -/
def Array_fill {α : Type} (xs : List α) (value : α) : List α :=
  xs.map (fun _ => value)

/-! ## Circular buffer (`ogmaneo/Helpers.h`, `CircleBuffer`) -/

/-- The struct `CircleBuffer<T>`: the storage and the position of the front element. -/
structure CircleBuffer (α : Type) where
  data : List α
  start : Int
deriving DecidableEq, Repr

instance {α : Type} : Inhabited (CircleBuffer α) := ⟨⟨[], 0⟩⟩

namespace CircleBuffer

/-- `CircleBuffer::size`. -/
def size {α : Type} (b : CircleBuffer α) : Int := b.data.length

/-- `CircleBuffer::resize`: resizes the storage, `start` is kept. -/
def resize {α : Type} [Inhabited α] (b : CircleBuffer α) (size : Int) : CircleBuffer α :=
  { b with data := Array_resize b.data size }

/-- `CircleBuffer::pushFront`: `start--`, and `start += data.size()` when it became
negative. -/
def pushFront {α : Type} (b : CircleBuffer α) : CircleBuffer α :=
  let start := b.start - 1
  { b with start := if start < 0 then start + b.data.length else start }

/-- The storage position `(start + index) % data.size()` of `operator[]`; `%` is the
C++ remainder, which truncates towards zero. -/
def slot {α : Type} (b : CircleBuffer α) (index : Int) : Int :=
  Int.tmod (b.start + index) b.data.length

/-- `CircleBuffer::operator[]` (read). -/
def get {α : Type} [Inhabited α] (b : CircleBuffer α) (index : Int) : α :=
  Array_at b.data (b.slot index)

/-- `CircleBuffer::operator[]` (write): `b[index] = v`. -/
def put {α : Type} (b : CircleBuffer α) (index : Int) (v : α) : CircleBuffer α :=
  { b with data := Array_put b.data (b.slot index) v }

/-- `CircleBuffer::front`. -/
def front {α : Type} [Inhabited α] (b : CircleBuffer α) : α :=
  Array_at b.data b.start

/-- `CircleBuffer::back`. -/
def back {α : Type} [Inhabited α] (b : CircleBuffer α) : α :=
  Array_at b.data (Int.tmod (b.start + b.data.length - 1) b.data.length)

end CircleBuffer

/-- The ring `Circle_Buffer<T>` of `hierarchy.h`; `hierarchy.cpp` uses its members
`start`, `size`, `resize`, `push_front` and `operator[]`, which are those of
`CircleBuffer`. -/
abbrev Circle_Buffer (α : Type) := CircleBuffer α

/-! ## Descriptors and components -/

/-- The enum `IO_Type`. -/
inductive IO_Type where
  | none
  | prediction
  | action
deriving DecidableEq, Repr

/-- The conversion `static_cast<Byte>(type)`. -/
def IO_Type.toByte : IO_Type → Byte
  | IO_Type.none => 0
  | IO_Type.prediction => 1
  | IO_Type.action => 2

/-- The struct `Encoder::Visible_Layer_Desc`. -/
structure Encoder.Visible_Layer_Desc where
  size : Int3
  radius : Int
deriving DecidableEq, Repr

instance : Inhabited Encoder.Visible_Layer_Desc := ⟨⟨⟨4, 4, 16⟩, 2⟩⟩

/-- The struct `Encoder::Visible_Layer`. -/
structure Encoder.Visible_Layer where
  weights : Byte_Buffer
  recon_sums : Int_Buffer
  recon_deltas : Float_Buffer
  importance : float
deriving DecidableEq, Repr

instance : Inhabited Encoder.Visible_Layer := ⟨⟨[], [], [], float_one⟩⟩

/-- The struct `Encoder::Params` (three floats). -/
structure Encoder.Params where
  scale : float
  lr : float
  gcurve : float
deriving DecidableEq, Repr

instance : Inhabited Encoder.Params := ⟨⟨0x41000000, 0x3CA3D70A, 0x41800000⟩⟩

/-- The class `Encoder`: its data members. -/
structure Encoder where
  hidden_size : Int3
  hidden_cis : Int_Buffer
  hidden_acts : Float_Buffer
  hidden_gates : Float_Buffer
  visible_layers : List Encoder.Visible_Layer
  visible_layer_descs : List Encoder.Visible_Layer_Desc
  visible_pos_vlis : List Int3
deriving DecidableEq, Repr

instance : Inhabited Encoder := ⟨⟨⟨0, 0, 0⟩, [], [], [], [], [], []⟩⟩

/-- The struct `Decoder::Visible_Layer_Desc`. -/
structure Decoder.Visible_Layer_Desc where
  size : Int3
  radius : Int
deriving DecidableEq, Repr

instance : Inhabited Decoder.Visible_Layer_Desc := ⟨⟨⟨4, 4, 16⟩, 2⟩⟩

/-- The struct `Decoder::Visible_Layer`. -/
structure Decoder.Visible_Layer where
  weights : Byte_Buffer
  input_cis_prev : Int_Buffer
  gates : Float_Buffer
deriving DecidableEq, Repr

instance : Inhabited Decoder.Visible_Layer := ⟨⟨[], [], []⟩⟩

/-- The struct `Decoder::Params` (three floats). -/
structure Decoder.Params where
  scale : float
  lr : float
  gcurve : float
deriving DecidableEq, Repr

instance : Inhabited Decoder.Params := ⟨⟨0x42800000, 0x3D4CCCCD, 0x41800000⟩⟩

/-- The class `Decoder`: its data members. -/
structure Decoder where
  hidden_size : Int3
  hidden_cis : Int_Buffer
  hidden_sums : Int_Buffer
  hidden_acts : Float_Buffer
  hidden_deltas : Float_Buffer
  visible_layers : List Decoder.Visible_Layer
  visible_layer_descs : List Decoder.Visible_Layer_Desc
  visible_pos_vlis : List Int3
deriving DecidableEq, Repr

instance : Inhabited Decoder := ⟨⟨⟨0, 0, 0⟩, [], [], [], [], [], [], []⟩⟩

/-- The struct `Actor::Visible_Layer_Desc`. -/
structure Actor.Visible_Layer_Desc where
  size : Int3
  radius : Int
deriving DecidableEq, Repr

instance : Inhabited Actor.Visible_Layer_Desc := ⟨⟨⟨4, 4, 16⟩, 2⟩⟩

/-- The struct `Actor::Visible_Layer`. -/
structure Actor.Visible_Layer where
  value_weights : Float_Buffer
  action_weights : Float_Buffer
deriving DecidableEq, Repr

instance : Inhabited Actor.Visible_Layer := ⟨⟨[], []⟩⟩

/-- The struct `Actor::History_Sample`. -/
structure Actor.History_Sample where
  input_cis : List Int_Buffer
  hidden_target_cis_prev : Int_Buffer
  reward : float
deriving DecidableEq, Repr

instance : Inhabited Actor.History_Sample := ⟨⟨[], [], 0⟩⟩

/-- The struct `Actor::Params` (three floats and two ints). -/
structure Actor.Params where
  vlr : float
  alr : float
  discount : float
  min_steps : Int
  history_iters : Int
deriving DecidableEq, Repr

instance : Inhabited Actor.Params := ⟨⟨0x3CA3D70A, 0x3CA3D70A, 0x3F7D70A4, 8, 8⟩⟩

/-- The class `Actor`: its data members. -/
structure Actor where
  hidden_size : Int3
  history_size : Int
  hidden_acts : Float_Buffer
  hidden_cis : Int_Buffer
  hidden_values : Float_Buffer
  history_samples : Circle_Buffer Actor.History_Sample
  visible_layers : List Actor.Visible_Layer
  visible_layer_descs : List Actor.Visible_Layer_Desc
deriving DecidableEq, Repr

instance : Inhabited Actor := ⟨⟨⟨0, 0, 0⟩, 0, [], [], [], default, [], []⟩⟩

/-- The struct `Hierarchy::IO_Desc`. -/
structure IO_Desc where
  size : Int3
  type : IO_Type
  up_radius : Int
  down_radius : Int
  history_capacity : Int
deriving DecidableEq, Repr

/-- The default arguments of the constructor of `IO_Desc`. -/
instance : Inhabited IO_Desc := ⟨⟨⟨4, 4, 16⟩, IO_Type.prediction, 2, 2, 256⟩⟩

/-- The struct `Hierarchy::Layer_Desc`. -/
structure Layer_Desc where
  hidden_size : Int3
  up_radius : Int
  down_radius : Int
  ticks_per_update : Int
  temporal_horizon : Int
deriving DecidableEq, Repr

/-- The default arguments of the constructor of `Layer_Desc`. -/
instance : Inhabited Layer_Desc := ⟨⟨⟨4, 4, 16⟩, 2, 2, 2, 2⟩⟩

/-- The struct `Hierarchy::Layer_Params`. -/
structure Layer_Params where
  decoder : Decoder.Params
  encoder : Encoder.Params
deriving DecidableEq, Repr

instance : Inhabited Layer_Params := ⟨⟨default, default⟩⟩

/-- The struct `Hierarchy::IO_Params`. -/
structure IO_Params where
  decoder : Decoder.Params
  actor : Actor.Params
  importance : float
deriving DecidableEq, Repr

instance : Inhabited IO_Params := ⟨⟨default, default, float_one⟩⟩

/-- The struct `Hierarchy::Params`. -/
structure Params where
  layers : List Layer_Params
  ios : List IO_Params
deriving DecidableEq, Repr

instance : Inhabited Params := ⟨⟨[], []⟩⟩

/-- The class `Hierarchy`: its data members. -/
structure Hierarchy where
  encoders : List Encoder
  decoders : List (List Decoder)
  actors : List Actor
  i_indices : Int_Buffer
  d_indices : Int_Buffer
  histories : List (List (Circle_Buffer Int_Buffer))
  updates : Byte_Buffer
  ticks : Int_Buffer
  ticks_per_update : Int_Buffer
  io_sizes : List Int3
  io_types : List Byte
  params : Params
deriving DecidableEq, Repr

/-- The default constructor `Hierarchy()`: every array is empty. -/
instance : Inhabited Hierarchy := ⟨⟨[], [], [], [], [], [], [], [], [], [], [], default⟩⟩

/-! ## The component methods

`encoder.h`, `decoder.h` and `actor.h` declare the methods below; each takes the
object it is called on as its first argument and returns the object after the call.
A reader is the list of the bytes not yet consumed, a writer is the list of the bytes
written. -/

/-- The methods of `Encoder`, `Decoder` and `Actor` that `Hierarchy` calls, together
with the byte images of the structs that `Hierarchy::write` copies from memory. -/
structure Kernels where
  /-- `Encoder::init_random(hidden_size, visible_layer_descs)`. -/
  enc_init_random : Encoder → Int3 → List Encoder.Visible_Layer_Desc → Encoder
  /-- `Encoder::step(input_cis, learn_enabled, params)`. -/
  enc_step : Encoder → List Int_Buffer_View → Bool → Encoder.Params → Encoder
  enc_clear_state : Encoder → Encoder
  enc_size : Encoder → Int
  enc_state_size : Encoder → Int
  enc_write : Encoder → List Byte
  enc_read : Encoder → List Byte → Encoder × List Byte
  enc_write_state : Encoder → List Byte
  enc_read_state : Encoder → List Byte → Encoder × List Byte
  /-- `Decoder::init_random(hidden_size, visible_layer_descs)`. -/
  dec_init_random : Decoder → Int3 → List Decoder.Visible_Layer_Desc → Decoder
  /-- `Decoder::step(input_cis, hidden_target_cis, learn_enabled, params)`. -/
  dec_step : Decoder → List Int_Buffer_View → Int_Buffer_View → Bool → Decoder.Params → Decoder
  dec_clear_state : Decoder → Decoder
  dec_size : Decoder → Int
  dec_state_size : Decoder → Int
  dec_write : Decoder → List Byte
  dec_read : Decoder → List Byte → Decoder × List Byte
  dec_write_state : Decoder → List Byte
  dec_read_state : Decoder → List Byte → Decoder × List Byte
  /-- `Actor::init_random(hidden_size, history_capacity, visible_layer_descs)`. -/
  act_init_random : Actor → Int3 → Int → List Actor.Visible_Layer_Desc → Actor
  /-- `Actor::step(input_cis, hidden_target_cis_prev, reward, learn_enabled, mimic,
  params)`. -/
  act_step : Actor → List Int_Buffer_View → Int_Buffer_View → float → Bool → float →
    Actor.Params → Actor
  act_clear_state : Actor → Actor
  act_size : Actor → Int
  act_state_size : Actor → Int
  act_write : Actor → List Byte
  act_read : Actor → List Byte → Actor × List Byte
  act_write_state : Actor → List Byte
  act_read_state : Actor → List Byte → Actor × List Byte
  /-- `sizeof(Int3)` and the bytes of an `Int3` in memory. -/
  sizeof_Int3 : Nat
  Int3_bytes : Int3 → List Byte
  Int3_of_bytes : List Byte → Int3
  /-- `sizeof(Layer_Params)` and the bytes of a `Layer_Params` in memory. -/
  sizeof_Layer_Params : Nat
  Layer_Params_bytes : Layer_Params → List Byte
  Layer_Params_of_bytes : List Byte → Layer_Params
  /-- `sizeof(IO_Params)` and the bytes of an `IO_Params` in memory. -/
  sizeof_IO_Params : Nat
  IO_Params_bytes : IO_Params → List Byte
  IO_Params_of_bytes : List Byte → IO_Params

/-! ## `Hierarchy::init_random` -/

/-- The test `l < encoders.size() - 1` (there is a layer above `l`), over C++ ints. -/
def has_layer_above (num_layers l : Nat) : Bool :=
  decide ((l : Int) < (num_layers : Int) - 1)

/-- Lines 34-36: `ticks_per_update[l] = (l == 0 ? 1 : layer_descs[l].ticks_per_update)`
for every `l`. -/
def init_ticks_per_update (layer_descs : List Layer_Desc) (h : Hierarchy) : Hierarchy :=
  (List.range layer_descs.length).foldl (fun (h : Hierarchy) (l : Nat) =>
    { h with ticks_per_update := (h.ticks_per_update.set l
        (if l = 0 then 1 else (layer_descs.getD l default).ticks_per_update)) }) h

/-- The state of the loop of lines 41-49: the hierarchy and the two counters. -/
structure Init_Counts where
  hier : Hierarchy
  num_predictions : Int
  num_actions : Int

/-- Lines 41-49, one iteration: channel `i` is cached and counted. -/
def init_io (io_descs : List IO_Desc) (s : Init_Counts) (i : Nat) : Init_Counts :=
  let d := io_descs.getD i default
  let h := { s.hier with
    io_sizes := s.hier.io_sizes.set i d.size,
    io_types := s.hier.io_types.set i d.type.toByte }
  if d.type = IO_Type.prediction then
    { hier := h, num_predictions := s.num_predictions + 1, num_actions := s.num_actions }
  else if d.type = IO_Type.action then
    { hier := h, num_predictions := s.num_predictions, num_actions := s.num_actions + 1 }
  else
    { hier := h, num_predictions := s.num_predictions, num_actions := s.num_actions }

/-- Lines 58-67: the visible layer descriptors of the encoder of layer 0. -/
def e_visible_layer_descs_first (io_sizes : List Int3) (io_descs : List IO_Desc)
    (temporal_horizon : Int) : List Encoder.Visible_Layer_Desc :=
  let e : List Encoder.Visible_Layer_Desc :=
    Array_resize [] ((io_sizes.length : Int) * temporal_horizon)
  (List.range io_sizes.length).foldl (fun e (i : Nat) =>
    (List.range temporal_horizon.toNat).foldl (fun e (t : Nat) =>
      let index : Int := (t : Int) + temporal_horizon * (i : Int)
      Array_put e index
        { (Array_at e index) with
          size := io_sizes.getD i default,
          radius := (io_descs.getD i default).up_radius }) e) e

/-- Lines 131-136: the visible layer descriptors of the encoder of a layer `l > 0`. -/
def e_visible_layer_descs_next (layer_descs : List Layer_Desc) (l : Nat) :
    List Encoder.Visible_Layer_Desc :=
  let temporal_horizon := (layer_descs.getD l default).temporal_horizon
  let e : List Encoder.Visible_Layer_Desc := Array_resize [] temporal_horizon
  (List.range temporal_horizon.toNat).foldl (fun e (t : Nat) =>
    e.set t
      { (e.getD t default) with
        size := (layer_descs.getD (l - 1) default).hidden_size,
        radius := (layer_descs.getD l default).up_radius }) e

/-- Lines 75-78 and 142-145: the ring is resized to `temporal_horizon` slots and every
slot is set to `Int_Buffer(in_size, 0)`. -/
def init_history (temporal_horizon in_size : Int) (b : Circle_Buffer Int_Buffer) :
    Circle_Buffer Int_Buffer :=
  let b := b.resize temporal_horizon
  (List.range b.data.length).foldl (fun b (t : Nat) => b.put t (Array_new in_size 0)) b

/-- Lines 93-99 and 150-156: the visible layer descriptors of a decoder of layer `l`:
one descriptor, and a copy of it when there is a layer above. -/
def d_visible_layer_descs (num_layers l : Nat) (size : Int3) (radius : Int) :
    List Decoder.Visible_Layer_Desc :=
  let d : List Decoder.Visible_Layer_Desc :=
    Array_new (1 + (if has_layer_above num_layers l then 1 else 0)) default
  let d := Array_update d 0 (fun v => { v with size := size, radius := radius })
  if has_layer_above num_layers l then d.set 1 (d.getD 0 default) else d

/-- Lines 114-120: the visible layer descriptors of an actor. -/
def a_visible_layer_descs (num_layers l : Nat) (size : Int3) (radius : Int) :
    List Actor.Visible_Layer_Desc :=
  let a : List Actor.Visible_Layer_Desc :=
    Array_new (1 + (if has_layer_above num_layers l then 1 else 0)) default
  let a := Array_update a 0 (fun v => { v with size := size, radius := radius })
  if has_layer_above num_layers l then a.set 1 (a.getD 0 default) else a

/-- The state of the loops of lines 90-107 and 111-128: the hierarchy and `d_index`. -/
structure Init_Index where
  hier : Hierarchy
  d_index : Nat

/-- Lines 90-107, one iteration (`l` is `0`): a prediction channel gets the next
decoder. -/
def init_decoder_first (K : Kernels) (io_descs : List IO_Desc) (layer_descs : List Layer_Desc)
    (l : Nat) (s : Init_Index) (i : Nat) : Init_Index :=
  let h := s.hier
  if (io_descs.getD i default).type = IO_Type.prediction then
    let descs := d_visible_layer_descs h.encoders.length l
      (layer_descs.getD l default).hidden_size (io_descs.getD i default).down_radius
    let h := { h with decoders := Array_update h.decoders l (fun ds =>
      Array_update ds s.d_index (fun d =>
        K.dec_init_random d (h.io_sizes.getD i default) descs)) }
    let h := { h with i_indices := h.i_indices.set s.d_index (i : Int) }
    let h := { h with d_indices := h.d_indices.set i (s.d_index : Int) }
    { hier := h, d_index := s.d_index + 1 }
  else s

/-- Lines 111-128, one iteration (`l` is `0`): an action channel gets the next actor. -/
def init_actor_first (K : Kernels) (io_descs : List IO_Desc) (layer_descs : List Layer_Desc)
    (l : Nat) (s : Init_Index) (i : Nat) : Init_Index :=
  let h := s.hier
  if (io_descs.getD i default).type = IO_Type.action then
    let descs := a_visible_layer_descs h.encoders.length l
      (layer_descs.getD l default).hidden_size (io_descs.getD i default).down_radius
    let h := { h with actors := Array_update h.actors s.d_index (fun a =>
      K.act_init_random a (h.io_sizes.getD i default)
        (io_descs.getD i default).history_capacity descs) }
    let h := { h with i_indices := (Array_put h.i_indices
      ((h.io_sizes.length : Int) + (s.d_index : Int)) (i : Int)) }
    let h := { h with d_indices := h.d_indices.set i (s.d_index : Int) }
    { hier := h, d_index := s.d_index + 1 }
  else s

/-- Lines 69-79: the history buffers of layer 0, one ring for every channel. -/
def init_histories_first (temporal_horizon : Int) (h : Hierarchy) (l : Nat) : Hierarchy :=
  let h := { h with histories := Array_update h.histories l (fun hs =>
    Array_resize hs h.io_sizes.length) }
  (List.range (h.histories.getD l default).length).foldl (fun (h : Hierarchy) (i : Nat) =>
    let in_size := (h.io_sizes.getD i default).x * (h.io_sizes.getD i default).y
    { h with histories := Array_update h.histories l (fun hs =>
        Array_update hs i (init_history temporal_horizon in_size)) }) h

/-- Lines 81-85: the arrays of the decoders and actors of layer 0 and the two index
maps are sized. -/
def init_slots_first (num_predictions num_actions : Int) (h : Hierarchy) (l : Nat) :
    Hierarchy :=
  let h := { h with decoders := Array_update h.decoders l (fun ds =>
    Array_resize ds num_predictions) }
  let h := { h with actors := Array_resize h.actors num_actions }
  let h := { h with i_indices := Array_resize h.i_indices ((h.io_sizes.length : Int) * 2) }
  { h with d_indices := Array_new (h.io_sizes.length : Int) (-1) }

/-- Lines 88-107: the loop that creates the decoders of layer 0. -/
def init_decoders_first (K : Kernels) (io_descs : List IO_Desc) (layer_descs : List Layer_Desc)
    (h : Hierarchy) (l : Nat) : Hierarchy :=
  ((List.range h.io_sizes.length).foldl
    (init_decoder_first K io_descs layer_descs l) { hier := h, d_index := 0 }).hier

/-- Lines 109-128: the loop that creates the actors. -/
def init_actors_first (K : Kernels) (io_descs : List IO_Desc) (layer_descs : List Layer_Desc)
    (h : Hierarchy) (l : Nat) : Hierarchy :=
  ((List.range h.io_sizes.length).foldl
    (init_actor_first K io_descs layer_descs l) { hier := h, d_index := 0 }).hier

/-- Lines 57-129: the branch `l == 0` of the loop over the layers; the result is the
hierarchy and the descriptors for the encoder. -/
def init_first_layer (K : Kernels) (io_descs : List IO_Desc) (layer_descs : List Layer_Desc)
    (num_predictions num_actions : Int) (h : Hierarchy) (l : Nat) :
    Hierarchy × List Encoder.Visible_Layer_Desc :=
  let temporal_horizon := (layer_descs.getD l default).temporal_horizon
  let e := e_visible_layer_descs_first h.io_sizes io_descs temporal_horizon
  -- initialize history buffers
  let h := init_histories_first temporal_horizon h l
  let h := init_slots_first num_predictions num_actions h l
  -- create decoders and actors
  let h := init_decoders_first K io_descs layer_descs h l
  let h := init_actors_first K io_descs layer_descs h l
  (h, e)

/-- Lines 138-145: the history buffer of a layer `l > 0`, a single ring. -/
def init_histories_next (layer_descs : List Layer_Desc) (h : Hierarchy) (l : Nat) :
    Hierarchy :=
  let h := { h with histories := Array_update h.histories l (fun hs => Array_resize hs 1) }
  let in_size := (layer_descs.getD (l - 1) default).hidden_size.x *
    (layer_descs.getD (l - 1) default).hidden_size.y
  { h with histories := Array_update h.histories l (fun hs =>
    Array_update hs 0 (init_history (layer_descs.getD l default).temporal_horizon in_size)) }

/-- Lines 147-160: the decoders of a layer `l > 0`. -/
def init_decoders_next (K : Kernels) (layer_descs : List Layer_Desc) (h : Hierarchy)
    (l : Nat) : Hierarchy :=
  let h := { h with decoders := Array_update h.decoders l (fun ds =>
    Array_resize ds (layer_descs.getD l default).ticks_per_update) }
  let descs := d_visible_layer_descs h.encoders.length l
    (layer_descs.getD l default).hidden_size (layer_descs.getD l default).down_radius
  -- create decoders
  (List.range (h.decoders.getD l default).length).foldl (fun (h : Hierarchy) t =>
    { h with decoders := Array_update h.decoders l (fun ds =>
        Array_update ds t (fun d =>
          K.dec_init_random d (layer_descs.getD (l - 1) default).hidden_size descs)) }) h

/-- Lines 130-161: the branch `l != 0` of the loop over the layers. -/
def init_next_layer (K : Kernels) (layer_descs : List Layer_Desc) (h : Hierarchy) (l : Nat) :
    Hierarchy × List Encoder.Visible_Layer_Desc :=
  let e := e_visible_layer_descs_next layer_descs l
  let h := init_histories_next layer_descs h l
  let h := init_decoders_next K layer_descs h l
  (h, e)

/-- Lines 52-165: one iteration of the loop over the layers. -/
def init_layer (K : Kernels) (io_descs : List IO_Desc) (layer_descs : List Layer_Desc)
    (num_predictions num_actions : Int) (h : Hierarchy) (l : Nat) : Hierarchy :=
  let r := if l = 0 then
      init_first_layer K io_descs layer_descs num_predictions num_actions h l
    else
      init_next_layer K layer_descs h l
  -- create the sparse coding layer
  { r.1 with encoders := Array_update r.1.encoders l (fun e =>
      K.enc_init_random e (layer_descs.getD l default).hidden_size r.2) }

/-- Lines 17-32: the per-layer arrays and the two caches of the channels are sized. -/
def init_arrays (h : Hierarchy) (io_descs : List IO_Desc) (layer_descs : List Layer_Desc) :
    Hierarchy :=
  -- create layers
  { h with
    encoders := Array_resize h.encoders layer_descs.length,
    decoders := Array_resize h.decoders layer_descs.length,
    ticks := Array_resize_fill h.ticks layer_descs.length 0,
    histories := Array_resize h.histories layer_descs.length,
    ticks_per_update := Array_resize h.ticks_per_update layer_descs.length,
    -- default update state is no update
    updates := Array_resize_fill h.updates layer_descs.length 0,
    -- cache input sizes
    io_sizes := Array_resize h.io_sizes io_descs.length,
    io_types := Array_resize h.io_types io_descs.length }

/-- The method `Hierarchy::init_random(io_descs, layer_descs)`, called on `h`. -/
def init_random (K : Kernels) (h : Hierarchy) (io_descs : List IO_Desc)
    (layer_descs : List Layer_Desc) : Hierarchy :=
  let h := init_arrays h io_descs layer_descs
  -- determine ticks per update, first layer is always 1
  let h := init_ticks_per_update layer_descs h
  let s := (List.range h.io_sizes.length).foldl (init_io io_descs)
    { hier := h, num_predictions := 0, num_actions := 0 }
  -- iterate through layers
  let h := (List.range layer_descs.length).foldl
    (init_layer K io_descs layer_descs s.num_predictions s.num_actions) s.hier
  -- initialize params
  { h with params :=
      { layers := Array_new layer_descs.length default,
        ios := Array_new io_descs.length default } }

/-- The constructor `Hierarchy(io_descs, layer_descs)`: `init_random` on a
default-constructed object. -/
def Hierarchy.create (K : Kernels) (io_descs : List IO_Desc) (layer_descs : List Layer_Desc) :
    Hierarchy :=
  init_random K default io_descs layer_descs

/-! ## `Hierarchy::step` -/

/-- The method `Hierarchy::set_input_importance(i, importance)` of `hierarchy.h`. -/
def set_input_importance (h : Hierarchy) (i : Nat) (importance : float) : Hierarchy :=
  let size := ((h.histories.getD 0 default).getD i default).data.length
  (List.range size).foldl (fun (h : Hierarchy) (t : Nat) =>
    { h with encoders := Array_update h.encoders 0 (fun e =>
        { e with visible_layers := Array_update e.visible_layers (i * size + t) (fun v =>
            { v with importance := importance }) }) }) h

/-- Lines 181-183: the importances are set from the parameters. -/
def step_importances (h : Hierarchy) : Hierarchy :=
  (List.range h.io_sizes.length).foldl (fun (h : Hierarchy) (i : Nat) =>
    set_input_importance h i (h.params.ios.getD i default).importance) h

/-- Lines 188-193: every input is pushed to the front of the history of its channel. -/
def step_inputs (input_cis : List Int_Buffer_View) (h : Hierarchy) : Hierarchy :=
  (List.range h.io_sizes.length).foldl (fun (h : Hierarchy) (i : Nat) =>
    { h with histories := Array_update h.histories 0 (fun hs =>
        Array_update hs i (fun b => b.pushFront.put 0 (input_cis.getD i default))) }) h

/-- Lines 181-196: what `step` does before its two loops over the layers. -/
def step_begin (input_cis : List Int_Buffer_View) (h : Hierarchy) : Hierarchy :=
  -- set importances from params
  let h := step_importances h
  -- first tick is always 0
  let h := { h with ticks := h.ticks.set 0 0 }
  -- add input to first layer history
  let h := step_inputs input_cis h
  -- set all updates to no update, will be set to true if an update occurred later
  { h with updates := Array_fill h.updates 0 }

/-- Line 201: the test `l == 0 || ticks[l] >= ticks_per_update[l]`. -/
def is_time_to_tick (h : Hierarchy) (l : Nat) : Bool :=
  l == 0 || decide (h.ticks.getD l default ≥ h.ticks_per_update.getD l default)

/-- Lines 208-218: the inputs of the encoder of layer `l`, the slots of the histories
of the layer in the order of the two loops. -/
def encoder_input_cis (h : Hierarchy) (l : Nat) : List Int_Buffer_View :=
  let layer_input_cis : List Int_Buffer_View :=
    Array_new (h.encoders.getD l default).visible_layers.length default
  let hs := h.histories.getD l default
  let s := (List.range hs.length).foldl (fun (s : List Int_Buffer_View × Nat) (i : Nat) =>
    (List.range (hs.getD i default).data.length).foldl
      (fun (s : List Int_Buffer_View × Nat) (t : Nat) =>
        (s.1.set s.2 ((hs.getD i default).get t), s.2 + 1)) s) (layer_input_cis, 0)
  s.1

/-- Lines 199-234, one iteration of the ascending loop. -/
def forward_layer (K : Kernels) (learn_enabled : Bool) (h : Hierarchy) (l : Nat) : Hierarchy :=
  -- if is time for layer to tick
  if is_time_to_tick h l then
    -- reset tick
    let h := { h with ticks := h.ticks.set l 0 }
    -- updated
    let h := { h with updates := h.updates.set l 1 }
    let layer_input_cis := encoder_input_cis h l
    -- activate sparse coder
    let h := { h with encoders := Array_update h.encoders l (fun e =>
      K.enc_step e layer_input_cis learn_enabled (h.params.layers.getD l default).encoder) }
    -- add to next layer's history
    if has_layer_above h.encoders.length l then
      let l_next := l + 1
      let h := { h with histories := Array_update h.histories l_next (fun hs =>
        Array_update hs 0 (fun b =>
          b.pushFront.put 0 (h.encoders.getD l default).hidden_cis)) }
      { h with ticks := Array_update h.ticks l_next (fun t => t + 1) }
    else h
  else h

/-- The state of the ascending loop when it reaches layer `l`. -/
def forward_upto (K : Kernels) (learn_enabled : Bool) (h : Hierarchy) (l : Nat) : Hierarchy :=
  (List.range l).foldl (forward_layer K learn_enabled) h

/-- Lines 198-234: the ascending loop. -/
def step_forward (K : Kernels) (learn_enabled : Bool) (h : Hierarchy) : Hierarchy :=
  (List.range h.encoders.length).foldl (forward_layer K learn_enabled) h

/-- Lines 239-244: the inputs of the decoders and actors of layer `l`. -/
def decoder_input_cis (h : Hierarchy) (l : Nat) : List Int_Buffer_View :=
  let layer_input_cis : List Int_Buffer_View :=
    Array_new (1 + (if has_layer_above h.encoders.length l then 1 else 0)) default
  let layer_input_cis := layer_input_cis.set 0 (h.encoders.getD l default).hidden_cis
  if has_layer_above h.encoders.length l then
    layer_input_cis.set 1 (Array_at (h.decoders.getD (l + 1) default)
      (h.ticks_per_update.getD (l + 1) default - 1 - h.ticks.getD (l + 1) default)).hidden_cis
  else layer_input_cis

/-- Lines 246-247, one iteration: decoder `d` of layer `l` is stepped. -/
def backward_decoder (K : Kernels) (learn_enabled : Bool) (l : Nat)
    (layer_input_cis : List Int_Buffer_View) (h : Hierarchy) (d : Nat) : Hierarchy :=
  let target : Int_Buffer_View :=
    (Array_at (h.histories.getD l default) (if l = 0 then Array_at h.i_indices d else 0)).get
      (if l = 0 then 0 else (d : Int))
  let params : Decoder.Params :=
    if l = 0 then (Array_at h.params.ios (Array_at h.i_indices d)).decoder
    else (h.params.layers.getD l default).decoder
  { h with decoders := Array_update h.decoders l (fun ds =>
      Array_update ds d (fun dec =>
        K.dec_step dec layer_input_cis target learn_enabled params)) }

/-- Lines 250-251, one iteration: actor `d` is stepped. -/
def backward_actor (K : Kernels) (input_cis : List Int_Buffer_View) (learn_enabled : Bool)
    (reward mimic : float) (layer_input_cis : List Int_Buffer_View) (h : Hierarchy) (d : Nat) :
    Hierarchy :=
  let c : Int := Array_at h.i_indices ((d : Int) + (h.io_sizes.length : Int))
  { h with actors := Array_update h.actors d (fun a =>
      K.act_step a layer_input_cis (Array_at input_cis c) reward learn_enabled mimic
        (Array_at h.params.ios c).actor) }

/-- Lines 237-254, one iteration of the descending loop. -/
def backward_layer (K : Kernels) (input_cis : List Int_Buffer_View) (learn_enabled : Bool)
    (reward mimic : float) (h : Hierarchy) (l : Nat) : Hierarchy :=
  if h.updates.getD l default ≠ 0 then
    let layer_input_cis := decoder_input_cis h l
    let h := (List.range (h.decoders.getD l default).length).foldl
      (backward_decoder K learn_enabled l layer_input_cis) h
    if l = 0 then
      (List.range h.actors.length).foldl
        (backward_actor K input_cis learn_enabled reward mimic layer_input_cis) h
    else h
  else h

/-- Lines 236-254: the descending loop, `l` from `decoders.size() - 1` down to `0`. -/
def step_backward (K : Kernels) (input_cis : List Int_Buffer_View) (learn_enabled : Bool)
    (reward mimic : float) (h : Hierarchy) : Hierarchy :=
  (List.range h.decoders.length).reverse.foldl
    (backward_layer K input_cis learn_enabled reward mimic) h

/-- The method `Hierarchy::step(input_cis, learn_enabled, reward, mimic)`.  The two
`assert`s of lines 178-179 do not change the state. -/
def step (K : Kernels) (h : Hierarchy) (input_cis : List Int_Buffer_View)
    (learn_enabled : Bool) (reward mimic : float) : Hierarchy :=
  let h := step_begin input_cis h
  -- forward
  let h := step_forward K learn_enabled h
  -- backward
  step_backward K input_cis learn_enabled reward mimic h

/-! ## `Hierarchy::clear_state` -/

/-- Lines 261-266: every slot of every history is filled with `0`. -/
def clear_histories (h : Hierarchy) : Hierarchy :=
  (List.range h.encoders.length).foldl (fun (h : Hierarchy) (l : Nat) =>
    (List.range (h.histories.getD l default).length).foldl (fun (h : Hierarchy) (i : Nat) =>
      (List.range ((h.histories.getD l default).getD i default).data.length).foldl
        (fun (h : Hierarchy) (t : Nat) =>
          { h with histories := Array_update h.histories l (fun hs =>
              Array_update hs i (fun b => b.put t (Array_fill (b.get t) 0))) }) h) h) h

/-- The method `Hierarchy::clear_state()`. -/
def clear_state (K : Kernels) (h : Hierarchy) : Hierarchy :=
  let h := { h with updates := Array_fill h.updates 0 }
  let h := { h with ticks := Array_fill h.ticks 0 }
  let h := clear_histories h
  let h := (List.range h.encoders.length).foldl (fun (h : Hierarchy) (l : Nat) =>
    { h with encoders := Array_update h.encoders l K.enc_clear_state }) h
  -- decoders
  let h := (List.range h.encoders.length).foldl (fun (h : Hierarchy) (l : Nat) =>
    (List.range (h.decoders.getD l default).length).foldl (fun (h : Hierarchy) (d : Nat) =>
      { h with decoders := Array_update h.decoders l (fun ds =>
          Array_update ds d K.dec_clear_state) }) h) h
  -- actors
  (List.range h.actors.length).foldl (fun (h : Hierarchy) (d : Nat) =>
    { h with actors := Array_update h.actors d K.act_clear_state }) h

/-! ## Sequences of calls -/

/-- One call on a hierarchy: `step` with its arguments, or `clear_state`. -/
inductive Call where
  | step (input_cis : List Int_Buffer_View) (learn_enabled : Bool) (reward mimic : float)
  | clear_state
deriving DecidableEq, Repr

/-- The hierarchy after one call. -/
def Call.apply (K : Kernels) (h : Hierarchy) : Call → Hierarchy
  | Call.step input_cis learn_enabled reward mimic =>
      aon.step K h input_cis learn_enabled reward mimic
  | Call.clear_state => aon.clear_state K h

/-- The hierarchy after a sequence of calls, the first call of the list first. -/
def run (K : Kernels) (h : Hierarchy) (calls : List Call) : Hierarchy :=
  calls.foldl (Call.apply K) h

/-! ## Serialization: `Hierarchy::write` and `Hierarchy::read`

A `Stream_Writer` receives bytes, a `Stream_Reader` hands out the bytes of a stream in
order; `sizeof(int)` is `4` and an `int` is stored least significant byte first. -/

/-- The four bytes of a C++ `int`, least significant first (two's complement). -/
def le32 (v : Int) : List Byte :=
  let u := (v % 4294967296).toNat
  [u % 256, u / 256 % 256, u / 65536 % 256, u / 16777216 % 256]

/-- The C++ `int` stored in four bytes, least significant first. -/
def int_of_le32 (bs : List Byte) : Int :=
  let u := bs.getD 0 0 % 256 + 256 * (bs.getD 1 0 % 256) + 65536 * (bs.getD 2 0 % 256)
    + 16777216 * (bs.getD 3 0 % 256)
  if u < 2147483648 then (u : Int) else (u : Int) - 4294967296

/-- The bytes of `count` consecutive `int`s in memory. -/
def write_ints (xs : List Int) : List Byte :=
  xs.flatMap le32

/-- The first `count` elements of an array, as `writer.write(&xs[0], count * sizeof(T))`
sees them. -/
def Array_first {α : Type} (xs : List α) (count : Nat) (d : α) : List α :=
  xs.take count ++ List.replicate (count - xs.length) d

/-- Lines 371-385: one history ring is written: its size, its start and every slot
with its length. -/
def write_history (b : Circle_Buffer Int_Buffer) : List Byte :=
  le32 b.data.length ++ le32 b.start ++
    (List.range b.data.length).flatMap (fun (t : Nat) =>
      le32 (b.get t).length ++ write_ints (b.get t))

/-- Lines 365-393: one iteration of the loop over the layers of `write`. -/
def write_layer (K : Kernels) (h : Hierarchy) (l : Nat) : List Byte :=
  le32 (h.histories.getD l default).length ++
    (List.range (h.histories.getD l default).length).flatMap (fun (i : Nat) =>
      write_history ((h.histories.getD l default).getD i default)) ++
    K.enc_write (h.encoders.getD l default) ++
    (List.range (h.decoders.getD l default).length).flatMap (fun (d : Nat) =>
      K.dec_write ((h.decoders.getD l default).getD d default))

/-- Lines 341-363: the head of the dump, up to `d_indices`. -/
def write_head (K : Kernels) (h : Hierarchy) : List Byte :=
  let num_layers := h.encoders.length
  let num_io := h.io_sizes.length
  let num_predictions := (h.decoders.getD 0 default).length
  let num_actions := h.actors.length
  le32 num_layers ++ le32 num_io ++ le32 num_predictions ++ le32 num_actions ++
    (Array_first h.io_sizes num_io default).flatMap K.Int3_bytes ++
    Array_first h.io_types num_io 0 ++
    h.updates ++ write_ints h.ticks ++ write_ints h.ticks_per_update ++
    write_ints h.i_indices ++ write_ints h.d_indices

/-- The method `Hierarchy::write(writer)`: the bytes handed to the writer. -/
def write (K : Kernels) (h : Hierarchy) : List Byte :=
  write_head K h ++
    (List.range h.encoders.length).flatMap (write_layer K h) ++
    -- actors
    (List.range h.actors.length).flatMap (fun (d : Nat) =>
      K.act_write (h.actors.getD d default)) ++
    -- params
    (List.range h.encoders.length).flatMap (fun (l : Nat) =>
      K.Layer_Params_bytes (h.params.layers.getD l default)) ++
    (List.range h.io_sizes.length).flatMap (fun (i : Nat) =>
      K.IO_Params_bytes (h.params.ios.getD i default))

/-- `reader.read(&v, sizeof(int))`: the value and the rest of the stream. -/
def read_int (s : List Byte) : Int × List Byte :=
  (int_of_le32 (s.take 4), s.drop 4)

/-- `reader.read(&xs[0], count * sizeof(int))`. -/
def read_ints (count : Nat) (s : List Byte) : List Int × List Byte :=
  ((List.range count).map (fun (i : Nat) => int_of_le32 ((s.drop (4 * i)).take 4)),
    s.drop (4 * count))

/-- `reader.read(&xs[0], count * sizeof(Byte))`; places behind the end of the stream
read as `0`. -/
def read_bytes (count : Nat) (s : List Byte) : List Byte × List Byte :=
  (Array_first s count 0, s.drop count)

/-- `reader.read(&xs[0], count * size)` for an array of structs of `size` bytes each
that `of_bytes` reads back. -/
def read_structs {α : Type} (of_bytes : List Byte → α) (size count : Nat) (s : List Byte) :
    List α × List Byte :=
  ((List.range count).map (fun (i : Nat) => of_bytes ((s.drop (size * i)).take size)),
    s.drop (size * count))

/-- Lines 468-476, one iteration: slot `t` of a ring is resized and read. -/
def read_history_slot (r : Circle_Buffer Int_Buffer × List Byte) (t : Nat) :
    Circle_Buffer Int_Buffer × List Byte :=
  let buffer_size := read_int r.2
  let b := r.1.put t (Array_resize (r.1.get t) buffer_size.1)
  let xs := read_ints (b.get t).length buffer_size.2
  (b.put t xs.1, xs.2)

/-- Lines 457-476: one history ring is read. -/
def read_history (b : Circle_Buffer Int_Buffer) (s : List Byte) :
    Circle_Buffer Int_Buffer × List Byte :=
  let history_size := read_int s
  let history_start := read_int history_size.2
  let b := b.resize history_size.1
  let b := { b with start := history_start.1 }
  (List.range b.data.length).foldl read_history_slot (b, history_start.2)

/-- Lines 456-477, one iteration: ring `i` of layer `l` is read. -/
def read_layer_history (l : Nat) (r : Hierarchy × List Byte) (i : Nat) :
    Hierarchy × List Byte :=
  let b := read_history ((r.1.histories.getD l default).getD i default) r.2
  ({ r.1 with histories := Array_update r.1.histories l (fun hs => hs.set i b.1) }, b.2)

/-- Lines 484-485, one iteration: decoder `d` of layer `l` is read. -/
def read_decoder (K : Kernels) (l : Nat) (r : Hierarchy × List Byte) (d : Nat) :
    Hierarchy × List Byte :=
  let x := K.dec_read ((r.1.decoders.getD l default).getD d default) r.2
  ({ r.1 with decoders := Array_update r.1.decoders l (fun ds => ds.set d x.1) }, x.2)

/-- Lines 450-477: the histories of layer `l` are read. -/
def read_layer_histories (l : Nat) (r : Hierarchy × List Byte) : Hierarchy × List Byte :=
  let num_layer_inputs := read_int r.2
  let h := { r.1 with histories := Array_update r.1.histories l (fun hs =>
    Array_resize hs num_layer_inputs.1) }
  (List.range (h.histories.getD l default).length).foldl (read_layer_history l)
    (h, num_layer_inputs.2)

/-- Line 479: the encoder of layer `l` is read. -/
def read_layer_encoder (K : Kernels) (l : Nat) (r : Hierarchy × List Byte) :
    Hierarchy × List Byte :=
  let e := K.enc_read (r.1.encoders.getD l default) r.2
  ({ r.1 with encoders := r.1.encoders.set l e.1 }, e.2)

/-- Lines 481-485: the decoders of layer `l` are sized and read. -/
def read_layer_decoders (K : Kernels) (num_predictions : Int) (l : Nat)
    (r : Hierarchy × List Byte) : Hierarchy × List Byte :=
  let h := { r.1 with decoders := Array_update r.1.decoders l (fun ds =>
    Array_resize ds (if l = 0 then num_predictions else r.1.ticks_per_update.getD l default)) }
  -- decoders
  (List.range (h.decoders.getD l default).length).foldl (read_decoder K l) (h, r.2)

/-- Lines 449-486: one iteration of the loop over the layers of `read`. -/
def read_layer (K : Kernels) (num_predictions : Int) (r : Hierarchy × List Byte) (l : Nat) :
    Hierarchy × List Byte :=
  read_layer_decoders K num_predictions l (read_layer_encoder K l (read_layer_histories l r))

/-- Lines 491-492, one iteration: actor `d` is read. -/
def read_actor (K : Kernels) (r : Hierarchy × List Byte) (d : Nat) : Hierarchy × List Byte :=
  let x := K.act_read (r.1.actors.getD d default) r.2
  ({ r.1 with actors := r.1.actors.set d x.1 }, x.2)

/-- The state of `read` after line 447: the head of the dump has been read. -/
structure Read_Head where
  hier : Hierarchy
  rest : List Byte
  num_layers : Int
  num_io : Int
  num_predictions : Int
  num_actions : Int

/-- Lines 410-447: the head of the dump is read and the per-layer arrays are sized. -/
def read_head (K : Kernels) (h : Hierarchy) (s : List Byte) : Read_Head :=
  let num_layers := read_int s
  let num_io := read_int num_layers.2
  let num_predictions := read_int num_io.2
  let num_actions := read_int num_predictions.2
  let h := { h with
    io_sizes := Array_resize h.io_sizes num_io.1,
    io_types := Array_resize h.io_types num_io.1 }
  let io_sizes := read_structs K.Int3_of_bytes K.sizeof_Int3 num_io.1.toNat num_actions.2
  let io_types := read_bytes num_io.1.toNat io_sizes.2
  let h := { h with io_sizes := io_sizes.1, io_types := io_types.1 }
  let h := { h with
    encoders := Array_resize h.encoders num_layers.1,
    decoders := Array_resize h.decoders num_layers.1,
    histories := Array_resize h.histories num_layers.1,
    updates := Array_resize h.updates num_layers.1,
    ticks := Array_resize h.ticks num_layers.1,
    ticks_per_update := Array_resize h.ticks_per_update num_layers.1 }
  let updates := read_bytes h.updates.length io_types.2
  let ticks := read_ints h.ticks.length updates.2
  let ticks_per_update := read_ints h.ticks_per_update.length ticks.2
  let h := { h with
    updates := updates.1,
    ticks := ticks.1,
    ticks_per_update := ticks_per_update.1 }
  let h := { h with
    i_indices := Array_resize h.i_indices (num_io.1 * 2),
    d_indices := Array_resize h.d_indices num_io.1 }
  let i_indices := read_ints h.i_indices.length ticks_per_update.2
  let d_indices := read_ints h.d_indices.length i_indices.2
  { hier := { h with i_indices := i_indices.1, d_indices := d_indices.1 },
    rest := d_indices.2,
    num_layers := num_layers.1, num_io := num_io.1,
    num_predictions := num_predictions.1, num_actions := num_actions.1 }

/-- The method `Hierarchy::read(reader)`, called on `h`: the hierarchy after the call
and the rest of the stream. -/
def read (K : Kernels) (h : Hierarchy) (s : List Byte) : Hierarchy × List Byte :=
  let hd := read_head K h s
  let r := (List.range hd.num_layers.toNat).foldl (read_layer K hd.num_predictions)
    (hd.hier, hd.rest)
  let h := { r.1 with actors := Array_resize r.1.actors hd.num_actions }
  -- actors
  let r := (List.range h.actors.length).foldl (read_actor K) (h, r.2)
  let h := { r.1 with params :=
    { layers := Array_resize r.1.params.layers hd.num_layers,
      ios := Array_resize r.1.params.ios hd.num_io } }
  let layers := read_structs K.Layer_Params_of_bytes K.sizeof_Layer_Params
    hd.num_layers.toNat r.2
  let ios := read_structs K.IO_Params_of_bytes K.sizeof_IO_Params hd.num_io.toNat layers.2
  ({ h with params := { layers := layers.1, ios := ios.1 } }, ios.2)

/-! ## One choice of the component methods

The hierarchy is evaluated on concrete inputs with the following components: a
component remembers its sizes and descriptors, `clear_state` zeroes the hidden code,
an encoder step writes the head of its first input, reduced to a cell index, into
every hidden column, and a component is stored as its hidden size followed by its
hidden code. -/

/-- The bytes of an `Int3`: `x`, `y` and `z`. -/
def Int3.bytes (v : Int3) : List Byte :=
  le32 v.x ++ le32 v.y ++ le32 v.z

/-- The `Int3` stored in twelve bytes. -/
def Int3.of_bytes (s : List Byte) : Int3 :=
  ⟨int_of_le32 (s.take 4), int_of_le32 ((s.drop 4).take 4), int_of_le32 ((s.drop 8).take 4)⟩

/-- A float is stored as the four bytes of its bit pattern. -/
def float_bytes (f : float) : List Byte :=
  [f % 256, f / 256 % 256, f / 65536 % 256, f / 16777216 % 256]

/-- The float stored in four bytes. -/
def float_of_bytes (s : List Byte) : float :=
  s.getD 0 0 % 256 + 256 * (s.getD 1 0 % 256) + 65536 * (s.getD 2 0 % 256)
    + 16777216 * (s.getD 3 0 % 256)

/-- The bytes of a `Decoder::Params`. -/
def Decoder.Params.bytes (p : Decoder.Params) : List Byte :=
  float_bytes p.scale ++ float_bytes p.lr ++ float_bytes p.gcurve

/-- The `Decoder::Params` stored in twelve bytes. -/
def Decoder.Params.of_bytes (s : List Byte) : Decoder.Params :=
  ⟨float_of_bytes (s.take 4), float_of_bytes ((s.drop 4).take 4),
    float_of_bytes ((s.drop 8).take 4)⟩

/-- The bytes of an `Encoder::Params`. -/
def Encoder.Params.bytes (p : Encoder.Params) : List Byte :=
  float_bytes p.scale ++ float_bytes p.lr ++ float_bytes p.gcurve

/-- The `Encoder::Params` stored in twelve bytes. -/
def Encoder.Params.of_bytes (s : List Byte) : Encoder.Params :=
  ⟨float_of_bytes (s.take 4), float_of_bytes ((s.drop 4).take 4),
    float_of_bytes ((s.drop 8).take 4)⟩

/-- The bytes of an `Actor::Params`. -/
def Actor.Params.bytes (p : Actor.Params) : List Byte :=
  float_bytes p.vlr ++ float_bytes p.alr ++ float_bytes p.discount ++ le32 p.min_steps ++
    le32 p.history_iters

/-- The `Actor::Params` stored in twenty bytes. -/
def Actor.Params.of_bytes (s : List Byte) : Actor.Params :=
  ⟨float_of_bytes (s.take 4), float_of_bytes ((s.drop 4).take 4),
    float_of_bytes ((s.drop 8).take 4), int_of_le32 ((s.drop 12).take 4),
    int_of_le32 ((s.drop 16).take 4)⟩

/-- The head of the first input, reduced to a cell index of a column of `z` cells. -/
def sample_code (input_cis : List Int_Buffer_View) (z : Int) : Int :=
  ((input_cis.getD 0 default).getD 0 0) % z

/-- The components used to evaluate the hierarchy on concrete inputs. -/
def sample_kernels : Kernels where
  enc_init_random := fun e hidden_size descs =>
    { e with
      hidden_size := hidden_size,
      visible_layer_descs := descs,
      visible_layers := Array_new descs.length default,
      hidden_cis := Array_new (hidden_size.x * hidden_size.y) 0 }
  enc_step := fun e input_cis _ _ =>
    { e with hidden_cis := Array_fill e.hidden_cis (sample_code input_cis e.hidden_size.z) }
  enc_clear_state := fun e => { e with hidden_cis := Array_fill e.hidden_cis 0 }
  enc_size := fun e => 12 + 4 * e.hidden_cis.length
  enc_state_size := fun e => 4 * e.hidden_cis.length
  enc_write := fun e => e.hidden_size.bytes ++ write_ints e.hidden_cis
  enc_read := fun e s =>
    let size := Int3.of_bytes (s.take 12)
    let cis := read_ints (size.x * size.y).toNat (s.drop 12)
    ({ e with hidden_size := size, hidden_cis := cis.1 }, cis.2)
  enc_write_state := fun e => write_ints e.hidden_cis
  enc_read_state := fun e s =>
    let cis := read_ints e.hidden_cis.length s
    ({ e with hidden_cis := cis.1 }, cis.2)
  dec_init_random := fun d hidden_size descs =>
    { d with
      hidden_size := hidden_size,
      visible_layer_descs := descs,
      visible_layers := Array_new descs.length default,
      hidden_cis := Array_new (hidden_size.x * hidden_size.y) 0 }
  dec_step := fun d _ hidden_target_cis _ _ =>
    { d with hidden_cis := Array_fill d.hidden_cis (hidden_target_cis.getD 0 0) }
  dec_clear_state := fun d => { d with hidden_cis := Array_fill d.hidden_cis 0 }
  dec_size := fun d => 12 + 4 * d.hidden_cis.length
  dec_state_size := fun d => 4 * d.hidden_cis.length
  dec_write := fun d => d.hidden_size.bytes ++ write_ints d.hidden_cis
  dec_read := fun d s =>
    let size := Int3.of_bytes (s.take 12)
    let cis := read_ints (size.x * size.y).toNat (s.drop 12)
    ({ d with hidden_size := size, hidden_cis := cis.1 }, cis.2)
  dec_write_state := fun d => write_ints d.hidden_cis
  dec_read_state := fun d s =>
    let cis := read_ints d.hidden_cis.length s
    ({ d with hidden_cis := cis.1 }, cis.2)
  act_init_random := fun a hidden_size history_capacity descs =>
    { a with
      hidden_size := hidden_size,
      visible_layer_descs := descs,
      visible_layers := Array_new descs.length default,
      hidden_cis := Array_new (hidden_size.x * hidden_size.y) 0,
      history_size := 0,
      history_samples := (a.history_samples.resize history_capacity) }
  act_step := fun a _ hidden_target_cis_prev _ _ _ _ =>
    { a with hidden_cis := Array_fill a.hidden_cis (hidden_target_cis_prev.getD 0 0) }
  act_clear_state := fun a =>
    { a with
      hidden_cis := Array_fill a.hidden_cis 0,
      history_size := 0 }
  act_size := fun a => 12 + 4 * a.hidden_cis.length
  act_state_size := fun a => 4 * a.hidden_cis.length
  act_write := fun a => a.hidden_size.bytes ++ write_ints a.hidden_cis
  act_read := fun a s =>
    let size := Int3.of_bytes (s.take 12)
    let cis := read_ints (size.x * size.y).toNat (s.drop 12)
    ({ a with hidden_size := size, hidden_cis := cis.1 }, cis.2)
  act_write_state := fun a => write_ints a.hidden_cis
  act_read_state := fun a s =>
    let cis := read_ints a.hidden_cis.length s
    ({ a with hidden_cis := cis.1 }, cis.2)
  sizeof_Int3 := 12
  Int3_bytes := Int3.bytes
  Int3_of_bytes := Int3.of_bytes
  sizeof_Layer_Params := 24
  Layer_Params_bytes := fun p => p.decoder.bytes ++ p.encoder.bytes
  Layer_Params_of_bytes := fun s =>
    ⟨Decoder.Params.of_bytes (s.take 12), Encoder.Params.of_bytes ((s.drop 12).take 12)⟩
  sizeof_IO_Params := 36
  IO_Params_bytes := fun p => p.decoder.bytes ++ p.actor.bytes ++ float_bytes p.importance
  IO_Params_of_bytes := fun s =>
    ⟨Decoder.Params.of_bytes (s.take 12), Actor.Params.of_bytes ((s.drop 12).take 20),
      float_of_bytes ((s.drop 32).take 4)⟩

/-- Four channels: two prediction channels, an action channel and an input-only one. -/
def sample_io_descs : List IO_Desc :=
  [⟨⟨1, 4, 32⟩, IO_Type.prediction, 2, 2, 256⟩, ⟨⟨1, 1, 2⟩, IO_Type.action, 2, 2, 4⟩,
   ⟨⟨1, 1, 3⟩, IO_Type.none, 2, 2, 256⟩, ⟨⟨2, 1, 3⟩, IO_Type.prediction, 1, 1, 256⟩]

/-- Three layers; the counters of the layers `1` and `2` run to `2` and to `3`. -/
def sample_layer_descs : List Layer_Desc := [default, default, ⟨⟨2, 2, 8⟩, 2, 2, 3, 3⟩]

/-- One buffer of column indices per channel of `sample_io_descs`. -/
def sample_inputs (k : Int) : List Int_Buffer_View :=
  [[k, k + 1, k + 2, k + 3], [1], [2], [0, 1]]

/-! ## The schedule of the layers

The two functions below describe the ascending loop of `step` by the counters it starts
with; `forward_upto_spec` proves that the loop computes them. -/

/-- Whether the ascending loop updates layer `l` when it starts with the counters
`ticks`: layer `0` always, a layer above when its counter, incremented if the layer below
was updated, has reached its `ticks_per_update`. -/
def updated_at (tpu ticks : List Int) : Nat → Bool
  | 0 => true
  | l + 1 => decide (ticks.getD (l + 1) 0 + (if updated_at tpu ticks l then 1 else 0)
      ≥ tpu.getD (l + 1) 0)

/-- The counter of layer `l` at the moment the ascending loop reaches it. -/
def reach_tick (tpu ticks : List Int) : Nat → Int
  | 0 => ticks.getD 0 0
  | l + 1 => ticks.getD (l + 1) 0 + (if updated_at tpu ticks l then 1 else 0)

/-- The members that the schedule of the layers reads and writes, and the number of
layers. -/
def sched (h : Hierarchy) : Int_Buffer × Byte_Buffer × Int_Buffer × Nat :=
  (h.ticks, h.updates, h.ticks_per_update, h.encoders.length)

/-- The counters of a hierarchy of `n` layers with the periods `tpu` are in step: the
per-layer arrays have `n` entries and the counter of every layer above the first is
at least `0` and below the period of the layer. -/
def In_step (n : Nat) (tpu : List Int) (h : Hierarchy) : Prop :=
  h.encoders.length = n ∧ h.ticks.length = n ∧ h.updates.length = n ∧
  h.ticks_per_update = tpu ∧
  ∀ j, 1 ≤ j → j < n → 0 ≤ h.ticks.getD j 0 ∧ h.ticks.getD j 0 < tpu.getD j 0

/-- The product of `ticks_per_update[k]` for `k = 1, ..., l`: the number of steps
between two updates of layer `l`. -/
def update_period (tpu : List Int) : Nat → Int
  | 0 => 1
  | l + 1 => update_period tpu l * tpu.getD (l + 1) 0

/-- The period `update_period` as a natural number. -/
def period_nat (tpu : List Int) : Nat → Nat
  | 0 => 1
  | l + 1 => period_nat tpu l * (tpu.getD (l + 1) 0).toNat

/-- The counters of a hierarchy of `n` layers with the periods `tpu` after `m` steps
from a state with all counters `0`: the counter of layer `j + 1` is the number of
updates of layer `j` so far, modulo the period of layer `j + 1`. -/
def In_phase (n : Nat) (tpu : List Int) (m : Nat) (h : Hierarchy) : Prop :=
  h.encoders.length = n ∧ h.ticks.length = n ∧ h.updates.length = n ∧
  h.ticks_per_update = tpu ∧
  ∀ j, j + 1 < n →
    h.ticks.getD (j + 1) 0 = ((m / period_nat tpu j % (tpu.getD (j + 1) 0).toNat : Nat) : Int)

/-- The shape of the histories: for every layer and every ring of the layer, the
number of slots of the ring. -/
def hist_shape (h : Hierarchy) : List (List Nat) :=
  h.histories.map (fun hs => hs.map (fun b => b.data.length))

/-! ## The slots of the decoders and actors of layer 0

The two loops of lines 88-107 and 109-128 walk over the channels and hand the next free
slot to every channel of the wanted type.  The functions below are these loops on the
arrays they write, for any choice of the channels (`sel i` tells whether channel `i` is
one) and any content of a slot. -/

/-- The number of selected channels before channel `i`: the slot that the loop hands to
channel `i`. -/
def rank (sel : Nat → Bool) (i : Nat) : Nat :=
  ((List.range i).filter sel).length

/-- One iteration of a loop that writes slot `off + d_index` for a selected channel and
increments `d_index`. -/
def fill_slot {α : Type} [Inhabited α] (sel : Nat → Bool) (off : Nat) (f : Nat → α → α)
    (s : List α × Nat) (i : Nat) : List α × Nat :=
  if sel i then (Array_update s.1 (off + s.2) (f i), s.2 + 1) else s

/-- One iteration of a loop that writes `d_index` at position `i` for a selected channel
and increments `d_index`. -/
def mark_slot (sel : Nat → Bool) (s : Int_Buffer × Nat) (i : Nat) : Int_Buffer × Nat :=
  if sel i then (s.1.set i (s.2 : Int), s.2 + 1) else s

/-- The number of channels of type `ty` before channel `i`. -/
def slot_of (io_descs : List IO_Desc) (ty : IO_Type) (i : Nat) : Nat :=
  rank (fun j => decide ((io_descs.getD j default).type = ty)) i

/-- The number of channels of type `ty`. -/
def num_channels (io_descs : List IO_Desc) (ty : IO_Type) : Nat :=
  slot_of io_descs ty io_descs.length

/-- The method `Hierarchy::io_layer_exists(i)` of `hierarchy.h`. -/
def io_layer_exists (h : Hierarchy) (i : Int) : Bool :=
  Array_at h.d_indices i != -1

/-! ## What one iteration of the loop over the layers of `init_random` leaves alone -/

/-- An array without its element `l`. -/
def masked {α : Type} (l : Nat) (xs : List α) : Nat → Option α :=
  fun j => if j = l then none else xs[j]?

/-- The members that the iteration for layer `l` does not write: the cached channel
sizes and types, the lengths of the per-layer arrays and the encoders, decoders and
histories of the other layers. -/
def layer_frame (l : Nat) (x : Hierarchy) :
    List Int3 × List Byte × Nat × Nat × Nat × (Nat → Option Encoder) ×
      (Nat → Option (List Decoder)) × (Nat → Option (List (Circle_Buffer Int_Buffer))) :=
  (x.io_sizes, x.io_types, x.encoders.length, x.decoders.length, x.histories.length,
    masked l x.encoders, masked l x.decoders, masked l x.histories)

/-- The members that only the iteration for layer `0` writes. -/
def first_frame (x : Hierarchy) : List Actor × Int_Buffer × Int_Buffer :=
  (x.actors, x.i_indices, x.d_indices)

/-- The hierarchy on which the loop over the layers of `init_random` starts when
`init_random` is called on a default-constructed object. -/
def init_base (io_descs : List IO_Desc) (layer_descs : List Layer_Desc) : Hierarchy :=
  { encoders := List.replicate layer_descs.length default,
    decoders := List.replicate layer_descs.length [],
    actors := [],
    i_indices := [],
    d_indices := [],
    histories := List.replicate layer_descs.length [],
    updates := List.replicate layer_descs.length 0,
    ticks := List.replicate layer_descs.length 0,
    ticks_per_update := (List.range layer_descs.length).map (fun l =>
      if l = 0 then 1 else (layer_descs.getD l default).ticks_per_update),
    io_sizes := io_descs.map (fun d => d.size),
    io_types := io_descs.map (fun d => d.type.toByte),
    params := default }

/-- The state of the loop over the layers of `init_random`, called on a
default-constructed object, when it reaches layer `k`. -/
def init_upto (K : Kernels) (io_descs : List IO_Desc) (layer_descs : List Layer_Desc)
    (k : Nat) : Hierarchy :=
  (List.range k).foldl
    (init_layer K io_descs layer_descs (num_channels io_descs IO_Type.prediction)
      (num_channels io_descs IO_Type.action)) (init_base io_descs layer_descs)

/-- The values of the C++ type `int` (32 bits, two's complement). -/
def is_int (v : Int) : Prop :=
  -2147483648 ≤ v ∧ v < 2147483648

/-- The number of decoders of every layer. -/
def dec_counts (h : Hierarchy) : List Nat :=
  h.decoders.map List.length

/-- The number of visible layers of every encoder. -/
def vis_counts (h : Hierarchy) : List Nat :=
  h.encoders.map (fun e => e.visible_layers.length)

/-- Modelled from the spec: the bodies of the methods of `Encoder` (`encoder.cpp`) are not
among the sources.  The spec gives an encoder one visible layer for every visible layer
descriptor it is created with, and says that all tensors are sized at `init_random` and
that their shapes are immutable afterwards: `init_random` leaves as many visible layers as
it is given descriptors, `step` and `clear_state` keep their number. -/
def Visible_layers_sized (K : Kernels) : Prop :=
  (∀ e hidden_size descs,
    (K.enc_init_random e hidden_size descs).visible_layers.length = descs.length) ∧
  (∀ e input_cis learn_enabled params,
    (K.enc_step e input_cis learn_enabled params).visible_layers.length =
      e.visible_layers.length) ∧
  (∀ e, (K.enc_clear_state e).visible_layers.length = e.visible_layers.length)

/-- The state of the descending loop of `step` (lines 237-254) when it reaches layer `l`:
the layers above `l` have been processed, from the top one down. -/
def backward_upto (K : Kernels) (input_cis : List Int_Buffer_View) (learn_enabled : Bool)
    (reward mimic : float) (h : Hierarchy) (l : Nat) : Hierarchy :=
  ((List.range h.decoders.length).reverse.take (h.decoders.length - 1 - l)).foldl
    (backward_layer K input_cis learn_enabled reward mimic) h

/-- The members that neither `step` nor `clear_state` writes, and the numbers of actors
and of decoders. -/
def layout (h : Hierarchy) :
    Int_Buffer × Int_Buffer × List Int3 × List Byte × Params × Nat × List Nat :=
  (h.i_indices, h.d_indices, h.io_sizes, h.io_types, h.params, h.actors.length, dec_counts h)

/-- Line 244: the index `ticks_per_update[l + 1] - 1 - ticks[l + 1]` of the decoder of
the layer above whose hidden code is the second input of the decoders and actors of
layer `l`. -/
def feedback_index (h : Hierarchy) (l : Nat) : Int :=
  h.ticks_per_update.getD (l + 1) 0 - 1 - h.ticks.getD (l + 1) 0

/-- The starts of the rings of layer `l` are inside their rings (so no ring of the layer
is empty). -/
def Rings_ok (h : Hierarchy) (l : Nat) : Prop :=
  ∀ (i : Nat) (b : Circle_Buffer Int_Buffer),
    (h.histories.getD l default)[i]? = some b → 0 ≤ b.start ∧ b.start < b.size

/-- Line 247: the target of decoder `d` of layer `l`,
`histories[l][l == 0 ? i_indices[d] : 0][l == 0 ? 0 : d]`. -/
def decoder_target (h : Hierarchy) (l d : Nat) : Int_Buffer_View :=
  (Array_at (h.histories.getD l default) (if l = 0 then Array_at h.i_indices d else 0)).get
    (if l = 0 then 0 else (d : Int))

/-- Line 247: the parameters of decoder `d` of layer `l`,
`l == 0 ? params.ios[i_indices[d]].decoder : params.layers[l].decoder`. -/
def decoder_params (h : Hierarchy) (l d : Nat) : Decoder.Params :=
  if l = 0 then (Array_at h.params.ios (Array_at h.i_indices d)).decoder
  else (h.params.layers.getD l default).decoder

/-- Line 251: the channel `i_indices[d + io_sizes.size()]` of actor `d`. -/
def actor_channel (h : Hierarchy) (d : Nat) : Int :=
  Array_at h.i_indices ((d : Int) + (h.io_sizes.length : Int))

/-- The method `Hierarchy::get_prediction_cis(i)` of `hierarchy.h`: the hidden code of
the actor `d_indices[i]` when `io_types[i] == action`, of the decoder `d_indices[i]` of
layer `0` otherwise.  The method has no check and no failing result. -/
def get_prediction_cis (h : Hierarchy) (i : Int) : Int_Buffer :=
  if Array_at h.io_types i = IO_Type.action.toByte then
    (Array_at h.actors (Array_at h.d_indices i)).hidden_cis
  else (Array_at (h.decoders.getD 0 default) (Array_at h.d_indices i)).hidden_cis

/-- The method `Hierarchy::get_prediction_acts(i)` of `hierarchy.h`. -/
def get_prediction_acts (h : Hierarchy) (i : Int) : Float_Buffer :=
  if Array_at h.io_types i = IO_Type.action.toByte then
    (Array_at h.actors (Array_at h.d_indices i)).hidden_acts
  else (Array_at (h.decoders.getD 0 default) (Array_at h.d_indices i)).hidden_acts

/-- Modelled from the spec: the bodies of `Decoder::init_random` and `Actor::init_random`
(`decoder.cpp`, `actor.cpp`) are not among the sources.  The spec says that the hidden
state of a layer of size `(X, Y, Z)` is an array of `X * Y` column indices and that all
tensors are sized at `init_random`: after `init_random(hidden_size, ...)` the hidden code
has `hidden_size.x * hidden_size.y` entries. -/
def Hidden_columns_sized (K : Kernels) : Prop :=
  (∀ d hidden_size descs,
    (K.dec_init_random d hidden_size descs).hidden_cis.length =
      (hidden_size.x * hidden_size.y).toNat) ∧
  (∀ a hidden_size history_capacity descs,
    (K.act_init_random a hidden_size history_capacity descs).hidden_cis.length =
      (hidden_size.x * hidden_size.y).toNat)

/-- A value computed in C++ as the `int` that receives it: 32 bits, two's complement.
The sums of `Hierarchy::size` are sums modulo `2^32`, so the value is reduced once, at the
end. -/
def wrap_int (v : Int) : Int :=
  let u := v % 4294967296
  if u < 2147483648 then u else u - 4294967296

/-- Lines 289-294: what the rings of layer `l` add to the size, a ring after the other. -/
def size_histories (h : Hierarchy) (l : Nat) (size : Int) : Int :=
  (List.range (h.histories.getD l default).length).foldl (fun (size : Int) (i : Nat) =>
    let size := size + 2 * 4
    (List.range ((h.histories.getD l default).getD i default).data.length).foldl
      (fun (size : Int) (t : Nat) =>
        size + (4 + ((((h.histories.getD l default).getD i default).get t).length : Int) * 4))
      size) size

/-- Lines 286-300: one iteration of the loop over the layers of `size`. -/
def size_layer (K : Kernels) (h : Hierarchy) (size : Int) (l : Nat) : Int :=
  let size := size + 4
  let size := size_histories h l size
  let size := size + K.enc_size (h.encoders.getD l default)
  (List.range (h.decoders.getD l default).length).foldl (fun (size : Int) (d : Nat) =>
    size + K.dec_size ((h.decoders.getD l default).getD d default)) size

/-- The method `Hierarchy::size()`; `sizeof(int)` is `4` and `sizeof(Byte)` is `1`. -/
def size (K : Kernels) (h : Hierarchy) : Int :=
  let size : Int := 4 * 4 + (h.io_sizes.length : Int) * (K.sizeof_Int3 : Int) +
    (h.io_types.length : Int) * 1 + (h.updates.length : Int) * 1 +
    2 * (h.ticks.length : Int) * 4 + (h.i_indices.length : Int) * 4 +
    (h.d_indices.length : Int) * 4
  let size := (List.range h.encoders.length).foldl (size_layer K h) size
  -- actors
  let size := (List.range h.actors.length).foldl (fun (size : Int) (d : Nat) =>
    size + K.act_size (h.actors.getD d default)) size
  -- params
  let size := size + (h.encoders.length : Int) * (K.sizeof_Layer_Params : Int)
  let size := size + (h.io_sizes.length : Int) * (K.sizeof_IO_Params : Int)
  wrap_int size

/-! ## The codes an encoder has produced

`updates[l]` is set by `step` alone: after a call it tells whether the call was a `step`
that updated layer `l`.  The log below is read off the states a sequence of calls goes
through. -/

/-- What the encoder of a layer `j` has produced during a sequence of calls. -/
structure Code_Log where
  /-- The hidden code of the encoder after each of its updates, the most recent first. -/
  codes : List Int_Buffer
  /-- How many of them have been produced since the last update of layer `j + 1`. -/
  since_update : Nat
  /-- How many of them have been produced since the last update of layer `j + 1` or the
  last `clear_state`, whichever came later. -/
  since_reset : Nat
deriving DecidableEq, Repr

/-- One call, with the log of the encoder of layer `j`: the counts start again when the
call before was a `step` that updated layer `j + 1`; a `step` that updates layer `j` adds
the hidden code its encoder has after the call. -/
def log_call (K : Kernels) (j : Nat) (s : Hierarchy × Code_Log) (c : Call) :
    Hierarchy × Code_Log :=
  let since_update := if s.1.updates.getD (j + 1) 0 ≠ 0 then 0 else s.2.since_update
  let since_reset := if s.1.updates.getD (j + 1) 0 ≠ 0 then 0 else s.2.since_reset
  match c with
  | Call.step input_cis learn_enabled reward mimic =>
    let h := step K s.1 input_cis learn_enabled reward mimic
    if h.updates.getD j 0 ≠ 0 then
      (h, ⟨(h.encoders.getD j default).hidden_cis :: s.2.codes, since_update + 1,
        since_reset + 1⟩)
    else (h, ⟨s.2.codes, since_update, since_reset⟩)
  | Call.clear_state => (clear_state K s.1, ⟨s.2.codes, since_update, 0⟩)

/-- A sequence of calls, with the log of the encoder of layer `j`. -/
def log_run (K : Kernels) (j : Nat) (h : Hierarchy) (calls : List Call) :
    Hierarchy × Code_Log :=
  calls.foldl (log_call K j) (h, ⟨[], 0, 0⟩)

/-- The log of the encoder of layer `j` agrees with the hierarchy, `n` being
`ticks_per_update[j + 1]`: the counter of layer `j + 1` is in `[0, n)` and is `0` after an
update of the layer, it counts the codes produced since the layer was last updated or
the state cleared (`n` of them when the layer has just been updated), and those codes are
the front entries of the ring `histories[j + 1][0]`, the most recent first. -/
def Log_ok (j : Nat) (n : Int) (s : Hierarchy × Code_Log) : Prop :=
  0 ≤ s.1.ticks.getD (j + 1) 0 ∧ s.1.ticks.getD (j + 1) 0 < n ∧
  (s.1.updates.getD (j + 1) 0 ≠ 0 → s.1.ticks.getD (j + 1) 0 = 0) ∧
  s.2.since_reset =
    (if s.1.updates.getD (j + 1) 0 ≠ 0 then n.toNat
     else (s.1.ticks.getD (j + 1) 0).toNat) ∧
  ∀ (d : Nat) (b : Circle_Buffer Int_Buffer), d < s.2.since_reset →
    (s.1.histories.getD (j + 1) default)[0]? = some b → s.2.codes[d]? = some (b.get d)

/-- One prediction channel of a single column. -/
def small_io_descs : List IO_Desc := [⟨⟨1, 1, 4⟩, IO_Type.prediction, 0, 0, 1⟩]

/-- Two layers of a single column; the counter of layer `1` runs to `2`. -/
def small_layer_descs : List Layer_Desc := [⟨⟨1, 1, 4⟩, 0, 0, 1, 1⟩, ⟨⟨1, 1, 4⟩, 0, 0, 2, 2⟩]

/-- Three steps, the second of which updates layer `1` of the small hierarchy, then
`clear_state` and one more step. -/
def cleared_calls : List Call :=
  [Call.step [[1]] true 0 0, Call.step [[2]] true 0 0, Call.step [[3]] true 0 0,
    Call.clear_state, Call.step [[0]] true 0 0]

/-! ## Integer vectors (`ogmaneo/Helpers.h`) -/

/-- The type `Int2`. -/
structure Int2 where
  x : Int
  y : Int
deriving DecidableEq, Repr

/-! ## `Hierarchy::state_size`, `Hierarchy::write_state` and `Hierarchy::read_state` -/

/-- Lines 319-324: what the rings of layer `l` add to the state size. -/
def state_size_histories (h : Hierarchy) (l : Nat) (size : Int) : Int :=
  (List.range (h.histories.getD l default).length).foldl (fun (size : Int) (i : Nat) =>
    let size := size + 4
    (List.range ((h.histories.getD l default).getD i default).data.length).foldl
      (fun (size : Int) (t : Nat) =>
        size + ((((h.histories.getD l default).getD i default).get t).length : Int) * 4)
      size) size

/-- Lines 317-330: one iteration of the loop over the layers of `state_size`. -/
def state_size_layer (K : Kernels) (h : Hierarchy) (size : Int) (l : Nat) : Int :=
  let size := state_size_histories h l size
  let size := size + K.enc_state_size (h.encoders.getD l default)
  -- decoders
  (List.range (h.decoders.getD l default).length).foldl (fun (size : Int) (d : Nat) =>
    size + K.dec_state_size ((h.decoders.getD l default).getD d default)) size

/-- The method `Hierarchy::state_size()`. -/
def state_size (K : Kernels) (h : Hierarchy) : Int :=
  let size : Int := (h.updates.length : Int) * 1 + (h.ticks.length : Int) * 4
  let size := (List.range h.encoders.length).foldl (state_size_layer K h) size
  -- actors
  let size := (List.range h.actors.length).foldl (fun (size : Int) (d : Nat) =>
    size + K.act_state_size (h.actors.getD d default)) size
  wrap_int size

/-- Lines 512-519: the state of one history ring is written: its start and the entries
of every slot. -/
def write_state_history (b : Circle_Buffer Int_Buffer) : List Byte :=
  le32 b.start ++ (List.range b.data.length).flatMap (fun (t : Nat) => write_ints (b.get t))

/-- Lines 510-525: one iteration of the loop over the layers of `write_state`. -/
def write_state_layer (K : Kernels) (h : Hierarchy) (l : Nat) : List Byte :=
  (List.range (h.histories.getD l default).length).flatMap (fun (i : Nat) =>
    write_state_history ((h.histories.getD l default).getD i default)) ++
    K.enc_write_state (h.encoders.getD l default) ++
    -- decoders
    (List.range (h.decoders.getD l default).length).flatMap (fun (d : Nat) =>
      K.dec_write_state ((h.decoders.getD l default).getD d default))

/-- The method `Hierarchy::write_state(writer)`: the bytes handed to the writer. -/
def write_state (K : Kernels) (h : Hierarchy) : List Byte :=
  h.updates ++ write_ints h.ticks ++
    (List.range h.encoders.length).flatMap (write_state_layer K h) ++
    (List.range h.actors.length).flatMap (fun (d : Nat) =>
      K.act_write_state (h.actors.getD d default))

/-! ## Dumps that can be read back -/

instance (v : Int) : Decidable (is_int v) := by
  unfold is_int
  exact inferInstance

/-- Every number that `write` stores as an `int` is a value of the type `int`: the four
counts of the head, the counters and periods of the layers, the two index maps, and for
every history ring the number of slots, the start, the length of every slot and its
entries. -/
def Fits_int (h : Hierarchy) : Prop :=
  h.encoders.length < 2147483648 ∧ h.io_sizes.length < 2147483648 ∧
  (h.decoders.getD 0 default).length < 2147483648 ∧ h.actors.length < 2147483648 ∧
  (∀ x ∈ h.ticks, is_int x) ∧ (∀ x ∈ h.ticks_per_update, is_int x) ∧
  (∀ x ∈ h.i_indices, is_int x) ∧ (∀ x ∈ h.d_indices, is_int x) ∧
  ∀ hs ∈ h.histories, hs.length < 2147483648 ∧
    ∀ b ∈ hs, b.data.length < 2147483648 ∧ is_int b.start ∧
      ∀ buf ∈ b.data, buf.length < 2147483648 ∧ ∀ x ∈ buf, is_int x

instance (h : Hierarchy) : Decidable (Fits_int h) := by
  unfold Fits_int
  exact inferInstance

/-- The shape of a hierarchy that `init_random` has built: the per-layer arrays have one
entry per layer and the per-channel arrays one per channel (two for `i_indices`), a
layer above the first has `ticks_per_update[l]` decoders, and the start of every history
ring that has slots is inside the ring. -/
def Dump_shape (h : Hierarchy) : Prop :=
  h.decoders.length = h.encoders.length ∧ h.histories.length = h.encoders.length ∧
  h.updates.length = h.encoders.length ∧ h.ticks.length = h.encoders.length ∧
  h.ticks_per_update.length = h.encoders.length ∧
  h.io_types.length = h.io_sizes.length ∧ h.i_indices.length = h.io_sizes.length * 2 ∧
  h.d_indices.length = h.io_sizes.length ∧
  h.params.layers.length = h.encoders.length ∧ h.params.ios.length = h.io_sizes.length ∧
  (∀ l, 0 < l → l < h.encoders.length →
    (h.decoders.getD l default).length = (h.ticks_per_update.getD l 0).toNat) ∧
  ∀ hs ∈ h.histories, ∀ b ∈ hs, b.data = [] ∨ (0 ≤ b.start ∧ b.start < b.size)

/-- The members that the loops of `read` over the layers leave alone. -/
def dump_frame (h : Hierarchy) :
    List Int3 × List Byte × Byte_Buffer × Int_Buffer × Int_Buffer × Int_Buffer × Int_Buffer ×
      List Actor × Params :=
  (h.io_sizes, h.io_types, h.updates, h.ticks, h.ticks_per_update, h.i_indices, h.d_indices,
    h.actors, h.params)


/-- Lines 544-545, one iteration: the entries of slot `t` of a ring are read in place. -/
def read_state_slot (r : Circle_Buffer Int_Buffer × List Byte) (t : Nat) :
    Circle_Buffer Int_Buffer × List Byte :=
  let xs := read_ints (r.1.get t).length r.2
  (r.1.put t xs.1, xs.2)

/-- Lines 538-545: the state of one history ring is read. -/
def read_state_history (b : Circle_Buffer Int_Buffer) (s : List Byte) :
    Circle_Buffer Int_Buffer × List Byte :=
  let history_start := read_int s
  let b := { b with start := history_start.1 }
  (List.range b.data.length).foldl read_state_slot (b, history_start.2)

/-- Lines 537-546, one iteration: the state of ring `i` of layer `l` is read. -/
def read_state_layer_history (l : Nat) (r : Hierarchy × List Byte) (i : Nat) :
    Hierarchy × List Byte :=
  let b := read_state_history ((r.1.histories.getD l default).getD i default) r.2
  ({ r.1 with histories := Array_update r.1.histories l (fun hs => hs.set i b.1) }, b.2)

/-- Lines 551-552, one iteration: the state of decoder `d` of layer `l` is read. -/
def read_state_decoder (K : Kernels) (l : Nat) (r : Hierarchy × List Byte) (d : Nat) :
    Hierarchy × List Byte :=
  let x := K.dec_read_state ((r.1.decoders.getD l default).getD d default) r.2
  ({ r.1 with decoders := Array_update r.1.decoders l (fun ds => ds.set d x.1) }, x.2)

/-- Lines 536-553: one iteration of the loop over the layers of `read_state`. -/
def read_state_layer (K : Kernels) (r : Hierarchy × List Byte) (l : Nat) :
    Hierarchy × List Byte :=
  let r := (List.range (r.1.histories.getD l default).length).foldl
    (read_state_layer_history l) r
  let e := K.enc_read_state (r.1.encoders.getD l default) r.2
  let r : Hierarchy × List Byte := ({ r.1 with encoders := r.1.encoders.set l e.1 }, e.2)
  -- decoders
  (List.range (r.1.decoders.getD l default).length).foldl (read_state_decoder K l) r

/-- Lines 557-558, one iteration: the state of actor `d` is read. -/
def read_state_actor (K : Kernels) (r : Hierarchy × List Byte) (d : Nat) :
    Hierarchy × List Byte :=
  let x := K.act_read_state (r.1.actors.getD d default) r.2
  ({ r.1 with actors := r.1.actors.set d x.1 }, x.2)

/-- The method `Hierarchy::read_state(reader)`, called on `h`: the hierarchy after the
call and the rest of the stream. -/
def read_state (K : Kernels) (h : Hierarchy) (s : List Byte) : Hierarchy × List Byte :=
  let updates := read_bytes h.updates.length s
  let ticks := read_ints h.ticks.length updates.2
  let h := { h with updates := updates.1, ticks := ticks.1 }
  let r := (List.range h.encoders.length).foldl (read_state_layer K) (h, ticks.2)
  -- actors
  (List.range r.1.actors.length).foldl (read_state_actor K) r

/-- Modelled from the spec: the bodies of `write_state` and `read_state` of `Encoder`,
`Decoder` and `Actor` are not among the sources.  The spec describes the state of a
component as a blob of `state_size()` bytes: `write_state` emits `state_size()` bytes and
`read_state`, called on a component, consumes `state_size()` bytes of the stream. -/
def State_blobs (K : Kernels) : Prop :=
  (∀ e, ((K.enc_write_state e).length : Int) = K.enc_state_size e) ∧
  (∀ e s, (K.enc_read_state e s).2 = s.drop (K.enc_state_size e).toNat) ∧
  (∀ d, ((K.dec_write_state d).length : Int) = K.dec_state_size d) ∧
  (∀ d s, (K.dec_read_state d s).2 = s.drop (K.dec_state_size d).toNat) ∧
  (∀ a, ((K.act_write_state a).length : Int) = K.act_state_size a) ∧
  (∀ a s, (K.act_read_state a s).2 = s.drop (K.act_state_size a).toNat)

/-- The shape of the histories down to the entries: for every layer, every ring and
every slot of the ring, the number of entries of the slot. -/
def slot_shape (h : Hierarchy) : List (List (List Nat)) :=
  h.histories.map (fun hs => hs.map (fun b => b.data.map List.length))

/-- Two hierarchies of identical shape: the same number of layers, of rings of every
layer, of slots of every ring and of entries of every slot, the same number of decoders
of every layer and of actors, and corresponding components with a state of the same
size. -/
def Same_shape (K : Kernels) (a b : Hierarchy) : Prop :=
  a.encoders.length = b.encoders.length ∧ a.updates.length = b.updates.length ∧
  a.ticks.length = b.ticks.length ∧ a.actors.length = b.actors.length ∧
  slot_shape a = slot_shape b ∧ dec_counts a = dec_counts b ∧
  (∀ l, l < a.encoders.length →
    K.enc_state_size (a.encoders.getD l default) =
      K.enc_state_size (b.encoders.getD l default)) ∧
  (∀ l, l < a.encoders.length → ∀ d, d < (a.decoders.getD l default).length →
    K.dec_state_size ((a.decoders.getD l default).getD d default) =
      K.dec_state_size ((b.decoders.getD l default).getD d default)) ∧
  ∀ d, d < a.actors.length →
    K.act_state_size (a.actors.getD d default) = K.act_state_size (b.actors.getD d default)

instance (K : Kernels) (a b : Hierarchy) : Decidable (Same_shape K a b) := by
  unfold Same_shape
  exact inferInstance

/-- What `write_state` and `read_state` take for granted of the hierarchy that is
written: one list of rings and one list of decoders per layer, counters that are values
of the type `int`, and for every history ring a start that is a value of the type `int`
and inside the ring, and slots whose length and entries are values of the type `int`. -/
def State_fits (h : Hierarchy) : Prop :=
  h.histories.length = h.encoders.length ∧ h.decoders.length = h.encoders.length ∧
  (∀ x ∈ h.ticks, is_int x) ∧
  ∀ hs ∈ h.histories, ∀ b ∈ hs, is_int b.start ∧
    (b.data = [] ∨ (0 ≤ b.start ∧ b.start < b.size)) ∧
    ∀ buf ∈ b.data, buf.length < 2147483648 ∧ ∀ x ∈ buf, is_int x

instance (h : Hierarchy) : Decidable (State_fits h) := by
  unfold State_fits
  exact inferInstance

/-- Two layers of a single column; layer `1` has `ticks_per_update = 3` and
`temporal_horizon = 2`. -/
def unchecked_layer_descs : List Layer_Desc :=
  [⟨⟨1, 1, 4⟩, 0, 0, 1, 1⟩, ⟨⟨1, 1, 4⟩, 0, 0, 3, 2⟩]

/-- Five buffers for the four channels of `sample_io_descs`; the first one has five
entries, the channel has `1 * 4` columns. -/
def oversized_inputs : List Int_Buffer_View :=
  [[0, 1, 2, 3, 4], [1], [2], [0, 1], [5]]

/-! ## Random numbers (`ogmaneo/Helpers.h`)

An `unsigned long` has 64 bits and an `unsigned int` 32; both are natural numbers, the
arithmetic of the first is modulo `2^64` and a conversion to the second is modulo
`2^32`. -/

/-- The function `MWC64X(state)`: the value returned and the state it leaves in
`*state`. -/
def MWC64X (state : Nat) : Nat × Nat :=
  let c := (state >>> 32) % 4294967296
  let x := (state &&& 0xffffffff) % 4294967296
  let state := ((x * 4294883355) % 18446744073709551616 + c) % 18446744073709551616
  (x ^^^ c, state)

/-- Modelled from the spec: `rand(state)` is declared in `Helpers.h`, its body is not among
the sources.  The spec gives the generator a 64-bit MWC state from which the uniform
draws are taken: `rand` is one draw of `MWC64X`. -/
def rand (state : Nat) : Nat × Nat :=
  MWC64X state

/-- The function template `randBits<T>(state)` for an unsigned integer type `T` of
`numBytes` bytes: the value returned and the state left in `*state`. -/
def randBits (numBytes : Nat) (state : Nat) : Nat × Nat :=
  (List.range numBytes).foldl (fun (r : Nat × Nat) (i : Nat) =>
    let d := rand r.2
    let b := d.1 % 256
    let out := r.1 ||| b
    let out := if (i : Int) < (numBytes : Int) - 1 then (out <<< 8) % 2 ^ (8 * numBytes) else out
    (out, d.2)) (0, state)

/-! ## Addressing (`ogmaneo/Helpers.h`)

The products and sums are those of the C++ type `int`: every intermediate result is
reduced to 32 bits. -/

/-- The type `Int4`. -/
structure Int4 where
  x : Int
  y : Int
  z : Int
  w : Int
deriving DecidableEq, Repr

/-- The function `address2(pos, dims)`: `pos.y + pos.x * dims.y`. -/
def address2 (pos dims : Int2) : Int :=
  wrap_int (pos.y + wrap_int (pos.x * dims.y))

/-- The function `address3(pos, dims)`:
`pos.z + pos.y * dims.z + pos.x * dims.z * dims.y`. -/
def address3 (pos dims : Int3) : Int :=
  wrap_int (wrap_int (pos.z + wrap_int (pos.y * dims.z)) +
    wrap_int (wrap_int (pos.x * dims.z) * dims.y))

/-- The function `address4(pos, dims)`:
`pos.w + pos.z * dims.w + pos.y * dims.w * dims.z + pos.x * dims.w * dims.z * dims.y`. -/
def address4 (pos dims : Int4) : Int :=
  wrap_int (wrap_int (wrap_int (pos.w + wrap_int (pos.z * dims.w)) +
      wrap_int (wrap_int (pos.y * dims.w) * dims.z)) +
    wrap_int (wrap_int (wrap_int (pos.x * dims.w) * dims.z) * dims.y))

/-! ## The indices of `step`

For every expression `a[i]` of lines 178-254 of `hierarchy.cpp` in which `a` is a member
of the hierarchy, a history ring or `input_cis`: the condition under which the index is
inside the array, in the state in which the expression is evaluated. -/

/-- The index is inside the array: `0 <= i < xs.size()`, for an index that is a C++
`int`. -/
abbrev In_range {α : Type} (xs : List α) (i : Int) : Prop :=
  0 ≤ i ∧ i < (xs.length : Int)

/-- The access `b[index]` of `CircleBuffer::operator[]` is inside the ring: `index` is
one of its slots and the position `(start + index) % data.size()` is inside the
storage. -/
abbrev Ring_in_range {α : Type} (b : CircleBuffer α) (index : Int) : Prop :=
  0 ≤ index ∧ index < b.size ∧ In_range b.data (b.slot index)

/-- Lines 178-193, in the state `h` before the call: the two assertions, and the indices
of `params.ios[i]`, of `histories[0][i]` and `encoders[0]` in `set_input_importance`, of
`ticks[0]`, and of `histories[0][i]`, `histories[0][i][0]` (after `push_front`) and
`input_cis[i]`, for every channel `i`. -/
def begin_in_range (input_cis : List Int_Buffer_View) (h : Hierarchy) : Prop :=
  h.params.layers.length = h.encoders.length ∧ h.params.ios.length = h.io_sizes.length ∧
  -- set importances from params
  (∀ i, i < h.io_sizes.length →
    i < h.params.ios.length ∧ 0 < h.histories.length ∧
    i < (h.histories.getD 0 default).length ∧ 0 < h.encoders.length) ∧
  -- first tick is always 0
  0 < h.ticks.length ∧
  -- add input to first layer history
  ∀ i, i < h.io_sizes.length →
    0 < h.histories.length ∧ i < (h.histories.getD 0 default).length ∧
    Ring_in_range ((h.histories.getD 0 default).getD i default).pushFront 0 ∧
    i < input_cis.length

instance (input_cis : List Int_Buffer_View) (h : Hierarchy) :
    Decidable (begin_in_range input_cis h) := by
  unfold begin_in_range
  exact inferInstance

/-- Lines 199-233, the iteration for layer `l` in the state `s` in which the ascending
loop reaches the layer: the indices of `ticks[l]` and `ticks_per_update[l]` in the test
(not evaluated for `l == 0`) and, when the layer is updated, of `ticks[l]`, `updates[l]`,
`encoders[l]`, `histories[l][i][t]`, `params.layers[l]` and, when there is a layer above,
of `histories[l + 1][0]`, `histories[l + 1][0][0]` (after `push_front`) and
`ticks[l + 1]`. -/
def forward_in_range (s : Hierarchy) (l : Nat) : Prop :=
  (l ≠ 0 → l < s.ticks.length ∧ l < s.ticks_per_update.length) ∧
  (is_time_to_tick s l = true →
    l < s.ticks.length ∧ l < s.updates.length ∧ l < s.encoders.length ∧
    l < s.histories.length ∧
    (∀ i, i < (s.histories.getD l default).length →
      ∀ t, t < ((s.histories.getD l default).getD i default).data.length →
        Ring_in_range ((s.histories.getD l default).getD i default) (t : Int)) ∧
    -- activate sparse coder
    l < s.params.layers.length ∧
    -- add to next layer's history
    (has_layer_above s.encoders.length l = true →
      l + 1 < s.histories.length ∧ 0 < (s.histories.getD (l + 1) default).length ∧
      Ring_in_range ((s.histories.getD (l + 1) default).getD 0 default).pushFront 0 ∧
      l + 1 < s.ticks.length))

instance (s : Hierarchy) (l : Nat) : Decidable (forward_in_range s l) := by
  unfold forward_in_range
  exact inferInstance

/-- Line 247, decoder `d` of layer `l`, in the state `B` in which the descending loop
reaches the layer: the indices of `histories[l]`, and of `i_indices[d]`,
`histories[0][i_indices[d]]`, `histories[0][i_indices[d]][0]` and
`params.ios[i_indices[d]]` at layer `0`, of `histories[l][0]`, `histories[l][0][d]` and
`params.layers[l]` above. -/
def decoder_in_range (B : Hierarchy) (l d : Nat) : Prop :=
  l < B.histories.length ∧
  (if l = 0 then
    In_range B.i_indices (d : Int) ∧
    In_range (B.histories.getD 0 default) (Array_at B.i_indices d) ∧
    Ring_in_range (Array_at (B.histories.getD 0 default) (Array_at B.i_indices d)) 0 ∧
    In_range B.params.ios (Array_at B.i_indices d)
  else
    0 < (B.histories.getD l default).length ∧
    Ring_in_range ((B.histories.getD l default).getD 0 default) (d : Int) ∧
    l < B.params.layers.length)

instance (B : Hierarchy) (l d : Nat) : Decidable (decoder_in_range B l d) := by
  unfold decoder_in_range
  exact inferInstance

/-- Line 251, actor `d`: the indices of `i_indices[d + io_sizes.size()]`, of
`input_cis[..]` and of `params.ios[..]`. -/
def actor_in_range (input_cis : List Int_Buffer_View) (B : Hierarchy) (d : Nat) : Prop :=
  In_range B.i_indices ((d : Int) + (B.io_sizes.length : Int)) ∧
  In_range input_cis (actor_channel B d) ∧
  In_range B.params.ios (actor_channel B d)

instance (input_cis : List Int_Buffer_View) (B : Hierarchy) (d : Nat) :
    Decidable (actor_in_range input_cis B d) := by
  unfold actor_in_range
  exact inferInstance

/-- Lines 243-244: the indices of `decoders[l + 1]`, `ticks_per_update[l + 1]`,
`ticks[l + 1]` and of `decoders[l + 1][ticks_per_update[l + 1] - 1 - ticks[l + 1]]`. -/
def feedback_in_range (B : Hierarchy) (l : Nat) : Prop :=
  l + 1 < B.decoders.length ∧ l + 1 < B.ticks_per_update.length ∧
  l + 1 < B.ticks.length ∧
  In_range (B.decoders.getD (l + 1) default)
    (B.ticks_per_update.getD (l + 1) default - 1 - B.ticks.getD (l + 1) default)

instance (B : Hierarchy) (l : Nat) : Decidable (feedback_in_range B l) := by
  unfold feedback_in_range
  exact inferInstance

/-- Lines 237-253, the iteration for layer `l` in the state `B` in which the descending
loop reaches the layer: the index of `updates[l]` and, when the layer was updated, of
`encoders[l]`, the indices of lines 243-244 when there is a layer above, those of every
decoder `d` of the layer and, at layer `0`, those of every actor `d`. -/
def backward_in_range (input_cis : List Int_Buffer_View) (B : Hierarchy) (l : Nat) : Prop :=
  l < B.updates.length ∧
  (B.updates.getD l default ≠ 0 →
    l < B.encoders.length ∧
    (has_layer_above B.encoders.length l = true → feedback_in_range B l) ∧
    (∀ d, d < (B.decoders.getD l default).length → decoder_in_range B l d) ∧
    (l = 0 → ∀ d, d < B.actors.length → actor_in_range input_cis B d))

instance (input_cis : List Int_Buffer_View) (B : Hierarchy) (l : Nat) :
    Decidable (backward_in_range input_cis B l) := by
  unfold backward_in_range
  exact inferInstance

/-- The state in which the loop of lines 182-183 reaches channel `i`. -/
def importances_upto (h : Hierarchy) (i : Nat) : Hierarchy :=
  (List.range i).foldl (fun (h : Hierarchy) (k : Nat) =>
    set_input_importance h k (h.params.ios.getD k default).importance) h

/-- Line 129 of `hierarchy.h`, in the state `s` in which `set_input_importance(i, ..)` is
called: the index `i * histories[0][i].size() + t` of `encoders[0].visible_layers`, for
every `t` of the loop. -/
def importance_in_range (s : Hierarchy) (i : Nat) : Prop :=
  ∀ t, t < ((s.histories.getD 0 default).getD i default).data.length →
    i * ((s.histories.getD 0 default).getD i default).data.length + t <
      (s.encoders.getD 0 default).visible_layers.length

instance (s : Hierarchy) (i : Nat) : Decidable (importance_in_range s i) := by
  unfold importance_in_range
  exact inferInstance

/-- Lines 208-218: the loop that fills `layer_input_cis`, an array of
`encoders[l].visible_layers.size()` places, with the test that `index` is inside it at
every assignment `layer_input_cis[index] = histories[l][i][t]`.  The result tells whether
every test held, and gives the final `index`. -/
def encoder_inputs_in_range (s : Hierarchy) (l : Nat) : Bool × Nat :=
  (List.range (s.histories.getD l default).length).foldl (fun (r : Bool × Nat) (i : Nat) =>
    (List.range ((s.histories.getD l default).getD i default).data.length).foldl
      (fun (r : Bool × Nat) (_ : Nat) =>
        (r.1 && decide (r.2 < (s.encoders.getD l default).visible_layers.length), r.2 + 1))
      r) (true, 0)

/-- A local array of `1 + (l < encoders.size() - 1)` places (lines 93, 114, 150 and 239):
the index `0`, and the index `1`, used when there is a layer above, are inside it. -/
def pair_in_range (num_layers l : Nat) : Prop :=
  0 < (Array_new (1 + (if has_layer_above num_layers l then 1 else 0)) ()).length ∧
  (has_layer_above num_layers l = true →
    1 < (Array_new (1 + (if has_layer_above num_layers l then 1 else 0)) ()).length)

instance (num_layers l : Nat) : Decidable (pair_in_range num_layers l) := by
  unfold pair_in_range
  exact inferInstance

/-- Every index that one call of `step` uses is inside its array: lines 178-193 in the
state before the call and line 129 of `hierarchy.h` in the state in which
`set_input_importance` is called, every iteration of the ascending loop in the state in
which the loop reaches the layer (with the indices of the local `layer_input_cis` of lines
208-218), and every iteration of the descending loop likewise (with the indices of the
local `layer_input_cis` of lines 239-244). -/
def step_in_range (K : Kernels) (h : Hierarchy) (input_cis : List Int_Buffer_View)
    (learn_enabled : Bool) (reward mimic : float) : Prop :=
  begin_in_range input_cis h ∧
  (∀ i, i < h.io_sizes.length → importance_in_range (importances_upto h i) i) ∧
  (∀ l, l < (step_begin input_cis h).encoders.length →
    forward_in_range (forward_upto K learn_enabled (step_begin input_cis h) l) l ∧
    (is_time_to_tick (forward_upto K learn_enabled (step_begin input_cis h) l) l = true →
      (encoder_inputs_in_range
        (forward_upto K learn_enabled (step_begin input_cis h) l) l).1 = true)) ∧
  ∀ l, l < (step_forward K learn_enabled (step_begin input_cis h)).decoders.length →
    backward_in_range input_cis
      (backward_upto K input_cis learn_enabled reward mimic
        (step_forward K learn_enabled (step_begin input_cis h)) l) l ∧
    ((backward_upto K input_cis learn_enabled reward mimic
        (step_forward K learn_enabled (step_begin input_cis h)) l).updates.getD l default ≠ 0 →
      pair_in_range (backward_upto K input_cis learn_enabled reward mimic
        (step_forward K learn_enabled (step_begin input_cis h)) l).encoders.length l)

instance (K : Kernels) (h : Hierarchy) (input_cis : List Int_Buffer_View)
    (learn_enabled : Bool) (reward mimic : float) :
    Decidable (step_in_range K h input_cis learn_enabled reward mimic) := by
  unfold step_in_range
  exact inferInstance

/-! ## The indices of `init_random`

For every expression of `init_random` that indexes an array, the condition under which the
index is inside the array, in the state in which the expression is evaluated.  The loops
over `layer_descs` and `io_descs` index these two arguments with a loop variable below
their sizes. -/

/-- Lines 34-36 and 41-49, on the hierarchy `a` whose arrays lines 17-32 have sized: the
index of `ticks_per_update[l]` for every layer `l`, and the indices of `io_descs[i]` and
`io_types[i]` for every `i` below `io_sizes.size()`. -/
def init_counts_in_range (a : Hierarchy) (io_descs : List IO_Desc)
    (layer_descs : List Layer_Desc) : Prop :=
  (∀ l, l < layer_descs.length → l < a.ticks_per_update.length) ∧
  (∀ i, i < a.io_sizes.length → i < io_descs.length ∧ i < a.io_types.length)

instance (a : Hierarchy) (io_descs : List IO_Desc) (layer_descs : List Layer_Desc) :
    Decidable (init_counts_in_range a io_descs layer_descs) := by
  unfold init_counts_in_range
  exact inferInstance

/-- Lines 58-67: the index of `io_descs[i]` and the index
`t + layer_descs[l].temporal_horizon * i` of `e_visible_layer_descs`, an array of
`io_sizes.size() * temporal_horizon` places. -/
def e_descs_in_range (io_sizes : List Int3) (io_descs : List IO_Desc)
    (temporal_horizon : Int) : Prop :=
  ∀ i, i < io_sizes.length → i < io_descs.length ∧
    ∀ t, t < temporal_horizon.toNat →
      In_range (Array_resize ([] : List Encoder.Visible_Layer_Desc)
        ((io_sizes.length : Int) * temporal_horizon))
        ((t : Int) + temporal_horizon * (i : Int))

instance (io_sizes : List Int3) (io_descs : List IO_Desc) (temporal_horizon : Int) :
    Decidable (e_descs_in_range io_sizes io_descs temporal_horizon) := by
  unfold e_descs_in_range
  exact inferInstance

/-- Lines 70-79, in the state `h` in which the iteration for layer `l == 0` starts: the
index of `histories[l]` and, `histories[l]` having been resized to one ring per channel,
the index of `io_sizes[i]` and the access `histories[l][i][t]` to every slot of the
resized ring. -/
def init_histories_first_in_range (temporal_horizon : Int) (h : Hierarchy) (l : Nat) : Prop :=
  l < h.histories.length ∧
  ∀ i, i < (Array_resize (h.histories.getD l default) h.io_sizes.length).length →
    i < h.io_sizes.length ∧
    ∀ t, t < (((Array_resize (h.histories.getD l default) h.io_sizes.length).getD i
        default).resize temporal_horizon).data.length →
      Ring_in_range (((Array_resize (h.histories.getD l default) h.io_sizes.length).getD i
        default).resize temporal_horizon) (t : Int)

instance (temporal_horizon : Int) (h : Hierarchy) (l : Nat) :
    Decidable (init_histories_first_in_range temporal_horizon h l) := by
  unfold init_histories_first_in_range
  exact inferInstance

/-- Lines 91-105, the iteration for channel `i` in the state `s` of the loop: the index of
`io_descs[i]` and, for a prediction channel, the indices of the local descriptor array, of
`decoders[l]`, `decoders[l][d_index]`, `io_sizes[i]`, `i_indices[d_index]` and
`d_indices[i]`. -/
def init_decoder_in_range (io_descs : List IO_Desc) (l : Nat) (s : Init_Index) (i : Nat) :
    Prop :=
  i < io_descs.length ∧
  ((io_descs.getD i default).type = IO_Type.prediction →
    pair_in_range s.hier.encoders.length l ∧
    l < s.hier.decoders.length ∧ s.d_index < (s.hier.decoders.getD l default).length ∧
    i < s.hier.io_sizes.length ∧
    s.d_index < s.hier.i_indices.length ∧ i < s.hier.d_indices.length)

instance (io_descs : List IO_Desc) (l : Nat) (s : Init_Index) (i : Nat) :
    Decidable (init_decoder_in_range io_descs l s i) := by
  unfold init_decoder_in_range
  exact inferInstance

/-- Lines 112-126, the iteration for channel `i` in the state `s` of the loop: the index
of `io_descs[i]` and, for an action channel, the indices of the local descriptor array, of
`actors[d_index]`, `io_sizes[i]`, `i_indices[io_sizes.size() + d_index]` and
`d_indices[i]`. -/
def init_actor_in_range (io_descs : List IO_Desc) (l : Nat) (s : Init_Index) (i : Nat) :
    Prop :=
  i < io_descs.length ∧
  ((io_descs.getD i default).type = IO_Type.action →
    pair_in_range s.hier.encoders.length l ∧
    s.d_index < s.hier.actors.length ∧ i < s.hier.io_sizes.length ∧
    In_range s.hier.i_indices ((s.hier.io_sizes.length : Int) + (s.d_index : Int)) ∧
    i < s.hier.d_indices.length)

instance (io_descs : List IO_Desc) (l : Nat) (s : Init_Index) (i : Nat) :
    Decidable (init_actor_in_range io_descs l s i) := by
  unfold init_actor_in_range
  exact inferInstance

/-- Lines 57-129, the branch `l == 0` in the state `h` in which the iteration starts:
the indices of lines 58-67 and 70-79, the index of `decoders[l]` at line 81, and every
iteration of the two loops over the channels in the state in which the loop reaches the
channel. -/
def init_first_in_range (K : Kernels) (io_descs : List IO_Desc)
    (layer_descs : List Layer_Desc) (num_predictions num_actions : Int) (h : Hierarchy)
    (l : Nat) : Prop :=
  e_descs_in_range h.io_sizes io_descs (layer_descs.getD l default).temporal_horizon ∧
  init_histories_first_in_range (layer_descs.getD l default).temporal_horizon h l ∧
  l < (init_histories_first (layer_descs.getD l default).temporal_horizon h l).decoders.length ∧
  (∀ i, i < (init_slots_first num_predictions num_actions
      (init_histories_first (layer_descs.getD l default).temporal_horizon h l) l
      ).io_sizes.length →
    init_decoder_in_range io_descs l
      ((List.range i).foldl (init_decoder_first K io_descs layer_descs l)
        { hier := init_slots_first num_predictions num_actions
            (init_histories_first (layer_descs.getD l default).temporal_horizon h l) l,
          d_index := 0 }) i) ∧
  ∀ i, i < (init_decoders_first K io_descs layer_descs
      (init_slots_first num_predictions num_actions
        (init_histories_first (layer_descs.getD l default).temporal_horizon h l) l) l
      ).io_sizes.length →
    init_actor_in_range io_descs l
      ((List.range i).foldl (init_actor_first K io_descs layer_descs l)
        { hier := init_decoders_first K io_descs layer_descs
            (init_slots_first num_predictions num_actions
              (init_histories_first (layer_descs.getD l default).temporal_horizon h l) l) l,
          d_index := 0 }) i

instance (K : Kernels) (io_descs : List IO_Desc) (layer_descs : List Layer_Desc)
    (num_predictions num_actions : Int) (h : Hierarchy) (l : Nat) :
    Decidable (init_first_in_range K io_descs layer_descs num_predictions num_actions h l) := by
  unfold init_first_in_range
  exact inferInstance

/-- Lines 130-161, the branch `l != 0` in the state `h` in which the iteration starts: the
index `t` of `e_visible_layer_descs`, an array of `temporal_horizon` places, and the index
of `layer_descs[l - 1]`; the indices of `histories[l]`, of `histories[l][0]` after the
resize to one ring, and the access `histories[l][0][t]` to every slot of the resized ring;
the index of `decoders[l]` and the indices of the local descriptor array.  The loop of
lines 159-160 indexes `decoders[l]` with a loop variable below its size. -/
def init_next_in_range (layer_descs : List Layer_Desc) (h : Hierarchy) (l : Nat) : Prop :=
  (∀ t, t < (layer_descs.getD l default).temporal_horizon.toNat →
    t < (Array_resize ([] : List Encoder.Visible_Layer_Desc)
      (layer_descs.getD l default).temporal_horizon).length) ∧
  In_range layer_descs ((l : Int) - 1) ∧
  l < h.histories.length ∧
  0 < (Array_resize (h.histories.getD l default) 1).length ∧
  (∀ t, t < (((Array_resize (h.histories.getD l default) 1).getD 0 default).resize
      (layer_descs.getD l default).temporal_horizon).data.length →
    Ring_in_range (((Array_resize (h.histories.getD l default) 1).getD 0 default).resize
      (layer_descs.getD l default).temporal_horizon) (t : Int)) ∧
  l < h.decoders.length ∧ pair_in_range h.encoders.length l

instance (layer_descs : List Layer_Desc) (h : Hierarchy) (l : Nat) :
    Decidable (init_next_in_range layer_descs h l) := by
  unfold init_next_in_range
  exact inferInstance

/-- Lines 52-165, the iteration for layer `l` in the state `h` in which the loop over the
layers reaches it: the indices of the branch taken, and the index of `encoders[l]` at
line 164. -/
def init_layer_in_range (K : Kernels) (io_descs : List IO_Desc)
    (layer_descs : List Layer_Desc) (num_predictions num_actions : Int) (h : Hierarchy)
    (l : Nat) : Prop :=
  (if l = 0 then
      init_first_in_range K io_descs layer_descs num_predictions num_actions h l
    else init_next_in_range layer_descs h l) ∧
  l < h.encoders.length

instance (K : Kernels) (io_descs : List IO_Desc) (layer_descs : List Layer_Desc)
    (num_predictions num_actions : Int) (h : Hierarchy) (l : Nat) :
    Decidable (init_layer_in_range K io_descs layer_descs num_predictions num_actions h l) := by
  unfold init_layer_in_range
  exact inferInstance

/-- Every index that `init_random`, called on a default-constructed object, uses is inside
its array: lines 34-49 on the arrays that lines 17-32 have sized, and every iteration of
the loop over the layers in the state in which the loop reaches the layer. -/
def init_in_range (K : Kernels) (io_descs : List IO_Desc) (layer_descs : List Layer_Desc) :
    Prop :=
  init_counts_in_range (init_arrays default io_descs layer_descs) io_descs layer_descs ∧
  ∀ l, l < layer_descs.length →
    init_layer_in_range K io_descs layer_descs (num_channels io_descs IO_Type.prediction)
      (num_channels io_descs IO_Type.action) (init_upto K io_descs layer_descs l) l

instance (K : Kernels) (io_descs : List IO_Desc) (layer_descs : List Layer_Desc) :
    Decidable (init_in_range K io_descs layer_descs) := by
  unfold init_in_range
  exact inferInstance

/-- The channels of `test1.cpp`: a prediction channel of size `(1, 4, 32)` and an action
channel of size `(1, 1, 2)`, the other members as the constructor of `IO_Desc` sets
them. -/
def test_io_descs : List IO_Desc :=
  [⟨⟨1, 4, 32⟩, IO_Type.prediction, 2, 2, 256⟩, ⟨⟨1, 1, 2⟩, IO_Type.action, 2, 2, 256⟩]

/-- The layers of `test1.cpp`: two default-constructed descriptors. -/
def test_layer_descs : List Layer_Desc := [default, default]

/-- The inputs of `test1.cpp`: four column indices for the first channel, and for the
second what `get_prediction_cis(1)` returns on the new hierarchy. -/
def test_inputs : List Int_Buffer_View :=
  [[20, 21, 22, 23],
    get_prediction_cis (Hierarchy.create sample_kernels test_io_descs test_layer_descs) 1]

/-! ## Sequences of calls and assignments to `params`

`params` is a public member of `Hierarchy` (`hierarchy.h`): between two calls the owner of
a hierarchy may assign it.  `step` asserts that it still has one entry per layer and one
per channel. -/

/-- One use of a hierarchy by its owner: a call of `step` or of `clear_state`, or an
assignment to the public member `params`. -/
inductive Use where
  | call (c : Call)
  | set_params (p : Params)
deriving DecidableEq, Repr

/-- The hierarchy after one use. -/
def Use.apply (K : Kernels) (h : Hierarchy) : Use → Hierarchy
  | Use.call c => Call.apply K h c
  | Use.set_params p => { h with params := p }

/-- The hierarchy after a sequence of uses, the first of the list first. -/
def run_uses (K : Kernels) (h : Hierarchy) (uses : List Use) : Hierarchy :=
  uses.foldl (Use.apply K) h

/-- An assignment to `params` keeps the sizes that the two assertions of `step` ask for:
`num_layers` entries in `params.layers` and `num_ios` entries in `params.ios`. -/
def Use.fits (num_layers num_ios : Nat) : Use → Bool
  | Use.call _ => true
  | Use.set_params p => p.layers.length == num_layers && p.ios.length == num_ios

/-- Parameters that differ from one layer to the next and from one channel to the next,
for the three layers and the four channels of the sample hierarchy. -/
def sample_params : Params :=
  ⟨[⟨⟨10, 11, 12⟩, ⟨13, 14, 15⟩⟩, ⟨⟨20, 21, 22⟩, ⟨23, 24, 25⟩⟩, ⟨⟨30, 31, 32⟩, ⟨33, 34, 35⟩⟩],
   [⟨⟨100, 101, 102⟩, ⟨103, 104, 105, 1, 1⟩, 106⟩,
    ⟨⟨110, 111, 112⟩, ⟨113, 114, 115, 2, 2⟩, 116⟩,
    ⟨⟨120, 121, 122⟩, ⟨123, 124, 125, 3, 3⟩, 126⟩,
    ⟨⟨130, 131, 132⟩, ⟨133, 134, 135, 4, 4⟩, 136⟩]⟩

/-- A step, an assignment of `sample_params` and `clear_state`, on the sample
hierarchy. -/
def sample_uses : List Use :=
  [Use.call (Call.step (sample_inputs 0) true 0 0), Use.set_params sample_params,
    Use.call Call.clear_state]

/-! # Properties -/

/-! ## Facts about arrays -/

theorem getD_set {α : Type} (xs : List α) (i j : Nat) (v d : α) :
    (xs.set i v).getD j d = if i = j ∧ i < xs.length then v else xs.getD j d := by
  simp only [List.getD_eq_getElem?_getD, List.getElem?_set]
  by_cases h : i = j
  · subst h
    by_cases h2 : i < xs.length
    · simp [h2]
    · simp [h2, List.getElem?_eq_none (Nat.le_of_not_lt h2)]
  · simp [h]

theorem getD_Array_update {α : Type} [Inhabited α] (xs : List α) (i j : Nat) (f : α → α)
    (d : α) :
    (Array_update xs i f).getD j d =
      if i = j ∧ i < xs.length then f (xs.getD i default) else xs.getD j d := by
  unfold Array_update
  exact getD_set xs i j _ d

@[simp] theorem length_Array_update {α : Type} [Inhabited α] (xs : List α) (i : Nat)
    (f : α → α) : (Array_update xs i f).length = xs.length := by
  simp [Array_update]

@[simp] theorem length_Array_fill {α : Type} (xs : List α) (v : α) :
    (Array_fill xs v).length = xs.length := by
  simp [Array_fill]

theorem getD_Array_fill {α : Type} (xs : List α) (v : α) (j : Nat) (hj : j < xs.length) (d : α) :
    (Array_fill xs v).getD j d = v := by
  simp [Array_fill, List.getD_eq_getElem?_getD, hj]

/-! ## The schedule of the ascending loop -/

theorem forward_layer_frame (K : Kernels) (le : Bool) (h : Hierarchy) (l : Nat) :
    (forward_layer K le h l).ticks_per_update = h.ticks_per_update ∧
    (forward_layer K le h l).encoders.length = h.encoders.length ∧
    (forward_layer K le h l).ticks.length = h.ticks.length ∧
    (forward_layer K le h l).updates.length = h.updates.length := by
  simp only [forward_layer]
  split_ifs <;> simp

theorem has_layer_above_iff (n l : Nat) : has_layer_above n l = true ↔ l + 1 < n := by
  simp [has_layer_above]; omega

theorem getD_set_zero (xs : List Int) (l : Nat) : (xs.set l 0).getD l 0 = 0 := by
  rw [getD_set]
  split_ifs with h
  · rfl
  · have : ¬ l < xs.length := fun hh => h ⟨rfl, hh⟩
    simp [List.getD_eq_getElem?_getD, List.getElem?_eq_none (Nat.le_of_not_lt this)]

theorem forward_layer_ticks (K : Kernels) (le : Bool) (h : Hierarchy) (l j : Nat)
    (hlen : h.ticks.length = h.encoders.length) :
    (forward_layer K le h l).ticks.getD j 0 =
      if is_time_to_tick h l then
        (if j = l then 0
         else if j = l + 1 ∧ l + 1 < h.encoders.length then h.ticks.getD j 0 + 1
         else h.ticks.getD j 0)
      else h.ticks.getD j 0 := by
  simp only [forward_layer]
  by_cases ht : is_time_to_tick h l
  · simp only [ht, if_true]
    by_cases ha : has_layer_above h.encoders.length l
    · have ha' : l + 1 < h.encoders.length := (has_layer_above_iff _ _).1 ha
      simp only [length_Array_update, ha, if_true, getD_Array_update, List.length_set]
      by_cases h1 : j = l
      · subst h1
        have : ¬ (j + 1 = j ∧ j + 1 < h.ticks.length) := by omega
        rw [if_neg this, if_pos rfl]
        exact getD_set_zero _ _
      · rw [if_neg h1]
        by_cases h2 : j = l + 1
        · subst h2
          have hl : l + 1 < h.ticks.length := by omega
          rw [if_pos ⟨rfl, hl⟩, if_pos ⟨rfl, ha'⟩, getD_set]
          have : ¬ (l = l + 1 ∧ l < h.ticks.length) := by omega
          rw [if_neg this]
          rfl
        · have e1 : ¬ (l + 1 = j ∧ l + 1 < h.ticks.length) := by omega
          have e2 : ¬ (j = l + 1 ∧ l + 1 < h.encoders.length) := by omega
          have e3 : ¬ (l = j ∧ l < h.ticks.length) := by omega
          rw [if_neg e1, if_neg e2, getD_set, if_neg e3]
    · have ha' : ¬ l + 1 < h.encoders.length := fun hh => ha ((has_layer_above_iff _ _).2 hh)
      simp only [length_Array_update, ha]
      by_cases h1 : j = l
      · subst h1
        rw [if_pos rfl]
        exact getD_set_zero _ _
      · have e2 : ¬ (j = l + 1 ∧ l + 1 < h.encoders.length) := by omega
        have e3 : ¬ (l = j ∧ l < h.ticks.length) := by omega
        rw [if_neg h1, if_neg e2]
        simp only [Bool.false_eq_true, if_false]
        rw [getD_set, if_neg e3]
  · simp [ht]

theorem forward_layer_updates (K : Kernels) (le : Bool) (h : Hierarchy) (l j : Nat) :
    (forward_layer K le h l).updates.getD j 0 =
      if is_time_to_tick h l = true ∧ j = l ∧ l < h.updates.length then 1
      else h.updates.getD j 0 := by
  simp only [forward_layer]
  by_cases ht : is_time_to_tick h l
  · simp only [ht, if_true, true_and]
    have key : (h.updates.set l 1).getD j 0 =
        if j = l ∧ l < h.updates.length then 1 else h.updates.getD j 0 := by
      rw [getD_set]
      by_cases h1 : j = l
      · subst h1; simp
      · have e1 : ¬ (l = j ∧ l < h.updates.length) := by omega
        have e2 : ¬ (j = l ∧ l < h.updates.length) := by omega
        rw [if_neg e1, if_neg e2]
    by_cases ha : has_layer_above h.encoders.length l
    · simp only [length_Array_update, ha, if_true]
      exact key
    · simp only [length_Array_update, ha]
      exact key
  · simp [ht]

theorem updated_at_eq (tpu ticks : List Int) (k : Nat) :
    updated_at tpu ticks k = (k == 0 || decide (reach_tick tpu ticks k ≥ tpu.getD k 0)) := by
  cases k with
  | zero => simp [updated_at]
  | succ m => simp [updated_at, reach_tick]

theorem forward_upto_succ (K : Kernels) (le : Bool) (h : Hierarchy) (k : Nat) :
    forward_upto K le h (k + 1) = forward_layer K le (forward_upto K le h k) k := by
  simp [forward_upto, List.range_succ, List.foldl_append]

theorem forward_upto_frame (K : Kernels) (le : Bool) (h : Hierarchy) (k : Nat) :
    (forward_upto K le h k).ticks_per_update = h.ticks_per_update ∧
    (forward_upto K le h k).encoders.length = h.encoders.length ∧
    (forward_upto K le h k).ticks.length = h.ticks.length ∧
    (forward_upto K le h k).updates.length = h.updates.length := by
  induction k with
  | zero => simp [forward_upto]
  | succ k ih =>
    rw [forward_upto_succ]
    obtain ⟨a, b, c, d⟩ := forward_layer_frame K le (forward_upto K le h k) k
    obtain ⟨a', b', c', d'⟩ := ih
    exact ⟨a.trans a', b.trans b', c.trans c', d.trans d'⟩

/-- The state of the ascending loop when it reaches layer `k`, at layer `j`: the
counters and flags of the layers below `k` are final, the counter of layer `k` has
received its increment, the layers above `k` are as they were. -/
theorem forward_upto_spec (K : Kernels) (le : Bool) (h : Hierarchy)
    (hlen : h.ticks.length = h.encoders.length)
    (hlen2 : h.updates.length = h.encoders.length) (k : Nat) (hk : k ≤ h.encoders.length)
    (j : Nat) (hj : j < h.encoders.length) :
    (forward_upto K le h k).ticks.getD j 0 =
      (if j < k then
        (if updated_at h.ticks_per_update h.ticks j then 0
         else reach_tick h.ticks_per_update h.ticks j)
       else if j = k then reach_tick h.ticks_per_update h.ticks j
       else h.ticks.getD j 0) ∧
    (forward_upto K le h k).updates.getD j 0 =
      (if j < k ∧ updated_at h.ticks_per_update h.ticks j = true then 1
       else h.updates.getD j 0) := by
  induction k generalizing j with
  | zero =>
    constructor
    · simp only [forward_upto, List.range_zero, List.foldl_nil, Nat.not_lt_zero, if_false]
      split_ifs with h0
      · subst h0; rfl
      · rfl
    · simp [forward_upto]
  | succ k ih =>
    have hk' : k < h.encoders.length := by omega
    obtain ⟨f1, f2, f3, f4⟩ := forward_upto_frame K le h k
    have htime : is_time_to_tick (forward_upto K le h k) k =
        updated_at h.ticks_per_update h.ticks k := by
      rw [updated_at_eq]
      simp only [is_time_to_tick, f1]
      have := (ih (by omega) k hk').1
      simp only [lt_irrefl, if_false, if_true] at this
      have e : (forward_upto K le h k).ticks.getD k default =
          reach_tick h.ticks_per_update h.ticks k := this
      rw [e]
      rfl
    rw [forward_upto_succ]
    constructor
    · rw [forward_layer_ticks K le _ k j (by rw [f3, f2, hlen]), htime, f2]
      have ihj := (ih (by omega) j hj).1
      have ihk := (ih (by omega) k hk').1
      simp only [lt_irrefl, if_false, if_true] at ihk
      by_cases hu : updated_at h.ticks_per_update h.ticks k = true
      · simp only [hu, if_true]
        by_cases h1 : j = k
        · subst h1
          simp [hu]
        · rw [if_neg h1]
          by_cases h2 : j = k + 1
          · subst h2
            have hk2 : k + 1 < h.encoders.length := hj
            rw [if_pos ⟨rfl, hk2⟩, ihj]
            simp [reach_tick, hu]
          · have e2 : ¬ (j = k + 1 ∧ k + 1 < h.encoders.length) := by omega
            rw [if_neg e2, ihj]
            by_cases h3 : j < k
            · have : j < k + 1 := by omega
              simp [h3, this]
            · have : ¬ j < k + 1 := by omega
              simp [h3, this, h1, h2]
      · simp only [hu]
        rw [ihj]
        by_cases h1 : j = k
        · subst h1
          simp [hu]
        · by_cases h2 : j = k + 1
          · subst h2
            simp [reach_tick, hu]
          · by_cases h3 : j < k
            · have : j < k + 1 := by omega
              simp [h3, this]
            · have : ¬ j < k + 1 := by omega
              simp [h3, this, h1, h2]
    · rw [forward_layer_updates, htime, f4, hlen2]
      have ihj := (ih (by omega) j hj).2
      rw [ihj]
      by_cases h1 : j = k
      · subst h1
        by_cases hu : updated_at h.ticks_per_update h.ticks j = true
        · simp [hu, hj]
        · simp [hu]
      · have e1 : ¬ (updated_at h.ticks_per_update h.ticks k = true ∧ j = k ∧
            k < h.encoders.length) := by
          intro hh; exact h1 hh.2.1
        rw [if_neg e1]
        by_cases h3 : j < k
        · have : j < k + 1 := by omega
          simp [h3, this]
        · have : ¬ j < k + 1 := by omega
          simp [h3, this]

/-! ## What the other parts of `step` and `clear_state` leave alone -/

theorem foldl_keeps {σ α β : Type} (P : σ → β) (f : σ → α → σ)
    (hf : ∀ s a, P (f s a) = P s) (xs : List α) (s : σ) : P (xs.foldl f s) = P s := by
  induction xs generalizing s with
  | nil => rfl
  | cons a xs ih => simp only [List.foldl_cons]; rw [ih, hf]

theorem sched_set_input_importance (h : Hierarchy) (i : Nat) (imp : float) :
    sched (set_input_importance h i imp) = sched h := by
  unfold set_input_importance
  exact foldl_keeps sched _ (fun s a => by simp [sched]) _ _

theorem sched_step_importances (h : Hierarchy) : sched (step_importances h) = sched h := by
  unfold step_importances
  exact foldl_keeps sched _ (fun s a => sched_set_input_importance _ _ _) _ _

theorem sched_step_inputs (input_cis : List Int_Buffer_View) (h : Hierarchy) :
    sched (step_inputs input_cis h) = sched h := by
  unfold step_inputs
  exact foldl_keeps sched _ (fun s a => by simp [sched]) _ _

theorem sched_step_begin (input_cis : List Int_Buffer_View) (h : Hierarchy) :
    sched (step_begin input_cis h) =
      (h.ticks.set 0 0, Array_fill h.updates 0, h.ticks_per_update, h.encoders.length) := by
  have h1 := sched_step_importances h
  have h2 := sched_step_inputs input_cis { step_importances h with
    ticks := (step_importances h).ticks.set 0 0 }
  simp only [sched, Prod.mk.injEq] at h1 h2 ⊢
  simp only [step_begin]
  obtain ⟨a1, a2, a3, a4⟩ := h1
  obtain ⟨b1, b2, b3, b4⟩ := h2
  refine ⟨?_, ?_, ?_, ?_⟩
  · rw [b1, a1]
  · rw [b2, a2]
  · rw [b3, a3]
  · rw [b4, a4]

theorem sched_backward_layer (K : Kernels) (input_cis : List Int_Buffer_View) (le : Bool)
    (reward mimic : float) (h : Hierarchy) (l : Nat) :
    sched (backward_layer K input_cis le reward mimic h l) = sched h := by
  have hd : ∀ (v : List Int_Buffer_View) (n : Nat) (s : Hierarchy),
      sched ((List.range n).foldl (backward_decoder K le l v) s) = sched s := fun v n s =>
    foldl_keeps sched _ (fun s a => by simp [sched, backward_decoder]) _ _
  have ha : ∀ (v : List Int_Buffer_View) (n : Nat) (s : Hierarchy),
      sched ((List.range n).foldl (backward_actor K input_cis le reward mimic v) s) = sched s :=
    fun v n s => foldl_keeps sched _ (fun s a => by simp [sched, backward_actor]) _ _
  simp only [backward_layer]
  split_ifs
  · rw [ha, hd]
  · rw [hd]
  · rfl

theorem sched_step_backward (K : Kernels) (input_cis : List Int_Buffer_View) (le : Bool)
    (reward mimic : float) (h : Hierarchy) :
    sched (step_backward K input_cis le reward mimic h) = sched h := by
  unfold step_backward
  exact foldl_keeps sched _ (fun s a => sched_backward_layer _ _ _ _ _ _ _) _ _

theorem sched_clear_state (K : Kernels) (h : Hierarchy) :
    sched (clear_state K h) =
      (Array_fill h.ticks 0, Array_fill h.updates 0, h.ticks_per_update, h.encoders.length) := by
  have hh : ∀ s : Hierarchy, sched (clear_histories s) = sched s := fun s => by
    unfold clear_histories
    exact foldl_keeps sched _ (fun s a =>
      foldl_keeps sched _ (fun s a =>
        foldl_keeps sched _ (fun s a => by simp [sched]) _ _) _ _) _ _
  have he : ∀ (n : Nat) (s : Hierarchy), sched ((List.range n).foldl
      (fun (h : Hierarchy) (l : Nat) =>
        { h with encoders := Array_update h.encoders l K.enc_clear_state }) s) = sched s :=
    fun n s => foldl_keeps sched _ (fun s a => by simp [sched]) _ _
  have hd : ∀ (n : Nat) (s : Hierarchy), sched ((List.range n).foldl
      (fun (h : Hierarchy) (l : Nat) =>
        (List.range (h.decoders.getD l default).length).foldl (fun (h : Hierarchy) (d : Nat) =>
          { h with decoders := Array_update h.decoders l (fun ds =>
              Array_update ds d K.dec_clear_state) }) h) s) = sched s :=
    fun n s => foldl_keeps sched _ (fun s a =>
      foldl_keeps sched _ (fun s a => by simp [sched]) _ _) _ _
  have ha : ∀ (n : Nat) (s : Hierarchy), sched ((List.range n).foldl
      (fun (h : Hierarchy) (d : Nat) =>
        { h with actors := Array_update h.actors d K.act_clear_state }) s) = sched s :=
    fun n s => foldl_keeps sched _ (fun s a => by simp [sched]) _ _
  simp only [clear_state]
  rw [ha, hd, he, hh]
  rfl

theorem updated_at_congr (tpu ticks ticks' : List Int)
    (hc : ∀ l, ticks.getD (l + 1) 0 = ticks'.getD (l + 1) 0) (j : Nat) :
    updated_at tpu ticks j = updated_at tpu ticks' j := by
  induction j with
  | zero => rfl
  | succ j ih => simp only [updated_at, ih, hc]

theorem reach_tick_congr (tpu ticks ticks' : List Int)
    (hc : ∀ l, ticks.getD (l + 1) 0 = ticks'.getD (l + 1) 0) (j : Nat) :
    reach_tick tpu ticks (j + 1) = reach_tick tpu ticks' (j + 1) := by
  simp only [reach_tick, updated_at_congr tpu ticks ticks' hc, hc]

theorem getD_set_zero_succ (ticks : List Int) (l : Nat) :
    (ticks.set 0 0).getD (l + 1) 0 = ticks.getD (l + 1) 0 := by
  rw [getD_set]
  have : ¬ (0 = l + 1 ∧ 0 < ticks.length) := by omega
  rw [if_neg this]

theorem step_forward_eq (K : Kernels) (le : Bool) (h : Hierarchy) :
    step_forward K le h = forward_upto K le h h.encoders.length := rfl

/-- The counters and flags after `step`, read off the counters before it. -/
theorem step_sched (K : Kernels) (h : Hierarchy) (input_cis : List Int_Buffer_View)
    (le : Bool) (reward mimic : float)
    (hlen : h.ticks.length = h.encoders.length)
    (hlen2 : h.updates.length = h.encoders.length) :
    (step K h input_cis le reward mimic).ticks_per_update = h.ticks_per_update ∧
    (step K h input_cis le reward mimic).encoders.length = h.encoders.length ∧
    (step K h input_cis le reward mimic).ticks.length = h.encoders.length ∧
    (step K h input_cis le reward mimic).updates.length = h.encoders.length ∧
    ∀ j, j < h.encoders.length →
      (step K h input_cis le reward mimic).ticks.getD j 0 =
        (if updated_at h.ticks_per_update h.ticks j then 0
         else reach_tick h.ticks_per_update h.ticks j) ∧
      (step K h input_cis le reward mimic).updates.getD j 0 =
        (if updated_at h.ticks_per_update h.ticks j then 1 else 0) := by
  have hb := sched_step_begin input_cis h
  have hback := sched_step_backward K input_cis le reward mimic
    (step_forward K le (step_begin input_cis h))
  simp only [sched, Prod.mk.injEq] at hb hback
  obtain ⟨b1, b2, b3, b4⟩ := hb
  obtain ⟨k1, k2, k3, k4⟩ := hback
  obtain ⟨f1, f2, f3, f4⟩ := forward_upto_frame K le (step_begin input_cis h)
    (step_begin input_cis h).encoders.length
  have e : step K h input_cis le reward mimic =
    step_backward K input_cis le reward mimic (step_forward K le (step_begin input_cis h)) := rfl
  rw [e, k1, k2, k3, k4, step_forward_eq]
  refine ⟨by rw [f1, b3], by rw [f2, b4], by rw [f3, b1]; simpa using hlen,
    by rw [f4, b2]; simpa using hlen2, ?_⟩
  intro j hj
  have hlb : (step_begin input_cis h).ticks.length = (step_begin input_cis h).encoders.length := by
    rw [b1, b4]; simpa using hlen
  have hlb2 : (step_begin input_cis h).updates.length =
      (step_begin input_cis h).encoders.length := by
    rw [b2, b4]; simpa using hlen2
  obtain ⟨s1, s2⟩ := forward_upto_spec K le (step_begin input_cis h) hlb hlb2
    (step_begin input_cis h).encoders.length (le_refl _) j (by rw [b4]; exact hj)
  have hj' : j < (step_begin input_cis h).encoders.length := by rw [b4]; exact hj
  rw [if_pos hj'] at s1
  rw [b3, b1] at s1 s2
  rw [b2] at s2
  have hu : updated_at h.ticks_per_update (h.ticks.set 0 0) j =
      updated_at h.ticks_per_update h.ticks j :=
    updated_at_congr _ _ _ (getD_set_zero_succ h.ticks) j
  rw [hu] at s1 s2
  constructor
  · rw [s1]
    cases j with
    | zero => simp [updated_at]
    | succ j =>
      rw [reach_tick_congr _ _ _ (getD_set_zero_succ h.ticks) j]
  · rw [s2]
    have : (Array_fill h.updates 0).getD j 0 = 0 :=
      getD_Array_fill _ _ _ (by rw [hlen2]; exact hj) _
    rw [this]
    by_cases hh : updated_at h.ticks_per_update h.ticks j = true
    · simp [hh, hj']
    · simp [hh]

/-! ## What `init_random` builds: the per-layer counters -/

theorem foldl_proj {σ τ α : Type} (P : σ → τ) (g : σ → α → σ) (g' : τ → α → τ)
    (hg : ∀ s a, P (g s a) = g' (P s) a) (xs : List α) (s : σ) :
    P (xs.foldl g s) = xs.foldl g' (P s) := by
  induction xs generalizing s with
  | nil => rfl
  | cons a xs ih => simp only [List.foldl_cons]; rw [ih, hg]

/-- A loop that assigns `xs[l] = f l` for `l < n` leaves the array `f 0, ..., f (n-1)`
followed by the old elements from `n` on. -/
theorem foldl_set_range {α : Type} (f : Nat → α) (n : Nat) (xs : List α)
    (hn : n ≤ xs.length) :
    (List.range n).foldl (fun (ys : List α) (l : Nat) => ys.set l (f l)) xs =
      (List.range n).map f ++ xs.drop n := by
  induction n with
  | zero => simp
  | succ n ih =>
    rw [List.range_succ, List.foldl_append, ih (by omega)]
    simp only [List.foldl_cons, List.foldl_nil, List.map_append, List.map_cons, List.map_nil]
    have hl : ((List.range n).map f).length = n := by simp
    rw [List.set_append_right _ _ (by rw [hl])]
    rw [hl, Nat.sub_self]
    have hlt : n < xs.length := by omega
    rw [List.drop_eq_getElem_cons hlt, List.set_cons_zero]
    simp

@[simp] theorem length_Array_resize_fill {α : Type} (xs : List α) (n : Nat) (v : α) :
    (Array_resize_fill xs (n : Int) v).length = n := by
  simp only [Array_resize_fill, Int.toNat_ofNat, List.length_append, List.length_take,
    List.length_replicate]
  omega

@[simp] theorem length_Array_resize {α : Type} [Inhabited α] (xs : List α) (n : Nat) :
    (Array_resize xs (n : Int)).length = n := by
  simp [Array_resize]

theorem Array_resize_fill_nil {α : Type} (size : Int) (v : α) :
    Array_resize_fill [] size v = List.replicate size.toNat v := by
  simp [Array_resize_fill]

theorem sched_init_decoder_first (K : Kernels) (io_descs : List IO_Desc)
    (layer_descs : List Layer_Desc) (l : Nat) (s : Init_Index) (i : Nat) :
    sched (init_decoder_first K io_descs layer_descs l s i).hier = sched s.hier := by
  simp only [init_decoder_first]
  split_ifs <;> simp [sched]

theorem sched_init_actor_first (K : Kernels) (io_descs : List IO_Desc)
    (layer_descs : List Layer_Desc) (l : Nat) (s : Init_Index) (i : Nat) :
    sched (init_actor_first K io_descs layer_descs l s i).hier = sched s.hier := by
  simp only [init_actor_first]
  split_ifs <;> simp [sched]

theorem sched_init_histories_first (th : Int) (h : Hierarchy) (l : Nat) :
    sched (init_histories_first th h l) = sched h := by
  simp only [init_histories_first]
  rw [foldl_keeps sched _ (fun s a => by simp [sched])]
  rfl

theorem sched_init_slots_first (np na : Int) (h : Hierarchy) (l : Nat) :
    sched (init_slots_first np na h l) = sched h := by
  simp [init_slots_first, sched]

theorem sched_init_decoders_first (K : Kernels) (io_descs : List IO_Desc)
    (layer_descs : List Layer_Desc) (h : Hierarchy) (l : Nat) :
    sched (init_decoders_first K io_descs layer_descs h l) = sched h := by
  simp only [init_decoders_first]
  rw [foldl_keeps (fun s : Init_Index => sched s.hier) _
    (fun s a => sched_init_decoder_first K io_descs layer_descs l s a)]

theorem sched_init_actors_first (K : Kernels) (io_descs : List IO_Desc)
    (layer_descs : List Layer_Desc) (h : Hierarchy) (l : Nat) :
    sched (init_actors_first K io_descs layer_descs h l) = sched h := by
  simp only [init_actors_first]
  rw [foldl_keeps (fun s : Init_Index => sched s.hier) _
    (fun s a => sched_init_actor_first K io_descs layer_descs l s a)]

theorem sched_init_first_layer (K : Kernels) (io_descs : List IO_Desc)
    (layer_descs : List Layer_Desc) (np na : Int) (h : Hierarchy) (l : Nat) :
    sched (init_first_layer K io_descs layer_descs np na h l).1 = sched h := by
  simp only [init_first_layer]
  rw [sched_init_actors_first, sched_init_decoders_first, sched_init_slots_first,
    sched_init_histories_first]

theorem sched_init_next_layer (K : Kernels) (layer_descs : List Layer_Desc) (h : Hierarchy)
    (l : Nat) : sched (init_next_layer K layer_descs h l).1 = sched h := by
  simp only [init_next_layer, init_decoders_next]
  rw [foldl_keeps sched _ (fun s a => by simp [sched])]
  simp [sched, init_histories_next]

theorem sched_init_layer (K : Kernels) (io_descs : List IO_Desc)
    (layer_descs : List Layer_Desc) (np na : Int) (h : Hierarchy) (l : Nat) :
    sched (init_layer K io_descs layer_descs np na h l) = sched h := by
  simp only [init_layer]
  split_ifs
  · rw [← sched_init_first_layer K io_descs layer_descs np na h l]
    simp [sched]
  · rw [← sched_init_next_layer K layer_descs h l]
    simp [sched]

theorem sched_init_io (io_descs : List IO_Desc) (s : Init_Counts) (i : Nat) :
    sched (init_io io_descs s i).hier = sched s.hier := by
  simp only [init_io]
  split_ifs <;> simp [sched]

theorem ticks_per_update_init_ticks_per_update (layer_descs : List Layer_Desc) (h : Hierarchy)
    (hlen : h.ticks_per_update.length = layer_descs.length) :
    (init_ticks_per_update layer_descs h).ticks_per_update =
      (List.range layer_descs.length).map (fun l =>
        if l = 0 then 1 else (layer_descs.getD l default).ticks_per_update) := by
  unfold init_ticks_per_update
  rw [foldl_proj (fun h : Hierarchy => h.ticks_per_update) _
    (fun (ys : List Int) (l : Nat) => ys.set l
      (if l = 0 then 1 else (layer_descs.getD l default).ticks_per_update)) (fun s a => rfl)]
  rw [foldl_set_range _ _ _ (by omega), ← hlen]
  simp

theorem sched_init_ticks_per_update (layer_descs : List Layer_Desc) (h : Hierarchy)
    (hlen : h.ticks_per_update.length = layer_descs.length) :
    sched (init_ticks_per_update layer_descs h) =
      (h.ticks, h.updates, (List.range layer_descs.length).map (fun l =>
        if l = 0 then 1 else (layer_descs.getD l default).ticks_per_update),
        h.encoders.length) := by
  have e := ticks_per_update_init_ticks_per_update layer_descs h hlen
  have f : ((init_ticks_per_update layer_descs h).ticks,
      (init_ticks_per_update layer_descs h).updates,
      (init_ticks_per_update layer_descs h).encoders.length) =
      (h.ticks, h.updates, h.encoders.length) := by
    unfold init_ticks_per_update
    exact foldl_keeps (fun h : Hierarchy => (h.ticks, h.updates, h.encoders.length))
      (fun (h : Hierarchy) (l : Nat) =>
        { h with ticks_per_update := (h.ticks_per_update.set l
          (if l = 0 then 1 else (layer_descs.getD l default).ticks_per_update)) })
      (fun s a => rfl) _ _
  simp only [Prod.mk.injEq] at f
  simp only [sched, e, f.1, f.2.1, f.2.2]

/-- The counters, the flags, the periods and the number of layers after `init_random`
on any object. -/
theorem sched_init_random (K : Kernels) (h : Hierarchy) (io_descs : List IO_Desc)
    (layer_descs : List Layer_Desc) :
    sched (init_random K h io_descs layer_descs) =
      (Array_resize_fill h.ticks layer_descs.length 0,
       Array_resize_fill h.updates layer_descs.length 0,
       (List.range layer_descs.length).map (fun l =>
        if l = 0 then 1 else (layer_descs.getD l default).ticks_per_update),
       layer_descs.length) := by
  simp only [init_random]
  have e : ∀ (x : Hierarchy) (p : Params), sched { x with params := p } = sched x :=
    fun x p => rfl
  rw [e, foldl_keeps sched _ (fun s a => sched_init_layer K io_descs layer_descs _ _ s a)]
  rw [foldl_keeps (fun s : Init_Counts => sched s.hier) _ (fun s a => sched_init_io io_descs s a)]
  simp only []
  rw [sched_init_ticks_per_update _ _ (by simp [init_arrays])]
  simp [init_arrays]

theorem getElem?_eq_some_getD {α : Type} (xs : List α) (j : Nat) (hj : j < xs.length) (d : α) :
    xs[j]? = some (xs.getD j d) := by
  simp [List.getD_eq_getElem?_getD, List.getElem?_eq_getElem hj]

theorem step_ticks_per_update (K : Kernels) (h : Hierarchy) (input_cis : List Int_Buffer_View)
    (le : Bool) (reward mimic : float) :
    (step K h input_cis le reward mimic).ticks_per_update = h.ticks_per_update := by
  have hb := sched_step_begin input_cis h
  have hback := sched_step_backward K input_cis le reward mimic
    (step_forward K le (step_begin input_cis h))
  simp only [sched, Prod.mk.injEq] at hb hback
  have e : step K h input_cis le reward mimic =
    step_backward K input_cis le reward mimic (step_forward K le (step_begin input_cis h)) := rfl
  rw [e, hback.2.2.1, step_forward_eq, (forward_upto_frame K le _ _).1, hb.2.2.1]

theorem clear_state_ticks_per_update (K : Kernels) (h : Hierarchy) :
    (clear_state K h).ticks_per_update = h.ticks_per_update := by
  have := sched_clear_state K h
  simp only [sched, Prod.mk.injEq] at this
  exact this.2.2.1

/-- C4: for every hierarchy with at least one layer (the arrays `ticks` and `updates`
have one entry per layer) and every call to `step`, whatever the state before the call,
the inputs, the learn flag, the reward and the mimic value, after the call `updates[0]`
is true (the byte `1`) and `ticks[0]` is `0`. -/
theorem step_first_layer_always_updated (K : Kernels) (h : Hierarchy)
    (input_cis : List Int_Buffer_View) (learn_enabled : Bool) (reward mimic : float)
    (hn : 0 < h.encoders.length) (hticks : h.ticks.length = h.encoders.length)
    (hupdates : h.updates.length = h.encoders.length) :
    (step K h input_cis learn_enabled reward mimic).updates[0]? = some 1 ∧
    (step K h input_cis learn_enabled reward mimic).ticks[0]? = some 0 := by
  obtain ⟨_, _, l1, l2, hj⟩ := step_sched K h input_cis learn_enabled reward mimic hticks hupdates
  obtain ⟨t, u⟩ := hj 0 hn
  simp only [updated_at, if_true] at t u
  constructor
  · rw [getElem?_eq_some_getD _ 0 (by omega) 0, u]
  · rw [getElem?_eq_some_getD _ 0 (by omega) 0, t]

set_option maxRecDepth 100000 in
theorem step_first_layer_always_updated_witness :
    0 < (Hierarchy.create sample_kernels [default, default] [default, default]).encoders.length ∧
    ((step sample_kernels (Hierarchy.create sample_kernels [default, default] [default, default])
        [[1], [2]] true 0 0).updates[0]? = some 1 ∧
     (step sample_kernels (Hierarchy.create sample_kernels [default, default] [default, default])
        [[1], [2]] true 0 0).ticks[0]? = some 0) :=
  ⟨by decide, step_first_layer_always_updated sample_kernels _ [[1], [2]] true 0 0
    (by decide) (by decide) (by decide)⟩

/-- C5: after `init_random` (on any object) `ticks_per_update` has one entry per layer,
the entry of layer `0` is `1` whatever `layer_descs[0].ticks_per_update` holds and the
entry of a layer `l >= 1` is `layer_descs[l].ticks_per_update`; `step` and `clear_state`
leave `ticks_per_update` as it is. -/
theorem ticks_per_update_fixed_at_init (K : Kernels) (io_descs : List IO_Desc)
    (layer_descs : List Layer_Desc) :
    (∀ h0 : Hierarchy,
      (init_random K h0 io_descs layer_descs).ticks_per_update.length = layer_descs.length ∧
      ∀ l, l < layer_descs.length →
        (init_random K h0 io_descs layer_descs).ticks_per_update[l]? =
          some (if l = 0 then 1 else (layer_descs.getD l default).ticks_per_update)) ∧
    (∀ (h : Hierarchy) (input_cis : List Int_Buffer_View) (learn_enabled : Bool)
      (reward mimic : float),
      (step K h input_cis learn_enabled reward mimic).ticks_per_update = h.ticks_per_update) ∧
    (∀ h : Hierarchy, (clear_state K h).ticks_per_update = h.ticks_per_update) := by
  refine ⟨fun h0 => ?_, fun h input_cis le r m => step_ticks_per_update K h input_cis le r m,
    fun h => clear_state_ticks_per_update K h⟩
  have e := sched_init_random K h0 io_descs layer_descs
  simp only [sched, Prod.mk.injEq] at e
  rw [e.2.2.1]
  refine ⟨by simp, fun l hl => ?_⟩
  simp [List.getElem?_map, List.getElem?_range hl]

theorem In_step_step (K : Kernels) (n : Nat) (tpu : List Int) (h : Hierarchy)
    (hin : In_step n tpu h) (input_cis : List Int_Buffer_View) (le : Bool)
    (reward mimic : float) (htpu : ∀ j, 1 ≤ j → j < n → 1 ≤ tpu.getD j 0) :
    In_step n tpu (step K h input_cis le reward mimic) := by
  obtain ⟨h1, h2, h3, h4, h5⟩ := hin
  obtain ⟨s1, s2, s3, s4, s5⟩ := step_sched K h input_cis le reward mimic
    (by rw [h2, h1]) (by rw [h3, h1])
  refine ⟨by rw [s2, h1], by rw [s3, h1], by rw [s4, h1], by rw [s1, h4], ?_⟩
  intro j hj1 hjn
  obtain ⟨t, _⟩ := s5 j (by rw [h1]; exact hjn)
  rw [t, h4]
  obtain ⟨j', rfl⟩ : ∃ j', j = j' + 1 := ⟨j - 1, by omega⟩
  have hp := htpu (j' + 1) hj1 hjn
  have hq := h5 (j' + 1) hj1 hjn
  by_cases hu : updated_at tpu h.ticks (j' + 1) = true
  · rw [if_pos hu]; omega
  · rw [if_neg hu]
    simp only [updated_at, decide_eq_true_eq, not_le] at hu
    simp only [reach_tick]
    constructor
    · split_ifs <;> omega
    · exact hu

theorem In_step_clear_state (K : Kernels) (n : Nat) (tpu : List Int) (h : Hierarchy)
    (hin : In_step n tpu h) (htpu : ∀ j, 1 ≤ j → j < n → 1 ≤ tpu.getD j 0) :
    In_step n tpu (clear_state K h) := by
  obtain ⟨h1, h2, h3, h4, h5⟩ := hin
  have e := sched_clear_state K h
  simp only [sched, Prod.mk.injEq] at e
  obtain ⟨e1, e2, e3, e4⟩ := e
  refine ⟨by rw [e4, h1], by rw [e1]; simpa using h2, by rw [e2]; simpa using h3,
    by rw [e3, h4], ?_⟩
  intro j hj1 hjn
  rw [e1, getD_Array_fill _ _ _ (by omega)]
  have := htpu j hj1 hjn
  omega

theorem In_step_create (K : Kernels) (io_descs : List IO_Desc) (layer_descs : List Layer_Desc)
    (htpu : ∀ l, 1 ≤ l → l < layer_descs.length →
      1 ≤ (layer_descs.getD l default).ticks_per_update) :
    In_step layer_descs.length (Hierarchy.create K io_descs layer_descs).ticks_per_update
      (Hierarchy.create K io_descs layer_descs) := by
  have e := sched_init_random K default io_descs layer_descs
  simp only [sched, Prod.mk.injEq] at e
  obtain ⟨e1, e2, e3, e4⟩ := e
  unfold Hierarchy.create
  refine ⟨e4, by rw [e1]; simp, by rw [e2]; simp, rfl, ?_⟩
  intro j hj1 hjn
  rw [e1, e3]
  have hd : (default : Hierarchy).ticks = [] := rfl
  rw [hd, Array_resize_fill_nil]
  have := htpu j hj1 hjn
  simp only [Int.toNat_ofNat, List.getD_eq_getElem?_getD, List.getElem?_replicate, hjn,
    if_true, Option.getD_some, List.getElem?_map, List.getElem?_range hjn, Option.map_some']
  have hj0 : j ≠ 0 := by omega
  simp only [hj0, if_false]
  simp only [List.getD_eq_getElem?_getD] at this
  omega

theorem create_ticks_per_update_getD (K : Kernels) (io_descs : List IO_Desc)
    (layer_descs : List Layer_Desc) (l : Nat) (hl : l < layer_descs.length) :
    (Hierarchy.create K io_descs layer_descs).ticks_per_update.getD l 0 =
      if l = 0 then 1 else (layer_descs.getD l default).ticks_per_update := by
  have e := sched_init_random K default io_descs layer_descs
  simp only [sched, Prod.mk.injEq] at e
  unfold Hierarchy.create
  rw [e.2.2.1]
  simp [List.getD_eq_getElem?_getD, List.getElem?_map, List.getElem?_range hl]

theorem In_step_run (K : Kernels) (n : Nat) (tpu : List Int) (calls : List Call) (h : Hierarchy)
    (hin : In_step n tpu h) (htpu : ∀ j, 1 ≤ j → j < n → 1 ≤ tpu.getD j 0) :
    In_step n tpu (run K h calls) := by
  induction calls generalizing h with
  | nil => exact hin
  | cons c cs ih =>
    simp only [run, List.foldl_cons]
    apply ih
    cases c with
    | step input_cis le reward mimic => exact In_step_step K n tpu h hin input_cis le reward mimic htpu
    | clear_state => exact In_step_clear_state K n tpu h hin htpu

/-- C1: for every hierarchy built by `init_random` from descriptors with
`ticks_per_update >= 1` at every layer `l >= 1`, and every sequence of `step` and
`clear_state` calls on it, after each `step` every layer `l >= 1` has
`0 <= ticks[l] <= ticks_per_update[l]`. -/
theorem ticks_bounded_after_step (K : Kernels) (io_descs : List IO_Desc)
    (layer_descs : List Layer_Desc)
    (htpu : ∀ l, 1 ≤ l → l < layer_descs.length →
      1 ≤ (layer_descs.getD l default).ticks_per_update)
    (calls : List Call) (input_cis : List Int_Buffer_View) (learn_enabled : Bool)
    (reward mimic : float) (l : Nat) (hl1 : 1 ≤ l) (hl : l < layer_descs.length) :
    ∃ t p, (step K (run K (Hierarchy.create K io_descs layer_descs) calls)
          input_cis learn_enabled reward mimic).ticks[l]? = some t ∧
      (step K (run K (Hierarchy.create K io_descs layer_descs) calls)
          input_cis learn_enabled reward mimic).ticks_per_update[l]? = some p ∧
      0 ≤ t ∧ t ≤ p := by
  have htpu' : ∀ j, 1 ≤ j → j < layer_descs.length →
      1 ≤ (Hierarchy.create K io_descs layer_descs).ticks_per_update.getD j 0 := by
    intro j hj1 hjn
    rw [create_ticks_per_update_getD K io_descs layer_descs j hjn]
    have : j ≠ 0 := by omega
    simp only [this, if_false]
    exact htpu j hj1 hjn
  have h0 := In_step_create K io_descs layer_descs htpu
  have h1 := In_step_run K _ _ calls _ h0 htpu'
  obtain ⟨a1, a2, a3, a4, a5⟩ := In_step_step K _ _ _ h1 input_cis learn_enabled reward mimic htpu'
  refine ⟨_, _, getElem?_eq_some_getD _ l (by omega) 0, getElem?_eq_some_getD _ l ?_ 0, ?_⟩
  · rw [a4]
    have e := sched_init_random K default io_descs layer_descs
    simp only [sched, Prod.mk.injEq] at e
    unfold Hierarchy.create
    rw [e.2.2.1]
    simpa using hl
  · have := a5 l hl1 hl
    rw [a4]
    omega

/-! ## The arithmetic of the counters -/

theorem succ_mod_cases (q t : Nat) (ht : 1 ≤ t) :
    (q + 1) % t = if q % t + 1 = t then 0 else q % t + 1 := by
  have hlt : q % t < t := Nat.mod_lt _ (by omega)
  rw [Nat.add_mod]
  by_cases h1 : t = 1
  · subst h1; simp [Nat.mod_one]
  · have h1t : 1 % t = 1 := Nat.mod_eq_of_lt (by omega)
    rw [h1t]
    split_ifs with h
    · rw [h, Nat.mod_self]
    · exact Nat.mod_eq_of_lt (by omega)

theorem tick_arith_div (m P : Nat) :
    (m + 1) / P = m / P + if P ∣ m + 1 then 1 else 0 := Nat.succ_div m P

theorem tick_arith_dvd (m P t : Nat) (hP : 1 ≤ P) (ht : 1 ≤ t) :
    (t ≤ (m / P) % t + (if P ∣ m + 1 then 1 else 0)) ↔ P * t ∣ m + 1 := by
  have hlt : (m / P) % t < t := Nat.mod_lt _ (by omega)
  by_cases hd : P ∣ m + 1
  · simp only [hd, if_true]
    obtain ⟨k, hk⟩ := hd
    have hq : m / P + 1 = k := by
      have := tick_arith_div m P
      rw [if_pos ⟨k, hk⟩, hk, Nat.mul_div_cancel_left k (by omega)] at this
      omega
    rw [hk, Nat.mul_dvd_mul_iff_left (by omega), ← hq, Nat.dvd_iff_mod_eq_zero,
      succ_mod_cases _ _ ht]
    split_ifs with h
    · omega
    · simp only [iff_false]; omega
  · simp only [hd, if_false]
    constructor
    · intro h; omega
    · intro h; exact absurd (Dvd.dvd.trans (Dvd.intro _ rfl) h) hd

theorem tick_arith_next (m P t : Nat) (ht : 1 ≤ t) :
    ((m + 1) / P) % t =
      if t ≤ (m / P) % t + (if P ∣ m + 1 then 1 else 0) then 0
      else (m / P) % t + (if P ∣ m + 1 then 1 else 0) := by
  have hlt : (m / P) % t < t := Nat.mod_lt _ (by omega)
  rw [tick_arith_div]
  by_cases hd : P ∣ m + 1
  · simp only [hd, if_true]
    rw [succ_mod_cases _ _ ht]
    split_ifs <;> omega
  · simp only [hd, if_false, Nat.add_zero]
    split_ifs <;> omega

theorem period_nat_pos (n : Nat) (tpu : List Int)
    (htpu : ∀ j, 1 ≤ j → j < n → 1 ≤ tpu.getD j 0) (l : Nat) (hl : l < n) :
    1 ≤ period_nat tpu l := by
  induction l with
  | zero => simp [period_nat]
  | succ l ih =>
    simp only [period_nat]
    have h1 := ih (by omega)
    have h2 := htpu (l + 1) (by omega) hl
    have h3 : 1 ≤ (tpu.getD (l + 1) 0).toNat := by omega
    exact Nat.one_le_iff_ne_zero.2 (Nat.mul_ne_zero (by omega) (by omega))

theorem update_period_eq (n : Nat) (tpu : List Int)
    (htpu : ∀ j, 1 ≤ j → j < n → 1 ≤ tpu.getD j 0) (l : Nat) (hl : l < n) :
    update_period tpu l = (period_nat tpu l : Int) := by
  induction l with
  | zero => simp [period_nat, update_period]
  | succ l ih =>
    simp only [period_nat, update_period, ih (by omega)]
    have h2 := htpu (l + 1) (by omega) hl
    push_cast
    rw [Int.toNat_of_nonneg (by omega)]

theorem updated_at_phase (n : Nat) (tpu : List Int) (m : Nat) (h : Hierarchy)
    (hin : In_phase n tpu m h) (htpu : ∀ j, 1 ≤ j → j < n → 1 ≤ tpu.getD j 0)
    (j : Nat) (hj : j < n) :
    updated_at tpu h.ticks j = decide (period_nat tpu j ∣ m + 1) := by
  obtain ⟨h1, h2, h3, h4, h5⟩ := hin
  induction j with
  | zero => simp [updated_at, period_nat]
  | succ j ih =>
    have hp := period_nat_pos n tpu htpu j (by omega)
    have ht := htpu (j + 1) (by omega) hj
    have ht' : 1 ≤ (tpu.getD (j + 1) 0).toNat := by omega
    have hc : tpu.getD (j + 1) 0 = (((tpu.getD (j + 1) 0).toNat : Nat) : Int) :=
      (Int.toNat_of_nonneg (by omega)).symm
    simp only [updated_at, ih (by omega), h5 j hj, period_nat]
    have key := tick_arith_dvd m (period_nat tpu j) (tpu.getD (j + 1) 0).toNat hp ht'
    apply decide_eq_decide.2
    rw [← key]
    generalize (tpu.getD (j + 1) 0).toNat = t at hc ⊢
    rw [hc]
    by_cases hd : period_nat tpu j ∣ m + 1
    · simp only [hd, decide_True, if_true]
      omega
    · simp only [hd, decide_False, Bool.false_eq_true, if_false]
      omega

theorem In_phase_step (K : Kernels) (n : Nat) (tpu : List Int) (m : Nat) (h : Hierarchy)
    (hin : In_phase n tpu m h) (htpu : ∀ j, 1 ≤ j → j < n → 1 ≤ tpu.getD j 0)
    (input_cis : List Int_Buffer_View) (le : Bool) (reward mimic : float) :
    In_phase n tpu (m + 1) (step K h input_cis le reward mimic) ∧
    ∀ j, j < n → (step K h input_cis le reward mimic).updates.getD j 0 =
      if period_nat tpu j ∣ m + 1 then 1 else 0 := by
  have hup := updated_at_phase n tpu m h hin htpu
  obtain ⟨h1, h2, h3, h4, h5⟩ := hin
  obtain ⟨s1, s2, s3, s4, s5⟩ := step_sched K h input_cis le reward mimic
    (by rw [h2, h1]) (by rw [h3, h1])
  refine ⟨⟨by rw [s2, h1], by rw [s3, h1], by rw [s4, h1], by rw [s1, h4], ?_⟩, ?_⟩
  · intro j hj
    obtain ⟨t, _⟩ := s5 (j + 1) (by rw [h1]; exact hj)
    have ht := htpu (j + 1) (by omega) hj
    have ht' : 1 ≤ (tpu.getD (j + 1) 0).toNat := by omega
    rw [t, h4, hup (j + 1) hj, tick_arith_next m (period_nat tpu j) _ ht']
    have key := tick_arith_dvd m (period_nat tpu j) (tpu.getD (j + 1) 0).toNat
      (period_nat_pos n tpu htpu j (by omega)) ht'
    simp only [period_nat, decide_eq_true_eq]
    by_cases hd : period_nat tpu j * (tpu.getD (j + 1) 0).toNat ∣ m + 1
    · rw [if_pos hd, if_pos (key.2 hd)]; rfl
    · rw [if_neg hd, if_neg (fun hh => hd (key.1 hh))]
      simp only [reach_tick, hup j (by omega), h5 j hj, decide_eq_true_eq]
      split_ifs <;> simp
  · intro j hj
    obtain ⟨_, u⟩ := s5 j (by rw [h1]; exact hj)
    rw [u, h4, hup j hj]
    simp only [decide_eq_true_eq]

theorem In_phase_run (K : Kernels) (n : Nat) (tpu : List Int)
    (htpu : ∀ j, 1 ≤ j → j < n → 1 ≤ tpu.getD j 0) (steps : List Call)
    (hsteps : ∀ c ∈ steps, c ≠ Call.clear_state) (m : Nat) (h : Hierarchy)
    (hin : In_phase n tpu m h) :
    In_phase n tpu (m + steps.length) (run K h steps) ∧
    (steps ≠ [] → ∀ j, j < n → (run K h steps).updates.getD j 0 =
      if period_nat tpu j ∣ m + steps.length then 1 else 0) := by
  induction steps generalizing m h with
  | nil => exact ⟨hin, fun hh => absurd rfl hh⟩
  | cons c cs ih =>
    cases c with
    | clear_state => exact absurd rfl (hsteps Call.clear_state (List.mem_cons_self _ _))
    | step input_cis le reward mimic =>
      obtain ⟨p1, p2⟩ := In_phase_step K n tpu m h hin htpu input_cis le reward mimic
      obtain ⟨q1, q2⟩ := ih (fun c hc => hsteps c (List.mem_cons_of_mem _ hc)) (m + 1) _ p1
      have e : m + (Call.step input_cis le reward mimic :: cs).length = m + 1 + cs.length := by
        simp only [List.length_cons]; omega
      have er : run K h (Call.step input_cis le reward mimic :: cs) =
          run K (step K h input_cis le reward mimic) cs := rfl
      rw [e, er]
      refine ⟨q1, fun _ => ?_⟩
      by_cases hcs : cs = []
      · subst hcs
        exact p2
      · exact q2 hcs

theorem In_phase_zero (n : Nat) (tpu : List Int) (h : Hierarchy)
    (h1 : h.encoders.length = n) (h2 : h.ticks.length = n) (h3 : h.updates.length = n)
    (h4 : h.ticks_per_update = tpu) (h5 : ∀ j, j < n → h.ticks.getD j 0 = 0) :
    In_phase n tpu 0 h := by
  refine ⟨h1, h2, h3, h4, fun j hj => ?_⟩
  rw [h5 (j + 1) hj]
  simp

theorem In_phase_create (K : Kernels) (io_descs : List IO_Desc)
    (layer_descs : List Layer_Desc) :
    In_phase layer_descs.length (Hierarchy.create K io_descs layer_descs).ticks_per_update 0
      (Hierarchy.create K io_descs layer_descs) := by
  have e := sched_init_random K default io_descs layer_descs
  simp only [sched, Prod.mk.injEq] at e
  obtain ⟨e1, e2, e3, e4⟩ := e
  unfold Hierarchy.create
  refine In_phase_zero _ _ _ e4 (by rw [e1]; simp) (by rw [e2]; simp) rfl ?_
  intro j hj
  rw [e1]
  have hd : (default : Hierarchy).ticks = [] := rfl
  rw [hd, Array_resize_fill_nil]
  simp [List.getD_eq_getElem?_getD, List.getElem?_replicate, hj]

theorem In_phase_clear_state (K : Kernels) (n : Nat) (tpu : List Int) (h : Hierarchy)
    (hin : In_step n tpu h) : In_phase n tpu 0 (clear_state K h) := by
  obtain ⟨h1, h2, h3, h4, _⟩ := hin
  have e := sched_clear_state K h
  simp only [sched, Prod.mk.injEq] at e
  obtain ⟨e1, e2, e3, e4⟩ := e
  refine In_phase_zero _ _ _ (by rw [e4, h1]) (by rw [e1]; simpa using h2)
    (by rw [e2]; simpa using h3) (by rw [e3, h4]) ?_
  intro j hj
  rw [e1, getD_Array_fill _ _ _ (by omega)]

/-- C3: start from a freshly initialised hierarchy, or from one that has just been
cleared, whose descriptors have `ticks_per_update >= 1` at every layer `k >= 1`.  For
every layer `l` and every `n >= 1`, layer `l` is updated during the `n`-th call to
`step` (the flag `updates[l]` is `1` after the call, and `0` otherwise) if and only if
`n` is a multiple of the product of `ticks_per_update[k]` for `k = 1, ..., l`. -/
theorem update_rates_geometric (K : Kernels) (io_descs : List IO_Desc)
    (layer_descs : List Layer_Desc)
    (htpu : ∀ k, 1 ≤ k → k < layer_descs.length →
      1 ≤ (layer_descs.getD k default).ticks_per_update)
    (start : Hierarchy)
    (hstart : start = Hierarchy.create K io_descs layer_descs ∨
      ∃ calls, start = clear_state K (run K (Hierarchy.create K io_descs layer_descs) calls))
    (steps : List Call) (hsteps : ∀ c ∈ steps, c ≠ Call.clear_state) (hn : steps ≠ [])
    (l : Nat) (hl : l < layer_descs.length) :
    (run K start steps).updates[l]? =
      some (if update_period start.ticks_per_update l ∣ (steps.length : Int) then 1 else 0) := by
  have htpu' : ∀ j, 1 ≤ j → j < layer_descs.length →
      1 ≤ (Hierarchy.create K io_descs layer_descs).ticks_per_update.getD j 0 := by
    intro j hj1 hjn
    rw [create_ticks_per_update_getD K io_descs layer_descs j hjn]
    have : j ≠ 0 := by omega
    simp only [this, if_false]
    exact htpu j hj1 hjn
  have hin : In_phase layer_descs.length
      (Hierarchy.create K io_descs layer_descs).ticks_per_update 0 start := by
    rcases hstart with rfl | ⟨calls, rfl⟩
    · exact In_phase_create K io_descs layer_descs
    · exact In_phase_clear_state K _ _ _
        (In_step_run K _ _ calls _ (In_step_create K io_descs layer_descs htpu) htpu')
  have htp : start.ticks_per_update =
      (Hierarchy.create K io_descs layer_descs).ticks_per_update := hin.2.2.2.1
  obtain ⟨r1, r2⟩ := In_phase_run K _ _ htpu' steps hsteps 0 start hin
  rw [getElem?_eq_some_getD _ l (by rw [r1.2.2.1]; exact hl) 0, r2 hn l hl, htp,
    update_period_eq _ _ htpu' l hl, Nat.zero_add]
  congr 1
  simp only [Int.natCast_dvd_natCast]

/-! ## The shape of the histories -/

theorem map_Array_update {α β : Type} [Inhabited α] (g : α → β) (f : α → α)
    (hf : ∀ x, g (f x) = g x) (xs : List α) (i : Nat) :
    (Array_update xs i f).map g = xs.map g := by
  unfold Array_update
  rw [List.map_set, hf]
  by_cases hi : i < xs.length
  · apply List.ext_getElem
    · simp
    · intro j h1 h2
      simp only [List.getElem_set, List.getElem_map]
      split_ifs with hij
      · subst hij
        simp [List.getD_eq_getElem?_getD, List.getElem?_eq_getElem hi]
      · rfl
  · rw [List.set_eq_of_length_le (by simp; omega)]

@[simp] theorem length_Array_put {α : Type} (xs : List α) (i : Int) (v : α) :
    (Array_put xs i v).length = xs.length := by
  unfold Array_put
  split_ifs <;> simp

@[simp] theorem CircleBuffer.data_length_put {α : Type} (b : CircleBuffer α) (i : Int) (v : α) :
    (b.put i v).data.length = b.data.length := by
  simp [CircleBuffer.put]

@[simp] theorem CircleBuffer.data_pushFront {α : Type} (b : CircleBuffer α) :
    b.pushFront.data = b.data := rfl

theorem hist_shape_update_ring (h : Hierarchy) (l i : Nat)
    (f : Circle_Buffer Int_Buffer → Circle_Buffer Int_Buffer)
    (hf : ∀ b, (f b).data.length = b.data.length) :
    hist_shape { h with histories := Array_update h.histories l (fun hs =>
      Array_update hs i f) } = hist_shape h := by
  simp only [hist_shape]
  exact map_Array_update _ _ (fun hs => map_Array_update _ _ hf hs i) _ l

theorem hist_shape_step_inputs (input_cis : List Int_Buffer_View) (h : Hierarchy) :
    hist_shape (step_inputs input_cis h) = hist_shape h := by
  unfold step_inputs
  exact foldl_keeps hist_shape _ (fun s a => hist_shape_update_ring s 0 a _ (by simp)) _ _

theorem hist_shape_set_input_importance (h : Hierarchy) (i : Nat) (imp : float) :
    hist_shape (set_input_importance h i imp) = hist_shape h := by
  unfold set_input_importance
  exact foldl_keeps hist_shape _ (fun s a => by simp [hist_shape]) _ _

theorem hist_shape_step_begin (input_cis : List Int_Buffer_View) (h : Hierarchy) :
    hist_shape (step_begin input_cis h) = hist_shape h := by
  have e1 : hist_shape (step_importances h) = hist_shape h := by
    unfold step_importances
    exact foldl_keeps hist_shape _ (fun s a => hist_shape_set_input_importance _ _ _) _ _
  have e2 := hist_shape_step_inputs input_cis { step_importances h with
    ticks := (step_importances h).ticks.set 0 0 }
  exact (show hist_shape (step_begin input_cis h) = hist_shape (step_inputs input_cis
    { step_importances h with ticks := (step_importances h).ticks.set 0 0 }) from rfl).trans
    (e2.trans ((show _ = hist_shape (step_importances h) from rfl).trans e1))

theorem hist_shape_forward_layer (K : Kernels) (le : Bool) (h : Hierarchy) (l : Nat) :
    hist_shape (forward_layer K le h l) = hist_shape h := by
  simp only [forward_layer]
  split_ifs
  · exact hist_shape_update_ring _ (l + 1) 0 _ (by simp)
  · rfl
  · rfl

theorem hist_shape_forward_upto (K : Kernels) (le : Bool) (h : Hierarchy) (k : Nat) :
    hist_shape (forward_upto K le h k) = hist_shape h := by
  unfold forward_upto
  exact foldl_keeps hist_shape _ (fun s a => hist_shape_forward_layer K le s a) _ _

theorem hist_shape_length (h : Hierarchy) : (hist_shape h).length = h.histories.length := by
  simp [hist_shape]

theorem hist_shape_getD (h : Hierarchy) (l : Nat) :
    ((hist_shape h).getD l []).length = (h.histories.getD l default).length := by
  simp only [hist_shape, List.getD_eq_getElem?_getD, List.getElem?_map]
  cases h.histories[l]? with
  | none => rfl
  | some hs => simp

theorem getElem?_Array_update {α : Type} [Inhabited α] (xs : List α) (i j : Nat) (f : α → α) :
    (Array_update xs i f)[j]? =
      if i = j ∧ i < xs.length then some (f (xs.getD i default)) else xs[j]? := by
  unfold Array_update
  rw [List.getElem?_set]
  by_cases h : i = j
  · subst h
    by_cases h2 : i < xs.length
    · simp [h2]
    · simp [h2, List.getElem?_eq_none (Nat.le_of_not_lt h2)]
  · simp [h]

theorem encoders_forward_layer_other (K : Kernels) (le : Bool) (h : Hierarchy) (k l : Nat)
    (hkl : k ≠ l) : (forward_layer K le h k).encoders[l]? = h.encoders[l]? := by
  simp only [forward_layer]
  split_ifs <;> simp [getElem?_Array_update, hkl]

theorem encoders_forward_upto_above (K : Kernels) (le : Bool) (h : Hierarchy) (l k : Nat)
    (hk : l + 1 ≤ k) :
    (forward_upto K le h k).encoders[l]? = (forward_upto K le h (l + 1)).encoders[l]? := by
  induction k with
  | zero => omega
  | succ k ih =>
    by_cases hkl : k = l
    · subst hkl; rfl
    · rw [forward_upto_succ, encoders_forward_layer_other K le _ k l hkl, ih (by omega)]

theorem encoders_step_backward (K : Kernels) (input_cis : List Int_Buffer_View) (le : Bool)
    (reward mimic : float) (h : Hierarchy) :
    (step_backward K input_cis le reward mimic h).encoders = h.encoders := by
  have hl : ∀ (s : Hierarchy) (l : Nat),
      (backward_layer K input_cis le reward mimic s l).encoders = s.encoders := by
    intro s l
    have hd : ∀ (v : List Int_Buffer_View) (n : Nat) (s : Hierarchy),
        ((List.range n).foldl (backward_decoder K le l v) s).encoders = s.encoders :=
      fun v n s => foldl_keeps (fun x : Hierarchy => x.encoders)
        (backward_decoder K le l v) (fun s a => rfl) _ _
    have ha : ∀ (v : List Int_Buffer_View) (n : Nat) (s : Hierarchy),
        ((List.range n).foldl (backward_actor K input_cis le reward mimic v) s).encoders =
          s.encoders :=
      fun v n s => foldl_keeps (fun x : Hierarchy => x.encoders)
        (backward_actor K input_cis le reward mimic v) (fun s a => rfl) _ _
    simp only [backward_layer]
    split_ifs
    · rw [ha, hd]
    · rw [hd]
    · rfl
  unfold step_backward
  exact foldl_keeps (fun x : Hierarchy => x.encoders) _ hl _ _

theorem is_time_to_tick_iff (h : Hierarchy) (l : Nat) :
    is_time_to_tick h l = true ↔
      (l = 0 ∨ h.ticks_per_update.getD l 0 ≤ h.ticks.getD l 0) := by
  simp only [is_time_to_tick, Bool.or_eq_true, beq_iff_eq, decide_eq_true_eq, ge_iff_le]
  rfl

/-- The test of line 201 at the moment the ascending loop reaches layer `k`. -/
theorem is_time_to_tick_forward_upto (K : Kernels) (le : Bool) (h : Hierarchy)
    (hlen : h.ticks.length = h.encoders.length)
    (hlen2 : h.updates.length = h.encoders.length) (k : Nat) (hk : k < h.encoders.length) :
    is_time_to_tick (forward_upto K le h k) k = updated_at h.ticks_per_update h.ticks k := by
  rw [updated_at_eq]
  simp only [is_time_to_tick, (forward_upto_frame K le h k).1]
  have := (forward_upto_spec K le h hlen hlen2 k (by omega) k hk).1
  simp only [lt_irrefl, if_false, if_true] at this
  have e : (forward_upto K le h k).ticks.getD k default =
      reach_tick h.ticks_per_update h.ticks k := this
  rw [e]
  rfl

/-- C2: within one call to `step`, let `s` be the state when the ascending loop reaches
layer `l` and `s'` the state after its iteration for `l`.  Layer `l` is updated (its flag
is `1` after the call, else `0`, and its encoder after the call is the one of `s'`) if
and only if `l == 0` or `ticks[l] >= ticks_per_update[l]` in `s`.  When it is not
updated the iteration changes nothing.  When it is updated, the encoder of layer `l`
is stepped on the inputs gathered from the histories of the layer, `ticks[l]` is set to
`0`, `updates[l]` is set to true and, if a layer `l + 1` exists, the hidden code of the
encoder is pushed to the front of `histories[l + 1][0]` and `ticks[l + 1]` is incremented
by exactly `1`. -/
theorem layer_update_rule (K : Kernels) (h : Hierarchy) (input_cis : List Int_Buffer_View)
    (learn_enabled : Bool) (reward mimic : float) (l : Nat)
    (hl : l < h.encoders.length)
    (hticks : h.ticks.length = h.encoders.length)
    (hupdates : h.updates.length = h.encoders.length)
    (hhist : h.histories.length = h.encoders.length)
    (hring : l + 1 < h.encoders.length → h.histories.getD (l + 1) default ≠ [])
    (s s' : Hierarchy)
    (hs : s = forward_upto K learn_enabled (step_begin input_cis h) l)
    (hs' : s' = forward_layer K learn_enabled s l) :
    (step K h input_cis learn_enabled reward mimic).updates[l]? =
      some (if l = 0 ∨ s.ticks_per_update.getD l 0 ≤ s.ticks.getD l 0 then 1 else 0) ∧
    (step K h input_cis learn_enabled reward mimic).encoders[l]? = s'.encoders[l]? ∧
    (¬ (l = 0 ∨ s.ticks_per_update.getD l 0 ≤ s.ticks.getD l 0) → s' = s) ∧
    ((l = 0 ∨ s.ticks_per_update.getD l 0 ≤ s.ticks.getD l 0) →
      s'.encoders[l]? = some (K.enc_step (s.encoders.getD l default) (encoder_input_cis s l)
        learn_enabled (s.params.layers.getD l default).encoder) ∧
      s'.ticks[l]? = some 0 ∧
      s'.updates[l]? = some 1 ∧
      (l + 1 < h.encoders.length →
        (s'.histories.getD (l + 1) default)[0]? =
          some ((((s.histories.getD (l + 1) default).getD 0 default).pushFront).put 0
            (K.enc_step (s.encoders.getD l default) (encoder_input_cis s l)
              learn_enabled (s.params.layers.getD l default).encoder).hidden_cis) ∧
        s'.ticks[l + 1]? = some (s.ticks.getD (l + 1) 0 + 1))) := by
  have hb := sched_step_begin input_cis h
  simp only [sched, Prod.mk.injEq] at hb
  obtain ⟨b1, b2, b3, b4⟩ := hb
  have hlb : (step_begin input_cis h).ticks.length = (step_begin input_cis h).encoders.length := by
    rw [b1, b4]; simpa using hticks
  have hlb2 : (step_begin input_cis h).updates.length =
      (step_begin input_cis h).encoders.length := by
    rw [b2, b4]; simpa using hupdates
  obtain ⟨f1, f2, f3, f4⟩ := forward_upto_frame K learn_enabled (step_begin input_cis h) l
  have sn : s.encoders.length = h.encoders.length := by rw [hs, f2, b4]
  have st : s.ticks.length = h.encoders.length := by rw [hs, f3, hlb, b4]
  have su : s.updates.length = h.encoders.length := by rw [hs, f4, hlb2, b4]
  have htime : is_time_to_tick s l = updated_at h.ticks_per_update h.ticks l := by
    rw [hs, is_time_to_tick_forward_upto K learn_enabled _ hlb hlb2 l (by rw [b4]; exact hl),
      b3, b1]
    exact updated_at_congr _ _ _ (getD_set_zero_succ h.ticks) l
  have hiff := is_time_to_tick_iff s l
  obtain ⟨_, _, _, l2, hj⟩ := step_sched K h input_cis learn_enabled reward mimic hticks hupdates
  refine ⟨?_, ?_, ?_, ?_⟩
  · rw [getElem?_eq_some_getD _ l (by omega) 0, (hj l hl).2, ← htime]
    by_cases ht : is_time_to_tick s l = true
    · rw [if_pos ht, if_pos (hiff.1 ht)]
    · rw [if_neg ht, if_neg (fun hh => ht (hiff.2 hh))]
  · have e : step K h input_cis learn_enabled reward mimic =
        step_backward K input_cis learn_enabled reward mimic
          (step_forward K learn_enabled (step_begin input_cis h)) := rfl
    rw [e, encoders_step_backward, step_forward_eq,
      encoders_forward_upto_above K learn_enabled _ l _ (by rw [b4]; omega),
      forward_upto_succ, hs', hs]
  · intro hn
    have ht : ¬ is_time_to_tick s l = true := fun hh => hn (hiff.1 hh)
    rw [hs']
    simp only [forward_layer, ht]
    rfl
  · intro hc
    have ht : is_time_to_tick s l = true := hiff.2 hc
    rw [hs']
    simp only [forward_layer, ht, if_true, length_Array_update]
    by_cases ha : has_layer_above s.encoders.length l = true
    · have ha' : l + 1 < h.encoders.length := by
        rw [← sn]; exact (has_layer_above_iff _ _).1 ha
      simp only [ha, if_true]
      refine ⟨?_, ?_, ?_, fun _ => ⟨?_, ?_⟩⟩
      · rw [getElem?_Array_update, if_pos ⟨rfl, by omega⟩]
        rfl
      · rw [getElem?_Array_update, if_neg (by omega), List.getElem?_set,
          if_pos rfl]
        simp only [st, hl, if_true]
      · rw [List.getElem?_set, if_pos rfl]
        simp only [su, hl, if_true]
      · have hsh : hist_shape s = hist_shape h := by
          rw [hs, hist_shape_forward_upto, hist_shape_step_begin]
        have hlen1 : l + 1 < s.histories.length := by
          rw [← hist_shape_length, hsh, hist_shape_length, hhist]; exact ha'
        have hlen0 : 0 < (s.histories.getD (l + 1) default).length := by
          rw [← hist_shape_getD, hsh, hist_shape_getD]
          exact List.length_pos.2 (hring ha')
        rw [getD_Array_update, if_pos ⟨rfl, hlen1⟩, getElem?_Array_update,
          if_pos ⟨rfl, hlen0⟩]
        simp only [getD_Array_update, sn, hl, and_self, if_true]
        rfl
      · rw [getElem?_Array_update, if_pos ⟨rfl, by simp only [List.length_set]; omega⟩,
          getD_set, if_neg (by omega)]
        rfl
    · have ha' : ¬ l + 1 < h.encoders.length := by
        rw [← sn]; exact fun hh => ha ((has_layer_above_iff _ _).2 hh)
      simp only [ha, Bool.false_eq_true, if_false]
      refine ⟨?_, ?_, ?_, fun hh => absurd hh ha'⟩
      · rw [getElem?_Array_update, if_pos ⟨rfl, by omega⟩]
        rfl
      · rw [List.getElem?_set, if_pos rfl]
        simp only [st, hl, if_true]
      · rw [List.getElem?_set, if_pos rfl]
        simp only [su, hl, if_true]

/-! ## Handing out slots -/

theorem rank_succ (sel : Nat → Bool) (k : Nat) :
    rank sel (k + 1) = rank sel k + if sel k then 1 else 0 := by
  simp only [rank, List.range_succ, List.filter_append, List.length_append]
  by_cases h : sel k = true <;> simp [h]

theorem rank_le (sel : Nat → Bool) (k : Nat) : rank sel k ≤ k := by
  induction k with
  | zero => simp [rank]
  | succ k ih => rw [rank_succ]; split_ifs <;> omega

theorem rank_mono (sel : Nat → Bool) (i k : Nat) (hik : i ≤ k) : rank sel i ≤ rank sel k := by
  induction k with
  | zero =>
    have : i = 0 := by omega
    subst this; exact le_refl _
  | succ k ih =>
    by_cases h : i = k + 1
    · subst h; exact le_refl _
    · have := ih (by omega)
      rw [rank_succ]; omega

theorem rank_lt (sel : Nat → Bool) (i k : Nat) (hik : i < k) (hi : sel i = true) :
    rank sel i < rank sel k := by
  have h1 := rank_mono sel (i + 1) k hik
  rw [rank_succ, if_pos hi] at h1
  omega

/-- Every slot below `rank sel k` is the slot of a selected channel below `k`. -/
theorem rank_surj (sel : Nat → Bool) (k d : Nat) (hd : d < rank sel k) :
    ∃ i, i < k ∧ sel i = true ∧ rank sel i = d := by
  induction k with
  | zero => simp [rank] at hd
  | succ k ih =>
    rw [rank_succ] at hd
    by_cases hs : sel k = true
    · rw [if_pos hs] at hd
      by_cases hdk : d = rank sel k
      · exact ⟨k, by omega, hs, hdk.symm⟩
      · obtain ⟨i, h1, h2, h3⟩ := ih (by omega)
        exact ⟨i, by omega, h2, h3⟩
    · rw [if_neg hs] at hd
      obtain ⟨i, h1, h2, h3⟩ := ih (by omega)
      exact ⟨i, by omega, h2, h3⟩

/-- The loop `fill_slot` after the channels below `k`: `d_index` is the number of
selected channels, the slot of every selected channel holds what the loop wrote for
the channel, and no other place of the array has changed. -/
theorem fill_slots_spec {α : Type} [Inhabited α] (sel : Nat → Bool) (off : Nat)
    (f : Nat → α → α) (xs : List α) (k : Nat) :
    ((List.range k).foldl (fill_slot sel off f) (xs, 0)).2 = rank sel k ∧
    ((List.range k).foldl (fill_slot sel off f) (xs, 0)).1.length = xs.length ∧
    (∀ i, i < k → sel i = true → off + rank sel i < xs.length →
      ((List.range k).foldl (fill_slot sel off f) (xs, 0)).1[off + rank sel i]? =
        some (f i (xs.getD (off + rank sel i) default))) ∧
    (∀ p, (p < off ∨ off + rank sel k ≤ p) →
      ((List.range k).foldl (fill_slot sel off f) (xs, 0)).1[p]? = xs[p]?) := by
  induction k with
  | zero =>
    refine ⟨by simp [rank], by simp, fun i hi => by omega, fun p _ => by simp⟩
  | succ k ih =>
    obtain ⟨i1, i2, i3, i4⟩ := ih
    rw [List.range_succ, List.foldl_append]
    simp only [List.foldl_cons, List.foldl_nil]
    generalize (List.range k).foldl (fill_slot sel off f) (xs, 0) = r at i1 i2 i3 i4
    by_cases hs : sel k = true
    · simp only [fill_slot, hs, if_true, rank_succ, length_Array_update, i1]
      refine ⟨trivial, i2, ?_, ?_⟩
      · intro i hi hsi hlt
        rw [getElem?_Array_update]
        by_cases hik : i = k
        · subst hik
          rw [if_pos ⟨rfl, by omega⟩]
          have := i4 (off + rank sel i) (Or.inr (le_refl _))
          rw [List.getD_eq_getElem?_getD, this, ← List.getD_eq_getElem?_getD]
        · have hlt2 := rank_lt sel i k (by omega) hsi
          rw [if_neg (by omega)]
          exact i3 i (by omega) hsi hlt
      · intro p hp
        rw [getElem?_Array_update, if_neg (by omega)]
        exact i4 p (by omega)
    · simp only [fill_slot, hs, Bool.false_eq_true, if_false, rank_succ, Nat.add_zero]
      refine ⟨i1, i2, ?_, i4⟩
      intro i hi hsi hlt
      have hik : i ≠ k := fun hh => hs (hh ▸ hsi)
      exact i3 i (by omega) hsi hlt

/-- The loop `mark_slot` after the channels below `k`: every selected channel holds its
slot, the other places of the array have not changed. -/
theorem mark_slots_spec (sel : Nat → Bool) (xs : Int_Buffer) (k : Nat) :
    ((List.range k).foldl (mark_slot sel) (xs, 0)).2 = rank sel k ∧
    ((List.range k).foldl (mark_slot sel) (xs, 0)).1.length = xs.length ∧
    (∀ i, ((List.range k).foldl (mark_slot sel) (xs, 0)).1[i]? =
      if i < k ∧ sel i = true ∧ i < xs.length then some (rank sel i : Int) else xs[i]?) := by
  induction k with
  | zero => refine ⟨by simp [rank], by simp, fun i => by simp⟩
  | succ k ih =>
    obtain ⟨i1, i2, i3⟩ := ih
    rw [List.range_succ, List.foldl_append]
    simp only [List.foldl_cons, List.foldl_nil]
    generalize (List.range k).foldl (mark_slot sel) (xs, 0) = r at i1 i2 i3
    by_cases hs : sel k = true
    · simp only [mark_slot, hs, if_true, rank_succ, List.length_set, i1]
      refine ⟨trivial, i2, fun i => ?_⟩
      rw [List.getElem?_set, i2]
      by_cases hik : k = i
      · subst hik
        by_cases hlt : k < xs.length
        · simp [hlt, hs]
        · simp [hlt, List.getElem?_eq_none (Nat.le_of_not_lt hlt)]
      · rw [if_neg hik, i3 i]
        by_cases hc : i < k ∧ sel i = true ∧ i < xs.length
        · rw [if_pos hc, if_pos ⟨by omega, hc.2⟩]
        · rw [if_neg hc, if_neg (fun hh => hc ⟨by omega, hh.2⟩)]
    · simp only [mark_slot, hs, Bool.false_eq_true, if_false, rank_succ, Nat.add_zero]
      refine ⟨i1, i2, fun i => ?_⟩
      rw [i3 i]
      by_cases hc : i < k ∧ sel i = true ∧ i < xs.length
      · rw [if_pos hc, if_pos ⟨by omega, hc.2⟩]
      · rw [if_neg hc, if_neg]
        intro hh
        by_cases hik : i = k
        · subst hik; exact hs hh.2.1
        · exact hc ⟨by omega, hh.2⟩

/-! ## `init_random` on a default-constructed object -/

theorem masked_Array_update {α : Type} [Inhabited α] (l : Nat) (xs : List α) (f : α → α) :
    masked l (Array_update xs l f) = masked l xs := by
  funext j
  simp only [masked, getElem?_Array_update]
  by_cases h : j = l
  · simp [h]
  · have : ¬ (l = j ∧ l < xs.length) := fun hh => h hh.1.symm
    simp [h, this]

theorem layer_frame_histories (l : Nat) (x : Hierarchy)
    (f : List (Circle_Buffer Int_Buffer) → List (Circle_Buffer Int_Buffer)) :
    layer_frame l { x with histories := Array_update x.histories l f } = layer_frame l x := by
  simp [layer_frame, masked_Array_update]

theorem layer_frame_decoders (l : Nat) (x : Hierarchy) (f : List Decoder → List Decoder) :
    layer_frame l { x with decoders := Array_update x.decoders l f } = layer_frame l x := by
  simp [layer_frame, masked_Array_update]

theorem layer_frame_encoders (l : Nat) (x : Hierarchy) (f : Encoder → Encoder) :
    layer_frame l { x with encoders := Array_update x.encoders l f } = layer_frame l x := by
  simp [layer_frame, masked_Array_update]

theorem layer_frame_init_histories_first (th : Int) (x : Hierarchy) (l : Nat) :
    layer_frame l (init_histories_first th x l) = layer_frame l x := by
  simp only [init_histories_first]
  rw [foldl_keeps (layer_frame l) _ (fun s a => layer_frame_histories l s _)]
  exact layer_frame_histories l x _

theorem layer_frame_init_slots_first (np na : Int) (x : Hierarchy) (l : Nat) :
    layer_frame l (init_slots_first np na x l) = layer_frame l x := by
  simp [init_slots_first, layer_frame, masked_Array_update]

theorem layer_frame_init_decoders_first (K : Kernels) (io_descs : List IO_Desc)
    (layer_descs : List Layer_Desc) (x : Hierarchy) (l : Nat) :
    layer_frame l (init_decoders_first K io_descs layer_descs x l) = layer_frame l x := by
  simp only [init_decoders_first]
  rw [foldl_keeps (fun s : Init_Index => layer_frame l s.hier)
    (init_decoder_first K io_descs layer_descs l) (fun s a => by
      simp only [init_decoder_first]
      split_ifs
      · simp [layer_frame, masked_Array_update]
      · rfl)]

theorem layer_frame_init_actors_first (K : Kernels) (io_descs : List IO_Desc)
    (layer_descs : List Layer_Desc) (x : Hierarchy) (l : Nat) :
    layer_frame l (init_actors_first K io_descs layer_descs x l) = layer_frame l x := by
  simp only [init_actors_first]
  rw [foldl_keeps (fun s : Init_Index => layer_frame l s.hier)
    (init_actor_first K io_descs layer_descs l) (fun s a => by
      simp only [init_actor_first]
      split_ifs
      · simp [layer_frame]
      · rfl)]

theorem layer_frame_init_histories_next (layer_descs : List Layer_Desc) (x : Hierarchy)
    (l : Nat) : layer_frame l (init_histories_next layer_descs x l) = layer_frame l x := by
  simp [init_histories_next, layer_frame, masked_Array_update]

theorem layer_frame_init_decoders_next (K : Kernels) (layer_descs : List Layer_Desc)
    (x : Hierarchy) (l : Nat) :
    layer_frame l (init_decoders_next K layer_descs x l) = layer_frame l x := by
  simp only [init_decoders_next]
  rw [foldl_keeps (layer_frame l) _ (fun s a => layer_frame_decoders l s _)]
  exact layer_frame_decoders l x _

theorem layer_frame_init_layer (K : Kernels) (io_descs : List IO_Desc)
    (layer_descs : List Layer_Desc) (np na : Int) (x : Hierarchy) (l : Nat) :
    layer_frame l (init_layer K io_descs layer_descs np na x l) = layer_frame l x := by
  simp only [init_layer]
  rw [layer_frame_encoders]
  split_ifs
  · simp only [init_first_layer]
    rw [layer_frame_init_actors_first, layer_frame_init_decoders_first,
      layer_frame_init_slots_first, layer_frame_init_histories_first]
  · simp only [init_next_layer]
    rw [layer_frame_init_decoders_next, layer_frame_init_histories_next]

theorem first_frame_init_layer (K : Kernels) (io_descs : List IO_Desc)
    (layer_descs : List Layer_Desc) (np na : Int) (x : Hierarchy) (l : Nat) (hl : l ≠ 0) :
    first_frame (init_layer K io_descs layer_descs np na x l) = first_frame x := by
  simp only [init_layer, hl, if_false, init_next_layer, init_decoders_next]
  have e : ∀ (y : Hierarchy) (es : List Encoder),
      first_frame { y with encoders := es } = first_frame y := fun _ _ => rfl
  rw [e, foldl_keeps first_frame _ (fun s a => by simp [first_frame])]
  simp [first_frame, init_histories_next]

theorem Hierarchy.eq_of_members (a b : Hierarchy) (h1 : a.encoders = b.encoders)
    (h2 : a.decoders = b.decoders) (h3 : a.actors = b.actors)
    (h4 : a.i_indices = b.i_indices) (h5 : a.d_indices = b.d_indices)
    (h6 : a.histories = b.histories) (h7 : a.updates = b.updates) (h8 : a.ticks = b.ticks)
    (h9 : a.ticks_per_update = b.ticks_per_update) (h10 : a.io_sizes = b.io_sizes)
    (h11 : a.io_types = b.io_types) (h12 : a.params = b.params) : a = b := by
  cases a; cases b; simp_all

theorem map_getD_range {α β : Type} (xs : List α) (d : α) (f : α → β) :
    (List.range xs.length).map (fun i => f (xs.getD i d)) = xs.map f := by
  apply List.ext_getElem
  · simp
  · intro j h1 h2
    simp only [List.length_map, List.length_range] at h1
    simp [List.getD_eq_getElem?_getD, List.getElem?_eq_getElem h1]

theorem count_loop (sel : Nat → Bool) (k : Nat) :
    (List.range k).foldl (fun (c : Int) (i : Nat) => if sel i = true then c + 1 else c) 0 =
      (rank sel k : Int) := by
  induction k with
  | zero => simp [rank]
  | succ k ih =>
    rw [List.range_succ, List.foldl_append, ih, rank_succ]
    simp only [List.foldl_cons, List.foldl_nil]
    split_ifs <;> simp

/-- Lines 41-49: the loop over the channels caches the sizes and types and counts the
prediction and the action channels. -/
theorem init_io_loop (io_descs : List IO_Desc) (h : Hierarchy)
    (h1 : h.io_sizes.length = io_descs.length) (h2 : h.io_types.length = io_descs.length) :
    let s := (List.range io_descs.length).foldl (init_io io_descs)
      { hier := h, num_predictions := 0, num_actions := 0 }
    s.hier = { h with io_sizes := io_descs.map (fun d => d.size),
                      io_types := io_descs.map (fun d => d.type.toByte) } ∧
    s.num_predictions = (num_channels io_descs IO_Type.prediction : Int) ∧
    s.num_actions = (num_channels io_descs IO_Type.action : Int) := by
  intro s
  have hs : s = (List.range io_descs.length).foldl (init_io io_descs)
      { hier := h, num_predictions := 0, num_actions := 0 } := rfl
  have e1 : s.hier.io_sizes = io_descs.map (fun d => d.size) := by
    rw [hs, foldl_proj (fun s : Init_Counts => s.hier.io_sizes) (init_io io_descs)
      (fun (ys : List Int3) (i : Nat) => ys.set i (io_descs.getD i default).size)
      (fun s a => by simp only [init_io]; split_ifs <;> rfl)]
    rw [foldl_set_range _ _ _ (by simp only []; omega)]
    simp only []
    rw [← h1, List.drop_length, List.append_nil, h1]
    exact map_getD_range io_descs default (fun d => d.size)
  have e2 : s.hier.io_types = io_descs.map (fun d => d.type.toByte) := by
    rw [hs, foldl_proj (fun s : Init_Counts => s.hier.io_types) (init_io io_descs)
      (fun (ys : List Byte) (i : Nat) => ys.set i (io_descs.getD i default).type.toByte)
      (fun s a => by simp only [init_io]; split_ifs <;> rfl)]
    rw [foldl_set_range _ _ _ (by simp only []; omega)]
    simp only []
    rw [← h2, List.drop_length, List.append_nil, h2]
    exact map_getD_range io_descs default (fun d => d.type.toByte)
  have e3 : (s.hier.encoders, s.hier.decoders, s.hier.actors, s.hier.i_indices,
      s.hier.d_indices, s.hier.histories, s.hier.updates, s.hier.ticks,
      s.hier.ticks_per_update, s.hier.params) =
      (h.encoders, h.decoders, h.actors, h.i_indices, h.d_indices, h.histories, h.updates,
        h.ticks, h.ticks_per_update, h.params) := by
    rw [hs]
    exact foldl_keeps (fun s : Init_Counts => (s.hier.encoders, s.hier.decoders,
      s.hier.actors, s.hier.i_indices, s.hier.d_indices, s.hier.histories, s.hier.updates,
      s.hier.ticks, s.hier.ticks_per_update, s.hier.params)) (init_io io_descs)
      (fun s a => by simp only [init_io]; split_ifs <;> rfl) _ _
  simp only [Prod.mk.injEq] at e3
  obtain ⟨a1, a2, a3, a4, a5, a6, a7, a8, a9, a10⟩ := e3
  refine ⟨Hierarchy.eq_of_members _ _ a1 a2 a3 a4 a5 a6 a7 a8 a9 e1 e2 a10, ?_, ?_⟩
  · rw [hs, foldl_proj (fun s : Init_Counts => s.num_predictions) (init_io io_descs)
      (fun (c : Int) (i : Nat) =>
        if decide ((io_descs.getD i default).type = IO_Type.prediction) = true then c + 1 else c)
      (fun s a => by
        simp only [init_io, decide_eq_true_eq]
        split_ifs <;> rfl)]
    exact count_loop _ _
  · rw [hs, foldl_proj (fun s : Init_Counts => s.num_actions) (init_io io_descs)
      (fun (c : Int) (i : Nat) =>
        if decide ((io_descs.getD i default).type = IO_Type.action) = true then c + 1 else c)
      (fun s a => by
        simp only [init_io, decide_eq_true_eq]
        split_ifs with c1 c2
        · rw [c1] at c2; exact absurd c2 (by decide)
        · rfl
        · rfl
        · rfl)]
    exact count_loop _ _

theorem Array_resize_nil {α : Type} [Inhabited α] (n : Nat) :
    Array_resize ([] : List α) (n : Int) = List.replicate n default := by
  simp [Array_resize, Array_resize_fill]

theorem init_arrays_default (io_descs : List IO_Desc) (layer_descs : List Layer_Desc) :
    init_arrays default io_descs layer_descs =
      { init_base io_descs layer_descs with
        ticks_per_update := List.replicate layer_descs.length default,
        io_sizes := List.replicate io_descs.length default,
        io_types := List.replicate io_descs.length default } := by
  have d1 : (default : Hierarchy).encoders = [] := rfl
  have d2 : (default : Hierarchy).decoders = [] := rfl
  have d3 : (default : Hierarchy).ticks = [] := rfl
  have d4 : (default : Hierarchy).histories = [] := rfl
  have d5 : (default : Hierarchy).updates = [] := rfl
  have d6 : (default : Hierarchy).io_sizes = [] := rfl
  have d7 : (default : Hierarchy).io_types = [] := rfl
  have d8 : (default : Hierarchy).ticks_per_update = [] := rfl
  apply Hierarchy.eq_of_members
  · show Array_resize (default : Hierarchy).encoders _ = _
    rw [d1, Array_resize_nil]; rfl
  · show Array_resize (default : Hierarchy).decoders _ = _
    rw [d2, Array_resize_nil]; rfl
  · rfl
  · rfl
  · rfl
  · show Array_resize (default : Hierarchy).histories _ = _
    rw [d4, Array_resize_nil]; rfl
  · show Array_resize_fill (default : Hierarchy).updates _ _ = _
    rw [d5, Array_resize_fill_nil]; rfl
  · show Array_resize_fill (default : Hierarchy).ticks _ _ = _
    rw [d3, Array_resize_fill_nil]; rfl
  · show Array_resize (default : Hierarchy).ticks_per_update _ = _
    rw [d8, Array_resize_nil]
  · show Array_resize (default : Hierarchy).io_sizes _ = _
    rw [d6, Array_resize_nil]
  · show Array_resize (default : Hierarchy).io_types _ = _
    rw [d7, Array_resize_nil]
  · rfl

theorem init_ticks_per_update_default (io_descs : List IO_Desc)
    (layer_descs : List Layer_Desc) :
    init_ticks_per_update layer_descs (init_arrays default io_descs layer_descs) =
      { init_base io_descs layer_descs with
        io_sizes := List.replicate io_descs.length default,
        io_types := List.replicate io_descs.length default } := by
  rw [init_arrays_default]
  have e := ticks_per_update_init_ticks_per_update layer_descs
    { init_base io_descs layer_descs with
      ticks_per_update := List.replicate layer_descs.length default,
      io_sizes := List.replicate io_descs.length default,
      io_types := List.replicate io_descs.length default } (by simp)
  have f := foldl_keeps (fun x : Hierarchy => (x.encoders, x.decoders, x.actors, x.i_indices,
    x.d_indices, x.histories, x.updates, x.ticks, x.io_sizes, x.io_types, x.params))
    (fun (h : Hierarchy) (l : Nat) =>
      { h with ticks_per_update := (h.ticks_per_update.set l
        (if l = 0 then 1 else (layer_descs.getD l default).ticks_per_update)) })
    (fun s a => rfl) (List.range layer_descs.length)
    { init_base io_descs layer_descs with
      ticks_per_update := List.replicate layer_descs.length default,
      io_sizes := List.replicate io_descs.length default,
      io_types := List.replicate io_descs.length default }
  simp only [Prod.mk.injEq] at f
  obtain ⟨f1, f2, f3, f4, f5, f6, f7, f8, f9, f10, f11⟩ := f
  exact Hierarchy.eq_of_members _ _ f1 f2 f3 f4 f5 f6 f7 f8 e f9 f10 f11

/-- `init_random` on a default-constructed object: the loop over the layers runs on
`init_base` with the two counts of channels, then the parameters are set. -/
theorem create_eq (K : Kernels) (io_descs : List IO_Desc) (layer_descs : List Layer_Desc) :
    Hierarchy.create K io_descs layer_descs =
      { init_upto K io_descs layer_descs layer_descs.length with
        params := { layers := Array_new layer_descs.length default,
                    ios := Array_new io_descs.length default } } := by
  obtain ⟨i1, i2, i3⟩ := init_io_loop io_descs
    { init_base io_descs layer_descs with
      io_sizes := List.replicate io_descs.length default,
      io_types := List.replicate io_descs.length default } (by simp) (by simp)
  simp only [Hierarchy.create, init_random]
  rw [init_ticks_per_update_default]
  simp only [List.length_replicate]
  rw [i1, i2, i3]
  rfl

theorem init_upto_succ (K : Kernels) (io_descs : List IO_Desc) (layer_descs : List Layer_Desc)
    (k : Nat) :
    init_upto K io_descs layer_descs (k + 1) =
      init_layer K io_descs layer_descs (num_channels io_descs IO_Type.prediction)
        (num_channels io_descs IO_Type.action) (init_upto K io_descs layer_descs k) k := by
  simp [init_upto, List.range_succ, List.foldl_append]

theorem masked_eq {α : Type} (l j : Nat) (xs ys : List α) (h : masked l xs = masked l ys)
    (hj : j ≠ l) : xs[j]? = ys[j]? := by
  have := congrFun h j
  simpa [masked, hj] using this

/-- One iteration of the loop over the layers: what it keeps, member by member. -/
theorem init_layer_keeps (K : Kernels) (io_descs : List IO_Desc)
    (layer_descs : List Layer_Desc) (np na : Int) (x : Hierarchy) (l : Nat) :
    (init_layer K io_descs layer_descs np na x l).io_sizes = x.io_sizes ∧
    (init_layer K io_descs layer_descs np na x l).io_types = x.io_types ∧
    (init_layer K io_descs layer_descs np na x l).encoders.length = x.encoders.length ∧
    (init_layer K io_descs layer_descs np na x l).decoders.length = x.decoders.length ∧
    (init_layer K io_descs layer_descs np na x l).histories.length = x.histories.length ∧
    (∀ j, j ≠ l →
      (init_layer K io_descs layer_descs np na x l).encoders[j]? = x.encoders[j]? ∧
      (init_layer K io_descs layer_descs np na x l).decoders[j]? = x.decoders[j]? ∧
      (init_layer K io_descs layer_descs np na x l).histories[j]? = x.histories[j]?) := by
  have e := layer_frame_init_layer K io_descs layer_descs np na x l
  simp only [layer_frame, Prod.mk.injEq] at e
  obtain ⟨e1, e2, e3, e4, e5, e6, e7, e8⟩ := e
  exact ⟨e1, e2, e3, e4, e5, fun j hj =>
    ⟨masked_eq l j _ _ e6 hj, masked_eq l j _ _ e7 hj, masked_eq l j _ _ e8 hj⟩⟩

/-- The loop over the layers when it reaches layer `k`: the caches of the channels and
the lengths of the per-layer arrays are those of `init_base`, and the layers from `k`
on are still empty. -/
theorem init_upto_keeps (K : Kernels) (io_descs : List IO_Desc)
    (layer_descs : List Layer_Desc) (k : Nat) :
    (init_upto K io_descs layer_descs k).io_sizes = io_descs.map (fun d => d.size) ∧
    (init_upto K io_descs layer_descs k).io_types = io_descs.map (fun d => d.type.toByte) ∧
    (init_upto K io_descs layer_descs k).encoders.length = layer_descs.length ∧
    (init_upto K io_descs layer_descs k).decoders.length = layer_descs.length ∧
    (init_upto K io_descs layer_descs k).histories.length = layer_descs.length ∧
    (∀ l, k ≤ l → l < layer_descs.length →
      (init_upto K io_descs layer_descs k).encoders[l]? = some default ∧
      (init_upto K io_descs layer_descs k).decoders[l]? = some [] ∧
      (init_upto K io_descs layer_descs k).histories[l]? = some []) := by
  induction k with
  | zero =>
    refine ⟨rfl, rfl, by simp [init_upto, init_base], by simp [init_upto, init_base],
      by simp [init_upto, init_base], fun l _ hl => ?_⟩
    simp [init_upto, init_base, List.getElem?_replicate, hl]
  | succ k ih =>
    obtain ⟨i1, i2, i3, i4, i5, i6⟩ := ih
    obtain ⟨e1, e2, e3, e4, e5, e6⟩ := init_layer_keeps K io_descs layer_descs
      (num_channels io_descs IO_Type.prediction) (num_channels io_descs IO_Type.action)
      (init_upto K io_descs layer_descs k) k
    rw [init_upto_succ]
    refine ⟨e1.trans i1, e2.trans i2, e3.trans i3, e4.trans i4, e5.trans i5, fun l hkl hl => ?_⟩
    obtain ⟨a, b, c⟩ := e6 l (by omega)
    obtain ⟨a', b', c'⟩ := i6 l (by omega) hl
    exact ⟨a.trans a', b.trans b', c.trans c'⟩

/-- The loop over the layers after layer `l`: the encoder, the decoders and the
histories of layer `l` are those that the iteration for layer `l` has built. -/
theorem init_upto_above (K : Kernels) (io_descs : List IO_Desc)
    (layer_descs : List Layer_Desc) (l k : Nat) (hk : l + 1 ≤ k) :
    (init_upto K io_descs layer_descs k).encoders[l]? =
      (init_upto K io_descs layer_descs (l + 1)).encoders[l]? ∧
    (init_upto K io_descs layer_descs k).decoders[l]? =
      (init_upto K io_descs layer_descs (l + 1)).decoders[l]? ∧
    (init_upto K io_descs layer_descs k).histories[l]? =
      (init_upto K io_descs layer_descs (l + 1)).histories[l]? := by
  induction k with
  | zero => omega
  | succ k ih =>
    by_cases hkl : k = l
    · subst hkl; exact ⟨rfl, rfl, rfl⟩
    · obtain ⟨a, b, c⟩ := ih (by omega)
      obtain ⟨_, _, _, _, _, e6⟩ := init_layer_keeps K io_descs layer_descs
        (num_channels io_descs IO_Type.prediction) (num_channels io_descs IO_Type.action)
        (init_upto K io_descs layer_descs k) k
      obtain ⟨a', b', c'⟩ := e6 l (fun hh => hkl hh.symm)
      rw [init_upto_succ]
      exact ⟨a'.trans a, b'.trans b, c'.trans c⟩

/-- The actors and the two index maps are those that the iteration for layer `0` has
built. -/
theorem init_upto_first (K : Kernels) (io_descs : List IO_Desc)
    (layer_descs : List Layer_Desc) (k : Nat) (hk : 1 ≤ k) :
    first_frame (init_upto K io_descs layer_descs k) =
      first_frame (init_upto K io_descs layer_descs 1) := by
  induction k with
  | zero => omega
  | succ k ih =>
    by_cases hk0 : k = 0
    · subst hk0; rfl
    · rw [init_upto_succ, first_frame_init_layer _ _ _ _ _ _ _ hk0, ih (by omega)]

theorem foldl_proj_inv {σ τ α : Type} (Inv : σ → Prop) (P : σ → τ) (g : σ → α → σ)
    (g' : τ → α → τ) (hinv : ∀ s a, Inv s → Inv (g s a))
    (hg : ∀ s a, Inv s → P (g s a) = g' (P s) a) (xs : List α) (s : σ) (hs : Inv s) :
    P (xs.foldl g s) = xs.foldl g' (P s) ∧ Inv (xs.foldl g s) := by
  induction xs generalizing s with
  | nil => exact ⟨rfl, hs⟩
  | cons a xs ih =>
    simp only [List.foldl_cons]
    obtain ⟨e1, e2⟩ := ih (g s a) (hinv s a hs)
    exact ⟨by rw [e1, hg s a hs], e2⟩

/-- The channels of type `prediction`. -/
theorem slot_of_eq (io_descs : List IO_Desc) (ty : IO_Type) (i : Nat) :
    slot_of io_descs ty i = rank (fun j => decide ((io_descs.getD j default).type = ty)) i :=
  rfl

/-- Lines 88-107: the loop that creates the decoders of layer `l`, on the members it
writes. -/
theorem init_decoders_first_spec (K : Kernels) (io_descs : List IO_Desc)
    (layer_descs : List Layer_Desc) (x : Hierarchy) (l : Nat) (hl : l < x.decoders.length) :
    let sel := fun j => decide ((io_descs.getD j default).type = IO_Type.prediction)
    let y := init_decoders_first K io_descs layer_descs x l
    (y.i_indices, slot_of io_descs IO_Type.prediction x.io_sizes.length) =
      (List.range x.io_sizes.length).foldl
        (fill_slot sel 0 (fun i _ => (i : Int))) (x.i_indices, 0) ∧
    (y.d_indices, slot_of io_descs IO_Type.prediction x.io_sizes.length) =
      (List.range x.io_sizes.length).foldl (mark_slot sel) (x.d_indices, 0) ∧
    (y.decoders.getD l default, slot_of io_descs IO_Type.prediction x.io_sizes.length) =
      (List.range x.io_sizes.length).foldl
        (fill_slot sel 0 (fun i d => K.dec_init_random d (x.io_sizes.getD i default)
          (d_visible_layer_descs x.encoders.length l (layer_descs.getD l default).hidden_size
            (io_descs.getD i default).down_radius))) (x.decoders.getD l default, 0) ∧
    y.actors = x.actors ∧ y.encoders = x.encoders ∧ y.io_sizes = x.io_sizes ∧
    y.histories = x.histories ∧ y.decoders.length = x.decoders.length := by
  intro sel y
  have hkeep := foldl_keeps (fun s : Init_Index => (s.hier.actors, s.hier.encoders,
    s.hier.io_sizes, s.hier.histories, s.hier.decoders.length))
    (init_decoder_first K io_descs layer_descs l) (fun s a => by
      simp only [init_decoder_first]
      split_ifs
      · simp
      · rfl) (List.range x.io_sizes.length) { hier := x, d_index := 0 }
  simp only [Prod.mk.injEq] at hkeep
  obtain ⟨k1, k2, k3, k4, k5⟩ := hkeep
  have hI := foldl_proj (fun s : Init_Index => (s.hier.i_indices, s.d_index))
    (init_decoder_first K io_descs layer_descs l)
    (fill_slot sel 0 (fun i _ => (i : Int))) (fun s a => by
      simp only [init_decoder_first, fill_slot, sel, decide_eq_true_eq]
      split_ifs
      · simp [Array_update]
      · rfl) (List.range x.io_sizes.length) { hier := x, d_index := 0 }
  have hD := foldl_proj (fun s : Init_Index => (s.hier.d_indices, s.d_index))
    (init_decoder_first K io_descs layer_descs l)
    (mark_slot sel) (fun s a => by
      simp only [init_decoder_first, mark_slot, sel, decide_eq_true_eq]
      split_ifs
      · rfl
      · rfl) (List.range x.io_sizes.length) { hier := x, d_index := 0 }
  have hdec := foldl_proj_inv
    (fun s : Init_Index => s.hier.encoders = x.encoders ∧ s.hier.io_sizes = x.io_sizes ∧
      l < s.hier.decoders.length)
    (fun s : Init_Index => (s.hier.decoders.getD l default, s.d_index))
    (init_decoder_first K io_descs layer_descs l)
    (fill_slot sel 0 (fun i d => K.dec_init_random d (x.io_sizes.getD i default)
      (d_visible_layer_descs x.encoders.length l (layer_descs.getD l default).hidden_size
        (io_descs.getD i default).down_radius)))
    (fun s a hs => by
      simp only [init_decoder_first]
      split_ifs
      · simpa using hs
      · exact hs)
    (fun s a hs => by
      obtain ⟨h1, h2, h3⟩ := hs
      simp only [init_decoder_first, fill_slot, sel, decide_eq_true_eq]
      split_ifs
      · simp only [getD_Array_update, h3, and_self, if_true, h1, h2, Nat.zero_add]
      · rfl) (List.range x.io_sizes.length) { hier := x, d_index := 0 } ⟨rfl, rfl, hl⟩
  have hidx : ((List.range x.io_sizes.length).foldl
      (init_decoder_first K io_descs layer_descs l) { hier := x, d_index := 0 }).d_index =
      slot_of io_descs IO_Type.prediction x.io_sizes.length := by
    have := congrArg Prod.snd hD
    simp only at this
    rw [this, (mark_slots_spec sel x.d_indices _).1]
    rfl
  refine ⟨?_, ?_, ?_, k1, k2, k3, k4, k5⟩
  · rw [← hI, ← hidx]; rfl
  · rw [← hD, ← hidx]; rfl
  · rw [← hdec.1, ← hidx]; rfl

theorem Array_put_natCast {α : Type} (xs : List α) (a b : Nat) (v : α) :
    Array_put xs ((a : Int) + (b : Int)) v = xs.set (a + b) v := by
  unfold Array_put
  rw [if_pos (by omega)]
  congr 1

/-- Lines 109-128: the loop that creates the actors, on the members it writes. -/
theorem init_actors_first_spec (K : Kernels) (io_descs : List IO_Desc)
    (layer_descs : List Layer_Desc) (x : Hierarchy) (l : Nat) :
    let sel := fun j => decide ((io_descs.getD j default).type = IO_Type.action)
    let y := init_actors_first K io_descs layer_descs x l
    (y.i_indices, slot_of io_descs IO_Type.action x.io_sizes.length) =
      (List.range x.io_sizes.length).foldl
        (fill_slot sel x.io_sizes.length (fun i _ => (i : Int))) (x.i_indices, 0) ∧
    (y.d_indices, slot_of io_descs IO_Type.action x.io_sizes.length) =
      (List.range x.io_sizes.length).foldl (mark_slot sel) (x.d_indices, 0) ∧
    (y.actors, slot_of io_descs IO_Type.action x.io_sizes.length) =
      (List.range x.io_sizes.length).foldl
        (fill_slot sel 0 (fun i a => K.act_init_random a (x.io_sizes.getD i default)
          (io_descs.getD i default).history_capacity
          (a_visible_layer_descs x.encoders.length l (layer_descs.getD l default).hidden_size
            (io_descs.getD i default).down_radius))) (x.actors, 0) ∧
    y.decoders = x.decoders ∧ y.encoders = x.encoders ∧ y.io_sizes = x.io_sizes ∧
    y.histories = x.histories := by
  intro sel y
  have hkeep := foldl_keeps (fun s : Init_Index => (s.hier.decoders, s.hier.encoders,
    s.hier.io_sizes, s.hier.histories))
    (init_actor_first K io_descs layer_descs l) (fun s a => by
      simp only [init_actor_first]
      split_ifs
      · simp
      · rfl) (List.range x.io_sizes.length) { hier := x, d_index := 0 }
  simp only [Prod.mk.injEq] at hkeep
  obtain ⟨k1, k2, k3, k4⟩ := hkeep
  have hinv : ∀ (s : Init_Index) (a : Nat),
      (s.hier.encoders = x.encoders ∧ s.hier.io_sizes = x.io_sizes) →
      ((init_actor_first K io_descs layer_descs l s a).hier.encoders = x.encoders ∧
        (init_actor_first K io_descs layer_descs l s a).hier.io_sizes = x.io_sizes) := by
    intro s a hs
    simp only [init_actor_first]
    split_ifs
    · simpa using hs
    · exact hs
  have hI := foldl_proj_inv
    (fun s : Init_Index => s.hier.encoders = x.encoders ∧ s.hier.io_sizes = x.io_sizes)
    (fun s : Init_Index => (s.hier.i_indices, s.d_index))
    (init_actor_first K io_descs layer_descs l)
    (fill_slot sel x.io_sizes.length (fun i _ => (i : Int))) hinv
    (fun s a hs => by
      obtain ⟨h1, h2⟩ := hs
      simp only [init_actor_first, fill_slot, sel, decide_eq_true_eq]
      split_ifs
      · simp only [h2, Array_put_natCast, Array_update]
      · rfl) (List.range x.io_sizes.length) { hier := x, d_index := 0 } ⟨rfl, rfl⟩
  have hD := foldl_proj (fun s : Init_Index => (s.hier.d_indices, s.d_index))
    (init_actor_first K io_descs layer_descs l)
    (mark_slot sel) (fun s a => by
      simp only [init_actor_first, mark_slot, sel, decide_eq_true_eq]
      split_ifs
      · rfl
      · rfl) (List.range x.io_sizes.length) { hier := x, d_index := 0 }
  have hact := foldl_proj_inv
    (fun s : Init_Index => s.hier.encoders = x.encoders ∧ s.hier.io_sizes = x.io_sizes)
    (fun s : Init_Index => (s.hier.actors, s.d_index))
    (init_actor_first K io_descs layer_descs l)
    (fill_slot sel 0 (fun i a => K.act_init_random a (x.io_sizes.getD i default)
      (io_descs.getD i default).history_capacity
      (a_visible_layer_descs x.encoders.length l (layer_descs.getD l default).hidden_size
        (io_descs.getD i default).down_radius))) hinv
    (fun s a hs => by
      obtain ⟨h1, h2⟩ := hs
      simp only [init_actor_first, fill_slot, sel, decide_eq_true_eq]
      split_ifs
      · simp only [h1, h2, Nat.zero_add]
      · rfl) (List.range x.io_sizes.length) { hier := x, d_index := 0 } ⟨rfl, rfl⟩
  have hidx : ((List.range x.io_sizes.length).foldl
      (init_actor_first K io_descs layer_descs l) { hier := x, d_index := 0 }).d_index =
      slot_of io_descs IO_Type.action x.io_sizes.length := by
    have := congrArg Prod.snd hD
    simp only at this
    rw [this, (mark_slots_spec sel x.d_indices _).1]
    rfl
  refine ⟨?_, ?_, ?_, k1, k2, k3, k4⟩
  · rw [← hI.1, ← hidx]; rfl
  · rw [← hD, ← hidx]; rfl
  · rw [← hact.1, ← hidx]; rfl

theorem getD_map_of_lt {α β : Type} (xs : List α) (f : α → β) (i : Nat) (hi : i < xs.length)
    (d : β) (d' : α) : (xs.map f).getD i d = f (xs.getD i d') := by
  simp [List.getD_eq_getElem?_getD, List.getElem?_eq_getElem hi]

theorem fold_congr_range {τ : Type} (g g' : τ → Nat → τ) (n : Nat)
    (hg : ∀ s i, i < n → g s i = g' s i) (k : Nat) (hk : k ≤ n) (s : τ) :
    (List.range k).foldl g s = (List.range k).foldl g' s := by
  induction k with
  | zero => rfl
  | succ k ih =>
    rw [List.range_succ, List.foldl_append, List.foldl_append, ih (by omega)]
    simp only [List.foldl_cons, List.foldl_nil]
    exact hg _ k (by omega)

/-- The iteration for layer `0` of the loop over the layers, on a default-constructed
object with at least one layer: the two index maps, the decoders of layer `0`, the
actors and the encoder of layer `0`. -/
theorem init_first_spec (K : Kernels) (io_descs : List IO_Desc) (layer_descs : List Layer_Desc)
    (hN : 0 < layer_descs.length) :
    let H := init_upto K io_descs layer_descs 1
    let n := io_descs.length
    let psel := fun j => decide ((io_descs.getD j default).type = IO_Type.prediction)
    let asel := fun j => decide ((io_descs.getD j default).type = IO_Type.action)
    (H.d_indices.length = n ∧
      ∀ i, i < n → H.d_indices[i]? = some (if asel i = true then (rank asel i : Int)
        else if psel i = true then (rank psel i : Int) else -1)) ∧
    (H.i_indices.length = n * 2 ∧
      (∀ i, i < n → psel i = true → H.i_indices[rank psel i]? = some (i : Int)) ∧
      (∀ i, i < n → asel i = true → H.i_indices[n + rank asel i]? = some (i : Int))) ∧
    ((H.decoders.getD 0 default).length = rank psel n ∧
      ∀ i, i < n → psel i = true → (H.decoders.getD 0 default)[rank psel i]? =
        some (K.dec_init_random default (io_descs.getD i default).size
          (d_visible_layer_descs layer_descs.length 0 (layer_descs.getD 0 default).hidden_size
            (io_descs.getD i default).down_radius))) ∧
    (H.actors.length = rank asel n ∧
      ∀ i, i < n → asel i = true → H.actors[rank asel i]? =
        some (K.act_init_random default (io_descs.getD i default).size
          (io_descs.getD i default).history_capacity
          (a_visible_layer_descs layer_descs.length 0 (layer_descs.getD 0 default).hidden_size
            (io_descs.getD i default).down_radius))) ∧
    H.encoders[0]? = some (K.enc_init_random default (layer_descs.getD 0 default).hidden_size
      (e_visible_layer_descs_first (io_descs.map (fun d => d.size)) io_descs
        (layer_descs.getD 0 default).temporal_horizon)) := by
  intro H n psel asel
  -- the state before the iteration
  have hx : init_upto K io_descs layer_descs 0 = init_base io_descs layer_descs := rfl
  -- the histories
  have h1 := foldl_keeps (fun x : Hierarchy => (x.encoders, x.decoders, x.actors, x.i_indices,
    x.d_indices, x.io_sizes))
    (fun (h : Hierarchy) (i : Nat) =>
      { h with histories := Array_update h.histories 0 (fun hs =>
          Array_update hs i (init_history (layer_descs.getD 0 default).temporal_horizon
            ((h.io_sizes.getD i default).x * (h.io_sizes.getD i default).y))) })
    (fun s a => rfl)
  have y1 : ∀ x : Hierarchy, ((init_histories_first (layer_descs.getD 0 default).temporal_horizon
      x 0).encoders, (init_histories_first (layer_descs.getD 0 default).temporal_horizon
      x 0).decoders, (init_histories_first (layer_descs.getD 0 default).temporal_horizon
      x 0).actors, (init_histories_first (layer_descs.getD 0 default).temporal_horizon
      x 0).i_indices, (init_histories_first (layer_descs.getD 0 default).temporal_horizon
      x 0).d_indices, (init_histories_first (layer_descs.getD 0 default).temporal_horizon
      x 0).io_sizes) = (x.encoders, x.decoders, x.actors, x.i_indices, x.d_indices,
      x.io_sizes) := by
    intro x
    simp only [init_histories_first]
    exact h1 _ _
  have y1b := y1 (init_base io_descs layer_descs)
  simp only [Prod.mk.injEq] at y1b
  obtain ⟨a1, a2, a3, a4, a5, a6⟩ := y1b
  generalize hY1 : init_histories_first (layer_descs.getD 0 default).temporal_horizon
    (init_base io_descs layer_descs) 0 = Y1 at a1 a2 a3 a4 a5 a6
  have bsz : (init_base io_descs layer_descs).io_sizes = io_descs.map (fun d => d.size) := rfl
  have benc : (init_base io_descs layer_descs).encoders =
    List.replicate layer_descs.length default := rfl
  have bdec : (init_base io_descs layer_descs).decoders =
    List.replicate layer_descs.length [] := rfl
  have szlen : Y1.io_sizes.length = n := by rw [a6, bsz]; simp [n]
  -- the slots
  generalize hY2 : init_slots_first (num_channels io_descs IO_Type.prediction)
    (num_channels io_descs IO_Type.action) Y1 0 = Y2
  have c1 : Y2.encoders = List.replicate layer_descs.length default := by
    rw [← hY2]; simp only [init_slots_first]; rw [a1, benc]
  have c2 : Y2.io_sizes = io_descs.map (fun d => d.size) := by
    rw [← hY2]; simp only [init_slots_first]; rw [a6, bsz]
  have c3 : Y2.decoders.length = layer_descs.length := by
    rw [← hY2]; simp only [init_slots_first, length_Array_update]; rw [a2, bdec]; simp
  have c4 : Y2.decoders.getD 0 default = List.replicate (rank psel n) default := by
    have hrep : (List.replicate layer_descs.length ([] : List Decoder)).getD 0 default = [] := by
      simp [List.getD_eq_getElem?_getD, List.getElem?_replicate, hN]
    rw [← hY2]
    simp only [init_slots_first]
    rw [getD_Array_update, if_pos ⟨rfl, by rw [a2, bdec]; simpa using hN⟩, a2, bdec, hrep]
    exact Array_resize_nil _
  have c5 : Y2.actors = List.replicate (rank asel n) default := by
    rw [← hY2]; simp only [init_slots_first]; rw [a3]
    exact Array_resize_nil _
  have c6 : Y2.i_indices = List.replicate (n * 2) default := by
    rw [← hY2]; simp only [init_slots_first]; rw [a4, szlen]
    exact Array_resize_nil (n * 2)
  have c7 : Y2.d_indices = List.replicate n (-1) := by
    rw [← hY2]; simp only [init_slots_first, Array_new]; rw [szlen]; rfl
  -- the decoders
  obtain ⟨d1, d2, d3, d4, d5, d6, d7, d8⟩ := init_decoders_first_spec K io_descs layer_descs
    Y2 0 (by rw [c3]; exact hN)
  generalize hY3 : init_decoders_first K io_descs layer_descs Y2 0 = Y3 at d1 d2 d3 d4 d5 d6 d7 d8
  rw [c2] at d1 d2 d3 d6
  simp only [List.length_map] at d1 d2 d3
  rw [c6] at d1
  rw [c7] at d2
  rw [c4, c1] at d3
  simp only [List.length_replicate] at d3
  rw [c5] at d4
  rw [c1] at d5
  -- the actors
  obtain ⟨e1, e2, e3, e4, e5, e6, e7⟩ := init_actors_first_spec K io_descs layer_descs Y3 0
  generalize hY4 : init_actors_first K io_descs layer_descs Y3 0 = Y4 at e1 e2 e3 e4 e5 e6 e7
  rw [d6] at e1 e2 e3 e6
  simp only [List.length_map] at e1 e2 e3
  rw [d4, d5] at e3
  simp only [List.length_replicate] at e3
  rw [d5] at e5
  -- the result of the iteration
  have hH : H = { Y4 with encoders := Array_update Y4.encoders 0 (fun e =>
      K.enc_init_random e (layer_descs.getD 0 default).hidden_size
        (e_visible_layer_descs_first (io_descs.map (fun d => d.size)) io_descs
          (layer_descs.getD 0 default).temporal_horizon)) } := by
    show init_upto K io_descs layer_descs (0 + 1) = _
    rw [init_upto_succ, hx]
    simp only [init_layer, if_true, init_first_layer]
    rw [hY1, hY2, hY3, hY4]
    rfl
  -- the marks of the decoders and of the actors
  have mD := mark_slots_spec psel (List.replicate n (-1)) n
  rw [← d2] at mD
  have mA := mark_slots_spec asel Y3.d_indices n
  rw [← e2] at mA
  simp only at mD mA
  have fI := fill_slots_spec psel 0 (fun i _ => (i : Int)) (List.replicate (n * 2) default) n
  rw [← d1] at fI
  have fA := fill_slots_spec asel n (fun i _ => (i : Int)) Y3.i_indices n
  rw [← e1] at fA
  simp only at fI fA
  have fD := fill_slots_spec psel 0 (fun i d => K.dec_init_random d
      ((io_descs.map (fun d => d.size)).getD i default)
      (d_visible_layer_descs layer_descs.length 0 (layer_descs.getD 0 default).hidden_size
        (io_descs.getD i default).down_radius)) (List.replicate (rank psel n) default) n
  rw [← d3] at fD
  have fAct := fill_slots_spec asel 0 (fun i a => K.act_init_random a
      ((io_descs.map (fun d => d.size)).getD i default)
      (io_descs.getD i default).history_capacity
      (a_visible_layer_descs layer_descs.length 0 (layer_descs.getD 0 default).hidden_size
        (io_descs.getD i default).down_radius)) (List.replicate (rank asel n) default) n
  rw [← e3] at fAct
  simp only at fD fAct
  rw [hH]
  refine ⟨⟨?_, ?_⟩, ⟨?_, ?_, ?_⟩, ⟨?_, ?_⟩, ⟨?_, ?_⟩, ?_⟩
  · show Y4.d_indices.length = n
    rw [mA.2.1, mD.2.1]; simp
  · intro i hi
    show Y4.d_indices[i]? = _
    rw [mA.2.2 i, mD.2.1, mD.2.2 i]
    simp only [List.length_replicate, hi, true_and, and_true, List.getElem?_replicate, if_true]
    by_cases ha : asel i = true
    · simp [ha]
    · by_cases hp : psel i = true
      · simp [ha, hp]
      · simp [ha, hp]
  · show Y4.i_indices.length = n * 2
    rw [fA.2.1, fI.2.1]; simp
  · intro i hi hp
    show Y4.i_indices[rank psel i]? = _
    have hr := rank_le psel i
    rw [fA.2.2.2 _ (Or.inl (by omega))]
    have := fI.2.2.1 i hi hp (by simp; omega)
    simpa using this
  · intro i hi ha
    show Y4.i_indices[n + rank asel i]? = _
    have hr := rank_le asel i
    exact fA.2.2.1 i hi ha (by rw [fI.2.1]; simp; omega)
  · show (Y4.decoders.getD 0 default).length = _
    rw [e4, fD.2.1]; simp
  · intro i hi hp
    show (Y4.decoders.getD 0 default)[rank psel i]? = _
    rw [e4]
    have hlt := rank_lt psel i n hi hp
    have := fD.2.2.1 i hi hp (by simpa using hlt)
    simp only [Nat.zero_add] at this
    rw [this, getD_map_of_lt io_descs (fun d => d.size) i hi default default]
    simp [List.getD_eq_getElem?_getD, List.getElem?_replicate, hlt]
  · show Y4.actors.length = _
    rw [fAct.2.1]; simp
  · intro i hi ha
    show Y4.actors[rank asel i]? = _
    have hlt := rank_lt asel i n hi ha
    have := fAct.2.2.1 i hi ha (by simpa using hlt)
    simp only [Nat.zero_add] at this
    rw [this, getD_map_of_lt io_descs (fun d => d.size) i hi default default]
    simp [List.getD_eq_getElem?_getD, List.getElem?_replicate, hlt]
  · dsimp only
    rw [getElem?_Array_update, if_pos ⟨rfl, by rw [e5]; simpa using hN⟩, e5]
    simp [List.getD_eq_getElem?_getD, List.getElem?_replicate, hN]

/-- A hierarchy built on a default-constructed object with at least one layer: the
actors and the index maps are those of the iteration for layer `0`, and so are the
decoders and the encoder of layer `0`. -/
theorem create_first (K : Kernels) (io_descs : List IO_Desc) (layer_descs : List Layer_Desc)
    (hN : 0 < layer_descs.length) :
    (Hierarchy.create K io_descs layer_descs).actors =
      (init_upto K io_descs layer_descs 1).actors ∧
    (Hierarchy.create K io_descs layer_descs).i_indices =
      (init_upto K io_descs layer_descs 1).i_indices ∧
    (Hierarchy.create K io_descs layer_descs).d_indices =
      (init_upto K io_descs layer_descs 1).d_indices ∧
    (Hierarchy.create K io_descs layer_descs).decoders.getD 0 default =
      (init_upto K io_descs layer_descs 1).decoders.getD 0 default ∧
    (Hierarchy.create K io_descs layer_descs).encoders[0]? =
      (init_upto K io_descs layer_descs 1).encoders[0]? := by
  have e := init_upto_first K io_descs layer_descs layer_descs.length hN
  simp only [first_frame, Prod.mk.injEq] at e
  obtain ⟨e1, e2, e3⟩ := e
  obtain ⟨a, b, _⟩ := init_upto_above K io_descs layer_descs 0 layer_descs.length hN
  rw [create_eq]
  refine ⟨e1, e2, e3, ?_, a⟩
  show (init_upto K io_descs layer_descs layer_descs.length).decoders.getD 0 default = _
  rw [List.getD_eq_getElem?_getD, List.getD_eq_getElem?_getD, b]

theorem io_type_cases (t : IO_Type) :
    t = IO_Type.none ∨ t = IO_Type.prediction ∨ t = IO_Type.action := by
  cases t <;> simp

/-- The slot of channel `i` in `d_indices` after `init_random` with at least one layer. -/
theorem create_d_indices (K : Kernels) (io_descs : List IO_Desc)
    (layer_descs : List Layer_Desc) (hN : 0 < layer_descs.length) (i : Nat)
    (hi : i < io_descs.length) :
    (Hierarchy.create K io_descs layer_descs).d_indices[i]? =
      some (if (io_descs.getD i default).type = IO_Type.action then
          (slot_of io_descs IO_Type.action i : Int)
        else if (io_descs.getD i default).type = IO_Type.prediction then
          (slot_of io_descs IO_Type.prediction i : Int)
        else -1) := by
  obtain ⟨⟨_, hd⟩, _⟩ := init_first_spec K io_descs layer_descs hN
  obtain ⟨_, _, e3, _⟩ := create_first K io_descs layer_descs hN
  have hv := hd i hi
  rw [← e3] at hv
  rw [hv]
  simp only [slot_of, decide_eq_true_eq]

/-- C6: after `init_random` on a default-constructed object with at least one layer (so
that there is a layer `0`), for every channel `i`, `d_indices[i] == -1` if and only if the
type of channel `i` is neither `prediction` nor `action`; `io_layer_exists(i)` is true
exactly for the prediction and the action channels. -/
theorem d_indices_sentinel (K : Kernels) (io_descs : List IO_Desc)
    (layer_descs : List Layer_Desc) (hN : 0 < layer_descs.length) (i : Nat)
    (hi : i < io_descs.length) :
    (∃ v, (Hierarchy.create K io_descs layer_descs).d_indices[i]? = some v) ∧
    ((Hierarchy.create K io_descs layer_descs).d_indices[i]? = some (-1) ↔
      ((io_descs.getD i default).type ≠ IO_Type.prediction ∧
       (io_descs.getD i default).type ≠ IO_Type.action)) ∧
    (io_layer_exists (Hierarchy.create K io_descs layer_descs) i = true ↔
      ((io_descs.getD i default).type = IO_Type.prediction ∨
       (io_descs.getD i default).type = IO_Type.action)) := by
  have hv := create_d_indices K io_descs layer_descs hN i hi
  have hat : Array_at (Hierarchy.create K io_descs layer_descs).d_indices (i : Int) =
      ((Hierarchy.create K io_descs layer_descs).d_indices[i]?).getD default := by
    simp [Array_at, List.getD_eq_getElem?_getD]
  refine ⟨⟨_, hv⟩, ?_, ?_⟩
  · rw [hv]
    by_cases ha : (io_descs.getD i default).type = IO_Type.action
    · rw [if_pos ha]
      simp only [Option.some.injEq, ha, ne_eq, not_true_eq_false, and_false, iff_false]
      omega
    · rw [if_neg ha]
      by_cases hp : (io_descs.getD i default).type = IO_Type.prediction
      · rw [if_pos hp]
        simp only [Option.some.injEq, hp, ne_eq, not_true_eq_false, false_and, iff_false]
        omega
      · rw [if_neg hp]
        simp only [ne_eq, hp, not_false_eq_true, ha, and_self]
  · simp only [io_layer_exists, hat, hv, Option.getD_some, bne_iff_ne, ne_eq]
    by_cases ha : (io_descs.getD i default).type = IO_Type.action
    · rw [if_pos ha]
      simp only [ha, or_true, iff_true]
      omega
    · rw [if_neg ha]
      by_cases hp : (io_descs.getD i default).type = IO_Type.prediction
      · rw [if_pos hp]
        simp only [hp, true_or, iff_true]
        omega
      · rw [if_neg hp]
        simp only [not_true_eq_false, hp, ha, or_self]

/-- C7: after `init_random` on a default-constructed object with `n` channels
and at least one layer, `i_indices` and `d_indices` are mutually inverse: for every
prediction channel `i`, `0 <= d_indices[i] < (number of prediction channels)` and
`i_indices[d_indices[i]] == i`; for every action channel `i`,
`0 <= d_indices[i] < (number of action channels)` and `i_indices[n + d_indices[i]] == i`;
the slot of a channel is the number of channels of its type before it, so the slots are
handed out in increasing channel order, and `d_indices` restricted to the prediction
channels (to the action channels) is a bijection onto the slots of the decoders of
layer `0` (of the actors). -/
theorem index_maps_inverse (K : Kernels) (io_descs : List IO_Desc)
    (layer_descs : List Layer_Desc) (hN : 0 < layer_descs.length) :
    (∀ i, i < io_descs.length → (io_descs.getD i default).type = IO_Type.prediction →
      (Hierarchy.create K io_descs layer_descs).d_indices[i]? =
        some (slot_of io_descs IO_Type.prediction i : Int) ∧
      slot_of io_descs IO_Type.prediction i < num_channels io_descs IO_Type.prediction ∧
      (Hierarchy.create K io_descs layer_descs).i_indices[
        slot_of io_descs IO_Type.prediction i]? = some (i : Int)) ∧
    (∀ i, i < io_descs.length → (io_descs.getD i default).type = IO_Type.action →
      (Hierarchy.create K io_descs layer_descs).d_indices[i]? =
        some (slot_of io_descs IO_Type.action i : Int) ∧
      slot_of io_descs IO_Type.action i < num_channels io_descs IO_Type.action ∧
      (Hierarchy.create K io_descs layer_descs).i_indices[
        io_descs.length + slot_of io_descs IO_Type.action i]? = some (i : Int)) ∧
    (∀ ty i j, i < j → (io_descs.getD i default).type = ty →
      slot_of io_descs ty i < slot_of io_descs ty j) ∧
    ((Hierarchy.create K io_descs layer_descs).decoders.getD 0 default).length =
      num_channels io_descs IO_Type.prediction ∧
    (Hierarchy.create K io_descs layer_descs).actors.length =
      num_channels io_descs IO_Type.action ∧
    (∀ d, d < ((Hierarchy.create K io_descs layer_descs).decoders.getD 0 default).length →
      ∃ i, i < io_descs.length ∧ (io_descs.getD i default).type = IO_Type.prediction ∧
        (Hierarchy.create K io_descs layer_descs).d_indices[i]? = some (d : Int)) ∧
    (∀ d, d < (Hierarchy.create K io_descs layer_descs).actors.length →
      ∃ i, i < io_descs.length ∧ (io_descs.getD i default).type = IO_Type.action ∧
        (Hierarchy.create K io_descs layer_descs).d_indices[i]? = some (d : Int)) := by
  obtain ⟨_, ⟨_, hp, ha⟩, ⟨hdl, _⟩, ⟨hal, _⟩, _⟩ := init_first_spec K io_descs layer_descs hN
  obtain ⟨e1, e2, e3, e4, _⟩ := create_first K io_descs layer_descs hN
  have hact : ∀ i, (io_descs.getD i default).type = IO_Type.action →
      (io_descs.getD i default).type ≠ IO_Type.prediction := fun i h1 h2 => by
    rw [h1] at h2; exact absurd h2 (by decide)
  refine ⟨?_, ?_, ?_, ?_, ?_, ?_, ?_⟩
  · intro i hi ht
    have hv := create_d_indices K io_descs layer_descs hN i hi
    rw [if_neg (fun hh => hact i hh ht), if_pos ht] at hv
    refine ⟨hv, rank_lt _ i _ hi (by simpa using ht), ?_⟩
    rw [e2]
    exact hp i hi (by simpa using ht)
  · intro i hi ht
    have hv := create_d_indices K io_descs layer_descs hN i hi
    rw [if_pos ht] at hv
    refine ⟨hv, rank_lt _ i _ hi (by simpa using ht), ?_⟩
    rw [e2]
    exact ha i hi (by simpa using ht)
  · intro ty i j hij ht
    exact rank_lt _ i j hij (by simpa using ht)
  · rw [e4, hdl]; rfl
  · rw [e1, hal]; rfl
  · intro d hd
    rw [e4, hdl] at hd
    obtain ⟨i, h1, h2, h3⟩ := rank_surj _ _ d hd
    have ht : (io_descs.getD i default).type = IO_Type.prediction := by simpa using h2
    have hv := create_d_indices K io_descs layer_descs hN i h1
    rw [if_neg (fun hh => hact i hh ht), if_pos ht] at hv
    refine ⟨i, h1, ht, ?_⟩
    rw [hv, slot_of, h3]
  · intro d hd
    rw [e1, hal] at hd
    obtain ⟨i, h1, h2, h3⟩ := rank_surj _ _ d hd
    have ht : (io_descs.getD i default).type = IO_Type.action := by simpa using h2
    have hv := create_d_indices K io_descs layer_descs hN i h1
    rw [if_pos ht] at hv
    refine ⟨i, h1, ht, ?_⟩
    rw [hv, slot_of, h3]

/-! ## The descriptors of the encoders -/

/-- A loop that writes `v j` at position `idx j` for `j < k`, the positions being
distinct. -/
theorem set_loop_spec {α : Type} (idx : Nat → Nat) (v : Nat → α) (k : Nat) (xs : List α)
    (hinj : ∀ i j, i < k → j < k → idx i = idx j → i = j) :
    ((List.range k).foldl (fun (e : List α) (j : Nat) => e.set (idx j) (v j)) xs).length =
      xs.length ∧
    (∀ j, j < k → idx j < xs.length →
      ((List.range k).foldl (fun (e : List α) (j : Nat) => e.set (idx j) (v j)) xs)[idx j]? =
        some (v j)) ∧
    (∀ p, (∀ j, j < k → idx j ≠ p) →
      ((List.range k).foldl (fun (e : List α) (j : Nat) => e.set (idx j) (v j)) xs)[p]? =
        xs[p]?) := by
  induction k with
  | zero => exact ⟨rfl, fun j hj => by omega, fun p _ => rfl⟩
  | succ k ih =>
    obtain ⟨i1, i2, i3⟩ := ih (fun i j hi hj => hinj i j (by omega) (by omega))
    rw [List.range_succ, List.foldl_append]
    simp only [List.foldl_cons, List.foldl_nil, List.length_set]
    refine ⟨i1, fun j hj hlt => ?_, fun p hp => ?_⟩
    · rw [List.getElem?_set]
      by_cases hjk : j = k
      · subst hjk
        rw [if_pos rfl, i1]
        simp [hlt]
      · have hne : idx k ≠ idx j := fun hh => hjk (hinj k j (by omega) hj hh).symm
        rw [if_neg hne]
        exact i2 j (by omega) hlt
    · rw [List.getElem?_set, if_neg (hp k (by omega))]
      exact i3 p (fun j hj => hp j (by omega))

/-- Lines 58-67: the descriptors of the encoder of layer `0`: there are
`|io_sizes| * temporal_horizon` of them and the one at `t + temporal_horizon * i` has the
size of channel `i` and the radius `up_radius` of channel `i`. -/
theorem e_visible_layer_descs_first_spec (io_sizes : List Int3) (io_descs : List IO_Desc)
    (th : Int) :
    (e_visible_layer_descs_first io_sizes io_descs th).length =
      ((io_sizes.length : Int) * th).toNat ∧
    ∀ i t : Nat, i < io_sizes.length → (t : Int) < th →
      (e_visible_layer_descs_first io_sizes io_descs th)[t + th.toNat * i]? =
        some ⟨io_sizes.getD i default, (io_descs.getD i default).up_radius⟩ := by
  -- the inner loop writes `temporal_horizon` distinct places
  have inner : ∀ (i : Nat) (e : List Encoder.Visible_Layer_Desc),
      (List.range th.toNat).foldl (fun (e : List Encoder.Visible_Layer_Desc) (t : Nat) =>
        Array_put e ((t : Int) + th * (i : Int))
          { (Array_at e ((t : Int) + th * (i : Int))) with
            size := io_sizes.getD i default,
            radius := (io_descs.getD i default).up_radius }) e =
      (List.range th.toNat).foldl (fun (e : List Encoder.Visible_Layer_Desc) (t : Nat) =>
        e.set (t + th.toNat * i)
          (⟨io_sizes.getD i default, (io_descs.getD i default).up_radius⟩ :
            Encoder.Visible_Layer_Desc)) e := by
    intro i e
    apply fold_congr_range _ _ th.toNat _ _ (le_refl _)
    intro s t ht
    have hth : th = (th.toNat : Int) := (Int.toNat_of_nonneg (by omega)).symm
    have hidx : (t : Int) + th * (i : Int) = ((t + th.toNat * i : Nat) : Int) := by
      rw [hth]; push_cast; simp
    rw [hidx]
    simp only [Array_put, Int.toNat_ofNat, Int.natCast_nonneg, if_true]
  simp only [e_visible_layer_descs_first, inner]
  generalize hT : th.toNat = T
  have outer : ∀ k, k ≤ io_sizes.length →
      ((List.range k).foldl (fun (e : List Encoder.Visible_Layer_Desc) (i : Nat) =>
        (List.range T).foldl (fun (e : List Encoder.Visible_Layer_Desc) (t : Nat) =>
          e.set (t + T * i)
            (⟨io_sizes.getD i default, (io_descs.getD i default).up_radius⟩ :
              Encoder.Visible_Layer_Desc)) e)
        (Array_resize [] ((io_sizes.length : Int) * th))).length =
        ((io_sizes.length : Int) * th).toNat ∧
      ∀ i t : Nat, i < k → t < T →
        ((List.range k).foldl (fun (e : List Encoder.Visible_Layer_Desc) (i : Nat) =>
          (List.range T).foldl (fun (e : List Encoder.Visible_Layer_Desc) (t : Nat) =>
            e.set (t + T * i)
              (⟨io_sizes.getD i default, (io_descs.getD i default).up_radius⟩ :
                Encoder.Visible_Layer_Desc)) e)
          (Array_resize [] ((io_sizes.length : Int) * th)))[t + T * i]? =
          some ⟨io_sizes.getD i default, (io_descs.getD i default).up_radius⟩ := by
    intro k
    induction k with
    | zero =>
      intro _
      exact ⟨by simp [Array_resize, Array_resize_fill], fun i t hi => by omega⟩
    | succ k ih =>
      intro hk
      obtain ⟨i1, i2⟩ := ih (by omega)
      rw [List.range_succ, List.foldl_append]
      simp only [List.foldl_cons, List.foldl_nil]
      generalize (List.range k).foldl (fun (e : List Encoder.Visible_Layer_Desc) (i : Nat) =>
          (List.range T).foldl (fun (e : List Encoder.Visible_Layer_Desc) (t : Nat) =>
            e.set (t + T * i)
              (⟨io_sizes.getD i default, (io_descs.getD i default).up_radius⟩ :
                Encoder.Visible_Layer_Desc)) e)
          (Array_resize [] ((io_sizes.length : Int) * th)) = E at i1 i2
      obtain ⟨s1, s2, s3⟩ := set_loop_spec (fun t => t + T * k)
        (fun _ => (⟨io_sizes.getD k default, (io_descs.getD k default).up_radius⟩ :
          Encoder.Visible_Layer_Desc)) T E (fun a b _ _ hab => by simpa using hab)
      refine ⟨s1.trans i1, fun i t hi ht => ?_⟩
      by_cases hik : i = k
      · subst hik
        apply s2 t ht
        rw [i1]
        have hth : th = (T : Int) := by rw [← hT]; exact (Int.toNat_of_nonneg (by omega)).symm
        rw [hth, ← Nat.cast_mul, Int.toNat_ofNat]
        calc t + T * i < T + T * i := by omega
          _ = T * (i + 1) := by ring
          _ ≤ T * io_sizes.length := Nat.mul_le_mul_left _ hk
          _ = io_sizes.length * T := Nat.mul_comm _ _
      · rw [s3 (t + T * i) (fun j hj hh => ?_)]
        · exact i2 i t (by omega) ht
        · have hlt : i < k := by omega
          have h1 : T * i + T ≤ T * k := by
            calc T * i + T = T * (i + 1) := by ring
              _ ≤ T * k := Nat.mul_le_mul_left _ hlt
          simp only at hh
          omega
  obtain ⟨o1, o2⟩ := outer io_sizes.length (le_refl _)
  refine ⟨o1, fun i t hi ht => o2 i t hi ?_⟩
  omega

/-- A loop that changes the element `t` by `f` for `t < k`. -/
theorem foldl_update_range {α : Type} [Inhabited α] (f : Nat → α → α) (k : Nat) (xs : List α)
    (hk : k ≤ xs.length) :
    (List.range k).foldl (fun (ys : List α) (t : Nat) => Array_update ys t (f t)) xs =
      (List.range k).map (fun t => f t (xs.getD t default)) ++ xs.drop k := by
  induction k with
  | zero => simp
  | succ k ih =>
    rw [List.range_succ, List.foldl_append, ih (by omega)]
    simp only [List.foldl_cons, List.foldl_nil, List.map_append, List.map_cons, List.map_nil]
    have hl : ((List.range k).map (fun t => f t (xs.getD t default))).length = k := by simp
    have hlt : k < xs.length := by omega
    unfold Array_update
    rw [List.set_append_right _ _ (by rw [hl]), hl, Nat.sub_self]
    rw [List.getD_eq_getElem?_getD, List.getElem?_append_right (by rw [hl]), hl, Nat.sub_self]
    rw [List.drop_eq_getElem_cons hlt, List.set_cons_zero]
    simp [List.getD_eq_getElem?_getD, List.getElem?_eq_getElem hlt]

/-- Lines 131-136: the descriptors of the encoder of a layer `l > 0`:
`temporal_horizon` descriptors with the hidden size of the layer below and the radius
`up_radius` of the layer. -/
theorem e_visible_layer_descs_next_spec (layer_descs : List Layer_Desc) (l : Nat) :
    e_visible_layer_descs_next layer_descs l =
      List.replicate (layer_descs.getD l default).temporal_horizon.toNat
        ⟨(layer_descs.getD (l - 1) default).hidden_size,
          (layer_descs.getD l default).up_radius⟩ := by
  simp only [e_visible_layer_descs_next]
  have := foldl_set_range (fun _ : Nat => (⟨(layer_descs.getD (l - 1) default).hidden_size,
      (layer_descs.getD l default).up_radius⟩ : Encoder.Visible_Layer_Desc))
    (layer_descs.getD l default).temporal_horizon.toNat
    (Array_resize [] (layer_descs.getD l default).temporal_horizon)
    (by simp [Array_resize, Array_resize_fill])
  rw [this]
  simp [Array_resize, Array_resize_fill]

/-- Lines 130-164: the iteration for a layer `l > 0` of the loop over the layers, on a
default-constructed object: the encoder and the decoders of the layer. -/
theorem init_next_spec (K : Kernels) (io_descs : List IO_Desc) (layer_descs : List Layer_Desc)
    (l : Nat) (hl0 : 0 < l) (hl : l < layer_descs.length) :
    (init_upto K io_descs layer_descs (l + 1)).encoders[l]? =
      some (K.enc_init_random default (layer_descs.getD l default).hidden_size
        (e_visible_layer_descs_next layer_descs l)) ∧
    (init_upto K io_descs layer_descs (l + 1)).decoders[l]? =
      some (List.replicate (layer_descs.getD l default).ticks_per_update.toNat
        (K.dec_init_random default (layer_descs.getD (l - 1) default).hidden_size
          (d_visible_layer_descs layer_descs.length l (layer_descs.getD l default).hidden_size
            (layer_descs.getD l default).down_radius))) := by
  obtain ⟨_, _, k3, k4, _, k6⟩ := init_upto_keeps K io_descs layer_descs l
  obtain ⟨b1, b2, _⟩ := k6 l (le_refl _) hl
  have hne : l ≠ 0 := by omega
  rw [init_upto_succ]
  simp only [init_layer, hne, if_false, init_next_layer]
  generalize init_upto K io_descs layer_descs l = X at k3 k4 b1 b2 ⊢
  -- the histories
  have hY1 : (init_histories_next layer_descs X l).encoders = X.encoders ∧
      (init_histories_next layer_descs X l).decoders = X.decoders := ⟨rfl, rfl⟩
  generalize init_histories_next layer_descs X l = Y1 at hY1 ⊢
  obtain ⟨c1, c2⟩ := hY1
  -- the decoders
  have hdl : l < (Array_update Y1.decoders l (fun ds =>
      Array_resize ds (layer_descs.getD l default).ticks_per_update)).length := by
    rw [length_Array_update, c2, k4]; exact hl
  have hd0 : (Array_update Y1.decoders l (fun ds =>
      Array_resize ds (layer_descs.getD l default).ticks_per_update)).getD l default =
      List.replicate (layer_descs.getD l default).ticks_per_update.toNat default := by
    rw [getD_Array_update, if_pos ⟨rfl, by rw [c2, k4]; exact hl⟩, c2,
      List.getD_eq_getElem?_getD, b2]
    simp [Array_resize, Array_resize_fill]
  have hproj := foldl_proj_inv
    (fun s : Hierarchy => s.encoders = X.encoders ∧ l < s.decoders.length)
    (fun s : Hierarchy => s.decoders.getD l default)
    (fun (h : Hierarchy) (t : Nat) =>
      { h with decoders := Array_update h.decoders l (fun ds =>
          Array_update ds t (fun d =>
            K.dec_init_random d (layer_descs.getD (l - 1) default).hidden_size
              (d_visible_layer_descs Y1.encoders.length l
                (layer_descs.getD l default).hidden_size
                (layer_descs.getD l default).down_radius))) })
    (fun (ds : List Decoder) (t : Nat) => Array_update ds t (fun d =>
      K.dec_init_random d (layer_descs.getD (l - 1) default).hidden_size
        (d_visible_layer_descs Y1.encoders.length l
          (layer_descs.getD l default).hidden_size
          (layer_descs.getD l default).down_radius)))
    (fun s a hs => by simpa using hs)
    (fun s a hs => by
      simp only [getD_Array_update, hs.2, and_self, if_true])
    (List.range (layer_descs.getD l default).ticks_per_update.toNat)
    { Y1 with decoders := Array_update Y1.decoders l (fun ds =>
        Array_resize ds (layer_descs.getD l default).ticks_per_update) }
    ⟨c1, hdl⟩
  obtain ⟨p1, p2, p3⟩ := hproj
  simp only at p1 p2 p3
  rw [hd0] at p1
  rw [foldl_update_range (fun _ d => K.dec_init_random d
      (layer_descs.getD (l - 1) default).hidden_size
      (d_visible_layer_descs Y1.encoders.length l (layer_descs.getD l default).hidden_size
        (layer_descs.getD l default).down_radius)) _ _ (by simp)] at p1
  have hmap : ∀ (T : Nat) (v : Decoder) (g : Decoder → Decoder),
      (List.range T).map (fun t => g ((List.replicate T v).getD t default)) ++
        (List.replicate T v).drop T = List.replicate T (g v) := by
    intro T v g
    apply List.ext_getElem
    · simp
    · intro i h1 h2
      simp only [List.length_replicate] at h2
      simp [List.getElem_append_left, h2, List.getD_eq_getElem?_getD, List.getElem?_replicate]
  rw [hmap (layer_descs.getD l default).ticks_per_update.toNat default
    (fun d => K.dec_init_random d (layer_descs.getD (l - 1) default).hidden_size
      (d_visible_layer_descs Y1.encoders.length l (layer_descs.getD l default).hidden_size
        (layer_descs.getD l default).down_radius))] at p1
  have hY2 : init_decoders_next K layer_descs Y1 l =
      (List.range (layer_descs.getD l default).ticks_per_update.toNat).foldl
        (fun (h : Hierarchy) (t : Nat) =>
          { h with decoders := Array_update h.decoders l (fun ds =>
              Array_update ds t (fun d =>
                K.dec_init_random d (layer_descs.getD (l - 1) default).hidden_size
                  (d_visible_layer_descs Y1.encoders.length l
                    (layer_descs.getD l default).hidden_size
                    (layer_descs.getD l default).down_radius))) })
        { Y1 with decoders := Array_update Y1.decoders l (fun ds =>
            Array_resize ds (layer_descs.getD l default).ticks_per_update) } := by
    simp only [init_decoders_next]
    rw [hd0]
    simp
  rw [hY2]
  generalize (List.range (layer_descs.getD l default).ticks_per_update.toNat).foldl
        (fun (h : Hierarchy) (t : Nat) =>
          { h with decoders := Array_update h.decoders l (fun ds =>
              Array_update ds t (fun d =>
                K.dec_init_random d (layer_descs.getD (l - 1) default).hidden_size
                  (d_visible_layer_descs Y1.encoders.length l
                    (layer_descs.getD l default).hidden_size
                    (layer_descs.getD l default).down_radius))) })
        { Y1 with decoders := Array_update Y1.decoders l (fun ds =>
            Array_resize ds (layer_descs.getD l default).ticks_per_update) } = Y2 at p1 p2 p3
  constructor
  · rw [getElem?_Array_update, if_pos ⟨rfl, by rw [p2, k3]; exact hl⟩, p2,
      List.getD_eq_getElem?_getD, b1]
    rfl
  · show Y2.decoders[l]? = _
    rw [getElem?_eq_some_getD _ l p3 default, p1, c1, k3]

/-- The encoder and the decoders of a layer `l > 0` of a hierarchy built on a
default-constructed object. -/
theorem create_next (K : Kernels) (io_descs : List IO_Desc) (layer_descs : List Layer_Desc)
    (l : Nat) (hl0 : 0 < l) (hl : l < layer_descs.length) :
    (Hierarchy.create K io_descs layer_descs).encoders[l]? =
      some (K.enc_init_random default (layer_descs.getD l default).hidden_size
        (e_visible_layer_descs_next layer_descs l)) ∧
    (Hierarchy.create K io_descs layer_descs).decoders[l]? =
      some (List.replicate (layer_descs.getD l default).ticks_per_update.toNat
        (K.dec_init_random default (layer_descs.getD (l - 1) default).hidden_size
          (d_visible_layer_descs layer_descs.length l (layer_descs.getD l default).hidden_size
            (layer_descs.getD l default).down_radius))) := by
  obtain ⟨a, b, _⟩ := init_upto_above K io_descs layer_descs l layer_descs.length hl
  obtain ⟨c, d⟩ := init_next_spec K io_descs layer_descs l hl0 hl
  rw [create_eq]
  exact ⟨a.trans c, b.trans d⟩

/-- C8: `init_random` (on a default-constructed object, with element counts that can
be allocated) gives the encoder of layer `0` exactly `|io_descs| * temporal_horizon`
visible layer descriptors, the one at index `t + temporal_horizon * i` having the size
of channel `i` and the radius `io_descs[i].up_radius`, whatever the type of the channel;
and it gives the encoder of every layer `l > 0` exactly `layer_descs[l].temporal_horizon`
descriptors, each of size `layer_descs[l - 1].hidden_size` and radius
`layer_descs[l].up_radius`. -/
theorem encoder_descriptors (K : Kernels) (io_descs : List IO_Desc)
    (layer_descs : List Layer_Desc) :
    (0 < layer_descs.length →
      0 ≤ (io_descs.length : Int) * (layer_descs.getD 0 default).temporal_horizon →
      (Hierarchy.create K io_descs layer_descs).encoders[0]? =
        some (K.enc_init_random default (layer_descs.getD 0 default).hidden_size
          (e_visible_layer_descs_first (io_descs.map (fun d => d.size)) io_descs
            (layer_descs.getD 0 default).temporal_horizon)) ∧
      ((e_visible_layer_descs_first (io_descs.map (fun d => d.size)) io_descs
          (layer_descs.getD 0 default).temporal_horizon).length : Int) =
        (io_descs.length : Int) * (layer_descs.getD 0 default).temporal_horizon ∧
      ∀ i t : Nat, i < io_descs.length →
        (t : Int) < (layer_descs.getD 0 default).temporal_horizon →
        (e_visible_layer_descs_first (io_descs.map (fun d => d.size)) io_descs
          (layer_descs.getD 0 default).temporal_horizon)[
            ((t : Int) + (layer_descs.getD 0 default).temporal_horizon * (i : Int)).toNat]? =
          some ⟨(io_descs.getD i default).size, (io_descs.getD i default).up_radius⟩) ∧
    (∀ l, 0 < l → l < layer_descs.length →
      0 ≤ (layer_descs.getD l default).temporal_horizon →
      (Hierarchy.create K io_descs layer_descs).encoders[l]? =
        some (K.enc_init_random default (layer_descs.getD l default).hidden_size
          (e_visible_layer_descs_next layer_descs l)) ∧
      ((e_visible_layer_descs_next layer_descs l).length : Int) =
        (layer_descs.getD l default).temporal_horizon ∧
      ∀ v ∈ e_visible_layer_descs_next layer_descs l,
        v = ⟨(layer_descs.getD (l - 1) default).hidden_size,
          (layer_descs.getD l default).up_radius⟩) := by
  constructor
  · intro hN hth
    obtain ⟨_, _, _, _, he⟩ := init_first_spec K io_descs layer_descs hN
    obtain ⟨_, _, _, _, e5⟩ := create_first K io_descs layer_descs hN
    obtain ⟨s1, s2⟩ := e_visible_layer_descs_first_spec (io_descs.map (fun d => d.size))
      io_descs (layer_descs.getD 0 default).temporal_horizon
    refine ⟨e5.trans he, ?_, ?_⟩
    · rw [s1]
      simp only [List.length_map]
      exact Int.toNat_of_nonneg hth
    · intro i t hi ht
      have hT : (layer_descs.getD 0 default).temporal_horizon =
          (((layer_descs.getD 0 default).temporal_horizon.toNat : Nat) : Int) :=
        (Int.toNat_of_nonneg (by omega)).symm
      have hidx : ((t : Int) + (layer_descs.getD 0 default).temporal_horizon * (i : Int)).toNat
          = t + (layer_descs.getD 0 default).temporal_horizon.toNat * i := by
        conv_lhs => rw [hT]
        rw [← Nat.cast_mul, ← Nat.cast_add, Int.toNat_ofNat]
      rw [hidx, s2 i t (by simpa using hi) ht,
        getD_map_of_lt io_descs (fun d => d.size) i hi default default]
  · intro l hl0 hl hth
    obtain ⟨c, _⟩ := create_next K io_descs layer_descs l hl0 hl
    refine ⟨c, ?_, ?_⟩
    · rw [e_visible_layer_descs_next_spec]
      simp only [List.length_replicate]
      exact Int.toNat_of_nonneg hth
    · intro v hv
      rw [e_visible_layer_descs_next_spec] at hv
      exact List.eq_of_mem_replicate hv

theorem d_visible_layer_descs_eq (n l : Nat) (size : Int3) (radius : Int) :
    d_visible_layer_descs n l size radius =
      List.replicate (if l + 1 < n then 2 else 1) ⟨size, radius⟩ := by
  simp only [d_visible_layer_descs]
  by_cases h : l + 1 < n
  · have ha : has_layer_above n l = true := (has_layer_above_iff n l).2 h
    simp only [ha, if_true, h]
    rfl
  · have ha : ¬ has_layer_above n l = true := fun hh => h ((has_layer_above_iff n l).1 hh)
    simp only [ha, if_false, h]
    rfl

theorem a_visible_layer_descs_eq (n l : Nat) (size : Int3) (radius : Int) :
    a_visible_layer_descs n l size radius =
      List.replicate (if l + 1 < n then 2 else 1) ⟨size, radius⟩ := by
  simp only [a_visible_layer_descs]
  by_cases h : l + 1 < n
  · have ha : has_layer_above n l = true := (has_layer_above_iff n l).2 h
    simp only [ha, if_true, h]
    rfl
  · have ha : ¬ has_layer_above n l = true := fun hh => h ((has_layer_above_iff n l).1 hh)
    simp only [ha, if_false, h]
    rfl

/-- C10: in `init_random` (on a default-constructed object) every decoder of a layer
`l` and every actor is constructed with exactly `1` visible layer descriptor when `l` is
the top layer and exactly `2` otherwise; the descriptors have the size
`layer_descs[l].hidden_size`, and that size is the output (hidden) size with which the
decoders of layer `l + 1` are constructed. -/
theorem decoder_descriptors (K : Kernels) (io_descs : List IO_Desc)
    (layer_descs : List Layer_Desc) :
    (∀ l size radius, l < layer_descs.length →
      d_visible_layer_descs layer_descs.length l size radius =
        List.replicate (if l + 1 = layer_descs.length then 1 else 2) ⟨size, radius⟩ ∧
      a_visible_layer_descs layer_descs.length l size radius =
        List.replicate (if l + 1 = layer_descs.length then 1 else 2) ⟨size, radius⟩) ∧
    (∀ d, d < ((Hierarchy.create K io_descs layer_descs).decoders.getD 0 default).length →
      ∃ i, i < io_descs.length ∧ (io_descs.getD i default).type = IO_Type.prediction ∧
        ((Hierarchy.create K io_descs layer_descs).decoders.getD 0 default)[d]? =
          some (K.dec_init_random default (io_descs.getD i default).size
            (d_visible_layer_descs layer_descs.length 0
              (layer_descs.getD 0 default).hidden_size
              (io_descs.getD i default).down_radius))) ∧
    (∀ d, d < (Hierarchy.create K io_descs layer_descs).actors.length →
      ∃ i, i < io_descs.length ∧ (io_descs.getD i default).type = IO_Type.action ∧
        (Hierarchy.create K io_descs layer_descs).actors[d]? =
          some (K.act_init_random default (io_descs.getD i default).size
            (io_descs.getD i default).history_capacity
            (a_visible_layer_descs layer_descs.length 0
              (layer_descs.getD 0 default).hidden_size
              (io_descs.getD i default).down_radius))) ∧
    (∀ l, l + 1 < layer_descs.length →
      ∀ ds, (Hierarchy.create K io_descs layer_descs).decoders[l + 1]? = some ds →
        ∀ d ∈ ds, d = K.dec_init_random default (layer_descs.getD l default).hidden_size
          (d_visible_layer_descs layer_descs.length (l + 1)
            (layer_descs.getD (l + 1) default).hidden_size
            (layer_descs.getD (l + 1) default).down_radius)) := by
  refine ⟨?_, ?_, ?_, ?_⟩
  · intro l size radius hl
    rw [d_visible_layer_descs_eq, a_visible_layer_descs_eq]
    by_cases h : l + 1 < layer_descs.length
    · have : ¬ l + 1 = layer_descs.length := by omega
      rw [if_pos h, if_neg this]
      exact ⟨rfl, rfl⟩
    · have : l + 1 = layer_descs.length := by omega
      rw [if_neg h, if_pos this]
      exact ⟨rfl, rfl⟩
  · by_cases hN : 0 < layer_descs.length
    · obtain ⟨_, _, ⟨hdl, hd⟩, _, _⟩ := init_first_spec K io_descs layer_descs hN
      obtain ⟨_, _, _, e4, _⟩ := create_first K io_descs layer_descs hN
      intro d hlt
      rw [e4, hdl] at hlt
      obtain ⟨i, h1, h2, h3⟩ := rank_surj _ _ d hlt
      refine ⟨i, h1, by simpa using h2, ?_⟩
      rw [e4, ← h3]
      exact hd i h1 h2
    · have h0 : layer_descs = [] := List.eq_nil_of_length_eq_zero (by omega)
      subst h0
      intro d hlt
      have : (Hierarchy.create K io_descs []).decoders = [] := by
        rw [create_eq]; rfl
      rw [this] at hlt
      exact absurd hlt (Nat.not_lt_zero d)
  · by_cases hN : 0 < layer_descs.length
    · obtain ⟨_, _, _, ⟨hal, ha⟩, _⟩ := init_first_spec K io_descs layer_descs hN
      obtain ⟨e1, _, _, _, _⟩ := create_first K io_descs layer_descs hN
      intro d hlt
      rw [e1, hal] at hlt
      obtain ⟨i, h1, h2, h3⟩ := rank_surj _ _ d hlt
      refine ⟨i, h1, by simpa using h2, ?_⟩
      rw [e1, ← h3]
      exact ha i h1 h2
    · have h0 : layer_descs = [] := List.eq_nil_of_length_eq_zero (by omega)
      subst h0
      intro d hlt
      have : (Hierarchy.create K io_descs []).actors = [] := by
        rw [create_eq]; rfl
      rw [this] at hlt
      exact absurd hlt (Nat.not_lt_zero d)
  · intro l hl ds hds d hd
    obtain ⟨_, c⟩ := create_next K io_descs layer_descs (l + 1) (by omega) hl
    rw [c] at hds
    simp only [Option.some.injEq] at hds
    rw [← hds] at hd
    have := List.eq_of_mem_replicate hd
    simpa using this

/-! ## Reading back what was written -/

@[simp] theorem length_le32 (v : Int) : (le32 v).length = 4 := rfl

theorem int_of_le32_le32 (v : Int) (hv : is_int v) : int_of_le32 (le32 v) = v := by
  obtain ⟨h1, h2⟩ := hv
  simp only [le32, int_of_le32, List.getD_cons_zero, List.getD_cons_succ, Byte]
  split_ifs with h <;> omega

theorem read_int_le32 (v : Int) (hv : is_int v) (s : List Byte) :
    read_int (le32 v ++ s) = (v, s) := by
  simp only [read_int]
  rw [List.take_left' (length_le32 v), List.drop_left' (length_le32 v), int_of_le32_le32 v hv]

theorem length_write_ints (xs : List Int) : (write_ints xs).length = 4 * xs.length := by
  induction xs with
  | nil => rfl
  | cons x xs ih =>
    simp only [write_ints, List.flatMap_cons, List.length_append, length_le32,
      List.length_cons] at ih ⊢
    omega

theorem read_ints_snd (xs : List Int) (s : List Byte) :
    (read_ints xs.length (write_ints xs ++ s)).2 = s := by
  simp only [read_ints]
  exact List.drop_left' (length_write_ints xs)

theorem read_ints_write_ints (xs : List Int) (hxs : ∀ x ∈ xs, is_int x) (s : List Byte) :
    (read_ints xs.length (write_ints xs ++ s)).1 = xs := by
  simp only [read_ints]
  apply List.ext_getElem
  · simp
  · intro i h1 h2
    simp only [List.getElem_map, List.getElem_range]
    have hsplit : write_ints xs = write_ints (xs.take i) ++ (le32 xs[i] ++
        write_ints (xs.drop (i + 1))) := by
      conv_lhs => rw [← List.take_append_drop i xs, List.drop_eq_getElem_cons h2]
      simp only [write_ints, List.flatMap_append, List.flatMap_cons]
    have hlen : (write_ints (xs.take i)).length = 4 * i := by
      rw [length_write_ints, List.length_take]
      omega
    rw [hsplit, List.append_assoc, List.drop_left' hlen, List.append_assoc,
      List.take_left' (length_le32 _)]
    exact int_of_le32_le32 _ (hxs _ (List.getElem_mem h2))
    

theorem read_bytes_append (bs s : List Byte) : read_bytes bs.length (bs ++ s) = (bs, s) := by
  simp [read_bytes, Array_first]

theorem read_structs_snd {α : Type} (f : List Byte → α) (size count : Nat) (bs s : List Byte)
    (hbs : bs.length = size * count) : (read_structs f size count (bs ++ s)).2 = s := by
  simp only [read_structs]
  exact List.drop_left' hbs

theorem length_flatMap_const {α : Type} (f : α → List Byte) (size : Nat) (xs : List α)
    (hf : ∀ x, (f x).length = size) : (xs.flatMap f).length = size * xs.length := by
  induction xs with
  | nil => simp
  | cons x xs ih =>
    simp only [List.flatMap_cons, List.length_append, hf, ih, List.length_cons]
    ring

theorem Array_first_self {α : Type} (xs : List α) (d : α) :
    Array_first xs xs.length d = xs := by
  simp [Array_first]

theorem is_int_natCast (n : Nat) (hn : n < 2147483648) : is_int (n : Int) := by
  constructor <;> omega

/-- Lines 410-447 on a dump: the head of the dump of `h` gives back the four counts and
`ticks_per_update`, and the per-layer arrays get one entry per layer. -/
theorem read_head_write_head (K : Kernels) (h h0 : Hierarchy) (tail : List Byte)
    (hInt3 : ∀ v, (K.Int3_bytes v).length = K.sizeof_Int3)
    (h1 : h.io_types.length = h.io_sizes.length)
    (h2 : h.updates.length = h.encoders.length)
    (h3 : h.ticks.length = h.encoders.length)
    (h4 : h.ticks_per_update.length = h.encoders.length)
    (i1 : h.encoders.length < 2147483648) (i2 : h.io_sizes.length < 2147483648)
    (i3 : (h.decoders.getD 0 default).length < 2147483648)
    (i4 : h.actors.length < 2147483648)
    (i5 : ∀ x ∈ h.ticks_per_update, is_int x) :
    (read_head K h0 (write_head K h ++ tail)).num_layers = h.encoders.length ∧
    (read_head K h0 (write_head K h ++ tail)).num_io = h.io_sizes.length ∧
    (read_head K h0 (write_head K h ++ tail)).num_predictions =
      (h.decoders.getD 0 default).length ∧
    (read_head K h0 (write_head K h ++ tail)).num_actions = h.actors.length ∧
    (read_head K h0 (write_head K h ++ tail)).hier.ticks_per_update = h.ticks_per_update ∧
    (read_head K h0 (write_head K h ++ tail)).hier.decoders.length = h.encoders.length := by
  have e0 : write_head K h ++ tail =
      le32 h.encoders.length ++ (le32 h.io_sizes.length ++
        (le32 (h.decoders.getD 0 default).length ++ (le32 h.actors.length ++
          ((Array_first h.io_sizes h.io_sizes.length default).flatMap K.Int3_bytes ++
            (Array_first h.io_types h.io_sizes.length 0 ++ (h.updates ++
              (write_ints h.ticks ++ (write_ints h.ticks_per_update ++
                (write_ints h.i_indices ++ write_ints h.d_indices ++ tail))))))))) := by
    simp only [write_head, List.append_assoc]
  have r1 := read_int_le32 _ (is_int_natCast _ i1) (le32 h.io_sizes.length ++
        (le32 (h.decoders.getD 0 default).length ++ (le32 h.actors.length ++
          ((Array_first h.io_sizes h.io_sizes.length default).flatMap K.Int3_bytes ++
            (Array_first h.io_types h.io_sizes.length 0 ++ (h.updates ++
              (write_ints h.ticks ++ (write_ints h.ticks_per_update ++
                (write_ints h.i_indices ++ write_ints h.d_indices ++ tail))))))))) 
  have r2 := read_int_le32 _ (is_int_natCast _ i2)
        (le32 (h.decoders.getD 0 default).length ++ (le32 h.actors.length ++
          ((Array_first h.io_sizes h.io_sizes.length default).flatMap K.Int3_bytes ++
            (Array_first h.io_types h.io_sizes.length 0 ++ (h.updates ++
              (write_ints h.ticks ++ (write_ints h.ticks_per_update ++
                (write_ints h.i_indices ++ write_ints h.d_indices ++ tail)))))))) 
  have r3 := read_int_le32 _ (is_int_natCast _ i3) (le32 h.actors.length ++
          ((Array_first h.io_sizes h.io_sizes.length default).flatMap K.Int3_bytes ++
            (Array_first h.io_types h.io_sizes.length 0 ++ (h.updates ++
              (write_ints h.ticks ++ (write_ints h.ticks_per_update ++
                (write_ints h.i_indices ++ write_ints h.d_indices ++ tail)))))))
  have r4 := read_int_le32 _ (is_int_natCast _ i4)
          ((Array_first h.io_sizes h.io_sizes.length default).flatMap K.Int3_bytes ++
            (Array_first h.io_types h.io_sizes.length 0 ++ (h.updates ++
              (write_ints h.ticks ++ (write_ints h.ticks_per_update ++
                (write_ints h.i_indices ++ write_ints h.d_indices ++ tail))))))
  have r5 := read_structs_snd K.Int3_of_bytes K.sizeof_Int3 h.io_sizes.length
    ((Array_first h.io_sizes h.io_sizes.length default).flatMap K.Int3_bytes)
    (Array_first h.io_types h.io_sizes.length 0 ++ (h.updates ++
      (write_ints h.ticks ++ (write_ints h.ticks_per_update ++
        (write_ints h.i_indices ++ write_ints h.d_indices ++ tail)))))
    (by rw [length_flatMap_const _ _ _ hInt3, Array_first_self])
  have r6 := read_bytes_append (Array_first h.io_types h.io_sizes.length 0) (h.updates ++
      (write_ints h.ticks ++ (write_ints h.ticks_per_update ++
        (write_ints h.i_indices ++ write_ints h.d_indices ++ tail))))
  have l6 : (Array_first h.io_types h.io_sizes.length 0).length = h.io_sizes.length := by
    rw [← h1, Array_first_self]
  rw [l6] at r6
  have r7 := read_bytes_append h.updates
      (write_ints h.ticks ++ (write_ints h.ticks_per_update ++
        (write_ints h.i_indices ++ write_ints h.d_indices ++ tail)))
  rw [h2] at r7
  have r8 := read_ints_snd h.ticks (write_ints h.ticks_per_update ++
        (write_ints h.i_indices ++ write_ints h.d_indices ++ tail))
  rw [h3] at r8
  have r9 := read_ints_write_ints h.ticks_per_update i5
        (write_ints h.i_indices ++ write_ints h.d_indices ++ tail)
  rw [h4] at r9
  rw [e0]
  simp only [read_head, r1, r2, r3, r4, Int.toNat_ofNat, r5, r6, length_Array_resize, r7, r8, r9,
    and_self]

theorem map_length_Array_update {α : Type} (xs : List (List α)) (l : Nat)
    (f : List α → List α) :
    (Array_update xs l f).map List.length =
      (xs.map List.length).set l (f (xs.getD l default)).length := by
  simp [Array_update, List.map_set]

/-- Lines 449-486: one iteration of the loop over the layers of `read` sizes the
decoders of the layer and keeps the sizes of the other layers and `ticks_per_update`. -/
theorem dec_counts_read_layer (K : Kernels) (np : Int) (r : Hierarchy × List Byte) (l : Nat) :
    (read_layer K np r l).1.ticks_per_update = r.1.ticks_per_update ∧
    dec_counts (read_layer K np r l).1 = (dec_counts r.1).set l
      (if l = 0 then np else r.1.ticks_per_update.getD l default).toNat := by
  have hh : (read_layer_histories l r).1.ticks_per_update = r.1.ticks_per_update ∧
      (read_layer_histories l r).1.decoders = r.1.decoders := by
    have := foldl_keeps (fun x : Hierarchy × List Byte => (x.1.ticks_per_update, x.1.decoders))
      (read_layer_history l) (fun s a => rfl)
      (List.range ((Array_update r.1.histories l (fun hs =>
        Array_resize hs (read_int r.2).1)).getD l default).length)
      ({ r.1 with histories := Array_update r.1.histories l (fun hs =>
          Array_resize hs (read_int r.2).1) }, (read_int r.2).2)
    simp only [Prod.mk.injEq] at this
    exact this
  have he : ∀ x : Hierarchy × List Byte,
      (read_layer_encoder K l x).1.ticks_per_update = x.1.ticks_per_update ∧
      (read_layer_encoder K l x).1.decoders = x.1.decoders := fun x => ⟨rfl, rfl⟩
  have hd : ∀ x : Hierarchy × List Byte,
      (read_layer_decoders K np l x).1.ticks_per_update = x.1.ticks_per_update ∧
      dec_counts (read_layer_decoders K np l x).1 = (dec_counts x.1).set l
        (if l = 0 then np else x.1.ticks_per_update.getD l default).toNat := by
    intro x
    have := foldl_keeps (fun x : Hierarchy × List Byte =>
        (x.1.ticks_per_update, dec_counts x.1))
      (read_decoder K l) (fun s a => by
        simp only [read_decoder, dec_counts, Prod.mk.injEq, true_and]
        exact map_Array_update _ _ (fun ds => by simp) _ l)
      (List.range ((Array_update x.1.decoders l (fun ds => Array_resize ds
        (if l = 0 then np else x.1.ticks_per_update.getD l default))).getD l default).length)
      ({ x.1 with decoders := Array_update x.1.decoders l (fun ds => Array_resize ds
        (if l = 0 then np else x.1.ticks_per_update.getD l default)) }, x.2)
    simp only [Prod.mk.injEq] at this
    obtain ⟨t1, t2⟩ := this
    refine ⟨t1, ?_⟩
    simp only [read_layer_decoders]
    rw [t2]
    simp only [dec_counts]
    rw [map_length_Array_update]
    congr 1
    simp only [Array_resize, Array_resize_fill, List.length_append, List.length_take,
      List.length_replicate]
    omega
  simp only [read_layer]
  obtain ⟨a1, a2⟩ := hd (read_layer_encoder K l (read_layer_histories l r))
  obtain ⟨b1, b2⟩ := he (read_layer_histories l r)
  obtain ⟨c1, c2⟩ := hh
  refine ⟨a1.trans (b1.trans c1), ?_⟩
  rw [a2, b1, c1]
  simp only [dec_counts]
  rw [b2, c2]

/-- The loop over the layers of `read`: every layer gets `num_predictions` decoders
(layer `0`) or `ticks_per_update[l]` decoders (a layer `l > 0`). -/
theorem dec_counts_read_layers (K : Kernels) (np : Int) (r : Hierarchy × List Byte) (n : Nat)
    (hn : r.1.decoders.length = n) :
    dec_counts ((List.range n).foldl (read_layer K np) r).1 =
      (List.range n).map (fun l =>
        (if l = 0 then np else r.1.ticks_per_update.getD l default).toNat) := by
  have hp := foldl_proj (fun x : Hierarchy × List Byte => (x.1.ticks_per_update, dec_counts x.1))
    (read_layer K np)
    (fun (s : Int_Buffer × List Nat) (l : Nat) =>
      (s.1, s.2.set l (if l = 0 then np else s.1.getD l default).toNat))
    (fun s a => by
      obtain ⟨a1, a2⟩ := dec_counts_read_layer K np s a
      simp only [a1, a2]) (List.range n) r
  have hfix : ∀ (xs : List Nat) (t : Int_Buffer) (c : List Nat),
      xs.foldl (fun (s : Int_Buffer × List Nat) (l : Nat) =>
        (s.1, s.2.set l (if l = 0 then np else s.1.getD l default).toNat)) (t, c) =
      (t, xs.foldl (fun (c : List Nat) (l : Nat) =>
        c.set l (if l = 0 then np else t.getD l default).toNat) c) := by
    intro xs
    induction xs with
    | nil => intro t c; rfl
    | cons x xs ih => intro t c; simp only [List.foldl_cons]; rw [ih]
  have := congrArg Prod.snd hp
  simp only at this
  rw [this, hfix]
  simp only
  rw [foldl_set_range (fun l => (if l = 0 then np else
    r.1.ticks_per_update.getD l default).toNat) n (dec_counts r.1)
    (by simp [dec_counts, hn])]
  have : (dec_counts r.1).drop n = [] := by
    apply List.drop_eq_nil_of_le
    simp [dec_counts, hn]
  rw [this, List.append_nil]

/-- The method `read`: the numbers of decoders and of actors that it allocates are
those that the head of the stream asks for. -/
theorem read_counts (K : Kernels) (h0 : Hierarchy) (s : List Byte)
    (hlen : (read_head K h0 s).hier.decoders.length = (read_head K h0 s).num_layers.toNat) :
    dec_counts (read K h0 s).1 =
      (List.range (read_head K h0 s).num_layers.toNat).map (fun l =>
        (if l = 0 then (read_head K h0 s).num_predictions
         else (read_head K h0 s).hier.ticks_per_update.getD l default).toNat) ∧
    (read K h0 s).1.actors.length = (read_head K h0 s).num_actions.toNat := by
  have hl := dec_counts_read_layers K (read_head K h0 s).num_predictions
    ((read_head K h0 s).hier, (read_head K h0 s).rest) _ hlen
  have ha := fun (n : Nat) (x : Hierarchy × List Byte) =>
    foldl_keeps (fun x : Hierarchy × List Byte => (x.1.decoders, x.1.actors.length))
      (read_actor K) (fun s a => by simp [read_actor]) (List.range n) x
  simp only [Prod.mk.injEq] at ha
  simp only [read]
  generalize read_head K h0 s = hd at hl ⊢
  generalize (List.range hd.num_layers.toNat).foldl (read_layer K hd.num_predictions)
    (hd.hier, hd.rest) = R at hl ⊢
  constructor
  · simp only [dec_counts] at hl ⊢
    rw [(ha _ _).1]
    exact hl
  · rw [(ha _ _).2]
    simp only [Array_resize, Array_resize_fill, List.length_append, List.length_take,
      List.length_replicate]
    omega

/-- The members of a hierarchy built on a default-constructed object that the head of a
dump stores: their lengths. -/
theorem create_lengths (K : Kernels) (io_descs : List IO_Desc) (layer_descs : List Layer_Desc) :
    (Hierarchy.create K io_descs layer_descs).encoders.length = layer_descs.length ∧
    (Hierarchy.create K io_descs layer_descs).decoders.length = layer_descs.length ∧
    (Hierarchy.create K io_descs layer_descs).histories.length = layer_descs.length ∧
    (Hierarchy.create K io_descs layer_descs).ticks.length = layer_descs.length ∧
    (Hierarchy.create K io_descs layer_descs).updates.length = layer_descs.length ∧
    (Hierarchy.create K io_descs layer_descs).ticks_per_update.length = layer_descs.length ∧
    (Hierarchy.create K io_descs layer_descs).io_sizes = io_descs.map (fun d => d.size) ∧
    (Hierarchy.create K io_descs layer_descs).io_types =
      io_descs.map (fun d => d.type.toByte) := by
  obtain ⟨k1, k2, k3, k4, k5, _⟩ := init_upto_keeps K io_descs layer_descs layer_descs.length
  have e := sched_init_random K default io_descs layer_descs
  simp only [sched, Prod.mk.injEq] at e
  obtain ⟨e1, e2, e3, e4⟩ := e
  have hc : Hierarchy.create K io_descs layer_descs =
    init_random K default io_descs layer_descs := rfl
  refine ⟨?_, ?_, ?_, ?_, ?_, ?_, ?_, ?_⟩
  · rw [create_eq]; exact k3
  · rw [create_eq]; exact k4
  · rw [create_eq]; exact k5
  · rw [hc, e1]; simp
  · rw [hc, e2]; simp
  · rw [hc, e3]; simp
  · rw [create_eq]; exact k1
  · rw [create_eq]; exact k2

/-- The number of decoders of every layer of a hierarchy built on a default-constructed
object with at least one layer. -/
theorem dec_counts_create (K : Kernels) (io_descs : List IO_Desc)
    (layer_descs : List Layer_Desc) (hN : 0 < layer_descs.length) :
    dec_counts (Hierarchy.create K io_descs layer_descs) =
      (List.range layer_descs.length).map (fun l =>
        if l = 0 then num_channels io_descs IO_Type.prediction
        else (layer_descs.getD l default).ticks_per_update.toNat) := by
  obtain ⟨_, c2, _⟩ := create_lengths K io_descs layer_descs
  obtain ⟨_, _, ⟨hdl, _⟩, _, _⟩ := init_first_spec K io_descs layer_descs hN
  obtain ⟨_, _, _, e4, _⟩ := create_first K io_descs layer_descs hN
  apply List.ext_getElem?
  intro l
  simp only [dec_counts, List.getElem?_map]
  by_cases h2 : l < layer_descs.length
  · rw [List.getElem?_range h2]
    by_cases hl : l = 0
    · subst hl
      rw [getElem?_eq_some_getD _ 0 (by omega) default, e4]
      simp only [Option.map_some', hdl, if_true, num_channels, slot_of]
    · obtain ⟨_, c⟩ := create_next K io_descs layer_descs l (by omega) h2
      rw [c]
      simp only [Option.map_some', List.length_replicate, hl, if_false]
  · rw [List.getElem?_eq_none (by omega), List.getElem?_eq_none (by simp; omega)]
    rfl

/-- C9: after `init_random` on a default-constructed object with at least one
layer, the number of decoders of layer `0` equals the number of channels of type
`prediction`, the number of actors equals the number of channels of type `action`, and
for every layer `l > 0` (with a `ticks_per_update` that is a count, so not negative) the
number of decoders equals `ticks_per_update[l]`; `read` restores exactly these counts
from a dump of the hierarchy (the counts and periods being values of the type `int`). -/
theorem component_counts (K : Kernels) (io_descs : List IO_Desc)
    (layer_descs : List Layer_Desc) (hN : 0 < layer_descs.length) :
    ((Hierarchy.create K io_descs layer_descs).decoders.getD 0 default).length =
      num_channels io_descs IO_Type.prediction ∧
    (Hierarchy.create K io_descs layer_descs).actors.length =
      num_channels io_descs IO_Type.action ∧
    (∀ l, 0 < l → l < layer_descs.length →
      0 ≤ (layer_descs.getD l default).ticks_per_update →
      ∃ ds, (Hierarchy.create K io_descs layer_descs).decoders[l]? = some ds ∧
        (Hierarchy.create K io_descs layer_descs).ticks_per_update[l]? =
          some (ds.length : Int)) ∧
    (∀ (h0 : Hierarchy) (tail : List Byte),
      (∀ v, (K.Int3_bytes v).length = K.sizeof_Int3) →
      layer_descs.length < 2147483648 → io_descs.length < 2147483648 →
      (∀ l, l < layer_descs.length → is_int (layer_descs.getD l default).ticks_per_update) →
      dec_counts (read K h0 (write K (Hierarchy.create K io_descs layer_descs) ++ tail)).1 =
        dec_counts (Hierarchy.create K io_descs layer_descs) ∧
      (read K h0 (write K (Hierarchy.create K io_descs layer_descs) ++ tail)).1.actors.length =
        (Hierarchy.create K io_descs layer_descs).actors.length) := by
  obtain ⟨_, _, ⟨hdl, _⟩, ⟨hal, _⟩, _⟩ := init_first_spec K io_descs layer_descs hN
  obtain ⟨e1, _, _, e4, _⟩ := create_first K io_descs layer_descs hN
  obtain ⟨c1, c2, _, c4, c5, c6, c7, c8⟩ := create_lengths K io_descs layer_descs
  have hnp : ((Hierarchy.create K io_descs layer_descs).decoders.getD 0 default).length =
      num_channels io_descs IO_Type.prediction := by rw [e4, hdl]; rfl
  have hna : (Hierarchy.create K io_descs layer_descs).actors.length =
      num_channels io_descs IO_Type.action := by rw [e1, hal]; rfl
  have htpu : ∀ l, l < layer_descs.length →
      (Hierarchy.create K io_descs layer_descs).ticks_per_update[l]? =
        some (if l = 0 then 1 else (layer_descs.getD l default).ticks_per_update) := by
    intro l hl
    rw [getElem?_eq_some_getD _ l (by omega) 0,
      create_ticks_per_update_getD K io_descs layer_descs l hl]
  refine ⟨hnp, hna, ?_, ?_⟩
  · intro l hl0 hl hnn
    obtain ⟨_, c⟩ := create_next K io_descs layer_descs l hl0 hl
    refine ⟨_, c, ?_⟩
    rw [htpu l hl, if_neg (by omega), List.length_replicate, Int.toNat_of_nonneg hnn]
  · intro h0 tail hInt3 iN inn itpu
    have hle1 := rank_le (fun j => decide ((io_descs.getD j default).type =
      IO_Type.prediction)) io_descs.length
    have hle2 := rank_le (fun j => decide ((io_descs.getD j default).type =
      IO_Type.action)) io_descs.length
    have hw : write K (Hierarchy.create K io_descs layer_descs) ++ tail =
        write_head K (Hierarchy.create K io_descs layer_descs) ++
          ((List.range (Hierarchy.create K io_descs layer_descs).encoders.length).flatMap
            (write_layer K (Hierarchy.create K io_descs layer_descs)) ++
          ((List.range (Hierarchy.create K io_descs layer_descs).actors.length).flatMap
            (fun (d : Nat) => K.act_write
              ((Hierarchy.create K io_descs layer_descs).actors.getD d default)) ++
          ((List.range (Hierarchy.create K io_descs layer_descs).encoders.length).flatMap
            (fun (l : Nat) => K.Layer_Params_bytes
              ((Hierarchy.create K io_descs layer_descs).params.layers.getD l default)) ++
          ((List.range (Hierarchy.create K io_descs layer_descs).io_sizes.length).flatMap
            (fun (i : Nat) => K.IO_Params_bytes
              ((Hierarchy.create K io_descs layer_descs).params.ios.getD i default)) ++
            tail)))) := by
      simp only [write, List.append_assoc]
    rw [hw]
    obtain ⟨r1, r2, r3, r4, r5, r6⟩ := read_head_write_head K
      (Hierarchy.create K io_descs layer_descs) h0 _ hInt3
      (by rw [c7, c8]; simp) (by rw [c5, c1]) (by rw [c4, c1]) (by rw [c6, c1])
      (by rw [c1]; exact iN) (by rw [c7]; simpa using inn)
      (by rw [hnp]; simp only [num_channels, slot_of]; omega)
      (by rw [hna]; simp only [num_channels, slot_of]; omega)
      (by
        intro x hx
        obtain ⟨l, hl, rfl⟩ := List.getElem_of_mem hx
        rw [c6] at hl
        have := htpu l hl
        rw [List.getElem?_eq_getElem (by omega)] at this
        simp only [Option.some.injEq] at this
        rw [this]
        split_ifs
        · exact ⟨by omega, by omega⟩
        · exact itpu l hl)
    obtain ⟨q1, q2⟩ := read_counts K h0 _ (by rw [r6, r1, c1]; simp)
    constructor
    · rw [q1, r1, r3, r5, c1, dec_counts_create K io_descs layer_descs hN]
      simp only [Int.toNat_ofNat]
      apply List.map_congr_left
      intro l hl
      simp only [List.mem_range] at hl
      by_cases h0 : l = 0
      · simp only [h0, if_true, hnp, Int.toNat_ofNat]
      · simp only [h0, if_false]
        have := htpu l hl
        rw [getElem?_eq_some_getD _ l (by omega) default] at this
        simp only [Option.some.injEq, h0, if_false] at this
        rw [this]
    · rw [q2, r4]
      simp

/-! ## The theorems at concrete inputs -/

theorem ticks_bounded_after_step_witness :
    ∃ t p, (step sample_kernels (run sample_kernels
          (Hierarchy.create sample_kernels sample_io_descs sample_layer_descs)
          [Call.step (sample_inputs 0) true 0 0, Call.clear_state,
            Call.step (sample_inputs 1) true 0 0])
          (sample_inputs 2) true 0 0).ticks[2]? = some t ∧
      (step sample_kernels (run sample_kernels
          (Hierarchy.create sample_kernels sample_io_descs sample_layer_descs)
          [Call.step (sample_inputs 0) true 0 0, Call.clear_state,
            Call.step (sample_inputs 1) true 0 0])
          (sample_inputs 2) true 0 0).ticks_per_update[2]? = some p ∧
      0 ≤ t ∧ t ≤ p :=
  ticks_bounded_after_step sample_kernels sample_io_descs sample_layer_descs
    (by intro l h1 h2
        have h3 : l < 3 := h2
        interval_cases l <;> decide)
    [Call.step (sample_inputs 0) true 0 0, Call.clear_state,
      Call.step (sample_inputs 1) true 0 0]
    (sample_inputs 2) true 0 0 2 (by decide) (by decide)

theorem update_rates_geometric_witness :
    (run sample_kernels (Hierarchy.create sample_kernels sample_io_descs sample_layer_descs)
      ((List.range 6).map (fun k => Call.step (sample_inputs k) true 0 0))).updates[2]? =
      some 1 ∧
    (run sample_kernels (Hierarchy.create sample_kernels sample_io_descs sample_layer_descs)
      ((List.range 4).map (fun k => Call.step (sample_inputs k) true 0 0))).updates[2]? =
      some 0 :=
  ⟨(update_rates_geometric sample_kernels sample_io_descs sample_layer_descs
      (by intro l h1 h2
          have h3 : l < 3 := h2
          interval_cases l <;> decide)
      _ (Or.inl rfl) ((List.range 6).map (fun k => Call.step (sample_inputs k) true 0 0))
      (by decide) (by decide) 2 (by decide)).trans (by decide),
   (update_rates_geometric sample_kernels sample_io_descs sample_layer_descs
      (by intro l h1 h2
          have h3 : l < 3 := h2
          interval_cases l <;> decide)
      _ (Or.inl rfl) ((List.range 4).map (fun k => Call.step (sample_inputs k) true 0 0))
      (by decide) (by decide) 2 (by decide)).trans (by decide)⟩

set_option maxRecDepth 100000 in
theorem layer_update_rule_witness :
    (step sample_kernels (Hierarchy.create sample_kernels sample_io_descs sample_layer_descs)
        (sample_inputs 0) true 0 0).updates[1]? = some 0 ∧
    forward_layer sample_kernels true
        (forward_upto sample_kernels true (step_begin (sample_inputs 0)
          (Hierarchy.create sample_kernels sample_io_descs sample_layer_descs)) 1) 1 =
      forward_upto sample_kernels true (step_begin (sample_inputs 0)
        (Hierarchy.create sample_kernels sample_io_descs sample_layer_descs)) 1 ∧
    (forward_layer sample_kernels true
        (forward_upto sample_kernels true (step_begin (sample_inputs 0)
          (Hierarchy.create sample_kernels sample_io_descs sample_layer_descs)) 0) 0).ticks[1]?
      = some 1 :=
  ⟨(layer_update_rule sample_kernels
      (Hierarchy.create sample_kernels sample_io_descs sample_layer_descs)
      (sample_inputs 0) true 0 0 1 (by decide) (by decide) (by decide) (by decide)
      (by decide) _ _ rfl rfl).1.trans (by decide),
   (layer_update_rule sample_kernels
      (Hierarchy.create sample_kernels sample_io_descs sample_layer_descs)
      (sample_inputs 0) true 0 0 1 (by decide) (by decide) (by decide) (by decide)
      (by decide) _ _ rfl rfl).2.2.1 (by decide),
   (((layer_update_rule sample_kernels
      (Hierarchy.create sample_kernels sample_io_descs sample_layer_descs)
      (sample_inputs 0) true 0 0 0 (by decide) (by decide) (by decide) (by decide)
      (by decide) _ _ rfl rfl).2.2.2 (Or.inl rfl)).2.2.2 (by decide)).2.trans (by decide)⟩

theorem d_indices_sentinel_witness :
    0 < sample_layer_descs.length ∧
    ((∃ v, (Hierarchy.create sample_kernels sample_io_descs
        sample_layer_descs).d_indices[2]? = some v) ∧
     ((Hierarchy.create sample_kernels sample_io_descs sample_layer_descs).d_indices[2]? =
        some (-1) ↔
      ((sample_io_descs.getD 2 default).type ≠ IO_Type.prediction ∧
       (sample_io_descs.getD 2 default).type ≠ IO_Type.action)) ∧
     (io_layer_exists (Hierarchy.create sample_kernels sample_io_descs sample_layer_descs)
        ((2 : Nat) : Int) = true ↔
      ((sample_io_descs.getD 2 default).type = IO_Type.prediction ∨
       (sample_io_descs.getD 2 default).type = IO_Type.action))) :=
  ⟨by decide,
    d_indices_sentinel sample_kernels sample_io_descs sample_layer_descs (by decide) 2
      (by decide)⟩

theorem index_maps_inverse_witness :
    0 < sample_layer_descs.length ∧
    (sample_io_descs.getD 3 default).type = IO_Type.prediction ∧
    ((Hierarchy.create sample_kernels sample_io_descs sample_layer_descs).d_indices[3]? =
        some (slot_of sample_io_descs IO_Type.prediction 3 : Int) ∧
      slot_of sample_io_descs IO_Type.prediction 3 <
        num_channels sample_io_descs IO_Type.prediction ∧
      (Hierarchy.create sample_kernels sample_io_descs sample_layer_descs).i_indices[
        slot_of sample_io_descs IO_Type.prediction 3]? = some ((3 : Nat) : Int)) :=
  ⟨by decide, by decide,
    (index_maps_inverse sample_kernels sample_io_descs sample_layer_descs (by decide)).1 3
      (by decide) (by decide)⟩

theorem encoder_descriptors_witness :
    ((e_visible_layer_descs_first (sample_io_descs.map (fun d => d.size)) sample_io_descs
        (sample_layer_descs.getD 0 default).temporal_horizon).length : Int) =
      (sample_io_descs.length : Int) * (sample_layer_descs.getD 0 default).temporal_horizon ∧
    ((e_visible_layer_descs_next sample_layer_descs 2).length : Int) =
      (sample_layer_descs.getD 2 default).temporal_horizon :=
  ⟨((encoder_descriptors sample_kernels sample_io_descs sample_layer_descs).1
      (by decide) (by decide)).2.1,
   ((encoder_descriptors sample_kernels sample_io_descs sample_layer_descs).2 2
      (by decide) (by decide) (by decide)).2.1⟩

theorem component_counts_witness :
    0 < sample_layer_descs.length ∧
    ((Hierarchy.create sample_kernels sample_io_descs sample_layer_descs).decoders.getD 0
        default).length = num_channels sample_io_descs IO_Type.prediction ∧
    (Hierarchy.create sample_kernels sample_io_descs sample_layer_descs).actors.length =
      num_channels sample_io_descs IO_Type.action ∧
    dec_counts (read sample_kernels default
        (write sample_kernels
          (Hierarchy.create sample_kernels sample_io_descs sample_layer_descs) ++ [])).1 =
      dec_counts (Hierarchy.create sample_kernels sample_io_descs sample_layer_descs) ∧
    (read sample_kernels default
        (write sample_kernels
          (Hierarchy.create sample_kernels sample_io_descs sample_layer_descs) ++
            [])).1.actors.length =
      (Hierarchy.create sample_kernels sample_io_descs sample_layer_descs).actors.length :=
  ⟨by decide,
   (component_counts sample_kernels sample_io_descs sample_layer_descs (by decide)).1,
   (component_counts sample_kernels sample_io_descs sample_layer_descs (by decide)).2.1,
   (component_counts sample_kernels sample_io_descs sample_layer_descs (by decide)).2.2.2
      default [] (by intro v; simp [sample_kernels, Int3.bytes, le32]) (by decide) (by decide)
      (by intro l hl
          have h3 : l < 3 := hl
          interval_cases l <;> exact ⟨by decide, by decide⟩)⟩

/-! ## The history rings -/

theorem histories_backward_layer (K : Kernels) (input_cis : List Int_Buffer_View) (le : Bool)
    (reward mimic : float) (h : Hierarchy) (l : Nat) :
    (backward_layer K input_cis le reward mimic h l).histories = h.histories := by
  have hd : ∀ (v : List Int_Buffer_View) (n : Nat) (s : Hierarchy),
      ((List.range n).foldl (backward_decoder K le l v) s).histories = s.histories :=
    fun v n s => foldl_keeps (fun x : Hierarchy => x.histories) _ (fun s a => by rfl) _ _
  have ha : ∀ (v : List Int_Buffer_View) (n : Nat) (s : Hierarchy),
      ((List.range n).foldl (backward_actor K input_cis le reward mimic v) s).histories =
        s.histories :=
    fun v n s => foldl_keeps (fun x : Hierarchy => x.histories) _ (fun s a => by rfl) _ _
  simp only [backward_layer]
  split_ifs
  · rw [ha, hd]
  · rw [hd]
  · rfl

theorem histories_step_backward (K : Kernels) (input_cis : List Int_Buffer_View) (le : Bool)
    (reward mimic : float) (h : Hierarchy) :
    (step_backward K input_cis le reward mimic h).histories = h.histories := by
  unfold step_backward
  exact foldl_keeps (fun x : Hierarchy => x.histories) _
    (fun s a => histories_backward_layer _ _ _ _ _ _ _) _ _

theorem hist_shape_step (K : Kernels) (h : Hierarchy) (input_cis : List Int_Buffer_View)
    (le : Bool) (reward mimic : float) :
    hist_shape (step K h input_cis le reward mimic) = hist_shape h := by
  have e1 : hist_shape (step K h input_cis le reward mimic) =
      hist_shape (step_forward K le (step_begin input_cis h)) := by
    simp only [hist_shape, step, histories_step_backward]
  rw [e1, step_forward_eq, hist_shape_forward_upto, hist_shape_step_begin]

theorem hist_shape_clear_histories (h : Hierarchy) :
    hist_shape (clear_histories h) = hist_shape h := by
  unfold clear_histories
  exact foldl_keeps hist_shape _ (fun s a =>
    foldl_keeps hist_shape _ (fun s a =>
      foldl_keeps hist_shape _ (fun s t =>
        hist_shape_update_ring s _ _ _ (fun b => by
          simp only [CircleBuffer.put, Array_put]
          split_ifs <;> simp)) _ _) _ _) _ _

theorem histories_clear_state (K : Kernels) (h : Hierarchy) :
    (clear_state K h).histories =
      (clear_histories
        { h with updates := Array_fill h.updates 0, ticks := Array_fill h.ticks 0 }).histories := by
  have he : ∀ (n : Nat) (s : Hierarchy), ((List.range n).foldl
      (fun (h : Hierarchy) (l : Nat) =>
        { h with encoders := Array_update h.encoders l K.enc_clear_state }) s).histories =
        s.histories :=
    fun n s => foldl_keeps (fun x : Hierarchy => x.histories) _ (fun s a => by rfl) _ _
  have hd : ∀ (n : Nat) (s : Hierarchy), ((List.range n).foldl
      (fun (h : Hierarchy) (l : Nat) =>
        (List.range (h.decoders.getD l default).length).foldl (fun (h : Hierarchy) (d : Nat) =>
          { h with decoders := Array_update h.decoders l (fun ds =>
              Array_update ds d K.dec_clear_state) }) h) s).histories = s.histories :=
    fun n s => foldl_keeps (fun x : Hierarchy => x.histories) _ (fun s a =>
      foldl_keeps (fun x : Hierarchy => x.histories) _ (fun s a => by rfl) _ _) _ _
  have ha : ∀ (n : Nat) (s : Hierarchy), ((List.range n).foldl
      (fun (h : Hierarchy) (d : Nat) =>
        { h with actors := Array_update h.actors d K.act_clear_state }) s).histories =
        s.histories :=
    fun n s => foldl_keeps (fun x : Hierarchy => x.histories) _ (fun s a => by rfl) _ _
  simp only [clear_state]
  rw [ha, hd, he]

theorem hist_shape_clear_state (K : Kernels) (h : Hierarchy) :
    hist_shape (clear_state K h) = hist_shape h := by
  have e := histories_clear_state K h
  have e2 := hist_shape_clear_histories
    { h with updates := Array_fill h.updates 0, ticks := Array_fill h.ticks 0 }
  simp only [hist_shape] at e2 ⊢
  rw [e, e2]

theorem fill_ring_loop {α : Type} (v : α) (n : Nat) (b : CircleBuffer α)
    (hs : b.start = 0) (hn : b.data.length = n) (k : Nat) (hk : k ≤ n) :
    (List.range k).foldl (fun (b : CircleBuffer α) (t : Nat) => b.put t v) b =
      ⟨List.replicate k v ++ b.data.drop k, 0⟩ := by
  induction k with
  | zero =>
    cases b
    simp only [List.range_zero, List.foldl_nil, List.replicate_zero, List.nil_append,
      List.drop_zero]
    simp only at hs
    rw [hs]
  | succ k ih =>
    rw [List.range_succ, List.foldl_append, ih (by omega)]
    simp only [List.foldl_cons, List.foldl_nil, CircleBuffer.put, CircleBuffer.slot]
    have hlen : (List.replicate k v ++ List.drop k b.data).length = n := by
      simp only [List.length_append, List.length_replicate, List.length_drop]
      omega
    have hslot : Int.tmod (0 + (k : Int)) ((List.replicate k v ++ List.drop k b.data).length : Int)
        = (k : Int) := by
      rw [hlen, Int.zero_add]
      exact Int.tmod_eq_of_lt (by omega) (by omega)
    rw [hslot]
    simp only [Array_put, Int.toNat_ofNat, Int.natCast_nonneg, if_true]
    congr 1
    apply List.ext_getElem?
    intro i
    simp only [List.getElem?_set, List.getElem?_append, List.getElem?_replicate,
      List.length_replicate, List.getElem?_drop, hlen]
    by_cases h1 : k = i
    · subst h1
      simp [show k < n from by omega]
    · by_cases h2 : i < k
      · simp [h1, h2, show i < k + 1 from by omega]
      · have h3 : ¬ i < k + 1 := by omega
        simp only [h1, h2, h3, if_false]
        congr 1
        omega

theorem init_history_default (th in_size : Int) :
    init_history th in_size (default : Circle_Buffer Int_Buffer) =
      ⟨List.replicate th.toNat (Array_new in_size 0), 0⟩ := by
  have hd : (Array_resize ([] : List Int_Buffer) th).length = th.toNat := by
    simp [Array_resize, Array_resize_fill]
  rw [show (default : Circle_Buffer Int_Buffer) = ⟨[], 0⟩ from rfl]
  simp only [init_history, CircleBuffer.resize]
  rw [hd, fill_ring_loop (Array_new in_size 0) th.toNat _ rfl hd _ (le_refl _)]
  congr 1
  simp [List.drop_eq_nil_of_le, hd]

theorem Array_update_getD_self {α : Type} [Inhabited α] (xs : List α) (l : Nat) :
    Array_update xs l (fun r => r) = xs := by
  apply List.ext_getElem?
  intro i
  rw [getElem?_Array_update]
  split_ifs with h
  · obtain ⟨rfl, h2⟩ := h
    rw [getElem?_eq_some_getD xs l h2 default]
  · rfl

theorem Array_update_twice {α : Type} [Inhabited α] (xs : List α) (l : Nat) (f g : α → α) :
    Array_update (Array_update xs l f) l g = Array_update xs l (fun r => g (f r)) := by
  apply List.ext_getElem?
  intro i
  simp only [getElem?_Array_update, length_Array_update, getD_Array_update]
  by_cases h : l = i ∧ l < xs.length
  · obtain ⟨rfl, h2⟩ := h
    simp [h2]
  · simp only [h, if_false]

theorem foldl_Array_update_at {α β : Type} [Inhabited α] (f : β → α → α) (l : Nat)
    (ys : List β) (xs : List α) :
    ys.foldl (fun (xs : List α) (b : β) => Array_update xs l (f b)) xs =
      Array_update xs l (fun r => ys.foldl (fun (r : α) (b : β) => f b r) r) := by
  induction ys generalizing xs with
  | nil => simp only [List.foldl_nil]; exact (Array_update_getD_self xs l).symm
  | cons b ys ih =>
    simp only [List.foldl_cons]
    rw [ih, Array_update_twice]

theorem histories_init_decoders_first (K : Kernels) (io_descs : List IO_Desc)
    (layer_descs : List Layer_Desc) (x : Hierarchy) (l : Nat) :
    (init_decoders_first K io_descs layer_descs x l).histories = x.histories := by
  unfold init_decoders_first
  exact foldl_keeps (fun s : Init_Index => s.hier.histories)
    (init_decoder_first K io_descs layer_descs l)
    (fun s a => by simp only [init_decoder_first]; split_ifs <;> rfl) _ _

theorem histories_init_actors_first (K : Kernels) (io_descs : List IO_Desc)
    (layer_descs : List Layer_Desc) (x : Hierarchy) (l : Nat) :
    (init_actors_first K io_descs layer_descs x l).histories = x.histories := by
  unfold init_actors_first
  exact foldl_keeps (fun s : Init_Index => s.hier.histories)
    (init_actor_first K io_descs layer_descs l)
    (fun s a => by simp only [init_actor_first]; split_ifs <;> rfl) _ _

theorem histories_init_decoders_next (K : Kernels) (layer_descs : List Layer_Desc)
    (x : Hierarchy) (l : Nat) :
    (init_decoders_next K layer_descs x l).histories = x.histories := by
  simp only [init_decoders_next]
  exact foldl_keeps (fun s : Hierarchy => s.histories) _ (fun s a => by rfl) _ _

theorem histories_init_layer (K : Kernels) (io_descs : List IO_Desc)
    (layer_descs : List Layer_Desc) (np na : Int) (x : Hierarchy) (l : Nat) :
    (init_layer K io_descs layer_descs np na x l).histories =
      if l = 0 then
        (init_histories_first (layer_descs.getD l default).temporal_horizon x l).histories
      else (init_histories_next layer_descs x l).histories := by
  simp only [init_layer]
  split_ifs with h
  · simp only [init_first_layer, histories_init_actors_first, histories_init_decoders_first]
    rfl
  · simp only [init_next_layer, histories_init_decoders_next]

theorem histories_init_histories_first (th : Int) (x : Hierarchy) (l : Nat)
    (hl : l < x.histories.length) (h0 : x.histories.getD l default = []) :
    (init_histories_first th x l).histories =
      x.histories.set l (x.io_sizes.map (fun s => init_history th (s.x * s.y) default)) := by
  simp only [init_histories_first]
  have hget : (Array_update x.histories l (fun hs =>
      Array_resize hs (x.io_sizes.length : Int))).getD l default =
      List.replicate x.io_sizes.length default := by
    rw [getD_Array_update, if_pos ⟨rfl, hl⟩, h0]
    exact Array_resize_nil _
  rw [hget, List.length_replicate]
  have hp := foldl_proj_inv (fun s : Hierarchy => s.io_sizes = x.io_sizes)
    (fun s : Hierarchy => s.histories)
    (fun (h : Hierarchy) (i : Nat) =>
      { h with histories := Array_update h.histories l (fun hs =>
          Array_update hs i (init_history th
            ((h.io_sizes.getD i default).x * (h.io_sizes.getD i default).y))) })
    (fun (hs : List (List (Circle_Buffer Int_Buffer))) (i : Nat) =>
      Array_update hs l (fun r => Array_update r i (init_history th
        ((x.io_sizes.getD i default).x * (x.io_sizes.getD i default).y))))
    (fun s a hs => hs)
    (fun s a hs => by simp only [hs])
    (List.range x.io_sizes.length)
    { x with histories := Array_update x.histories l (fun hs =>
        Array_resize hs (x.io_sizes.length : Int)) } rfl
  refine hp.1.trans ?_
  simp only
  rw [foldl_Array_update_at (fun (i : Nat) (r : List (Circle_Buffer Int_Buffer)) =>
    Array_update r i (init_history th
      ((x.io_sizes.getD i default).x * (x.io_sizes.getD i default).y))), Array_update_twice]
  simp only [Array_update, h0]
  congr 1
  rw [show Array_resize ([] : List (Circle_Buffer Int_Buffer)) (x.io_sizes.length : Int) =
    List.replicate x.io_sizes.length default from Array_resize_nil _]
  have := foldl_update_range (fun (i : Nat) (b : Circle_Buffer Int_Buffer) =>
    init_history th ((x.io_sizes.getD i default).x * (x.io_sizes.getD i default).y) b)
    x.io_sizes.length (List.replicate x.io_sizes.length default) (by simp)
  simp only [Array_update] at this
  rw [this]
  apply List.ext_getElem?
  intro i
  by_cases hi : i < x.io_sizes.length
  · simp [List.getElem?_append_left, hi, List.getD_eq_getElem?_getD, List.getElem?_replicate,
      List.getElem?_range]
  · simp [List.getElem?_eq_none, Nat.le_of_not_lt hi]

theorem histories_init_histories_next (layer_descs : List Layer_Desc) (x : Hierarchy) (l : Nat)
    (h0 : x.histories.getD l default = []) :
    (init_histories_next layer_descs x l).histories =
      x.histories.set l [init_history (layer_descs.getD l default).temporal_horizon
        ((layer_descs.getD (l - 1) default).hidden_size.x *
          (layer_descs.getD (l - 1) default).hidden_size.y) default] := by
  simp only [init_histories_next]
  rw [Array_update_twice]
  simp only [Array_update, h0]
  congr 1

theorem init_upto_histories_first (K : Kernels) (io_descs : List IO_Desc)
    (layer_descs : List Layer_Desc) (hN : 0 < layer_descs.length) :
    (init_upto K io_descs layer_descs 1).histories[0]? =
      some (io_descs.map (fun d =>
        init_history (layer_descs.getD 0 default).temporal_horizon (d.size.x * d.size.y)
          default)) := by
  obtain ⟨k1, _, _, _, k5, k6⟩ := init_upto_keeps K io_descs layer_descs 0
  obtain ⟨_, _, b3⟩ := k6 0 (le_refl _) hN
  show (init_upto K io_descs layer_descs (0 + 1)).histories[0]? = _
  rw [init_upto_succ, histories_init_layer, if_pos rfl,
    histories_init_histories_first _ _ _ (by rw [k5]; exact hN)
      (by rw [List.getD_eq_getElem?_getD, b3]; rfl), k1]
  rw [List.getElem?_set_self (by rw [k5]; exact hN), List.map_map]
  rfl

theorem init_upto_histories_next (K : Kernels) (io_descs : List IO_Desc)
    (layer_descs : List Layer_Desc) (l : Nat) (hl0 : 0 < l) (hl : l < layer_descs.length) :
    (init_upto K io_descs layer_descs (l + 1)).histories[l]? =
      some [init_history (layer_descs.getD l default).temporal_horizon
        ((layer_descs.getD (l - 1) default).hidden_size.x *
          (layer_descs.getD (l - 1) default).hidden_size.y) default] := by
  obtain ⟨_, _, _, _, k5, k6⟩ := init_upto_keeps K io_descs layer_descs l
  obtain ⟨_, _, b3⟩ := k6 l (le_refl _) hl
  rw [init_upto_succ, histories_init_layer, if_neg (by omega),
    histories_init_histories_next _ _ _ (by rw [List.getD_eq_getElem?_getD, b3]; rfl)]
  rw [List.getElem?_set_self (by rw [k5]; exact hl)]

theorem create_histories (K : Kernels) (io_descs : List IO_Desc)
    (layer_descs : List Layer_Desc) (l : Nat) (hl : l < layer_descs.length) :
    (Hierarchy.create K io_descs layer_descs).histories[l]? =
      some (if l = 0 then
          io_descs.map (fun d =>
            init_history (layer_descs.getD 0 default).temporal_horizon (d.size.x * d.size.y)
              default)
        else
          [init_history (layer_descs.getD l default).temporal_horizon
            ((layer_descs.getD (l - 1) default).hidden_size.x *
              (layer_descs.getD (l - 1) default).hidden_size.y) default]) := by
  obtain ⟨_, _, c⟩ := init_upto_above K io_descs layer_descs l layer_descs.length hl
  rw [create_eq]
  show (init_upto K io_descs layer_descs layer_descs.length).histories[l]? = _
  rw [c]
  by_cases h0 : l = 0
  · subst h0
    rw [if_pos rfl]
    exact init_upto_histories_first K io_descs layer_descs hl
  · rw [if_neg h0]
    exact init_upto_histories_next K io_descs layer_descs l (by omega) hl

theorem init_history_slots (th in_size : Int) :
    (init_history th in_size (default : Circle_Buffer Int_Buffer)).start = 0 ∧
    (0 ≤ th → (init_history th in_size (default : Circle_Buffer Int_Buffer)).size = th) ∧
    ∀ t : Nat, (t : Int) < th →
      (init_history th in_size (default : Circle_Buffer Int_Buffer)).get t =
        List.replicate in_size.toNat 0 := by
  rw [init_history_default]
  refine ⟨rfl, fun h => ?_, fun t ht => ?_⟩
  · simp only [CircleBuffer.size, List.length_replicate]
    exact Int.toNat_of_nonneg h
  · have ht' : t < th.toNat := by omega
    simp only [CircleBuffer.get, CircleBuffer.slot, List.length_replicate, Int.zero_add]
    rw [Int.tmod_eq_of_lt (by omega) (by omega)]
    simp [Array_at, Array_new, List.getD_eq_getElem?_getD, List.getElem?_replicate, ht']

/-- C11: after `init_random` (on a default-constructed object, with a `temporal_horizon`
that is an element count, so not negative) every history ring of layer `l` has exactly
`layer_descs[l].temporal_horizon` slots, one ring per channel at layer `0` and a single ring
at a layer `l > 0`, and each slot is a zero-filled buffer of `x * y` entries of its source
grid (the channel at layer `0`, the hidden grid of layer `l - 1` above); no call to `step`
or `clear_state`, on any state, changes the number of rings of a layer or the number of
slots of a ring (`hist_shape` lists them). -/
theorem history_rings (K : Kernels) (io_descs : List IO_Desc) (layer_descs : List Layer_Desc) :
    (0 < layer_descs.length → 0 ≤ (layer_descs.getD 0 default).temporal_horizon →
      ∃ hs, (Hierarchy.create K io_descs layer_descs).histories[0]? = some hs ∧
        hs.length = io_descs.length ∧
        ∀ i, i < io_descs.length → ∃ b, hs[i]? = some b ∧
          b.size = (layer_descs.getD 0 default).temporal_horizon ∧
          ∀ t : Nat, (t : Int) < (layer_descs.getD 0 default).temporal_horizon →
            b.get t = List.replicate
              ((io_descs.getD i default).size.x * (io_descs.getD i default).size.y).toNat 0) ∧
    (∀ l, 0 < l → l < layer_descs.length →
      0 ≤ (layer_descs.getD l default).temporal_horizon →
      ∃ b, (Hierarchy.create K io_descs layer_descs).histories[l]? = some [b] ∧
        b.size = (layer_descs.getD l default).temporal_horizon ∧
        ∀ t : Nat, (t : Int) < (layer_descs.getD l default).temporal_horizon →
          b.get t = List.replicate
            ((layer_descs.getD (l - 1) default).hidden_size.x *
              (layer_descs.getD (l - 1) default).hidden_size.y).toNat 0) ∧
    (∀ (h : Hierarchy) (input_cis : List Int_Buffer_View) (learn_enabled : Bool)
      (reward mimic : float),
      hist_shape (step K h input_cis learn_enabled reward mimic) = hist_shape h) ∧
    (∀ h : Hierarchy, hist_shape (clear_state K h) = hist_shape h) := by
  refine ⟨fun hN hth => ?_, fun l hl0 hl hth => ?_,
    fun h input_cis le r m => hist_shape_step K h input_cis le r m,
    fun h => hist_shape_clear_state K h⟩
  · refine ⟨_, (create_histories K io_descs layer_descs 0 hN).trans (by rw [if_pos rfl]),
      by simp, fun i hi => ?_⟩
    obtain ⟨_, s2, s3⟩ := init_history_slots (layer_descs.getD 0 default).temporal_horizon
      ((io_descs.getD i default).size.x * (io_descs.getD i default).size.y)
    refine ⟨_, ?_, s2 hth, s3⟩
    rw [List.getElem?_map, getElem?_eq_some_getD io_descs i hi default]
    rfl
  · obtain ⟨_, s2, s3⟩ := init_history_slots (layer_descs.getD l default).temporal_horizon
      ((layer_descs.getD (l - 1) default).hidden_size.x *
        (layer_descs.getD (l - 1) default).hidden_size.y)
    exact ⟨_, (create_histories K io_descs layer_descs l hl).trans
      (by rw [if_neg (by omega)]), s2 hth, s3⟩

theorem history_rings_witness :
    ∃ b, (Hierarchy.create sample_kernels sample_io_descs sample_layer_descs).histories[2]? =
        some [b] ∧
      b.size = (sample_layer_descs.getD 2 default).temporal_horizon ∧
      ∀ t : Nat, (t : Int) < (sample_layer_descs.getD 2 default).temporal_horizon →
        b.get t = List.replicate
          ((sample_layer_descs.getD (2 - 1) default).hidden_size.x *
            (sample_layer_descs.getD (2 - 1) default).hidden_size.y).toNat 0 :=
  (history_rings sample_kernels sample_io_descs sample_layer_descs).2.1 2 (by decide)
    (by decide) (by decide)

/-! ## Pushing to a ring -/

theorem Array_at_natCast {α : Type} [Inhabited α] (xs : List α) (k : Nat) :
    Array_at xs (k : Int) = xs.getD k default := by
  simp [Array_at]

theorem ring_slot_natCast {α : Type} (data : List α) (s t : Nat) :
    (CircleBuffer.mk data (s : Int)).slot (t : Int) = (((s + t) % data.length : Nat) : Int) := by
  simp only [CircleBuffer.slot]
  rw [← Int.ofNat_add, ← Int.ofNat_tmod]

theorem ring_get_natCast {α : Type} [Inhabited α] (data : List α) (s t : Nat) :
    (CircleBuffer.mk data (s : Int)).get (t : Int) = data.getD ((s + t) % data.length) default := by
  simp only [CircleBuffer.get, ring_slot_natCast, Array_at_natCast]

/-- The start of a ring with `n >= 1` slots after `pushFront`, as a natural number. -/
theorem ring_pushFront_natCast {α : Type} (data : List α) (s : Nat) (hs : s < data.length) :
    (CircleBuffer.mk data (s : Int)).pushFront =
      CircleBuffer.mk data (((if s = 0 then data.length - 1 else s - 1 : Nat)) : Int) := by
  simp only [CircleBuffer.pushFront]
  congr 1
  by_cases h0 : s = 0
  · subst h0
    simp only [if_true]
    split_ifs <;> omega
  · simp only [h0, if_false]
    split_ifs <;> omega

/-- What a push does to a ring whose start is inside the ring: the new value is entry `0`,
entry `t >= 1` is the old entry `t - 1`, and the storage position of the old last entry is
the one that receives the new value. -/
theorem ring_push_spec {α : Type} [Inhabited α] (b : CircleBuffer α) (v : α)
    (h0 : 0 ≤ b.start) (h1 : b.start < b.size) :
    (b.pushFront.put 0 v).data.length = b.data.length ∧
    0 ≤ (b.pushFront.put 0 v).start ∧ (b.pushFront.put 0 v).start < (b.pushFront.put 0 v).size ∧
    (b.pushFront.put 0 v).get 0 = v ∧
    (∀ t : Nat, 1 ≤ t → (t : Int) < b.size →
      (b.pushFront.put 0 v).get (t : Int) = b.get ((t : Int) - 1)) ∧
    (b.pushFront.put 0 v).slot 0 = b.slot (b.size - 1) := by
  obtain ⟨data, start⟩ := b
  simp only [CircleBuffer.size] at h1 ⊢
  simp only at h0 h1
  obtain ⟨s, rfl⟩ := Int.eq_ofNat_of_zero_le h0
  have hs : s < data.length := by omega
  rw [ring_pushFront_natCast data s hs]
  generalize hs' : (if s = 0 then data.length - 1 else s - 1 : Nat) = s'
  have hs'lt : s' < data.length := by rw [← hs']; split_ifs <;> omega
  have hslot0 : (CircleBuffer.mk data (s' : Int)).slot 0 = (s' : Int) := by
    have := ring_slot_natCast data s' 0
    simp only [Nat.cast_zero, Nat.add_zero, Nat.mod_eq_of_lt hs'lt] at this
    exact this
  have hput : (CircleBuffer.mk data (s' : Int)).put 0 v =
      CircleBuffer.mk (data.set s' v) (s' : Int) := by
    simp only [CircleBuffer.put, hslot0, Array_put, Int.natCast_nonneg, if_true, Int.toNat_ofNat]
  rw [hput]
  have hg0 : (CircleBuffer.mk (data.set s' v) (s' : Int)).get 0 = v := by
    have := ring_get_natCast (data.set s' v) s' 0
    simp only [Nat.cast_zero, Nat.add_zero, List.length_set, Nat.mod_eq_of_lt hs'lt] at this
    rw [this, getD_set]
    simp [hs'lt]
  refine ⟨by simp, by simp, by simp only [List.length_set]; omega, hg0, ?_, ?_⟩
  · intro t ht1 ht
    have htn : t < data.length := by omega
    obtain ⟨u, rfl⟩ : ∃ u, t = u + 1 := ⟨t - 1, by omega⟩
    have hcast : ((u + 1 : Nat) : Int) - 1 = ((u : Nat) : Int) := by omega
    rw [hcast, ring_get_natCast, ring_get_natCast, List.length_set]
    have hmod : (s' + (u + 1)) % data.length = (s + u) % data.length := by
      by_cases hz : s = 0
      · subst hz
        simp only [if_true] at hs'
        rw [← hs', show data.length - 1 + (u + 1) = u + data.length from by omega,
          Nat.add_mod_right, Nat.zero_add]
      · simp only [hz, if_false] at hs'
        rw [← hs', show s - 1 + (u + 1) = s + u from by omega]
    have hne : ¬ (s' = (s' + (u + 1)) % data.length ∧ s' < data.length) := by
      rintro ⟨he, _⟩
      by_cases hlt : s' + (u + 1) < data.length
      · rw [Nat.mod_eq_of_lt hlt] at he; omega
      · rw [Nat.mod_eq_sub_mod (by omega), Nat.mod_eq_of_lt (by omega)] at he; omega
    rw [getD_set, if_neg hne, hmod]
  · have hn1 : (data.length : Int) - 1 = ((data.length - 1 : Nat) : Int) := by omega
    have e1 := ring_slot_natCast (data.set s' v) s' 0
    simp only [Nat.cast_zero, Nat.add_zero, List.length_set, Nat.mod_eq_of_lt hs'lt] at e1
    rw [e1, hn1, ring_slot_natCast]
    congr 1
    by_cases hz : s = 0
    · subst hz
      simp only [if_true] at hs'
      rw [← hs', Nat.zero_add, Nat.mod_eq_of_lt (by omega)]
    · simp only [hz, if_false] at hs'
      rw [← hs', show s + (data.length - 1) = s - 1 + data.length from by omega,
        Nat.add_mod_right, Nat.mod_eq_of_lt (by omega)]

theorem getElem?_foldl_update_range {α : Type} [Inhabited α] (f : Nat → α → α) (k : Nat)
    (xs : List α) (i : Nat) :
    ((List.range k).foldl (fun (ys : List α) (t : Nat) => Array_update ys t (f t)) xs)[i]? =
      if i < k ∧ i < xs.length then some (f i (xs.getD i default)) else xs[i]? := by
  induction k with
  | zero => simp
  | succ k ih =>
    have hlen : ((List.range k).foldl (fun (ys : List α) (t : Nat) =>
        Array_update ys t (f t)) xs).length = xs.length :=
      foldl_keeps (fun ys : List α => ys.length) _ (fun s a => length_Array_update _ _ _) _ _
    rw [List.range_succ, List.foldl_append]
    simp only [List.foldl_cons, List.foldl_nil]
    rw [getElem?_Array_update, hlen]
    by_cases hki : k = i
    · subst hki
      by_cases hk : k < xs.length
      · have e : ((List.range k).foldl (fun (ys : List α) (t : Nat) =>
            Array_update ys t (f t)) xs).getD k default = xs.getD k default := by
          rw [List.getD_eq_getElem?_getD, ih, List.getD_eq_getElem?_getD]
          simp
        rw [e]
        simp [hk]
      · simp only [hk, and_false, if_false]
        rw [ih]
        simp [hk]
    · rw [if_neg (fun h => hki h.1), ih]
      by_cases h1 : i < k
      · simp [h1, show i < k + 1 from by omega]
      · have h2 : ¬ i < k + 1 := by omega
        simp [h1, h2]

theorem histories_set_input_importance (h : Hierarchy) (i : Nat) (imp : float) :
    (set_input_importance h i imp).histories = h.histories ∧
    (set_input_importance h i imp).io_sizes = h.io_sizes := by
  unfold set_input_importance
  exact ⟨foldl_keeps (fun x : Hierarchy => x.histories) _ (fun s a => by rfl) _ _,
    foldl_keeps (fun x : Hierarchy => x.io_sizes) _ (fun s a => by rfl) _ _⟩

theorem histories_step_importances (h : Hierarchy) :
    (step_importances h).histories = h.histories ∧
    (step_importances h).io_sizes = h.io_sizes := by
  unfold step_importances
  exact ⟨foldl_keeps (fun x : Hierarchy => x.histories) _
      (fun s a => (histories_set_input_importance s a _).1) _ _,
    foldl_keeps (fun x : Hierarchy => x.io_sizes) _
      (fun s a => (histories_set_input_importance s a _).2) _ _⟩

/-- The histories after lines 181-196 of `step`: the rings of layer `0` have received the
inputs. -/
theorem histories_step_begin (input_cis : List Int_Buffer_View) (h : Hierarchy) :
    (step_begin input_cis h).histories =
      Array_update h.histories 0 (fun hs =>
        (List.range h.io_sizes.length).foldl (fun (hs : List (Circle_Buffer Int_Buffer))
          (i : Nat) => Array_update hs i (fun b =>
            b.pushFront.put 0 (input_cis.getD i default))) hs) := by
  obtain ⟨e1, e2⟩ := histories_step_importances h
  simp only [step_begin, step_inputs]
  have hp := foldl_proj (fun s : Hierarchy => s.histories)
    (fun (h : Hierarchy) (i : Nat) =>
      { h with histories := Array_update h.histories 0 (fun hs =>
          Array_update hs i (fun b => b.pushFront.put 0 (input_cis.getD i default))) })
    (fun (hs : List (List (Circle_Buffer Int_Buffer))) (i : Nat) =>
      Array_update hs 0 (fun r => Array_update r i (fun b =>
        b.pushFront.put 0 (input_cis.getD i default))))
    (fun s a => rfl) (List.range (step_importances h).io_sizes.length)
    { step_importances h with ticks := (step_importances h).ticks.set 0 0 }
  refine hp.trans ?_
  simp only
  rw [e1, e2, foldl_Array_update_at (fun (i : Nat) (r : List (Circle_Buffer Int_Buffer)) =>
    Array_update r i (fun b => b.pushFront.put 0 (input_cis.getD i default)))]

theorem histories_forward_layer (K : Kernels) (le : Bool) (h : Hierarchy) (l : Nat) :
    (forward_layer K le h l).histories =
      if is_time_to_tick h l = true ∧ l + 1 < h.encoders.length then
        Array_update h.histories (l + 1) (fun hs => Array_update hs 0 (fun b =>
          b.pushFront.put 0 ((forward_layer K le h l).encoders.getD l default).hidden_cis))
      else h.histories := by
  simp only [forward_layer]
  by_cases ht : is_time_to_tick h l = true
  · by_cases ha : l + 1 < h.encoders.length
    · have ha' : has_layer_above (Array_update h.encoders l (fun e =>
          K.enc_step e (encoder_input_cis
            { h with ticks := h.ticks.set l 0, updates := h.updates.set l 1 } l) le
            (h.params.layers.getD l default).encoder)).length l = true := by
        rw [length_Array_update]; exact (has_layer_above_iff _ _).2 ha
      simp only [ht, ha, ha', if_true, and_self]
    · have ha' : ¬ has_layer_above (Array_update h.encoders l (fun e =>
          K.enc_step e (encoder_input_cis
            { h with ticks := h.ticks.set l 0, updates := h.updates.set l 1 } l) le
            (h.params.layers.getD l default).encoder)).length l = true := by
        rw [length_Array_update]; exact fun hh => ha ((has_layer_above_iff _ _).1 hh)
      simp only [ht, ha, ha', if_true, if_false, and_false, Bool.false_eq_true]
  · simp only [ht, if_false, false_and, Bool.false_eq_true]

theorem histories_forward_upto_zero (K : Kernels) (le : Bool) (h : Hierarchy) (k : Nat) :
    (forward_upto K le h k).histories[0]? = h.histories[0]? := by
  induction k with
  | zero => rfl
  | succ k ih =>
    rw [forward_upto_succ, histories_forward_layer]
    split_ifs
    · rw [getElem?_Array_update, if_neg (fun hh => by omega), ih]
    · exact ih

/-- The rings of layer `0` after `step`: ring `i` has received `input_cis[i]`. -/
theorem histories_step_zero (K : Kernels) (h : Hierarchy) (input_cis : List Int_Buffer_View)
    (le : Bool) (reward mimic : float) (i : Nat) (hi : i < h.io_sizes.length) :
    ((step K h input_cis le reward mimic).histories.getD 0 default)[i]? =
      ((h.histories.getD 0 default)[i]?).map (fun b =>
        b.pushFront.put 0 (input_cis.getD i default)) := by
  have e1 : (step K h input_cis le reward mimic).histories =
      (forward_upto K le (step_begin input_cis h) (step_begin input_cis h).encoders.length
        ).histories := by
    simp only [step, histories_step_backward]
    rfl
  rw [List.getD_eq_getElem?_getD, e1, histories_forward_upto_zero, histories_step_begin,
    getElem?_Array_update]
  by_cases h0 : 0 < h.histories.length
  · rw [if_pos ⟨rfl, h0⟩]
    simp only [Option.getD_some]
    rw [getElem?_foldl_update_range]
    by_cases h2 : i < (h.histories.getD 0 default).length
    · rw [if_pos ⟨hi, h2⟩, getElem?_eq_some_getD _ i h2 default]
      rfl
    · rw [if_neg (fun hh => h2 hh.2), List.getElem?_eq_none (by omega)]
      rfl
  · have hnil : h.histories = [] := List.eq_nil_of_length_eq_zero (by omega)
    rw [if_neg (fun hh => h0 hh.2), hnil]
    rfl

/-- C12: for every `step` call and every channel `i` whose ring `histories[0][i]` has `T`
slots and its start inside the ring (as it is after `init_random` and after every call),
after the call `histories[0][i][0]` equals `input_cis[i]` and for every `1 <= t < T` the
entry `histories[0][i][t]` equals the entry `histories[0][i][t - 1]` of before the call;
the ring still has `T` slots and the storage position that held the oldest entry
`histories[0][i][T - 1]` is the one that now holds `input_cis[i]`, so that entry is no
longer present. -/
theorem input_history_shift (K : Kernels) (h : Hierarchy) (input_cis : List Int_Buffer_View)
    (learn_enabled : Bool) (reward mimic : float) (i : Nat) (b : Circle_Buffer Int_Buffer)
    (hi : i < h.io_sizes.length) (hin : i < input_cis.length)
    (hb : (h.histories.getD 0 default)[i]? = some b)
    (h0 : 0 ≤ b.start) (h1 : b.start < b.size) :
    ∃ b', ((step K h input_cis learn_enabled reward mimic).histories.getD 0 default)[i]? =
        some b' ∧
      b'.size = b.size ∧
      some (b'.get 0) = input_cis[i]? ∧
      (∀ t : Nat, 1 ≤ t → (t : Int) < b.size → b'.get (t : Int) = b.get ((t : Int) - 1)) ∧
      b'.slot 0 = b.slot (b.size - 1) := by
  obtain ⟨p1, _, _, p4, p5, p6⟩ := ring_push_spec b (input_cis.getD i default) h0 h1
  refine ⟨_, ?_, ?_, ?_, p5, p6⟩
  · rw [histories_step_zero K h input_cis learn_enabled reward mimic i hi, hb]
    rfl
  · simp only [CircleBuffer.size, p1]
  · rw [p4, getElem?_eq_some_getD input_cis i hin default]

/-! ## The inputs of an encoder -/

/-- The inner loop of lines 213-217: the slots of one ring are written to consecutive
positions. -/
theorem write_ring_loop (b : Circle_Buffer Int_Buffer) (m : Nat) (xs : List Int_Buffer_View)
    (c : Nat) :
    ((List.range m).foldl (fun (s : List Int_Buffer_View × Nat) (t : Nat) =>
        (s.1.set s.2 (b.get t), s.2 + 1)) (xs, c)).2 = c + m ∧
    ((List.range m).foldl (fun (s : List Int_Buffer_View × Nat) (t : Nat) =>
        (s.1.set s.2 (b.get t), s.2 + 1)) (xs, c)).1.length = xs.length ∧
    ∀ k, ((List.range m).foldl (fun (s : List Int_Buffer_View × Nat) (t : Nat) =>
        (s.1.set s.2 (b.get t), s.2 + 1)) (xs, c)).1[k]? =
      if c ≤ k ∧ k < c + m ∧ k < xs.length then some (b.get ((k - c : Nat) : Int)) else xs[k]? := by
  induction m with
  | zero =>
    refine ⟨rfl, rfl, fun k => ?_⟩
    simp only [List.range_zero, List.foldl_nil, Nat.add_zero]
    rw [if_neg (by omega)]
  | succ m ih =>
    obtain ⟨i1, i2, i3⟩ := ih
    rw [List.range_succ, List.foldl_append]
    simp only [List.foldl_cons, List.foldl_nil]
    rw [i1]
    refine ⟨by omega, by rw [List.length_set, i2], fun k => ?_⟩
    rw [List.getElem?_set, i2, i3]
    by_cases hk : c + m = k
    · subst hk
      by_cases hlt : c + m < xs.length
      · simp [hlt]
      · simp [hlt]; omega
    · simp only [hk, if_false]
      by_cases h1 : c ≤ k ∧ k < c + m ∧ k < xs.length
      · rw [if_pos h1, if_pos ⟨h1.1, by omega, h1.2.2⟩]
      · rw [if_neg h1, if_neg (by omega)]

/-- The two loops of lines 212-218 over `n` rings of `T` slots each: position `k` receives
slot `k mod T` of ring `k div T`. -/
theorem write_rings_loop (hs : List (Circle_Buffer Int_Buffer)) (T : Nat)
    (xs : List Int_Buffer_View) (n : Nat)
    (hT : ∀ i, i < n → (hs.getD i default).data.length = T) :
    ((List.range n).foldl (fun (s : List Int_Buffer_View × Nat) (i : Nat) =>
      (List.range (hs.getD i default).data.length).foldl
        (fun (s : List Int_Buffer_View × Nat) (t : Nat) =>
          (s.1.set s.2 ((hs.getD i default).get t), s.2 + 1)) s) (xs, 0)).2 = n * T ∧
    ((List.range n).foldl (fun (s : List Int_Buffer_View × Nat) (i : Nat) =>
      (List.range (hs.getD i default).data.length).foldl
        (fun (s : List Int_Buffer_View × Nat) (t : Nat) =>
          (s.1.set s.2 ((hs.getD i default).get t), s.2 + 1)) s) (xs, 0)).1.length =
        xs.length ∧
    ∀ k, ((List.range n).foldl (fun (s : List Int_Buffer_View × Nat) (i : Nat) =>
      (List.range (hs.getD i default).data.length).foldl
        (fun (s : List Int_Buffer_View × Nat) (t : Nat) =>
          (s.1.set s.2 ((hs.getD i default).get t), s.2 + 1)) s) (xs, 0)).1[k]? =
      if k < n * T ∧ k < xs.length then
        some ((hs.getD (k / T) default).get ((k % T : Nat) : Int))
      else xs[k]? := by
  induction n with
  | zero =>
    refine ⟨by simp, rfl, fun k => ?_⟩
    simp
  | succ n ih =>
    obtain ⟨i1, i2, i3⟩ := ih (fun i hi => hT i (by omega))
    rw [List.range_succ, List.foldl_append]
    simp only [List.foldl_cons, List.foldl_nil]
    generalize hS : (List.range n).foldl (fun (s : List Int_Buffer_View × Nat) (i : Nat) =>
      (List.range (hs.getD i default).data.length).foldl
        (fun (s : List Int_Buffer_View × Nat) (t : Nat) =>
          (s.1.set s.2 ((hs.getD i default).get t), s.2 + 1)) s) (xs, 0) = S at i1 i2 i3
    obtain ⟨S1, S2⟩ := S
    simp only at i1 i2 i3
    subst i1
    rw [hT n (by omega)]
    obtain ⟨w1, w2, w3⟩ := write_ring_loop (hs.getD n default) T S1 (n * T)
    refine ⟨by rw [w1]; ring, by rw [w2, i2], fun k => ?_⟩
    rw [w3, i2, i3]
    by_cases h1 : n * T ≤ k ∧ k < n * T + T ∧ k < xs.length
    · obtain ⟨a1, a2, a3⟩ := h1
      have hTpos : 0 < T := by
        rcases Nat.eq_zero_or_pos T with h0 | h0
        · subst h0; omega
        · exact h0
      have hdiv : k / T = n := by
        apply Nat.div_eq_of_lt_le
        · exact a1
        · rw [Nat.succ_mul]; exact a2
      have hmod : k % T = k - n * T := by
        have := Nat.div_add_mod k T
        rw [hdiv, Nat.mul_comm] at this
        omega
      rw [if_pos ⟨a1, a2, a3⟩, if_pos ⟨by rw [Nat.succ_mul]; omega, a3⟩, hdiv, hmod]
    · rw [if_neg h1]
      by_cases h2 : k < n * T ∧ k < xs.length
      · rw [if_pos h2, if_pos ⟨by rw [Nat.succ_mul]; omega, h2.2⟩]
      · rw [if_neg h2, if_neg (by rw [Nat.succ_mul]; omega)]

/-- The input list of the encoder of layer `l` when the rings of the layer have `T`
slots each and the encoder has one visible layer for every slot. -/
theorem encoder_input_cis_spec (s : Hierarchy) (l T : Nat)
    (hT : ∀ i, i < (s.histories.getD l default).length →
      ((s.histories.getD l default).getD i default).data.length = T)
    (hV : (s.encoders.getD l default).visible_layers.length =
      (s.histories.getD l default).length * T) :
    (encoder_input_cis s l).length = (s.histories.getD l default).length * T ∧
    ∀ k, k < (s.histories.getD l default).length * T →
      (encoder_input_cis s l)[k]? =
        some (((s.histories.getD l default).getD (k / T) default).get ((k % T : Nat) : Int)) := by
  obtain ⟨_, w2, w3⟩ := write_rings_loop (s.histories.getD l default) T
    (Array_new ((s.encoders.getD l default).visible_layers.length : Int) default)
    (s.histories.getD l default).length hT
  have hlen : (Array_new ((s.encoders.getD l default).visible_layers.length : Int)
      (default : Int_Buffer_View)).length = (s.histories.getD l default).length * T := by
    simp only [Array_new, List.length_replicate, Int.toNat_ofNat]
    exact hV
  simp only [encoder_input_cis]
  refine ⟨by rw [w2, hlen], fun k hk => ?_⟩
  rw [w3, hlen, if_pos ⟨hk, hk⟩]

theorem vis_counts_update (h : Hierarchy) (l : Nat) (f : Encoder → Encoder)
    (hf : ∀ e, (f e).visible_layers.length = e.visible_layers.length) :
    vis_counts { h with encoders := Array_update h.encoders l f } = vis_counts h := by
  simp only [vis_counts]
  exact map_Array_update _ _ hf _ l

theorem vis_counts_step_begin (input_cis : List Int_Buffer_View) (h : Hierarchy) :
    vis_counts (step_begin input_cis h) = vis_counts h := by
  have e0 : ∀ (s : Hierarchy) (i : Nat) (imp : float),
      vis_counts (set_input_importance s i imp) = vis_counts s := by
    intro s i imp
    unfold set_input_importance
    exact foldl_keeps vis_counts _ (fun s a => vis_counts_update s 0 _ (fun e => by
      simp only [length_Array_update])) _ _
  have e1 : vis_counts (step_importances h) = vis_counts h := by
    unfold step_importances
    exact foldl_keeps vis_counts _ (fun s a => e0 _ _ _) _ _
  have e2 : ∀ s : Hierarchy, vis_counts (step_inputs input_cis s) = vis_counts s := by
    intro s
    unfold step_inputs
    exact foldl_keeps vis_counts _ (fun s a => by rfl) _ _
  exact (show vis_counts (step_begin input_cis h) = vis_counts (step_inputs input_cis
    { step_importances h with ticks := (step_importances h).ticks.set 0 0 }) from rfl).trans
    ((e2 _).trans ((show _ = vis_counts (step_importances h) from rfl).trans e1))

theorem vis_counts_forward_layer (K : Kernels) (hK : Visible_layers_sized K) (le : Bool)
    (h : Hierarchy) (l : Nat) :
    vis_counts (forward_layer K le h l) = vis_counts h := by
  simp only [forward_layer]
  split_ifs
  · exact vis_counts_update _ l _ (fun e => hK.2.1 _ _ _ _)
  · exact vis_counts_update _ l _ (fun e => hK.2.1 _ _ _ _)
  · rfl

theorem vis_counts_forward_upto (K : Kernels) (hK : Visible_layers_sized K) (le : Bool)
    (h : Hierarchy) (k : Nat) :
    vis_counts (forward_upto K le h k) = vis_counts h := by
  unfold forward_upto
  exact foldl_keeps vis_counts _ (fun s a => vis_counts_forward_layer K hK le s a) _ _

theorem vis_counts_step (K : Kernels) (hK : Visible_layers_sized K) (h : Hierarchy)
    (input_cis : List Int_Buffer_View) (le : Bool) (reward mimic : float) :
    vis_counts (step K h input_cis le reward mimic) = vis_counts h := by
  have e1 : vis_counts (step K h input_cis le reward mimic) =
      vis_counts (step_forward K le (step_begin input_cis h)) := by
    simp only [vis_counts, step, encoders_step_backward]
  rw [e1, step_forward_eq, vis_counts_forward_upto K hK, vis_counts_step_begin]

theorem vis_counts_clear_state (K : Kernels) (hK : Visible_layers_sized K) (h : Hierarchy) :
    vis_counts (clear_state K h) = vis_counts h := by
  have hh : ∀ s : Hierarchy, vis_counts (clear_histories s) = vis_counts s := fun s => by
    unfold clear_histories
    exact foldl_keeps vis_counts _ (fun s a =>
      foldl_keeps vis_counts _ (fun s a =>
        foldl_keeps vis_counts _ (fun s a => by rfl) _ _) _ _) _ _
  have he : ∀ (n : Nat) (s : Hierarchy), vis_counts ((List.range n).foldl
      (fun (h : Hierarchy) (l : Nat) =>
        { h with encoders := Array_update h.encoders l K.enc_clear_state }) s) = vis_counts s :=
    fun n s => foldl_keeps vis_counts _ (fun s a => vis_counts_update s a _ hK.2.2) _ _
  have hd : ∀ (n : Nat) (s : Hierarchy), vis_counts ((List.range n).foldl
      (fun (h : Hierarchy) (l : Nat) =>
        (List.range (h.decoders.getD l default).length).foldl (fun (h : Hierarchy) (d : Nat) =>
          { h with decoders := Array_update h.decoders l (fun ds =>
              Array_update ds d K.dec_clear_state) }) h) s) = vis_counts s :=
    fun n s => foldl_keeps vis_counts _ (fun s a =>
      foldl_keeps vis_counts _ (fun s a => by rfl) _ _) _ _
  have ha : ∀ (n : Nat) (s : Hierarchy), vis_counts ((List.range n).foldl
      (fun (h : Hierarchy) (d : Nat) =>
        { h with actors := Array_update h.actors d K.act_clear_state }) s) = vis_counts s :=
    fun n s => foldl_keeps vis_counts _ (fun s a => by rfl) _ _
  simp only [clear_state]
  rw [ha, hd, he, hh]
  rfl

theorem vis_counts_run (K : Kernels) (hK : Visible_layers_sized K) (calls : List Call)
    (h : Hierarchy) : vis_counts (run K h calls) = vis_counts h := by
  unfold run
  exact foldl_keeps vis_counts _ (fun s c => by
    cases c with
    | step input_cis le reward mimic => exact vis_counts_step K hK s input_cis le reward mimic
    | clear_state => exact vis_counts_clear_state K hK s) _ _

theorem hist_shape_run (K : Kernels) (calls : List Call) (h : Hierarchy) :
    hist_shape (run K h calls) = hist_shape h := by
  unfold run
  exact foldl_keeps hist_shape _ (fun s c => by
    cases c with
    | step input_cis le reward mimic => exact hist_shape_step K s input_cis le reward mimic
    | clear_state => exact hist_shape_clear_state K s) _ _

theorem hist_shape_rings (a b : Hierarchy) (hab : hist_shape a = hist_shape b) (l : Nat) :
    (a.histories.getD l default).length = (b.histories.getD l default).length ∧
    ∀ i, ((a.histories.getD l default).getD i default).data.length =
      ((b.histories.getD l default).getD i default).data.length := by
  have hl : (a.histories.getD l default).map (fun r => r.data.length) =
      (b.histories.getD l default).map (fun r => r.data.length) := by
    have := congrArg (fun x => x.getD l []) hab
    simp only [hist_shape, List.getD_eq_getElem?_getD, List.getElem?_map] at this ⊢
    cases ha : a.histories[l]? <;> cases hb : b.histories[l]? <;>
      simp only [ha, hb, Option.map_none', Option.map_some', Option.getD_none,
        Option.getD_some] at this ⊢
    all_goals first | rfl | exact this
  refine ⟨by simpa using congrArg List.length hl, fun i => ?_⟩
  have := congrArg (fun x => x.getD i 0) hl
  simp only [List.getD_eq_getElem?_getD, List.getElem?_map] at this ⊢
  cases ha : (a.histories[l]?.getD default)[i]? <;>
    cases hb : (b.histories[l]?.getD default)[i]? <;>
    simp only [ha, hb, Option.map_none', Option.map_some', Option.getD_none,
      Option.getD_some] at this ⊢
  all_goals first | rfl | exact this

theorem toNat_natCast_mul (n : Nat) (t : Int) : ((n : Int) * t).toNat = n * t.toNat := by
  rcases lt_or_le t 0 with h | h
  · have h1 : (n : Int) * t ≤ 0 := Int.mul_nonpos_of_nonneg_of_nonpos (by omega) (by omega)
    rw [Int.toNat_of_nonpos h1, Int.toNat_of_nonpos (by omega)]
    simp
  · obtain ⟨u, rfl⟩ := Int.eq_ofNat_of_zero_le h
    have e : ((n : Int) * (u : Int)) = ((n * u : Nat) : Int) := by push_cast; rfl
    rw [e, Int.toNat_ofNat, Int.toNat_ofNat]

/-- The number of visible layer descriptors that `init_random` creates for the encoder of
layer `l`. -/
theorem enc_descs_length (io_descs : List IO_Desc) (layer_descs : List Layer_Desc) (l : Nat) :
    (if l = 0 then
        e_visible_layer_descs_first (io_descs.map (fun d => d.size)) io_descs
          (layer_descs.getD 0 default).temporal_horizon
      else e_visible_layer_descs_next layer_descs l).length =
      (if l = 0 then io_descs.length else 1) *
        (layer_descs.getD l default).temporal_horizon.toNat := by
  by_cases h0 : l = 0
  · subst h0
    simp only [if_true]
    rw [(e_visible_layer_descs_first_spec _ _ _).1, List.length_map, toNat_natCast_mul]
  · simp only [h0, if_false]
    rw [e_visible_layer_descs_next_spec, List.length_replicate, Nat.one_mul]

theorem create_encoders (K : Kernels) (io_descs : List IO_Desc) (layer_descs : List Layer_Desc)
    (l : Nat) (hl : l < layer_descs.length) :
    (Hierarchy.create K io_descs layer_descs).encoders[l]? =
      some (K.enc_init_random default (layer_descs.getD l default).hidden_size
        (if l = 0 then
          e_visible_layer_descs_first (io_descs.map (fun d => d.size)) io_descs
            (layer_descs.getD 0 default).temporal_horizon
        else e_visible_layer_descs_next layer_descs l)) := by
  by_cases h0 : l = 0
  · subst h0
    obtain ⟨_, _, _, _, he⟩ := init_first_spec K io_descs layer_descs hl
    obtain ⟨_, _, _, _, e5⟩ := create_first K io_descs layer_descs hl
    rw [if_pos rfl]
    exact e5.trans he
  · rw [if_neg h0]
    exact (create_next K io_descs layer_descs l (by omega) hl).1

/-- The shape of a freshly created hierarchy: the rings of layer `l` (one per channel at
layer `0`, one above) have `temporal_horizon` slots and the encoder of the layer has one
visible layer per slot. -/
theorem create_shape (K : Kernels) (hK : Visible_layers_sized K) (io_descs : List IO_Desc)
    (layer_descs : List Layer_Desc) (l : Nat) (hl : l < layer_descs.length) :
    ((Hierarchy.create K io_descs layer_descs).histories.getD l default).length =
      (if l = 0 then io_descs.length else 1) ∧
    (∀ i, i < (if l = 0 then io_descs.length else 1) →
      (((Hierarchy.create K io_descs layer_descs).histories.getD l default).getD i
        default).data.length = (layer_descs.getD l default).temporal_horizon.toNat) ∧
    ((vis_counts (Hierarchy.create K io_descs layer_descs)).getD l 0) =
      (if l = 0 then io_descs.length else 1) *
        (layer_descs.getD l default).temporal_horizon.toNat := by
  have hh := create_histories K io_descs layer_descs l hl
  have he := create_encoders K io_descs layer_descs l hl
  have hg : (Hierarchy.create K io_descs layer_descs).histories.getD l default =
      (if l = 0 then
          io_descs.map (fun d =>
            init_history (layer_descs.getD 0 default).temporal_horizon (d.size.x * d.size.y)
              default)
        else
          [init_history (layer_descs.getD l default).temporal_horizon
            ((layer_descs.getD (l - 1) default).hidden_size.x *
              (layer_descs.getD (l - 1) default).hidden_size.y) default]) := by
    rw [List.getD_eq_getElem?_getD, hh]
    rfl
  rw [hg]
  refine ⟨?_, ?_, ?_⟩
  · by_cases h0 : l = 0 <;> simp [h0]
  · intro i hi
    by_cases h0 : l = 0
    · subst h0
      simp only [if_true] at hi ⊢
      rw [List.getD_eq_getElem?_getD, List.getElem?_map,
        getElem?_eq_some_getD io_descs i hi default]
      simp only [Option.map_some', Option.getD_some, init_history_default,
        List.length_replicate]
    · simp only [h0, if_false] at hi ⊢
      have hi0 : i = 0 := by omega
      subst hi0
      simp only [List.getD_cons_zero, init_history_default, List.length_replicate]
  · have hlen := (create_lengths K io_descs layer_descs).1
    have hge : (Hierarchy.create K io_descs layer_descs).encoders.getD l default =
        K.enc_init_random default (layer_descs.getD l default).hidden_size
          (if l = 0 then
            e_visible_layer_descs_first (io_descs.map (fun d => d.size)) io_descs
              (layer_descs.getD 0 default).temporal_horizon
          else e_visible_layer_descs_next layer_descs l) := by
      rw [List.getD_eq_getElem?_getD, he]
      rfl
    rw [vis_counts, getD_map_of_lt _ _ l (by rw [hlen]; exact hl) 0 default, hge]
    exact (hK.1 _ _ _).trans (enc_descs_length io_descs layer_descs l)

/-- The encoder of an updated layer after its iteration of the ascending loop. -/
theorem encoders_forward_layer_self (K : Kernels) (le : Bool) (s : Hierarchy) (l : Nat)
    (hl : l < s.encoders.length) (ht : is_time_to_tick s l = true) :
    (forward_layer K le s l).encoders[l]? =
      some (K.enc_step (s.encoders.getD l default) (encoder_input_cis s l) le
        (s.params.layers.getD l default).encoder) := by
  simp only [forward_layer, ht, if_true, length_Array_update]
  by_cases ha : has_layer_above s.encoders.length l = true
  · simp only [ha, if_true]
    rw [getElem?_Array_update, if_pos ⟨rfl, hl⟩]
    rfl
  · simp only [ha, Bool.false_eq_true, if_false]
    rw [getElem?_Array_update, if_pos ⟨rfl, hl⟩]
    rfl

/-- C13: in a `step` on a hierarchy reached from `init_random` by any calls, let `s` be the
state when the ascending loop reaches layer `l`, `T` the `temporal_horizon` of the layer
and `rings` the number of its rings (the number of channels at layer `0`, `1` above).
When layer `l` is updated its encoder is stepped on `encoder_input_cis s l`, and that list
is the flattening of `histories[l]` in channel-major, time-minor order: entry `i * T + t`
is `histories[l][i][t]`, so entry `k` is slot `k mod T` of ring `k div T`; it has
`rings * T` entries, exactly as many as visible layer descriptors were created for the
encoder; for layer `0` the descriptor created at index `t + T * i`, which is the index
`i * T + t`, is the one of channel `i`. -/
theorem encoder_inputs_order (K : Kernels) (hK : Visible_layers_sized K)
    (io_descs : List IO_Desc) (layer_descs : List Layer_Desc) (calls : List Call)
    (input_cis : List Int_Buffer_View) (learn_enabled : Bool) (l : Nat)
    (hl : l < layer_descs.length)
    (hth : 0 ≤ (layer_descs.getD l default).temporal_horizon)
    (s : Hierarchy)
    (hs : s = forward_upto K learn_enabled
      (step_begin input_cis (run K (Hierarchy.create K io_descs layer_descs) calls)) l) :
    (is_time_to_tick s l = true →
      (forward_layer K learn_enabled s l).encoders[l]? =
        some (K.enc_step (s.encoders.getD l default) (encoder_input_cis s l) learn_enabled
          (s.params.layers.getD l default).encoder)) ∧
    (s.histories.getD l default).length = (if l = 0 then io_descs.length else 1) ∧
    (encoder_input_cis s l).length =
      (if l = 0 then io_descs.length else 1) *
        (layer_descs.getD l default).temporal_horizon.toNat ∧
    (if l = 0 then
        e_visible_layer_descs_first (io_descs.map (fun d => d.size)) io_descs
          (layer_descs.getD 0 default).temporal_horizon
      else e_visible_layer_descs_next layer_descs l).length =
      (encoder_input_cis s l).length ∧
    (∀ i t, i < (if l = 0 then io_descs.length else 1) →
      t < (layer_descs.getD l default).temporal_horizon.toNat →
      ((s.histories.getD l default).getD i default).size =
        (layer_descs.getD l default).temporal_horizon ∧
      (encoder_input_cis s l)[i * (layer_descs.getD l default).temporal_horizon.toNat + t]? =
        some (((s.histories.getD l default).getD i default).get (t : Int))) ∧
    (∀ k, k < (if l = 0 then io_descs.length else 1) *
        (layer_descs.getD l default).temporal_horizon.toNat →
      (encoder_input_cis s l)[k]? =
        some (((s.histories.getD l default).getD
          (k / (layer_descs.getD l default).temporal_horizon.toNat) default).get
          ((k % (layer_descs.getD l default).temporal_horizon.toNat : Nat) : Int))) ∧
    (l = 0 → ∀ i t, i < io_descs.length →
      t < (layer_descs.getD 0 default).temporal_horizon.toNat →
      t + (layer_descs.getD 0 default).temporal_horizon.toNat * i =
        i * (layer_descs.getD 0 default).temporal_horizon.toNat + t ∧
      (e_visible_layer_descs_first (io_descs.map (fun d => d.size)) io_descs
        (layer_descs.getD 0 default).temporal_horizon)[
          t + (layer_descs.getD 0 default).temporal_horizon.toNat * i]? =
        some ⟨(io_descs.getD i default).size, (io_descs.getD i default).up_radius⟩) := by
  obtain ⟨c1, c2, c3⟩ := create_shape K hK io_descs layer_descs l hl
  have hvis : vis_counts s = vis_counts (Hierarchy.create K io_descs layer_descs) := by
    rw [hs, vis_counts_forward_upto K hK, vis_counts_step_begin, vis_counts_run K hK]
  have hshape : hist_shape s = hist_shape (Hierarchy.create K io_descs layer_descs) := by
    rw [hs, hist_shape_forward_upto, hist_shape_step_begin, hist_shape_run]
  obtain ⟨r1, r2⟩ := hist_shape_rings _ _ hshape l
  have hlen : s.encoders.length = layer_descs.length := by
    have := congrArg List.length hvis
    simp only [vis_counts, List.length_map] at this
    rw [this]
    exact (create_lengths K io_descs layer_descs).1
  have hT : ∀ i, i < (s.histories.getD l default).length →
      ((s.histories.getD l default).getD i default).data.length =
        (layer_descs.getD l default).temporal_horizon.toNat := by
    intro i hi
    rw [r2 i]
    exact c2 i (by rw [← c1, ← r1]; exact hi)
  have hV : (s.encoders.getD l default).visible_layers.length =
      (s.histories.getD l default).length *
        (layer_descs.getD l default).temporal_horizon.toNat := by
    have := congrArg (fun x => x.getD l 0) hvis
    simp only at this
    rw [c3, vis_counts, getD_map_of_lt _ _ l (by rw [hlen]; exact hl) 0 default] at this
    rw [this, r1, c1]
  obtain ⟨q1, q2⟩ := encoder_input_cis_spec s l _ hT hV
  rw [r1, c1] at q1 q2
  refine ⟨fun ht => encoders_forward_layer_self K learn_enabled s l (by rw [hlen]; exact hl) ht,
    by rw [r1, c1], q1, by rw [q1]; exact enc_descs_length io_descs layer_descs l, ?_, q2, ?_⟩
  · intro i t hi ht
    have hk : i * (layer_descs.getD l default).temporal_horizon.toNat + t <
        (if l = 0 then io_descs.length else 1) *
          (layer_descs.getD l default).temporal_horizon.toNat := by
      calc i * (layer_descs.getD l default).temporal_horizon.toNat + t
          < i * (layer_descs.getD l default).temporal_horizon.toNat +
              (layer_descs.getD l default).temporal_horizon.toNat := by omega
        _ = (i + 1) * (layer_descs.getD l default).temporal_horizon.toNat := by ring
        _ ≤ _ := Nat.mul_le_mul_right _ hi
    refine ⟨?_, ?_⟩
    · simp only [CircleBuffer.size]
      rw [hT i (by rw [r1, c1]; exact hi)]
      exact Int.toNat_of_nonneg hth
    · rw [q2 _ hk]
      have hdiv : (i * (layer_descs.getD l default).temporal_horizon.toNat + t) /
          (layer_descs.getD l default).temporal_horizon.toNat = i := by
        rw [Nat.mul_comm, Nat.mul_add_div (by omega), Nat.div_eq_of_lt ht, Nat.add_zero]
      have hmod : (i * (layer_descs.getD l default).temporal_horizon.toNat + t) %
          (layer_descs.getD l default).temporal_horizon.toNat = t := by
        rw [Nat.mul_comm, Nat.mul_add_mod, Nat.mod_eq_of_lt ht]
      rw [hdiv, hmod]
  · intro h0 i t hi ht
    refine ⟨by ring, ?_⟩
    have := (e_visible_layer_descs_first_spec (io_descs.map (fun d => d.size)) io_descs
      (layer_descs.getD 0 default).temporal_horizon).2 i t (by simpa using hi) (by omega)
    rw [this, getD_map_of_lt _ _ i hi default default]

/-! ## What `step` and `clear_state` leave alone -/

theorem dec_counts_update (h : Hierarchy) (l d : Nat) (f : Decoder → Decoder) :
    dec_counts { h with decoders := Array_update h.decoders l (fun ds =>
      Array_update ds d f) } = dec_counts h := by
  simp only [dec_counts]
  exact map_Array_update _ _ (fun ds => length_Array_update _ _ _) _ l

theorem layout_backward_decoder (K : Kernels) (le : Bool) (l : Nat)
    (v : List Int_Buffer_View) (h : Hierarchy) (d : Nat) :
    layout (backward_decoder K le l v h d) = layout h := by
  simp only [layout, backward_decoder, dec_counts_update]

theorem layout_backward_actor (K : Kernels) (input_cis : List Int_Buffer_View) (le : Bool)
    (reward mimic : float) (v : List Int_Buffer_View) (h : Hierarchy) (d : Nat) :
    layout (backward_actor K input_cis le reward mimic v h d) = layout h := by
  simp only [layout, backward_actor, length_Array_update, dec_counts]

theorem layout_backward_layer (K : Kernels) (input_cis : List Int_Buffer_View) (le : Bool)
    (reward mimic : float) (h : Hierarchy) (l : Nat) :
    layout (backward_layer K input_cis le reward mimic h l) = layout h := by
  have hd : ∀ (v : List Int_Buffer_View) (n : Nat) (s : Hierarchy),
      layout ((List.range n).foldl (backward_decoder K le l v) s) = layout s := fun v n s =>
    foldl_keeps layout _ (fun s a => layout_backward_decoder K le l v s a) _ _
  have ha : ∀ (v : List Int_Buffer_View) (n : Nat) (s : Hierarchy),
      layout ((List.range n).foldl (backward_actor K input_cis le reward mimic v) s) =
        layout s :=
    fun v n s => foldl_keeps layout _
      (fun s a => layout_backward_actor K input_cis le reward mimic v s a) _ _
  simp only [backward_layer]
  split_ifs
  · rw [ha, hd]
  · rw [hd]
  · rfl

theorem layout_step_backward (K : Kernels) (input_cis : List Int_Buffer_View) (le : Bool)
    (reward mimic : float) (h : Hierarchy) :
    layout (step_backward K input_cis le reward mimic h) = layout h := by
  unfold step_backward
  exact foldl_keeps layout _ (fun s a => layout_backward_layer _ _ _ _ _ _ _) _ _

theorem layout_backward_upto (K : Kernels) (input_cis : List Int_Buffer_View) (le : Bool)
    (reward mimic : float) (h : Hierarchy) (l : Nat) :
    layout (backward_upto K input_cis le reward mimic h l) = layout h := by
  unfold backward_upto
  exact foldl_keeps layout _ (fun s a => layout_backward_layer _ _ _ _ _ _ _) _ _

theorem layout_step_begin (input_cis : List Int_Buffer_View) (h : Hierarchy) :
    layout (step_begin input_cis h) = layout h := by
  have e0 : ∀ (s : Hierarchy) (i : Nat) (imp : float),
      layout (set_input_importance s i imp) = layout s := by
    intro s i imp
    unfold set_input_importance
    exact foldl_keeps layout _ (fun s a => by rfl) _ _
  have e1 : layout (step_importances h) = layout h := by
    unfold step_importances
    exact foldl_keeps layout _ (fun s a => e0 _ _ _) _ _
  have e2 : ∀ s : Hierarchy, layout (step_inputs input_cis s) = layout s := by
    intro s
    unfold step_inputs
    exact foldl_keeps layout _ (fun s a => by rfl) _ _
  exact (show layout (step_begin input_cis h) = layout (step_inputs input_cis
    { step_importances h with ticks := (step_importances h).ticks.set 0 0 }) from rfl).trans
    ((e2 _).trans ((show _ = layout (step_importances h) from rfl).trans e1))

theorem layout_forward_layer (K : Kernels) (le : Bool) (h : Hierarchy) (l : Nat) :
    layout (forward_layer K le h l) = layout h := by
  simp only [forward_layer]
  split_ifs <;> rfl

theorem layout_forward_upto (K : Kernels) (le : Bool) (h : Hierarchy) (k : Nat) :
    layout (forward_upto K le h k) = layout h := by
  unfold forward_upto
  exact foldl_keeps layout _ (fun s a => layout_forward_layer K le s a) _ _

theorem layout_step (K : Kernels) (h : Hierarchy) (input_cis : List Int_Buffer_View)
    (le : Bool) (reward mimic : float) :
    layout (step K h input_cis le reward mimic) = layout h := by
  simp only [step]
  rw [layout_step_backward, step_forward_eq, layout_forward_upto, layout_step_begin]

theorem layout_clear_state (K : Kernels) (h : Hierarchy) :
    layout (clear_state K h) = layout h := by
  have hh : ∀ s : Hierarchy, layout (clear_histories s) = layout s := fun s => by
    unfold clear_histories
    exact foldl_keeps layout _ (fun s a =>
      foldl_keeps layout _ (fun s a =>
        foldl_keeps layout _ (fun s a => by rfl) _ _) _ _) _ _
  have he : ∀ (n : Nat) (s : Hierarchy), layout ((List.range n).foldl
      (fun (h : Hierarchy) (l : Nat) =>
        { h with encoders := Array_update h.encoders l K.enc_clear_state }) s) = layout s :=
    fun n s => foldl_keeps layout _ (fun s a => by rfl) _ _
  have hd : ∀ (n : Nat) (s : Hierarchy), layout ((List.range n).foldl
      (fun (h : Hierarchy) (l : Nat) =>
        (List.range (h.decoders.getD l default).length).foldl (fun (h : Hierarchy) (d : Nat) =>
          { h with decoders := Array_update h.decoders l (fun ds =>
              Array_update ds d K.dec_clear_state) }) h) s) = layout s :=
    fun n s => foldl_keeps layout _ (fun s a =>
      foldl_keeps layout _ (fun s a => by
        simp only [layout, dec_counts_update]) _ _) _ _
  have ha : ∀ (n : Nat) (s : Hierarchy), layout ((List.range n).foldl
      (fun (h : Hierarchy) (d : Nat) =>
        { h with actors := Array_update h.actors d K.act_clear_state }) s) = layout s :=
    fun n s => foldl_keeps layout _ (fun s a => by
      simp only [layout, length_Array_update, dec_counts]) _ _
  simp only [clear_state]
  rw [ha, hd, he, hh]
  rfl

theorem layout_run (K : Kernels) (calls : List Call) (h : Hierarchy) :
    layout (run K h calls) = layout h := by
  unfold run
  exact foldl_keeps layout _ (fun s c => by
    cases c with
    | step input_cis le reward mimic => exact layout_step K s input_cis le reward mimic
    | clear_state => exact layout_clear_state K s) _ _

/-! ## The descending loop -/

/-- The descending loop over `n` layers, split at layer `l`: the layers above `l`, layer
`l`, the layers below. -/
theorem desc_fold_split {σ : Type} (f : σ → Nat → σ) (n l : Nat) (hl : l < n) (h : σ) :
    (List.range n).reverse.foldl f h =
      (List.range l).reverse.foldl f
        (f (((List.range n).reverse.take (n - 1 - l)).foldl f h) l) := by
  have hd : (List.range n).reverse.drop (n - 1 - l) = l :: (List.range l).reverse := by
    rw [List.drop_reverse, List.length_range, List.take_range,
      show min (n - (n - 1 - l)) n = l + 1 from by omega, List.range_succ,
      List.reverse_append]
    rfl
  conv_lhs => rw [← List.take_append_drop (n - 1 - l) (List.range n).reverse]
  rw [List.foldl_append, hd, List.foldl_cons]

theorem sched_backward_upto (K : Kernels) (input_cis : List Int_Buffer_View) (le : Bool)
    (reward mimic : float) (h : Hierarchy) (l : Nat) :
    sched (backward_upto K input_cis le reward mimic h l) = sched h := by
  unfold backward_upto
  exact foldl_keeps sched _ (fun s a => sched_backward_layer _ _ _ _ _ _ _) _ _

/-- The descending loop of `step`, seen from layer `l`. -/
theorem step_backward_split (K : Kernels) (input_cis : List Int_Buffer_View) (le : Bool)
    (reward mimic : float) (h : Hierarchy) (l : Nat) (hl : l < h.decoders.length) :
    step_backward K input_cis le reward mimic h =
      (List.range l).reverse.foldl (backward_layer K input_cis le reward mimic)
        (backward_layer K input_cis le reward mimic
          (backward_upto K input_cis le reward mimic h l) l) := by
  unfold step_backward backward_upto
  exact desc_fold_split _ _ l hl h

/-- The inputs of the decoders and actors of a layer `l` that has a layer above, when the
index `ticks_per_update[l + 1] - 1 - ticks[l + 1]` is not negative. -/
theorem decoder_input_cis_above (B : Hierarchy) (l : Nat) (hl : l + 1 < B.encoders.length)
    (h0 : 0 ≤ B.ticks_per_update.getD (l + 1) 0 - 1 - B.ticks.getD (l + 1) 0) :
    decoder_input_cis B l =
      [(B.encoders.getD l default).hidden_cis,
       ((B.decoders.getD (l + 1) default).getD
          (B.ticks_per_update.getD (l + 1) 0 - 1 - B.ticks.getD (l + 1) 0).toNat
          default).hidden_cis] := by
  have ha : has_layer_above B.encoders.length l = true := (has_layer_above_iff _ _).2 hl
  simp only [decoder_input_cis, ha, if_true, Array_new, Array_at]
  have hd : ∀ xs : List Int, xs.getD (l + 1) default = xs.getD (l + 1) 0 := fun xs => rfl
  rw [hd, hd, if_pos h0]
  rfl

theorem dec_counts_getD (a b : Hierarchy) (hab : dec_counts a = dec_counts b) (l : Nat) :
    (a.decoders.getD l default).length = (b.decoders.getD l default).length := by
  have := congrArg (fun x => x.getD l 0) hab
  simp only [dec_counts, List.getD_eq_getElem?_getD, List.getElem?_map] at this ⊢
  cases ha : a.decoders[l]? <;> cases hb : b.decoders[l]? <;>
    simp only [ha, hb, Option.map_none', Option.map_some', Option.getD_none,
      Option.getD_some] at this ⊢
  all_goals first | rfl | exact this

/-- The state of the descending loop of a `step` on a hierarchy reached from
`init_random`: the counters are those of the end of the step and the numbers of decoders
are those of `init_random`. -/
theorem backward_upto_frame (K : Kernels) (io_descs : List IO_Desc)
    (layer_descs : List Layer_Desc) (calls : List Call) (input_cis : List Int_Buffer_View)
    (le : Bool) (reward mimic : float) (l : Nat) :
    sched (backward_upto K input_cis le reward mimic
      (step_forward K le (step_begin input_cis
        (run K (Hierarchy.create K io_descs layer_descs) calls))) l) =
      sched (step K (run K (Hierarchy.create K io_descs layer_descs) calls)
        input_cis le reward mimic) ∧
    layout (backward_upto K input_cis le reward mimic
      (step_forward K le (step_begin input_cis
        (run K (Hierarchy.create K io_descs layer_descs) calls))) l) =
      layout (Hierarchy.create K io_descs layer_descs) := by
  constructor
  · rw [sched_backward_upto]
    simp only [step]
    rw [sched_step_backward]
  · rw [layout_backward_upto, step_forward_eq, layout_forward_upto, layout_step_begin,
      layout_run]

theorem feedback_index_phase (t c r P : Nat) (hP : 1 ≤ P) (hr : r < t) :
    (c * t + r) * P / P % t = r ∧ (P ∣ (c * t + r) * P) ∧
    (P * t ∣ (c * t + r) * P ↔ r = 0) := by
  refine ⟨?_, Dvd.intro_left _ rfl, ?_⟩
  · rw [Nat.mul_div_cancel _ (by omega), Nat.add_comm, Nat.add_mul_mod_self_right,
      Nat.mod_eq_of_lt hr]
  · rw [Nat.mul_comm P t, Nat.mul_dvd_mul_iff_right (by omega), Nat.add_comm,
      (Nat.dvd_add_left (Dvd.intro_left c rfl))]
    constructor
    · intro hd
      rcases Nat.eq_zero_or_pos r with h0 | h0
      · exact h0
      · exact absurd (Nat.le_of_dvd h0 hd) (by omega)
    · rintro rfl
      exact Nat.dvd_zero t

/-- C14 (amended): take a hierarchy built by `init_random` with `ticks_per_update >= 1` at
every layer above the first.  In the descending pass of every `step` on a state reached from
it, let `B` be the state when the loop reaches a layer `l` that has a layer above: the
counters of `B` are those of the end of the step, `ticks[l + 1]` is strictly less than
`ticks_per_update[l + 1]`, the index `ticks_per_update[l + 1] - 1 - ticks[l + 1]` lies
in `[0, ticks_per_update[l + 1])` and inside `decoders[l + 1]`, and when layer `l` was
updated its decoders (and actors) are stepped on the list made of the hidden code of
its encoder and the hidden code of the decoder of layer `l + 1` at that index.  Counting
the steps since `init_random` or since the last `clear_state` (no `clear_state` among
them), the update number `c * t + r` of layer `l` (with `t = ticks_per_update[l + 1]` and
`r < t`) is the step `(c * t + r) * P`, `P` being the period of layer `l`; there the index
is `t - 1 - r`, and layer `l + 1` is updated exactly when `r = 0`: over the `t` consecutive
updates of layer `l` of one period of layer `l + 1` that no `clear_state` interrupts the
index takes the values `t - 1, ..., 1, 0` in that order. -/
theorem feedback_decoder_index (K : Kernels) (io_descs : List IO_Desc)
    (layer_descs : List Layer_Desc)
    (htpu : ∀ k, 1 ≤ k → k < layer_descs.length →
      1 ≤ (layer_descs.getD k default).ticks_per_update) :
    (∀ (calls : List Call) (input_cis : List Int_Buffer_View) (learn_enabled : Bool)
      (reward mimic : float) (l : Nat), l + 1 < layer_descs.length →
      ∀ B, B = backward_upto K input_cis learn_enabled reward mimic
          (step_forward K learn_enabled (step_begin input_cis
            (run K (Hierarchy.create K io_descs layer_descs) calls))) l →
        sched B = sched (step K (run K (Hierarchy.create K io_descs layer_descs) calls)
          input_cis learn_enabled reward mimic) ∧
        B.ticks_per_update.getD (l + 1) 0 =
          (layer_descs.getD (l + 1) default).ticks_per_update ∧
        B.ticks.getD (l + 1) 0 < B.ticks_per_update.getD (l + 1) 0 ∧
        0 ≤ feedback_index B l ∧
        feedback_index B l < B.ticks_per_update.getD (l + 1) 0 ∧
        (feedback_index B l).toNat < (B.decoders.getD (l + 1) default).length ∧
        decoder_input_cis B l =
          [(B.encoders.getD l default).hidden_cis,
           ((B.decoders.getD (l + 1) default).getD (feedback_index B l).toNat
              default).hidden_cis] ∧
        (B.updates.getD l 0 ≠ 0 →
          backward_layer K input_cis learn_enabled reward mimic B l =
            (if l = 0 then
              (List.range ((List.range (B.decoders.getD l default).length).foldl
                  (backward_decoder K learn_enabled l (decoder_input_cis B l)) B
                ).actors.length).foldl
                (backward_actor K input_cis learn_enabled reward mimic
                  (decoder_input_cis B l))
                ((List.range (B.decoders.getD l default).length).foldl
                  (backward_decoder K learn_enabled l (decoder_input_cis B l)) B)
            else
              (List.range (B.decoders.getD l default).length).foldl
                (backward_decoder K learn_enabled l (decoder_input_cis B l)) B))) ∧
    (∀ (start : Hierarchy),
      (start = Hierarchy.create K io_descs layer_descs ∨
        ∃ calls, start =
          clear_state K (run K (Hierarchy.create K io_descs layer_descs) calls)) →
      ∀ (steps : List Call), (∀ c ∈ steps, c ≠ Call.clear_state) →
      ∀ (l c r : Nat), l + 1 < layer_descs.length →
        r < (layer_descs.getD (l + 1) default).ticks_per_update.toNat →
        0 < c * (layer_descs.getD (l + 1) default).ticks_per_update.toNat + r →
        steps.length =
          (c * (layer_descs.getD (l + 1) default).ticks_per_update.toNat + r) *
            period_nat start.ticks_per_update l →
        (run K start steps).updates[l]? = some 1 ∧
        feedback_index (run K start steps) l =
          (layer_descs.getD (l + 1) default).ticks_per_update - 1 - (r : Int) ∧
        (run K start steps).updates[l + 1]? = some (if r = 0 then 1 else 0)) := by
  have htpu' : ∀ j, 1 ≤ j → j < layer_descs.length →
      1 ≤ (Hierarchy.create K io_descs layer_descs).ticks_per_update.getD j 0 := by
    intro j hj1 hjn
    rw [create_ticks_per_update_getD K io_descs layer_descs j hjn]
    have : j ≠ 0 := by omega
    simp only [this, if_false]
    exact htpu j hj1 hjn
  constructor
  · intro calls input_cis le reward mimic l hl B hB
    obtain ⟨f1, f2⟩ := backward_upto_frame K io_descs layer_descs calls input_cis le reward
      mimic l
    rw [← hB] at f1 f2
    have h0 := In_step_create K io_descs layer_descs htpu
    have h1 := In_step_run K _ _ calls _ h0 htpu'
    obtain ⟨a1, a2, a3, a4, a5⟩ :=
      In_step_step K _ _ _ h1 input_cis le reward mimic htpu'
    have f1' := f1
    simp only [sched, Prod.mk.injEq] at f1'
    obtain ⟨s1, s2, s3, s4⟩ := f1'
    have htp : B.ticks_per_update.getD (l + 1) 0 =
        (layer_descs.getD (l + 1) default).ticks_per_update := by
      rw [s3, a4, create_ticks_per_update_getD K io_descs layer_descs (l + 1) hl,
        if_neg (by omega)]
    obtain ⟨b1, b2⟩ := a5 (l + 1) (by omega) hl
    rw [← s1] at b1 b2
    rw [← a4, ← s3] at b2
    have hidx0 : 0 ≤ feedback_index B l := by simp only [feedback_index]; omega
    have hdec : (B.decoders.getD (l + 1) default).length =
        (layer_descs.getD (l + 1) default).ticks_per_update.toNat := by
      have hc : dec_counts B = dec_counts (Hierarchy.create K io_descs layer_descs) := by
        have := f2
        simp only [layout, Prod.mk.injEq] at this
        exact this.2.2.2.2.2.2
      rw [dec_counts_getD _ _ hc (l + 1), List.getD_eq_getElem?_getD,
        (create_next K io_descs layer_descs (l + 1) (by omega) hl).2]
      simp
    refine ⟨f1, htp, b2, hidx0, by simp only [feedback_index]; omega, ?_, ?_, ?_⟩
    · rw [hdec]
      simp only [feedback_index]
      omega
    · exact decoder_input_cis_above B l (by rw [s4, a1]; exact hl) hidx0
    · intro hu
      simp only [backward_layer]
      exact if_pos hu
  · intro start hstart steps hsteps l c r hl hr hpos hlen
    have hin : In_phase layer_descs.length
        (Hierarchy.create K io_descs layer_descs).ticks_per_update 0 start := by
      rcases hstart with rfl | ⟨calls, rfl⟩
      · exact In_phase_create K io_descs layer_descs
      · exact In_phase_clear_state K _ _ _
          (In_step_run K _ _ calls _ (In_step_create K io_descs layer_descs htpu) htpu')
    have htp : start.ticks_per_update =
        (Hierarchy.create K io_descs layer_descs).ticks_per_update := hin.2.2.2.1
    obtain ⟨r1, r2⟩ := In_phase_run K _ _ htpu' steps hsteps 0 start hin
    have hne : steps ≠ [] := by
      intro he
      rw [he] at hlen
      simp only [List.length_nil] at hlen
      have hP := period_nat_pos layer_descs.length _ htpu' l (by omega)
      rw [← htp] at hP
      have : 0 < (c * (layer_descs.getD (l + 1) default).ticks_per_update.toNat + r) *
          period_nat start.ticks_per_update l := Nat.mul_pos hpos (by omega)
      omega
    have hP := period_nat_pos layer_descs.length _ htpu' l (by omega)
    have ht1 : (Hierarchy.create K io_descs layer_descs).ticks_per_update.getD (l + 1) 0 =
        (layer_descs.getD (l + 1) default).ticks_per_update := by
      rw [create_ticks_per_update_getD K io_descs layer_descs (l + 1) hl, if_neg (by omega)]
    obtain ⟨p1, p2, p3⟩ := feedback_index_phase
      (layer_descs.getD (l + 1) default).ticks_per_update.toNat c r _ hP hr
    obtain ⟨q1, q2, q3, q4, q5⟩ := r1
    have hu := r2 hne
    rw [Nat.zero_add, hlen, htp] at hu q5
    refine ⟨?_, ?_, ?_⟩
    · rw [getElem?_eq_some_getD _ l (by rw [q3]; omega) 0, hu l (by omega), if_pos p2]
    · simp only [feedback_index]
      rw [q4, ht1, q5 l hl, ht1, p1]
    · rw [getElem?_eq_some_getD _ (l + 1) (by rw [q3]; omega) 0, hu (l + 1) hl]
      have hper : period_nat (Hierarchy.create K io_descs layer_descs).ticks_per_update
          (l + 1) = period_nat (Hierarchy.create K io_descs layer_descs).ticks_per_update l *
            (layer_descs.getD (l + 1) default).ticks_per_update.toNat := by
        simp only [period_nat, ht1]
      rw [hper]
      by_cases h0 : r = 0
      · rw [if_pos (p3.2 h0), if_pos h0]
      · rw [if_neg (fun hh => h0 (p3.1 hh)), if_neg h0]

/-! ## The starts of the rings -/

theorem foldl_inv {σ α : Type} (Inv : σ → Prop) (f : σ → α → σ)
    (hf : ∀ s a, Inv s → Inv (f s a)) (xs : List α) (s : σ) (hs : Inv s) :
    Inv (xs.foldl f s) := by
  induction xs generalizing s with
  | nil => exact hs
  | cons a xs ih => exact ih _ (hf s a hs)

theorem Rings_ok_update (h : Hierarchy) (l j i : Nat)
    (f : Circle_Buffer Int_Buffer → Circle_Buffer Int_Buffer)
    (hf : ∀ b : Circle_Buffer Int_Buffer, 0 ≤ b.start ∧ b.start < b.size →
      0 ≤ (f b).start ∧ (f b).start < (f b).size)
    (hok : Rings_ok h l) :
    Rings_ok { h with histories := Array_update h.histories j (fun hs =>
      Array_update hs i f) } l := by
  unfold Rings_ok
  intro k b hb
  simp only at hb
  rw [getD_Array_update] at hb
  by_cases hc : j = l ∧ j < h.histories.length
  · obtain ⟨rfl, hj⟩ := hc
    rw [if_pos ⟨rfl, hj⟩, getElem?_Array_update] at hb
    by_cases hk : i = k ∧ i < (h.histories.getD j default).length
    · rw [if_pos hk] at hb
      obtain ⟨rfl, hk2⟩ := hk
      simp only [Option.some.injEq] at hb
      rw [← hb]
      exact hf _ (hok i _ (getElem?_eq_some_getD _ i hk2 default))
    · rw [if_neg hk] at hb
      exact hok k b hb
  · rw [if_neg hc] at hb
    exact hok k b hb

theorem ring_put_ok {α : Type} (b : CircleBuffer α) (t : Int) (v : α)
    (hb : 0 ≤ b.start ∧ b.start < b.size) :
    0 ≤ (b.put t v).start ∧ (b.put t v).start < (b.put t v).size := by
  have hlen : (b.put t v).data.length = b.data.length := by
    simp only [CircleBuffer.put, Array_put]
    split_ifs <;> simp
  simp only [CircleBuffer.size, hlen]
  exact hb

theorem ring_push_ok {α : Type} [Inhabited α] (b : CircleBuffer α) (v : α)
    (hb : 0 ≤ b.start ∧ b.start < b.size) :
    0 ≤ (b.pushFront.put 0 v).start ∧ (b.pushFront.put 0 v).start < (b.pushFront.put 0 v).size :=
  ⟨(ring_push_spec b v hb.1 hb.2).2.1, (ring_push_spec b v hb.1 hb.2).2.2.1⟩

theorem Rings_ok_congr (a b : Hierarchy) (l : Nat) (hab : a.histories = b.histories)
    (hok : Rings_ok b l) : Rings_ok a l := by
  unfold Rings_ok
  intro i r hr
  rw [hab] at hr
  exact hok i r hr

theorem Rings_ok_step (K : Kernels) (h : Hierarchy) (input_cis : List Int_Buffer_View)
    (le : Bool) (reward mimic : float) (l : Nat) (hok : Rings_ok h l) :
    Rings_ok (step K h input_cis le reward mimic) l := by
  have e1 : Rings_ok (step_importances h) l :=
    Rings_ok_congr _ _ l (histories_step_importances h).1 hok
  have e2' : Rings_ok (step_inputs input_cis
      { step_importances h with ticks := (step_importances h).ticks.set 0 0 }) l := by
    unfold step_inputs
    exact foldl_inv (fun s => Rings_ok s l) _
      (fun s a hs => Rings_ok_update s l 0 a _ (fun b hb => ring_push_ok b _ hb) hs) _ _
      (Rings_ok_congr
        { step_importances h with ticks := (step_importances h).ticks.set 0 0 }
        (step_importances h) l rfl e1)
  have e2 : Rings_ok (step_begin input_cis h) l :=
    Rings_ok_congr (step_begin input_cis h) (step_inputs input_cis
      { step_importances h with ticks := (step_importances h).ticks.set 0 0 }) l rfl e2'
  have e3 : Rings_ok (step_forward K le (step_begin input_cis h)) l := by
    unfold step_forward
    refine foldl_inv (fun s => Rings_ok s l) _ (fun s a hs => ?_) _ _ e2
    have hh := histories_forward_layer K le s a
    by_cases hc : is_time_to_tick s a = true ∧ a + 1 < s.encoders.length
    · rw [if_pos hc] at hh
      exact Rings_ok_congr (forward_layer K le s a)
        { s with histories := Array_update s.histories (a + 1) (fun hs =>
            Array_update hs 0 (fun b => b.pushFront.put 0
              ((forward_layer K le s a).encoders.getD a default).hidden_cis)) } l hh
        (Rings_ok_update s l (a + 1) 0 _ (fun b hb => ring_push_ok b _ hb) hs)
    · rw [if_neg hc] at hh
      exact Rings_ok_congr _ s l hh hs
  exact Rings_ok_congr _ _ l (by simp only [step, histories_step_backward]) e3

theorem Rings_ok_clear_state (K : Kernels) (h : Hierarchy) (l : Nat) (hok : Rings_ok h l) :
    Rings_ok (clear_state K h) l := by
  apply Rings_ok_congr _ _ l (histories_clear_state K h)
  unfold clear_histories
  exact foldl_inv (fun s => Rings_ok s l) _ (fun s a hs =>
    foldl_inv (fun s => Rings_ok s l) _ (fun s a hs =>
      foldl_inv (fun s => Rings_ok s l) _ (fun s t hs =>
        Rings_ok_update s l _ _ _ (fun b hb => ring_put_ok b _ _ hb) hs) _ _ hs) _ _ hs) _ _
    (Rings_ok_congr
      { h with updates := Array_fill h.updates 0, ticks := Array_fill h.ticks 0 } h l rfl hok)

theorem Rings_ok_run (K : Kernels) (calls : List Call) (h : Hierarchy) (l : Nat)
    (hok : Rings_ok h l) : Rings_ok (run K h calls) l := by
  unfold run
  exact foldl_inv (fun s => Rings_ok s l) _ (fun s c hs => by
    cases c with
    | step input_cis le reward mimic => exact Rings_ok_step K s input_cis le reward mimic l hs
    | clear_state => exact Rings_ok_clear_state K s l hs) _ _ hok

theorem Rings_ok_create (K : Kernels) (io_descs : List IO_Desc)
    (layer_descs : List Layer_Desc) (l : Nat) (hl : l < layer_descs.length)
    (hth : 1 ≤ (layer_descs.getD l default).temporal_horizon) :
    Rings_ok (Hierarchy.create K io_descs layer_descs) l := by
  unfold Rings_ok
  intro i b hb
  rw [List.getD_eq_getElem?_getD, create_histories K io_descs layer_descs l hl,
    Option.getD_some] at hb
  have hring : ∀ in_size : Int, 0 ≤ (init_history (layer_descs.getD l default).temporal_horizon
      in_size (default : Circle_Buffer Int_Buffer)).start ∧
      (init_history (layer_descs.getD l default).temporal_horizon in_size
        (default : Circle_Buffer Int_Buffer)).start <
      (init_history (layer_descs.getD l default).temporal_horizon in_size
        (default : Circle_Buffer Int_Buffer)).size := by
    intro in_size
    obtain ⟨s1, s2, _⟩ := init_history_slots (layer_descs.getD l default).temporal_horizon in_size
    rw [s1, s2 (by omega)]
    omega
  by_cases h0 : l = 0
  · subst h0
    rw [if_pos rfl, List.getElem?_map] at hb
    cases hd : io_descs[i]? with
    | none => rw [hd] at hb; simp at hb
    | some d =>
      rw [hd] at hb
      simp only [Option.map_some', Option.some.injEq] at hb
      rw [← hb]
      exact hring _
  · rw [if_neg h0] at hb
    cases i with
    | zero =>
      simp only [List.getElem?_cons_zero, Option.some.injEq] at hb
      rw [← hb]
      exact hring _
    | succ i => simp at hb

/-! ## The descending loop, layer by layer -/

theorem backward_decoder_eq (K : Kernels) (le : Bool) (l : Nat) (v : List Int_Buffer_View)
    (h : Hierarchy) (d : Nat) :
    backward_decoder K le l v h d =
      { h with decoders := Array_update h.decoders l (fun ds =>
          Array_update ds d (fun dec =>
            K.dec_step dec v (decoder_target h l d) le (decoder_params h l d))) } := rfl

theorem backward_actor_eq (K : Kernels) (input_cis : List Int_Buffer_View) (le : Bool)
    (reward mimic : float) (v : List Int_Buffer_View) (h : Hierarchy) (d : Nat) :
    backward_actor K input_cis le reward mimic v h d =
      { h with actors := Array_update h.actors d (fun a =>
          K.act_step a v (Array_at input_cis (actor_channel h d)) reward le mimic
            (Array_at h.params.ios (actor_channel h d)).actor) } := rfl

/-- The loop of lines 246-247 over the decoders of layer `l`. -/
theorem backward_decoders_spec (K : Kernels) (le : Bool) (l : Nat)
    (v : List Int_Buffer_View) (h : Hierarchy) (n : Nat) (hl : l < h.decoders.length) :
    ((List.range n).foldl (backward_decoder K le l v) h).actors = h.actors ∧
    ((List.range n).foldl (backward_decoder K le l v) h).params = h.params ∧
    ((List.range n).foldl (backward_decoder K le l v) h).i_indices = h.i_indices ∧
    ((List.range n).foldl (backward_decoder K le l v) h).io_sizes = h.io_sizes ∧
    ∀ d, (((List.range n).foldl (backward_decoder K le l v) h).decoders.getD l default)[d]? =
      if d < n ∧ d < (h.decoders.getD l default).length then
        some (K.dec_step ((h.decoders.getD l default).getD d default) v
          (decoder_target h l d) le (decoder_params h l d))
      else (h.decoders.getD l default)[d]? := by
  have hp := foldl_proj_inv
    (fun s : Hierarchy => s.histories = h.histories ∧ s.i_indices = h.i_indices ∧
      s.params = h.params ∧ s.actors = h.actors ∧ s.io_sizes = h.io_sizes ∧
      l < s.decoders.length)
    (fun s : Hierarchy => s.decoders.getD l default)
    (backward_decoder K le l v)
    (fun (ds : List Decoder) (d : Nat) => Array_update ds d (fun dec =>
      K.dec_step dec v (decoder_target h l d) le (decoder_params h l d)))
    (fun s a hs => by
      rw [backward_decoder_eq]
      exact ⟨hs.1, hs.2.1, hs.2.2.1, hs.2.2.2.1, hs.2.2.2.2.1,
        by simp only [length_Array_update]; exact hs.2.2.2.2.2⟩)
    (fun s a hs => by
      rw [backward_decoder_eq]
      simp only [getD_Array_update, hs.2.2.2.2.2, and_self, if_true, decoder_target,
        decoder_params, hs.1, hs.2.1, hs.2.2.1])
    (List.range n) h ⟨rfl, rfl, rfl, rfl, rfl, hl⟩
  obtain ⟨p1, p2⟩ := hp
  simp only at p1 p2
  refine ⟨p2.2.2.2.1, p2.2.2.1, p2.2.1, p2.2.2.2.2.1, fun d => ?_⟩
  rw [p1, getElem?_foldl_update_range]

/-- The loop of lines 250-251 over the actors. -/
theorem backward_actors_spec (K : Kernels) (input_cis : List Int_Buffer_View) (le : Bool)
    (reward mimic : float) (v : List Int_Buffer_View) (h : Hierarchy) (n : Nat) :
    ((List.range n).foldl (backward_actor K input_cis le reward mimic v) h).decoders =
      h.decoders ∧
    ∀ d, ((List.range n).foldl (backward_actor K input_cis le reward mimic v) h).actors[d]? =
      if d < n ∧ d < h.actors.length then
        some (K.act_step (h.actors.getD d default) v (Array_at input_cis (actor_channel h d))
          reward le mimic (Array_at h.params.ios (actor_channel h d)).actor)
      else h.actors[d]? := by
  have hp := foldl_proj_inv
    (fun s : Hierarchy => s.i_indices = h.i_indices ∧ s.params = h.params ∧
      s.io_sizes = h.io_sizes ∧ s.decoders = h.decoders)
    (fun s : Hierarchy => s.actors)
    (backward_actor K input_cis le reward mimic v)
    (fun (as : List Actor) (d : Nat) => Array_update as d (fun a =>
      K.act_step a v (Array_at input_cis (actor_channel h d)) reward le mimic
        (Array_at h.params.ios (actor_channel h d)).actor))
    (fun s a hs => by rw [backward_actor_eq]; exact hs)
    (fun s a hs => by
      rw [backward_actor_eq]
      simp only [actor_channel, hs.1, hs.2.1, hs.2.2.1])
    (List.range n) h ⟨rfl, rfl, rfl, rfl⟩
  obtain ⟨p1, p2⟩ := hp
  simp only at p1 p2
  refine ⟨p2.2.2.2, fun d => ?_⟩
  rw [p1, getElem?_foldl_update_range]

theorem decoders_backward_layer_other (K : Kernels) (input_cis : List Int_Buffer_View)
    (le : Bool) (reward mimic : float) (h : Hierarchy) (j l : Nat) (hjl : j ≠ l) :
    (backward_layer K input_cis le reward mimic h j).decoders[l]? = h.decoders[l]? := by
  have hd : ∀ (v : List Int_Buffer_View) (n : Nat) (s : Hierarchy),
      ((List.range n).foldl (backward_decoder K le j v) s).decoders[l]? = s.decoders[l]? :=
    fun v n s => foldl_keeps (fun x : Hierarchy => x.decoders[l]?) (backward_decoder K le j v)
      (fun s a => by
        rw [backward_decoder_eq]
        simp only [getElem?_Array_update]
        rw [if_neg (fun hh => hjl hh.1)]) _ _
  have ha : ∀ (v : List Int_Buffer_View) (n : Nat) (s : Hierarchy),
      ((List.range n).foldl (backward_actor K input_cis le reward mimic v) s).decoders =
        s.decoders := fun v n s => (backward_actors_spec K input_cis le reward mimic v s n).1
  simp only [backward_layer]
  split_ifs
  · rw [ha, hd]
  · rw [hd]
  · rfl

theorem actors_backward_layer_other (K : Kernels) (input_cis : List Int_Buffer_View)
    (le : Bool) (reward mimic : float) (h : Hierarchy) (j : Nat) (hj : j ≠ 0) :
    (backward_layer K input_cis le reward mimic h j).actors = h.actors := by
  have hd : ∀ (v : List Int_Buffer_View) (n : Nat) (s : Hierarchy),
      ((List.range n).foldl (backward_decoder K le j v) s).actors = s.actors :=
    fun v n s => foldl_keeps (fun x : Hierarchy => x.actors) (backward_decoder K le j v)
      (fun s a => by rfl) _ _
  simp only [backward_layer, hj, if_false]
  split_ifs
  · rw [hd]
  · rfl

theorem foldl_keeps_mem {σ α β : Type} (P : σ → β) (f : σ → α → σ) (xs : List α)
    (hf : ∀ s a, a ∈ xs → P (f s a) = P s) (s : σ) : P (xs.foldl f s) = P s := by
  induction xs generalizing s with
  | nil => rfl
  | cons a xs ih =>
    rw [List.foldl_cons, ih (fun s b hb => hf s b (List.mem_cons_of_mem _ hb)),
      hf s a (List.mem_cons_self _ _)]

/-- The layers above `l`, which the descending loop processes before layer `l`. -/
theorem mem_desc_take (n l j : Nat) (hl : l < n)
    (hj : j ∈ (List.range n).reverse.take (n - 1 - l)) : j ≠ l := by
  have hd : (List.range n).reverse.drop (n - 1 - l) = l :: (List.range l).reverse := by
    rw [List.drop_reverse, List.length_range, List.take_range,
      show min (n - (n - 1 - l)) n = l + 1 from by omega, List.range_succ,
      List.reverse_append]
    rfl
  have hnd : ((List.range n).reverse.take (n - 1 - l) ++
      (List.range n).reverse.drop (n - 1 - l)).Nodup := by
    rw [List.take_append_drop]
    exact List.nodup_reverse.2 (List.nodup_range n)
  rw [hd] at hnd
  rintro rfl
  exact (List.nodup_append.1 hnd).2.2 hj (List.mem_cons_self _ _)

/-- The decoders and the actors that the descending loop of `step` finds: those of before
the call. -/
theorem comps_step_forward (K : Kernels) (le : Bool) (input_cis : List Int_Buffer_View)
    (h : Hierarchy) :
    (step_forward K le (step_begin input_cis h)).decoders = h.decoders ∧
    (step_forward K le (step_begin input_cis h)).actors = h.actors := by
  have e0 : ∀ (s : Hierarchy) (i : Nat) (imp : float),
      ((set_input_importance s i imp).decoders, (set_input_importance s i imp).actors) =
        (s.decoders, s.actors) := by
    intro s i imp
    unfold set_input_importance
    exact foldl_keeps (fun x : Hierarchy => (x.decoders, x.actors)) _ (fun s a => by rfl) _ _
  have e1 : ((step_importances h).decoders, (step_importances h).actors) =
      (h.decoders, h.actors) := by
    unfold step_importances
    exact foldl_keeps (fun x : Hierarchy => (x.decoders, x.actors)) _ (fun s a => e0 _ _ _) _ _
  have e2 : ∀ s : Hierarchy, ((step_inputs input_cis s).decoders,
      (step_inputs input_cis s).actors) = (s.decoders, s.actors) := by
    intro s
    unfold step_inputs
    exact foldl_keeps (fun x : Hierarchy => (x.decoders, x.actors)) _ (fun s a => by rfl) _ _
  have e3 : ((step_begin input_cis h).decoders, (step_begin input_cis h).actors) =
      (h.decoders, h.actors) :=
    (e2 { step_importances h with ticks := (step_importances h).ticks.set 0 0 }).trans e1
  have e4 : ∀ s : Hierarchy, ((step_forward K le s).decoders, (step_forward K le s).actors) =
      (s.decoders, s.actors) := by
    intro s
    unfold step_forward
    exact foldl_keeps (fun x : Hierarchy => (x.decoders, x.actors)) _ (fun s a => by
      simp only [forward_layer]
      split_ifs <;> rfl) _ _
  have e5 := (e4 (step_begin input_cis h)).trans e3
  simp only [Prod.mk.injEq] at e5
  exact e5

/-- The state in which the descending loop of `step` reaches layer `l`: nothing but the
decoders of the layers above has changed since the end of the ascending loop. -/
theorem backward_upto_keeps (K : Kernels) (input_cis : List Int_Buffer_View) (le : Bool)
    (reward mimic : float) (h : Hierarchy) (l : Nat) (hl : l < h.decoders.length) :
    (backward_upto K input_cis le reward mimic h l).decoders[l]? = h.decoders[l]? ∧
    (backward_upto K input_cis le reward mimic h l).actors = h.actors ∧
    (backward_upto K input_cis le reward mimic h l).histories = h.histories ∧
    (backward_upto K input_cis le reward mimic h l).decoders.length = h.decoders.length := by
  unfold backward_upto
  refine ⟨?_, ?_, ?_, ?_⟩
  · exact foldl_keeps_mem (fun x : Hierarchy => x.decoders[l]?) _ _
      (fun s j hj => decoders_backward_layer_other K input_cis le reward mimic s j l
        (mem_desc_take _ l j hl hj)) h
  · exact foldl_keeps_mem (fun x : Hierarchy => x.actors) _ _
      (fun s j hj => actors_backward_layer_other K input_cis le reward mimic s j (by
        have h1 := mem_desc_take _ l j hl hj
        have h2 := List.mem_of_mem_take hj
        simp only [List.mem_reverse, List.mem_range] at h2
        by_cases h0 : l = 0
        · subst h0; exact h1
        · intro hj0
          subst hj0
          have hd : (List.range h.decoders.length).reverse.take (h.decoders.length - 1 - l) =
              ((List.range h.decoders.length).drop (l + 1)).reverse := by
            rw [List.take_reverse, List.length_range]
            congr 2
            omega
          rw [hd, List.mem_reverse] at hj
          obtain ⟨k, hk, hk2⟩ := List.getElem_of_mem hj
          simp only [List.getElem_drop, List.getElem_range] at hk2
          omega)) h
  · exact foldl_keeps (fun x : Hierarchy => x.histories) _
      (fun s j => histories_backward_layer K input_cis le reward mimic s j) _ h
  · have := congrArg (fun x => x.2.2.2.2.2.2.length)
      (foldl_keeps layout _ (fun s a => layout_backward_layer K input_cis le reward mimic s a)
        ((List.range h.decoders.length).reverse.take (h.decoders.length - 1 - l)) h)
    simpa [layout, dec_counts] using this

/-- The decoders of layer `l` after `step`. -/
theorem step_decoders (K : Kernels) (h : Hierarchy) (input_cis : List Int_Buffer_View)
    (le : Bool) (reward mimic : float) (l : Nat) (hl : l < h.decoders.length)
    (B : Hierarchy)
    (hB : B = backward_upto K input_cis le reward mimic
      (step_forward K le (step_begin input_cis h)) l) (d : Nat) :
    ((step K h input_cis le reward mimic).decoders.getD l default)[d]? =
      if B.updates.getD l 0 ≠ 0 ∧ d < (h.decoders.getD l default).length then
        some (K.dec_step ((h.decoders.getD l default).getD d default) (decoder_input_cis B l)
          (decoder_target B l d) le (decoder_params B l d))
      else (h.decoders.getD l default)[d]? := by
  obtain ⟨c1, _⟩ := comps_step_forward K le input_cis h
  have hlF : l < (step_forward K le (step_begin input_cis h)).decoders.length := by
    rw [c1]; exact hl
  obtain ⟨k1, _, _, k4⟩ := backward_upto_keeps K input_cis le reward mimic _ l hlF
  rw [← hB] at k1 k4
  have hBl : B.decoders.getD l default = h.decoders.getD l default := by
    rw [List.getD_eq_getElem?_getD, k1, c1, List.getD_eq_getElem?_getD]
  have hfin : (step K h input_cis le reward mimic).decoders[l]? =
      (backward_layer K input_cis le reward mimic B l).decoders[l]? := by
    simp only [step]
    rw [step_backward_split K input_cis le reward mimic _ l hlF, ← hB]
    exact foldl_keeps_mem (fun x : Hierarchy => x.decoders[l]?) _ _
      (fun s j hj => decoders_backward_layer_other K input_cis le reward mimic s j l (by
        simp only [List.mem_reverse, List.mem_range] at hj
        omega)) _
  rw [List.getD_eq_getElem?_getD, hfin, ← List.getD_eq_getElem?_getD]
  obtain ⟨_, _, _, _, s5⟩ := backward_decoders_spec K le l (decoder_input_cis B l) B
    (B.decoders.getD l default).length (by rw [k4, c1]; exact hl)
  simp only [backward_layer]
  by_cases hu : B.updates.getD l 0 ≠ 0
  · have hu' : B.updates.getD l default ≠ 0 := hu
    rw [if_pos hu']
    have hX : ∀ X : Hierarchy, (if l = 0 then
        (List.range X.actors.length).foldl
          (backward_actor K input_cis le reward mimic (decoder_input_cis B l)) X
        else X).decoders = X.decoders := by
      intro X
      split_ifs
      · exact (backward_actors_spec K input_cis le reward mimic _ X _).1
      · rfl
    rw [hX, s5 d, hBl]
    by_cases hd : d < (h.decoders.getD l default).length
    · rw [if_pos ⟨hd, hd⟩, if_pos ⟨hu, hd⟩]
    · rw [if_neg (fun hh => hd hh.1), if_neg (fun hh => hd hh.2)]
  · have hu' : ¬ B.updates.getD l default ≠ 0 := hu
    rw [if_neg hu', if_neg (fun hh => hu hh.1), hBl]

/-- The actors after a `step` in which layer `0` is reached by the descending loop. -/
theorem step_actors (K : Kernels) (h : Hierarchy) (input_cis : List Int_Buffer_View)
    (le : Bool) (reward mimic : float) (hl : 0 < h.decoders.length)
    (B : Hierarchy)
    (hB : B = backward_upto K input_cis le reward mimic
      (step_forward K le (step_begin input_cis h)) 0)
    (hu : B.updates.getD 0 0 ≠ 0) (d : Nat) :
    (step K h input_cis le reward mimic).actors[d]? =
      if d < h.actors.length then
        some (K.act_step (h.actors.getD d default) (decoder_input_cis B 0)
          (Array_at input_cis (actor_channel B d)) reward le mimic
          (Array_at B.params.ios (actor_channel B d)).actor)
      else none := by
  obtain ⟨c1, c2⟩ := comps_step_forward K le input_cis h
  have hlF : 0 < (step_forward K le (step_begin input_cis h)).decoders.length := by
    rw [c1]; exact hl
  obtain ⟨_, k2, _, k4⟩ := backward_upto_keeps K input_cis le reward mimic _ 0 hlF
  rw [← hB] at k2 k4
  have hfin : step K h input_cis le reward mimic =
      backward_layer K input_cis le reward mimic B 0 := by
    simp only [step]
    rw [step_backward_split K input_cis le reward mimic _ 0 hlF, ← hB]
    rfl
  rw [hfin]
  simp only [backward_layer]
  have hu' : B.updates.getD 0 default ≠ 0 := hu
  rw [if_pos hu']
  obtain ⟨s1, s2, s3, s4, _⟩ := backward_decoders_spec K le 0 (decoder_input_cis B 0) B
    (B.decoders.getD 0 default).length (by rw [k4, c1]; exact hl)
  generalize (List.range (B.decoders.getD 0 default).length).foldl
    (backward_decoder K le 0 (decoder_input_cis B 0)) B = X at s1 s2 s3 s4
  rw [if_pos trivial, (backward_actors_spec K input_cis le reward mimic _ X _).2 d, s1, k2, c2]
  by_cases hd : d < h.actors.length
  · rw [if_pos ⟨hd, hd⟩, if_pos hd]
    simp only [actor_channel, s2, s3, s4]
  · rw [if_neg (fun hh => hd hh.1), if_neg hd]
    exact List.getElem?_eq_none (by omega)

/-- The number of rings of layer `l` after `init_random`. -/
theorem create_rings (K : Kernels) (io_descs : List IO_Desc) (layer_descs : List Layer_Desc)
    (l : Nat) (hl : l < layer_descs.length) :
    ((Hierarchy.create K io_descs layer_descs).histories.getD l default).length =
      (if l = 0 then io_descs.length else 1) := by
  rw [List.getD_eq_getElem?_getD, create_histories K io_descs layer_descs l hl]
  by_cases h0 : l = 0 <;> simp [h0]

/-- A hierarchy reached from `init_random`: what the calls have left as it was. -/
theorem run_frame (K : Kernels) (io_descs : List IO_Desc) (layer_descs : List Layer_Desc)
    (calls : List Call) :
    (run K (Hierarchy.create K io_descs layer_descs) calls).i_indices =
      (Hierarchy.create K io_descs layer_descs).i_indices ∧
    (run K (Hierarchy.create K io_descs layer_descs) calls).d_indices =
      (Hierarchy.create K io_descs layer_descs).d_indices ∧
    (run K (Hierarchy.create K io_descs layer_descs) calls).io_sizes =
      io_descs.map (fun d => d.size) ∧
    (run K (Hierarchy.create K io_descs layer_descs) calls).io_types =
      io_descs.map (fun d => d.type.toByte) ∧
    (run K (Hierarchy.create K io_descs layer_descs) calls).actors.length =
      (Hierarchy.create K io_descs layer_descs).actors.length ∧
    (run K (Hierarchy.create K io_descs layer_descs) calls).decoders.length =
      layer_descs.length ∧
    (∀ l, ((run K (Hierarchy.create K io_descs layer_descs) calls).decoders.getD l
        default).length =
      ((Hierarchy.create K io_descs layer_descs).decoders.getD l default).length) ∧
    (∀ l, ((run K (Hierarchy.create K io_descs layer_descs) calls).histories.getD l
        default).length =
      ((Hierarchy.create K io_descs layer_descs).histories.getD l default).length) := by
  have hl := layout_run K calls (Hierarchy.create K io_descs layer_descs)
  obtain ⟨_, c2, _, _, _, _, c7, c8⟩ := create_lengths K io_descs layer_descs
  simp only [layout, Prod.mk.injEq] at hl
  obtain ⟨e1, e2, e3, e4, _, e6, e7⟩ := hl
  refine ⟨e1, e2, e3.trans c7, e4.trans c8, e6, ?_, fun l => dec_counts_getD _ _ e7 l,
    fun l => (hist_shape_rings _ _ (hist_shape_run K calls _) l).1⟩
  have := congrArg List.length e7
  simp only [dec_counts, List.length_map] at this
  rw [this, c2]

/-- The channel of a decoder of layer `0` after `init_random`. -/
theorem create_decoder_channel (K : Kernels) (io_descs : List IO_Desc)
    (layer_descs : List Layer_Desc) (d : Nat)
    (hd : d < ((Hierarchy.create K io_descs layer_descs).decoders.getD 0 default).length) :
    0 < layer_descs.length ∧
    ∃ c, c < io_descs.length ∧ (io_descs.getD c default).type = IO_Type.prediction ∧
      slot_of io_descs IO_Type.prediction c = d ∧
      (Hierarchy.create K io_descs layer_descs).i_indices[d]? = some (c : Int) := by
  have hN : 0 < layer_descs.length := by
    rcases Nat.eq_zero_or_pos layer_descs.length with h0 | h0
    · have h2 := (create_lengths K io_descs layer_descs).2.1
      rw [h0] at h2
      rw [List.eq_nil_of_length_eq_zero h2] at hd
      exact absurd hd (by simp [show (default : List Decoder) = [] from rfl])
    · exact h0
  obtain ⟨_, ⟨_, hp, _⟩, ⟨hdl, _⟩, _, _⟩ := init_first_spec K io_descs layer_descs hN
  obtain ⟨_, e2, _, e4, _⟩ := create_first K io_descs layer_descs hN
  rw [e4, hdl] at hd
  obtain ⟨i, h1, h2, h3⟩ := rank_surj _ _ d hd
  refine ⟨hN, i, h1, by simpa using h2, h3, ?_⟩
  rw [e2, ← h3]
  exact hp i h1 h2

/-- The channel of an actor after `init_random`. -/
theorem create_actor_channel (K : Kernels) (io_descs : List IO_Desc)
    (layer_descs : List Layer_Desc) (d : Nat)
    (hd : d < (Hierarchy.create K io_descs layer_descs).actors.length) :
    0 < layer_descs.length ∧
    ∃ c, c < io_descs.length ∧ (io_descs.getD c default).type = IO_Type.action ∧
      slot_of io_descs IO_Type.action c = d ∧
      (Hierarchy.create K io_descs layer_descs).i_indices[io_descs.length + d]? =
        some (c : Int) ∧
      (Hierarchy.create K io_descs layer_descs).d_indices[c]? = some (d : Int) := by
  have hN : 0 < layer_descs.length := by
    rcases Nat.eq_zero_or_pos layer_descs.length with h0 | h0
    · exfalso
      have hb : Hierarchy.create K io_descs layer_descs =
          { init_upto K io_descs layer_descs layer_descs.length with
            params := { layers := Array_new layer_descs.length default,
                        ios := Array_new io_descs.length default } } :=
        create_eq K io_descs layer_descs
      rw [hb, h0] at hd
      simp [init_upto, init_base] at hd
    · exact h0
  obtain ⟨_, ⟨_, _, ha⟩, _, ⟨hal, _⟩, _⟩ := init_first_spec K io_descs layer_descs hN
  obtain ⟨e1, e2, _, _, _⟩ := create_first K io_descs layer_descs hN
  rw [e1, hal] at hd
  obtain ⟨i, h1, h2, h3⟩ := rank_surj _ _ d hd
  have ht : (io_descs.getD i default).type = IO_Type.action := by simpa using h2
  refine ⟨hN, i, h1, ht, h3, ?_, ?_⟩
  · rw [e2, ← h3]
    exact ha i h1 h2
  · rw [create_d_indices K io_descs layer_descs hN i h1, if_pos ht, slot_of, h3]

/-- The state in which the descending loop of a `step` on a hierarchy reached from
`init_random` finds layer `l`. -/
theorem backward_upto_reached (K : Kernels) (io_descs : List IO_Desc)
    (layer_descs : List Layer_Desc) (calls : List Call) (input_cis : List Int_Buffer_View)
    (le : Bool) (reward mimic : float) (l : Nat) (hl : l < layer_descs.length)
    (B : Hierarchy)
    (hB : B = backward_upto K input_cis le reward mimic
      (step_forward K le (step_begin input_cis
        (run K (Hierarchy.create K io_descs layer_descs) calls))) l) :
    B.i_indices = (Hierarchy.create K io_descs layer_descs).i_indices ∧
    B.d_indices = (Hierarchy.create K io_descs layer_descs).d_indices ∧
    B.io_sizes = io_descs.map (fun d => d.size) ∧
    B.params = (run K (Hierarchy.create K io_descs layer_descs) calls).params ∧
    B.histories = (step K (run K (Hierarchy.create K io_descs layer_descs) calls)
      input_cis le reward mimic).histories ∧
    B.updates = (step K (run K (Hierarchy.create K io_descs layer_descs) calls)
      input_cis le reward mimic).updates := by
  obtain ⟨f1, f2⟩ := backward_upto_frame K io_descs layer_descs calls input_cis le reward
    mimic l
  rw [← hB] at f1 f2
  obtain ⟨r1, _, r3, _, _, r6, _, _⟩ := run_frame K io_descs layer_descs calls
  obtain ⟨c1, _⟩ := comps_step_forward K le input_cis
    (run K (Hierarchy.create K io_descs layer_descs) calls)
  obtain ⟨_, _, k3, _⟩ := backward_upto_keeps K input_cis le reward mimic
    (step_forward K le (step_begin input_cis
      (run K (Hierarchy.create K io_descs layer_descs) calls))) l
    (by rw [c1, r6]; exact hl)
  rw [← hB] at k3
  have f3 := layout_run K calls (Hierarchy.create K io_descs layer_descs)
  simp only [layout, Prod.mk.injEq] at f2 f3
  simp only [sched, Prod.mk.injEq] at f1
  refine ⟨f2.1, f2.2.1, f2.2.2.1.trans (create_lengths K io_descs layer_descs).2.2.2.2.2.2.1,
    f2.2.2.2.2.1.trans f3.2.2.2.2.1.symm, ?_, f1.2.1⟩
  rw [k3]
  simp only [step, histories_step_backward]

/-- The per-layer arrays of a hierarchy reached from `init_random` have one entry per
layer, and layer `0` is updated by every `step`. -/
theorem run_lengths (K : Kernels) (io_descs : List IO_Desc) (layer_descs : List Layer_Desc)
    (calls : List Call) :
    (run K (Hierarchy.create K io_descs layer_descs) calls).encoders.length =
      layer_descs.length ∧
    (run K (Hierarchy.create K io_descs layer_descs) calls).ticks.length =
      layer_descs.length ∧
    (run K (Hierarchy.create K io_descs layer_descs) calls).updates.length =
      layer_descs.length := by
  obtain ⟨c1, _, _, c4, c5, _⟩ := create_lengths K io_descs layer_descs
  unfold run
  exact foldl_inv (fun s : Hierarchy => s.encoders.length = layer_descs.length ∧
      s.ticks.length = layer_descs.length ∧ s.updates.length = layer_descs.length) _
    (fun s c hs => by
      cases c with
      | step input_cis le reward mimic =>
        obtain ⟨_, s2, s3, s4, _⟩ := step_sched K s input_cis le reward mimic
          (by rw [hs.2.1, hs.1]) (by rw [hs.2.2, hs.1])
        exact ⟨s2.trans hs.1, s3.trans hs.1, s4.trans hs.1⟩
      | clear_state =>
        have e := sched_clear_state K s
        simp only [sched, Prod.mk.injEq] at e
        obtain ⟨e1, e2, _, e4⟩ := e
        refine ⟨e4.trans hs.1, ?_, ?_⟩
        · show (clear_state K s).ticks.length = _
          rw [e1]; simpa using hs.2.1
        · show (clear_state K s).updates.length = _
          rw [e2]; simpa using hs.2.2) _ _ ⟨c1, c4, c5⟩

theorem step_updates_zero (K : Kernels) (io_descs : List IO_Desc)
    (layer_descs : List Layer_Desc) (calls : List Call) (input_cis : List Int_Buffer_View)
    (le : Bool) (reward mimic : float) (hN : 0 < layer_descs.length) :
    (step K (run K (Hierarchy.create K io_descs layer_descs) calls) input_cis le reward
      mimic).updates.getD 0 0 ≠ 0 := by
  obtain ⟨l1, l2, l3⟩ := run_lengths K io_descs layer_descs calls
  obtain ⟨_, _, _, _, s5⟩ := step_sched K _ input_cis le reward mimic
    (by rw [l2, l1]) (by rw [l3, l1])
  rw [(s5 0 (by rw [l1]; exact hN)).2]
  simp [updated_at]

/-! ## Hierarchies whose `params` have been assigned -/

theorem create_params (K : Kernels) (io_descs : List IO_Desc) (layer_descs : List Layer_Desc) :
    (Hierarchy.create K io_descs layer_descs).params =
      ⟨Array_new layer_descs.length default, Array_new io_descs.length default⟩ := by
  unfold Hierarchy.create init_random
  rfl

/-- What the calls and the assignments to `params` leave as `init_random` made it: the
index maps, the sizes and types of the channels, the numbers of actors, of decoders, of
visible layers and of history slots, the lengths of the per-layer arrays and the sizes of
`params`; the starts of the rings stay inside the rings. -/
theorem run_uses_frame (K : Kernels) (io_descs : List IO_Desc) (layer_descs : List Layer_Desc)
    (uses : List Use)
    (hfit : ∀ u ∈ uses, Use.fits layer_descs.length io_descs.length u = true) :
    (run_uses K (Hierarchy.create K io_descs layer_descs) uses).i_indices =
      (Hierarchy.create K io_descs layer_descs).i_indices ∧
    (run_uses K (Hierarchy.create K io_descs layer_descs) uses).d_indices =
      (Hierarchy.create K io_descs layer_descs).d_indices ∧
    (run_uses K (Hierarchy.create K io_descs layer_descs) uses).io_sizes =
      io_descs.map (fun d => d.size) ∧
    (run_uses K (Hierarchy.create K io_descs layer_descs) uses).io_types =
      io_descs.map (fun d => d.type.toByte) ∧
    (run_uses K (Hierarchy.create K io_descs layer_descs) uses).actors.length =
      (Hierarchy.create K io_descs layer_descs).actors.length ∧
    dec_counts (run_uses K (Hierarchy.create K io_descs layer_descs) uses) =
      dec_counts (Hierarchy.create K io_descs layer_descs) ∧
    hist_shape (run_uses K (Hierarchy.create K io_descs layer_descs) uses) =
      hist_shape (Hierarchy.create K io_descs layer_descs) ∧
    ((run_uses K (Hierarchy.create K io_descs layer_descs) uses).encoders.length =
        layer_descs.length ∧
      (run_uses K (Hierarchy.create K io_descs layer_descs) uses).ticks.length =
        layer_descs.length ∧
      (run_uses K (Hierarchy.create K io_descs layer_descs) uses).updates.length =
        layer_descs.length ∧
      (run_uses K (Hierarchy.create K io_descs layer_descs) uses).decoders.length =
        layer_descs.length) ∧
    ((run_uses K (Hierarchy.create K io_descs layer_descs) uses).params.layers.length =
        layer_descs.length ∧
      (run_uses K (Hierarchy.create K io_descs layer_descs) uses).params.ios.length =
        io_descs.length) ∧
    (∀ l, Rings_ok (Hierarchy.create K io_descs layer_descs) l →
      Rings_ok (run_uses K (Hierarchy.create K io_descs layer_descs) uses) l) ∧
    (Visible_layers_sized K →
      vis_counts (run_uses K (Hierarchy.create K io_descs layer_descs) uses) =
        vis_counts (Hierarchy.create K io_descs layer_descs)) := by
  obtain ⟨c1, c2, _, c4, c5, _, c7, c8⟩ := create_lengths K io_descs layer_descs
  have cp := create_params K io_descs layer_descs
  have key : ∀ (us : List Use),
      (∀ u ∈ us, Use.fits layer_descs.length io_descs.length u = true) →
      ∀ s : Hierarchy,
      (layout s).1 = (layout (Hierarchy.create K io_descs layer_descs)).1 ∧
      (layout s).2.1 = (layout (Hierarchy.create K io_descs layer_descs)).2.1 ∧
      (layout s).2.2.1 = (layout (Hierarchy.create K io_descs layer_descs)).2.2.1 ∧
      (layout s).2.2.2.1 = (layout (Hierarchy.create K io_descs layer_descs)).2.2.2.1 ∧
      (layout s).2.2.2.2.2 = (layout (Hierarchy.create K io_descs layer_descs)).2.2.2.2.2 ∧
      hist_shape s = hist_shape (Hierarchy.create K io_descs layer_descs) ∧
      (s.encoders.length = layer_descs.length ∧ s.ticks.length = layer_descs.length ∧
        s.updates.length = layer_descs.length) ∧
      (s.params.layers.length = layer_descs.length ∧ s.params.ios.length = io_descs.length) ∧
      (∀ l, Rings_ok (Hierarchy.create K io_descs layer_descs) l → Rings_ok s l) ∧
      (Visible_layers_sized K →
        vis_counts s = vis_counts (Hierarchy.create K io_descs layer_descs)) →
      (layout (run_uses K s us)).1 = (layout (Hierarchy.create K io_descs layer_descs)).1 ∧
      (layout (run_uses K s us)).2.1 =
        (layout (Hierarchy.create K io_descs layer_descs)).2.1 ∧
      (layout (run_uses K s us)).2.2.1 =
        (layout (Hierarchy.create K io_descs layer_descs)).2.2.1 ∧
      (layout (run_uses K s us)).2.2.2.1 =
        (layout (Hierarchy.create K io_descs layer_descs)).2.2.2.1 ∧
      (layout (run_uses K s us)).2.2.2.2.2 =
        (layout (Hierarchy.create K io_descs layer_descs)).2.2.2.2.2 ∧
      hist_shape (run_uses K s us) = hist_shape (Hierarchy.create K io_descs layer_descs) ∧
      ((run_uses K s us).encoders.length = layer_descs.length ∧
        (run_uses K s us).ticks.length = layer_descs.length ∧
        (run_uses K s us).updates.length = layer_descs.length) ∧
      ((run_uses K s us).params.layers.length = layer_descs.length ∧
        (run_uses K s us).params.ios.length = io_descs.length) ∧
      (∀ l, Rings_ok (Hierarchy.create K io_descs layer_descs) l →
        Rings_ok (run_uses K s us) l) ∧
      (Visible_layers_sized K →
        vis_counts (run_uses K s us) =
          vis_counts (Hierarchy.create K io_descs layer_descs)) := by
    intro us
    induction us with
    | nil => intro _ s hs; exact hs
    | cons u us ih =>
      intro hf s hs
      have hu : Use.fits layer_descs.length io_descs.length u = true :=
        hf u (List.mem_cons_self _ _)
      have hrest : ∀ v ∈ us, Use.fits layer_descs.length io_descs.length v = true :=
        fun v hv => hf v (List.mem_cons_of_mem _ hv)
      show _ ∧ _
      have e : run_uses K s (u :: us) = run_uses K (Use.apply K s u) us := rfl
      rw [e]
      refine ih hrest _ ?_
      obtain ⟨a1, a2, a3, a4, a5, a6, ⟨a7, a8, a9⟩, ⟨a10, a11⟩, a12, a13⟩ := hs
      cases u with
      | set_params p =>
        simp only [Use.fits, Bool.and_eq_true, beq_iff_eq] at hu
        have e : Use.apply K s (Use.set_params p) = { s with params := p } := rfl
        rw [e]
        exact ⟨a1, a2, a3, a4, a5, a6, ⟨a7, a8, a9⟩, ⟨hu.1, hu.2⟩, a12, a13⟩
      | call c =>
        cases c with
        | step input_cis le reward mimic =>
          have e : Use.apply K s (Use.call (Call.step input_cis le reward mimic)) =
              step K s input_cis le reward mimic := rfl
          rw [e]
          have hl := layout_step K s input_cis le reward mimic
          obtain ⟨_, s2, s3, s4, _⟩ := step_sched K s input_cis le reward mimic
            (by rw [a8, a7]) (by rw [a9, a7])
          have hp : (step K s input_cis le reward mimic).params = s.params := by
            have := congrArg (fun x => x.2.2.2.2.1) hl
            exact this
          refine ⟨?_, ?_, ?_, ?_, ?_, ?_, ⟨s2.trans a7, s3.trans a7, s4.trans a7⟩, ?_,
            fun l h => Rings_ok_step K s input_cis le reward mimic l (a12 l h),
            fun hK => (vis_counts_step K hK s input_cis le reward mimic).trans (a13 hK)⟩
          · exact (congrArg (fun x => x.1) hl).trans a1
          · exact (congrArg (fun x => x.2.1) hl).trans a2
          · exact (congrArg (fun x => x.2.2.1) hl).trans a3
          · exact (congrArg (fun x => x.2.2.2.1) hl).trans a4
          · exact (congrArg (fun x => x.2.2.2.2.2) hl).trans a5
          · exact (hist_shape_step K s input_cis le reward mimic).trans a6
          · rw [hp]; exact ⟨a10, a11⟩
        | clear_state =>
          have e' : Use.apply K s (Use.call Call.clear_state) = clear_state K s := rfl
          rw [e']
          have hl := layout_clear_state K s
          have e := sched_clear_state K s
          simp only [sched, Prod.mk.injEq] at e
          obtain ⟨e1, e2, _, e4⟩ := e
          have hp : (clear_state K s).params = s.params := by
            have := congrArg (fun x => x.2.2.2.2.1) hl
            exact this
          refine ⟨?_, ?_, ?_, ?_, ?_, ?_, ⟨e4.trans a7, ?_, ?_⟩, ?_,
            fun l h => Rings_ok_clear_state K s l (a12 l h),
            fun hK => (vis_counts_clear_state K hK s).trans (a13 hK)⟩
          · exact (congrArg (fun x => x.1) hl).trans a1
          · exact (congrArg (fun x => x.2.1) hl).trans a2
          · exact (congrArg (fun x => x.2.2.1) hl).trans a3
          · exact (congrArg (fun x => x.2.2.2.1) hl).trans a4
          · exact (congrArg (fun x => x.2.2.2.2.2) hl).trans a5
          · exact (hist_shape_clear_state K s).trans a6
          · rw [e1]; simpa [Array_fill] using a8
          · rw [e2]; simpa [Array_fill] using a9
          · rw [hp]; exact ⟨a10, a11⟩
  have h0 := key uses hfit (Hierarchy.create K io_descs layer_descs)
    ⟨rfl, rfl, rfl, rfl, rfl, rfl, ⟨c1, c4, c5⟩,
      ⟨by rw [cp]; simp [Array_new], by rw [cp]; simp [Array_new]⟩, fun l h => h, fun _ => rfl⟩
  obtain ⟨b1, b2, b3, b4, b5, b6, ⟨b7, b8, b9⟩, b10, b11, b12⟩ := h0
  simp only [layout] at b1 b2 b3 b4 b5
  have hdc : dec_counts (run_uses K (Hierarchy.create K io_descs layer_descs) uses) =
      dec_counts (Hierarchy.create K io_descs layer_descs) := (Prod.mk.inj b5).2
  refine ⟨b1, b2, b3.trans c7, b4.trans c8, (Prod.mk.inj b5).1, hdc, b6, ⟨b7, b8, b9, ?_⟩,
    b10, b11, b12⟩
  have := congrArg List.length hdc
  simp only [dec_counts, List.length_map] at this
  rw [this, c2]

/-- The state in which the descending loop of a `step` finds layer `l`: the members that
`step` does not write are those of before the call, the counters, flags and histories
are those of the end of the call. -/
theorem backward_upto_state (K : Kernels) (H : Hierarchy) (input_cis : List Int_Buffer_View)
    (le : Bool) (reward mimic : float) (l : Nat) (hl : l < H.decoders.length)
    (B : Hierarchy)
    (hB : B = backward_upto K input_cis le reward mimic
      (step_forward K le (step_begin input_cis H)) l) :
    layout B = layout H ∧
    sched B = sched (step K H input_cis le reward mimic) ∧
    B.histories = (step K H input_cis le reward mimic).histories := by
  obtain ⟨c1, _⟩ := comps_step_forward K le input_cis H
  obtain ⟨_, _, k3, _⟩ := backward_upto_keeps K input_cis le reward mimic
    (step_forward K le (step_begin input_cis H)) l (by rw [c1]; exact hl)
  rw [← hB] at k3
  refine ⟨?_, ?_, ?_⟩
  · rw [hB, layout_backward_upto, step_forward_eq, layout_forward_upto, layout_step_begin]
  · rw [hB, sched_backward_upto]
    simp only [step]
    rw [sched_step_backward]
  · rw [k3]
    simp only [step, histories_step_backward]

/-- Layer `0` is updated by every `step` on a hierarchy with at least one layer whose
per-layer arrays have one entry per layer. -/
theorem step_updates_first (K : Kernels) (H : Hierarchy) (input_cis : List Int_Buffer_View)
    (le : Bool) (reward mimic : float) (hN : 0 < H.encoders.length)
    (h1 : H.ticks.length = H.encoders.length) (h2 : H.updates.length = H.encoders.length) :
    (step K H input_cis le reward mimic).updates.getD 0 0 ≠ 0 := by
  obtain ⟨_, _, _, _, s5⟩ := step_sched K H input_cis le reward mimic h1 h2
  rw [(s5 0 hN).2]
  simp [updated_at]

/-- C15: in every `step` on a hierarchy reached from `init_random` by calls of `step` and
`clear_state` and by assignments to the public member `params` that keep its sizes (with a
`temporal_horizon` of at least `1` at layer `0`), let `B` be the state in which the
descending loop reaches the layer; its `params` are those of the hierarchy at the call.
Decoder `d` of layer `0` is stepped with the parameters `params.ios[i_indices[d]].decoder`
and the target `histories[0][i_indices[d]][0]`, where `i_indices[d]` is a prediction
channel `c`, an index inside `params.ios`, and that target equals the `input_cis[c]` of
the call.  Decoder `d` of a layer `l > 0` is stepped, when the layer is updated and only
then, with the parameters `params.layers[l].decoder` and the target
`histories[l][0][d]`. -/
theorem decoder_step_arguments (K : Kernels) (io_descs : List IO_Desc)
    (layer_descs : List Layer_Desc)
    (hth : 1 ≤ (layer_descs.getD 0 default).temporal_horizon)
    (uses : List Use)
    (hfit : ∀ u ∈ uses, Use.fits layer_descs.length io_descs.length u = true)
    (input_cis : List Int_Buffer_View) (learn_enabled : Bool)
    (reward mimic : float) (H : Hierarchy)
    (hH : H = run_uses K (Hierarchy.create K io_descs layer_descs) uses) :
    (∀ d, d < (H.decoders.getD 0 default).length →
      ∀ B, B = backward_upto K input_cis learn_enabled reward mimic
          (step_forward K learn_enabled (step_begin input_cis H)) 0 →
      ∃ c, c < io_descs.length ∧ (io_descs.getD c default).type = IO_Type.prediction ∧
        B.i_indices[d]? = some (c : Int) ∧
        B.params = H.params ∧ c < B.params.ios.length ∧
        decoder_params B 0 d = (B.params.ios.getD c default).decoder ∧
        decoder_target B 0 d = ((B.histories.getD 0 default).getD c default).get 0 ∧
        decoder_target B 0 d = input_cis.getD c default ∧
        ((step K H input_cis learn_enabled reward mimic).decoders.getD 0 default)[d]? =
          some (K.dec_step ((H.decoders.getD 0 default).getD d default)
            (decoder_input_cis B 0) (decoder_target B 0 d) learn_enabled
            (decoder_params B 0 d))) ∧
    (∀ l d, 0 < l → l < layer_descs.length → d < (H.decoders.getD l default).length →
      ∀ B, B = backward_upto K input_cis learn_enabled reward mimic
          (step_forward K learn_enabled (step_begin input_cis H)) l →
      B.params = H.params ∧ l < B.params.layers.length ∧
      decoder_params B l d = (B.params.layers.getD l default).decoder ∧
      decoder_target B l d = ((B.histories.getD l default).getD 0 default).get (d : Int) ∧
      ((step K H input_cis learn_enabled reward mimic).decoders.getD l default)[d]? =
        some (if B.updates.getD l 0 ≠ 0 then
            K.dec_step ((H.decoders.getD l default).getD d default)
              (decoder_input_cis B l) (decoder_target B l d) learn_enabled
              (decoder_params B l d)
          else (H.decoders.getD l default).getD d default)) := by
  obtain ⟨r1, _, r3, _, _, r5, r6, ⟨n1, n2, n3, n4⟩, ⟨p1, p2⟩, rok, _⟩ :=
    run_uses_frame K io_descs layer_descs uses hfit
  rw [← hH] at r1 r3 r5 r6 n1 n2 n3 n4 p1 p2 rok
  have r7 := fun l => dec_counts_getD _ _ r5 l
  have r8 := fun l => (hist_shape_rings _ _ r6 l).1
  constructor
  · intro d hd B hB
    rw [r7 0] at hd
    obtain ⟨hN, c, hc, hty, _, hidx⟩ := create_decoder_channel K io_descs layer_descs d hd
    rw [← r7 0] at hd
    obtain ⟨b1, b2, b4⟩ := backward_upto_state K H input_cis learn_enabled reward mimic 0
      (by rw [n4]; exact hN) B hB
    simp only [layout, Prod.mk.injEq] at b1
    simp only [sched, Prod.mk.injEq] at b2
    obtain ⟨bi, _, _, _, bp, _⟩ := b1
    have b5 := b2.2.1
    have hat : Array_at B.i_indices (d : Int) = (c : Int) := by
      rw [Array_at_natCast, List.getD_eq_getElem?_getD, bi, r1, hidx]
      rfl
    have hpar : decoder_params B 0 d = (B.params.ios.getD c default).decoder := by
      simp only [decoder_params, if_true, hat, Array_at_natCast]
    have htar : decoder_target B 0 d =
        ((B.histories.getD 0 default).getD c default).get 0 := by
      simp only [decoder_target, if_true, hat, Array_at_natCast]
    have hupd : B.updates.getD 0 0 ≠ 0 := by
      rw [b5]
      exact step_updates_first K H input_cis learn_enabled reward mimic
        (by rw [n1]; exact hN) (by rw [n2, n1]) (by rw [n3, n1])
    have hstep := step_decoders K H input_cis learn_enabled reward mimic 0
      (by rw [n4]; exact hN) B hB d
    rw [if_pos ⟨hupd, hd⟩] at hstep
    refine ⟨c, hc, hty, by rw [bi, r1]; exact hidx, bp, by rw [bp, p2]; exact hc, hpar, htar,
      ?_, hstep⟩
    rw [htar, b4]
    have hio : c < H.io_sizes.length := by rw [r3]; simpa using hc
    have hz := histories_step_zero K H input_cis learn_enabled reward mimic c hio
    have hlen : c < (H.histories.getD 0 default).length := by
      rw [r8 0, create_rings K io_descs layer_descs 0 hN, if_pos rfl]; exact hc
    have hok : Rings_ok H 0 := rok 0 (Rings_ok_create K io_descs layer_descs 0 hN hth)
    obtain ⟨o1, o2⟩ := hok c _ (getElem?_eq_some_getD _ c hlen default)
    rw [getElem?_eq_some_getD _ c hlen default] at hz
    simp only [Option.map_some'] at hz
    rw [List.getD_eq_getElem?_getD
      ((step K H input_cis learn_enabled reward mimic).histories.getD 0 default), hz,
      Option.getD_some]
    exact (ring_push_spec _ _ o1 o2).2.2.2.1
  · intro l d hl0 hl hd B hB
    obtain ⟨b1, _, _⟩ := backward_upto_state K H input_cis learn_enabled reward mimic l
      (by rw [n4]; exact hl) B hB
    simp only [layout, Prod.mk.injEq] at b1
    obtain ⟨_, _, _, _, bp, _⟩ := b1
    have hpar : decoder_params B l d = (B.params.layers.getD l default).decoder := by
      simp only [decoder_params, if_neg (show l ≠ 0 from by omega)]
    have htar : decoder_target B l d =
        ((B.histories.getD l default).getD 0 default).get (d : Int) := by
      simp only [decoder_target, if_neg (show l ≠ 0 from by omega)]
      rfl
    have hstep := step_decoders K H input_cis learn_enabled reward mimic l
      (by rw [n4]; exact hl) B hB d
    refine ⟨bp, by rw [bp, p1]; exact hl, hpar, htar, ?_⟩
    rw [hstep]
    by_cases hu : B.updates.getD l 0 ≠ 0
    · rw [if_pos ⟨hu, hd⟩, if_pos hu]
    · rw [if_neg (fun hh => hu hh.1), if_neg hu]
      exact getElem?_eq_some_getD _ d hd default

/-- C17: in every call to `step` on a hierarchy reached from `init_random` by calls of
`step` and `clear_state` and by assignments to the public member `params` that keep its
sizes, each actor `d` is stepped exactly once: the actor after the call is `Actor::step`
applied once to the actor of before the call, with the inputs of layer `0`, the target
`input_cis[c]`, the parameters `params.ios[c].actor` and the `reward`, `learn_enabled` and
`mimic` of the call,
where `c = i_indices[d + |io_sizes|]` is the channel of type `action` that owns actor `d`
(`d_indices[c] == d`), an index inside `params.ios`, and `params` is the one of the
hierarchy at the call; the iteration of the descending loop for a layer other than layer
`0` steps no actor. -/
theorem actor_step_arguments (K : Kernels) (io_descs : List IO_Desc)
    (layer_descs : List Layer_Desc) (uses : List Use)
    (hfit : ∀ u ∈ uses, Use.fits layer_descs.length io_descs.length u = true)
    (input_cis : List Int_Buffer_View)
    (learn_enabled : Bool) (reward mimic : float) (H : Hierarchy)
    (hH : H = run_uses K (Hierarchy.create K io_descs layer_descs) uses) :
    (∀ d, d < H.actors.length →
      ∀ B, B = backward_upto K input_cis learn_enabled reward mimic
          (step_forward K learn_enabled (step_begin input_cis H)) 0 →
      ∃ c, c < io_descs.length ∧ (io_descs.getD c default).type = IO_Type.action ∧
        actor_channel B d = (c : Int) ∧
        B.d_indices[c]? = some (d : Int) ∧
        B.params = H.params ∧ c < B.params.ios.length ∧
        (step K H input_cis learn_enabled reward mimic).actors[d]? =
          some (K.act_step (H.actors.getD d default) (decoder_input_cis B 0)
            (input_cis.getD c default) reward learn_enabled mimic
            (B.params.ios.getD c default).actor)) ∧
    (step K H input_cis learn_enabled reward mimic).actors.length = H.actors.length ∧
    (∀ (s : Hierarchy) (l : Nat), l ≠ 0 →
      (backward_layer K input_cis learn_enabled reward mimic s l).actors = s.actors) := by
  obtain ⟨r1, r2, r3, _, r5, _, _, ⟨n1, n2, n3, r6⟩, ⟨_, p2⟩, _, _⟩ :=
    run_uses_frame K io_descs layer_descs uses hfit
  rw [← hH] at r1 r2 r3 r5 n1 n2 n3 r6 p2
  refine ⟨?_, ?_, fun s l hl =>
    actors_backward_layer_other K input_cis learn_enabled reward mimic s l hl⟩
  · intro d hd B hB
    rw [r5] at hd
    obtain ⟨hN, c, hc, hty, _, hidx, hdi⟩ :=
      create_actor_channel K io_descs layer_descs d hd
    rw [← r5] at hd
    obtain ⟨y1, y2, _⟩ := backward_upto_state K H input_cis learn_enabled reward mimic 0
      (by rw [r6]; exact hN) B hB
    simp only [layout, Prod.mk.injEq] at y1
    simp only [sched, Prod.mk.injEq] at y2
    obtain ⟨bi, bd, bs, _, bp, _⟩ := y1
    have b1 := bi.trans r1
    have b1' := bd.trans r2
    have b2 := bs.trans r3
    have b5 := y2.2.1
    have hch : actor_channel B d = (c : Int) := by
      simp only [actor_channel]
      rw [b2, List.length_map,
        show (d : Int) + (io_descs.length : Int) = ((io_descs.length + d : Nat) : Int) from by
          push_cast; ring,
        Array_at_natCast, List.getD_eq_getElem?_getD, b1, hidx]
      rfl
    have hupd : B.updates.getD 0 0 ≠ 0 := by
      rw [b5]
      exact step_updates_first K H input_cis learn_enabled reward mimic
        (by rw [n1]; exact hN) (by rw [n2, n1]) (by rw [n3, n1])
    have hstep := step_actors K H input_cis learn_enabled reward mimic
      (by rw [r6]; exact hN) B hB hupd d
    rw [if_pos hd, hch, Array_at_natCast, Array_at_natCast] at hstep
    exact ⟨c, hc, hty, hch, by rw [b1']; exact hdi, bp, by rw [bp, p2]; exact hc, hstep⟩
  · have := layout_step K H input_cis learn_enabled reward mimic
    simp only [layout, Prod.mk.injEq] at this
    exact this.2.2.2.2.2.1

/-! ## The predictions of a channel -/

theorem toByte_eq_action (t : IO_Type) : t.toByte = IO_Type.action.toByte ↔ t = IO_Type.action := by
  cases t <;> simp [IO_Type.toByte]

/-- What the two accessors read for channel `i` of a hierarchy reached from
`init_random` with at least one layer. -/
theorem prediction_reads (K : Kernels) (io_descs : List IO_Desc)
    (layer_descs : List Layer_Desc) (hN : 0 < layer_descs.length) (calls : List Call)
    (H : Hierarchy) (hH : H = run K (Hierarchy.create K io_descs layer_descs) calls)
    (i : Nat) (hi : i < io_descs.length) :
    Array_at H.io_types (i : Int) = (io_descs.getD i default).type.toByte ∧
    Array_at H.d_indices (i : Int) =
      (if (io_descs.getD i default).type = IO_Type.action then
          (slot_of io_descs IO_Type.action i : Int)
        else if (io_descs.getD i default).type = IO_Type.prediction then
          (slot_of io_descs IO_Type.prediction i : Int)
        else -1) ∧
    H.actors.length = num_channels io_descs IO_Type.action ∧
    (H.decoders.getD 0 default).length = num_channels io_descs IO_Type.prediction := by
  obtain ⟨_, r2, _, r4, r5, _, r7, _⟩ := run_frame K io_descs layer_descs calls
  rw [← hH] at r2 r4 r5 r7
  obtain ⟨_, _, ⟨hdl, _⟩, ⟨hal, _⟩, _⟩ := init_first_spec K io_descs layer_descs hN
  obtain ⟨e1, _, _, e4, _⟩ := create_first K io_descs layer_descs hN
  refine ⟨?_, ?_, ?_, ?_⟩
  · rw [Array_at_natCast, r4, getD_map_of_lt _ _ i hi default default]
  · rw [Array_at_natCast, r2, List.getD_eq_getElem?_getD,
      create_d_indices K io_descs layer_descs hN i hi]
    rfl
  · rw [r5, e1, hal]; rfl
  · rw [r7 0, e4, hdl]; rfl

theorem getD_of_getElem? {α : Type} (xs : List α) (i : Nat) (v d : α) (h : xs[i]? = some v) :
    xs.getD i d = v := by
  rw [List.getD_eq_getElem?_getD, h]
  rfl

/-- C18 (amended): for a hierarchy reached from `init_random` with at least one layer,
`get_prediction_cis(i)` and `get_prediction_acts(i)` return the output of actor
`d_indices[i]` when channel `i` has type `action` and of the decoder `d_indices[i]` of
layer `0` when it has type `prediction`, the index being inside the array; they make no
check and have no failing result: for a channel of type `none`, where `d_indices[i] == -1`
and `io_layer_exists(i)` is false, they index `decoders[0]` with `-1`. -/
theorem prediction_accessors (K : Kernels) (io_descs : List IO_Desc)
    (layer_descs : List Layer_Desc) (hN : 0 < layer_descs.length) (calls : List Call)
    (H : Hierarchy) (hH : H = run K (Hierarchy.create K io_descs layer_descs) calls)
    (i : Nat) (hi : i < io_descs.length) :
    ((io_descs.getD i default).type = IO_Type.action →
      ∃ d : Nat, Array_at H.d_indices (i : Int) = (d : Int) ∧ d < H.actors.length ∧
        get_prediction_cis H (i : Int) = (H.actors.getD d default).hidden_cis ∧
        get_prediction_acts H (i : Int) = (H.actors.getD d default).hidden_acts) ∧
    ((io_descs.getD i default).type = IO_Type.prediction →
      ∃ d : Nat, Array_at H.d_indices (i : Int) = (d : Int) ∧
        d < (H.decoders.getD 0 default).length ∧
        get_prediction_cis H (i : Int) =
          ((H.decoders.getD 0 default).getD d default).hidden_cis ∧
        get_prediction_acts H (i : Int) =
          ((H.decoders.getD 0 default).getD d default).hidden_acts) ∧
    ((io_descs.getD i default).type = IO_Type.none →
      Array_at H.d_indices (i : Int) = -1 ∧
      io_layer_exists H (i : Int) = false ∧
      get_prediction_cis H (i : Int) =
        (Array_at (H.decoders.getD 0 default) (-1)).hidden_cis ∧
      get_prediction_acts H (i : Int) =
        (Array_at (H.decoders.getD 0 default) (-1)).hidden_acts) := by
  obtain ⟨p1, p2, p3, p4⟩ := prediction_reads K io_descs layer_descs hN calls H hH i hi
  refine ⟨fun ht => ?_, fun ht => ?_, fun ht => ?_⟩
  · rw [if_pos ht] at p2
    have hty : Array_at H.io_types (i : Int) = IO_Type.action.toByte := by rw [p1, ht]
    refine ⟨slot_of io_descs IO_Type.action i, p2, ?_, ?_, ?_⟩
    · rw [p3]
      exact rank_lt (fun j => decide ((io_descs.getD j default).type = IO_Type.action)) i
        io_descs.length hi (decide_eq_true ht)
    · simp only [get_prediction_cis, hty, if_true, p2, Array_at_natCast]
    · simp only [get_prediction_acts, hty, if_true, p2, Array_at_natCast]
  · have hna : (io_descs.getD i default).type ≠ IO_Type.action := by rw [ht]; decide
    rw [if_neg hna, if_pos ht] at p2
    have hty : ¬ Array_at H.io_types (i : Int) = IO_Type.action.toByte := by
      rw [p1, toByte_eq_action]; exact hna
    refine ⟨slot_of io_descs IO_Type.prediction i, p2, ?_, ?_, ?_⟩
    · rw [p4]
      exact rank_lt (fun j => decide ((io_descs.getD j default).type = IO_Type.prediction)) i
        io_descs.length hi (decide_eq_true ht)
    · simp only [get_prediction_cis]
      rw [if_neg hty, p2, Array_at_natCast]
    · simp only [get_prediction_acts]
      rw [if_neg hty, p2, Array_at_natCast]
  · have hna : (io_descs.getD i default).type ≠ IO_Type.action := by rw [ht]; decide
    have hnp : (io_descs.getD i default).type ≠ IO_Type.prediction := by rw [ht]; decide
    rw [if_neg hna, if_neg hnp] at p2
    have hty : ¬ Array_at H.io_types (i : Int) = IO_Type.action.toByte := by
      rw [p1, toByte_eq_action]; exact hna
    refine ⟨p2, ?_, ?_, ?_⟩
    · simp only [io_layer_exists, p2]
      decide
    · simp only [get_prediction_cis, hty, if_false, p2]
    · simp only [get_prediction_acts, hty, if_false, p2]

set_option maxRecDepth 100000 in
/-- C18, the claim as stated fails: channel `2` of the sample hierarchy has type `none`
and `d_indices[2] == -1`; the accessors raise no error there, they return what
`decoders[0]` holds at index `-1`. -/
theorem prediction_accessors_index_unused_channel :
    (sample_io_descs.getD 2 default).type = IO_Type.none ∧
    Array_at (Hierarchy.create sample_kernels sample_io_descs sample_layer_descs).d_indices 2
      = -1 ∧
    get_prediction_cis (Hierarchy.create sample_kernels sample_io_descs sample_layer_descs) 2 =
      (Array_at ((Hierarchy.create sample_kernels sample_io_descs
        sample_layer_descs).decoders.getD 0 default) (-1)).hidden_cis ∧
    get_prediction_acts (Hierarchy.create sample_kernels sample_io_descs sample_layer_descs) 2 =
      (Array_at ((Hierarchy.create sample_kernels sample_io_descs
        sample_layer_descs).decoders.getD 0 default) (-1)).hidden_acts := by
  decide

/-- C19: for every channel `c` of type `prediction` or `action` of a hierarchy built by
`init_random` (with at least one layer), the decoder or actor that
`get_prediction_cis(c)` reads was constructed by `init_random` with the output size
`io_sizes[c]`, the size of the channel itself; so, the hidden code of a freshly
constructed decoder or actor having `x * y` entries, `get_prediction_cis(c).size` is
`io_sizes[c].x * io_sizes[c].y`. -/
theorem prediction_size (K : Kernels) (hK : Hidden_columns_sized K) (io_descs : List IO_Desc)
    (layer_descs : List Layer_Desc) (hN : 0 < layer_descs.length) (c : Nat)
    (hc : c < io_descs.length) :
    ((io_descs.getD c default).type = IO_Type.prediction →
      ∃ descs, get_prediction_cis (Hierarchy.create K io_descs layer_descs) (c : Int) =
        (K.dec_init_random default
          ((Hierarchy.create K io_descs layer_descs).io_sizes.getD c default)
          descs).hidden_cis) ∧
    ((io_descs.getD c default).type = IO_Type.action →
      ∃ descs, get_prediction_cis (Hierarchy.create K io_descs layer_descs) (c : Int) =
        (K.act_init_random default
          ((Hierarchy.create K io_descs layer_descs).io_sizes.getD c default)
          (io_descs.getD c default).history_capacity descs).hidden_cis) ∧
    (((io_descs.getD c default).type = IO_Type.prediction ∨
        (io_descs.getD c default).type = IO_Type.action) →
      0 ≤ ((Hierarchy.create K io_descs layer_descs).io_sizes.getD c default).x *
        ((Hierarchy.create K io_descs layer_descs).io_sizes.getD c default).y →
      ((get_prediction_cis (Hierarchy.create K io_descs layer_descs) (c : Int)).length : Int) =
        ((Hierarchy.create K io_descs layer_descs).io_sizes.getD c default).x *
          ((Hierarchy.create K io_descs layer_descs).io_sizes.getD c default).y) := by
  obtain ⟨p1, p2, p3, p4⟩ := prediction_reads K io_descs layer_descs hN []
    (Hierarchy.create K io_descs layer_descs) rfl c hc
  obtain ⟨_, _, ⟨_, hd⟩, ⟨_, ha⟩, _⟩ := init_first_spec K io_descs layer_descs hN
  obtain ⟨e1, _, _, e4, _⟩ := create_first K io_descs layer_descs hN
  have hsz : (Hierarchy.create K io_descs layer_descs).io_sizes.getD c default =
      (io_descs.getD c default).size := by
    rw [(create_lengths K io_descs layer_descs).2.2.2.2.2.2.1,
      getD_map_of_lt _ _ c hc default default]
  have hpred : (io_descs.getD c default).type = IO_Type.prediction →
      get_prediction_cis (Hierarchy.create K io_descs layer_descs) (c : Int) =
        (K.dec_init_random default
          ((Hierarchy.create K io_descs layer_descs).io_sizes.getD c default)
          (d_visible_layer_descs layer_descs.length 0
            (layer_descs.getD 0 default).hidden_size
            (io_descs.getD c default).down_radius)).hidden_cis := by
    intro ht
    have hna : (io_descs.getD c default).type ≠ IO_Type.action := by rw [ht]; decide
    rw [if_neg hna, if_pos ht] at p2
    have hty : ¬ Array_at (Hierarchy.create K io_descs layer_descs).io_types (c : Int) =
        IO_Type.action.toByte := by
      rw [p1, toByte_eq_action]; exact hna
    simp only [get_prediction_cis]
    rw [if_neg hty, p2, Array_at_natCast, e4, slot_of,
      getD_of_getElem? _ _ _ default (hd c hc (decide_eq_true ht)), hsz]
  have hact : (io_descs.getD c default).type = IO_Type.action →
      get_prediction_cis (Hierarchy.create K io_descs layer_descs) (c : Int) =
        (K.act_init_random default
          ((Hierarchy.create K io_descs layer_descs).io_sizes.getD c default)
          (io_descs.getD c default).history_capacity
          (a_visible_layer_descs layer_descs.length 0
            (layer_descs.getD 0 default).hidden_size
            (io_descs.getD c default).down_radius)).hidden_cis := by
    intro ht
    rw [if_pos ht] at p2
    have hty : Array_at (Hierarchy.create K io_descs layer_descs).io_types (c : Int) =
        IO_Type.action.toByte := by rw [p1, ht]
    simp only [get_prediction_cis]
    rw [if_pos hty, p2, Array_at_natCast, e1, slot_of,
      getD_of_getElem? _ _ _ default (ha c hc (decide_eq_true ht)), hsz]
  refine ⟨fun ht => ⟨_, hpred ht⟩, fun ht => ⟨_, hact ht⟩, fun ht hnn => ?_⟩
  rcases ht with ht | ht
  · rw [hpred ht, hK.1]
    exact Int.toNat_of_nonneg hnn
  · rw [hact ht, hK.2]
    exact Int.toNat_of_nonneg hnn

/-! ## `Hierarchy::size` -/

theorem foldl_size (step : Int → Nat → Int) (g : Nat → List Byte)
    (hstep : ∀ s i, step s i = s + ((g i).length : Int)) (n : Nat) (c : Int) :
    (List.range n).foldl step c = c + (((List.range n).flatMap g).length : Int) := by
  induction n with
  | zero => simp
  | succ n ih =>
    rw [List.range_succ, List.foldl_append, ih, List.flatMap_append]
    simp only [List.foldl_cons, List.foldl_nil, hstep, List.flatMap_cons, List.flatMap_nil,
      List.append_nil, List.length_append, Nat.cast_add]
    ring

theorem length_Array_first {α : Type} (xs : List α) (count : Nat) (d : α) :
    (Array_first xs count d).length = count := by
  simp only [Array_first, List.length_append, List.length_take, List.length_replicate]
  omega

theorem length_write_history (b : Circle_Buffer Int_Buffer) (size : Int) :
    (List.range b.data.length).foldl (fun (size : Int) (t : Nat) =>
      size + (4 + ((b.get t).length : Int) * 4)) (size + 2 * 4) =
      size + ((write_history b).length : Int) := by
  rw [foldl_size _ (fun (t : Nat) => le32 (b.get t).length ++ write_ints (b.get t))
    (fun s t => by
      simp only [List.length_append, length_le32, length_write_ints, Nat.cast_add,
        Nat.cast_mul, Nat.cast_ofNat]
      ring)]
  simp only [write_history, List.length_append, length_le32, Nat.cast_add, Nat.cast_ofNat]
  ring

theorem size_histories_eq (h : Hierarchy) (l : Nat) (size : Int) :
    size_histories h l size =
      size + (((List.range (h.histories.getD l default).length).flatMap (fun (i : Nat) =>
        write_history ((h.histories.getD l default).getD i default))).length : Int) := by
  unfold size_histories
  rw [foldl_size _ (fun (i : Nat) =>
    write_history ((h.histories.getD l default).getD i default))
    (fun s i => length_write_history ((h.histories.getD l default).getD i default) s)]

theorem size_layer_eq (K : Kernels) (h : Hierarchy)
    (henc : ∀ e, K.enc_size e = ((K.enc_write e).length : Int))
    (hdec : ∀ d, K.dec_size d = ((K.dec_write d).length : Int)) (size : Int) (l : Nat) :
    size_layer K h size l = size + ((write_layer K h l).length : Int) := by
  simp only [size_layer]
  rw [foldl_size _ (fun (d : Nat) => K.dec_write ((h.decoders.getD l default).getD d default))
    (fun s d => by rw [hdec]), size_histories_eq, henc]
  simp only [write_layer, List.length_append, length_le32, Nat.cast_add, Nat.cast_ofNat]
  ring

theorem wrap_int_of_fits (n : Nat) (hn : n < 2147483648) : wrap_int (n : Int) = (n : Int) := by
  simp only [wrap_int]
  split_ifs <;> omega

/-- In a hierarchy in which `ticks_per_update` has as many entries as `ticks` and
`io_types` as many as `io_sizes`, `size()` is the number of bytes `write` emits, when the
components and the structs copied from memory keep to their sizes and the number fits an
`int`. -/
theorem size_eq_length_write (K : Kernels) (h : Hierarchy)
    (hInt3 : ∀ v, (K.Int3_bytes v).length = K.sizeof_Int3)
    (hLayer : ∀ p, (K.Layer_Params_bytes p).length = K.sizeof_Layer_Params)
    (hParams : ∀ p, (K.IO_Params_bytes p).length = K.sizeof_IO_Params)
    (henc : ∀ e, K.enc_size e = ((K.enc_write e).length : Int))
    (hdec : ∀ d, K.dec_size d = ((K.dec_write d).length : Int))
    (hact : ∀ a, K.act_size a = ((K.act_write a).length : Int))
    (hticks : h.ticks_per_update.length = h.ticks.length)
    (htypes : h.io_types.length = h.io_sizes.length)
    (hfit : (write K h).length < 2147483648) :
    size K h = ((write K h).length : Int) := by
  have hsum : (4 * 4 + (h.io_sizes.length : Int) * (K.sizeof_Int3 : Int) +
      (h.io_types.length : Int) * 1 + (h.updates.length : Int) * 1 +
      2 * (h.ticks.length : Int) * 4 + (h.i_indices.length : Int) * 4 +
      (h.d_indices.length : Int) * 4 : Int) = ((write_head K h).length : Int) := by
    simp only [write_head, List.length_append, length_le32, length_write_ints,
      length_flatMap_const K.Int3_bytes K.sizeof_Int3 _ hInt3, length_Array_first, hticks,
      htypes, Nat.cast_add, Nat.cast_mul, Nat.cast_ofNat]
    ring
  have htotal : size K h = wrap_int ((write K h).length : Int) := by
    unfold size
    simp only []
    rw [hsum, foldl_size (size_layer K h) (write_layer K h)
        (fun s l => size_layer_eq K h henc hdec s l),
      foldl_size _ (fun (d : Nat) => K.act_write (h.actors.getD d default))
        (fun s d => by rw [hact])]
    refine congrArg wrap_int ?_
    simp only [write, List.length_append, Nat.cast_add,
      length_flatMap_const (fun (l : Nat) =>
        K.Layer_Params_bytes (h.params.layers.getD l default)) K.sizeof_Layer_Params _
        (fun l => hLayer _),
      length_flatMap_const (fun (i : Nat) =>
        K.IO_Params_bytes (h.params.ios.getD i default)) K.sizeof_IO_Params _
        (fun i => hParams _), List.length_range, Nat.cast_mul]
    ring
  rw [htotal, wrap_int_of_fits _ hfit]

theorem run_ticks_per_update (K : Kernels) (calls : List Call) (h : Hierarchy) :
    (run K h calls).ticks_per_update = h.ticks_per_update := by
  unfold run
  exact foldl_keeps (fun s : Hierarchy => s.ticks_per_update) _ (fun s c => by
    cases c with
    | step input_cis le reward mimic => exact step_ticks_per_update K s input_cis le reward mimic
    | clear_state => exact clear_state_ticks_per_update K s) _ _

/-- C20: for every initialised hierarchy (the result of `init_random` followed by any
calls of `step` and `clear_state`), `size()` equals the total number of bytes that `write`
passes to the writer, assuming that the `size()` of every encoder, decoder and actor
equals the number of bytes its `write` emits, that the three structs copied from memory
have `sizeof` bytes, and that the number of bytes is a value of the type `int` of the
result. -/
theorem size_counts_write (K : Kernels)
    (hInt3 : ∀ v, (K.Int3_bytes v).length = K.sizeof_Int3)
    (hLayer : ∀ p, (K.Layer_Params_bytes p).length = K.sizeof_Layer_Params)
    (hParams : ∀ p, (K.IO_Params_bytes p).length = K.sizeof_IO_Params)
    (henc : ∀ e, K.enc_size e = ((K.enc_write e).length : Int))
    (hdec : ∀ d, K.dec_size d = ((K.dec_write d).length : Int))
    (hact : ∀ a, K.act_size a = ((K.act_write a).length : Int))
    (io_descs : List IO_Desc) (layer_descs : List Layer_Desc) (calls : List Call)
    (hfit : (write K (run K (Hierarchy.create K io_descs layer_descs) calls)).length <
      2147483648) :
    size K (run K (Hierarchy.create K io_descs layer_descs) calls) =
      ((write K (run K (Hierarchy.create K io_descs layer_descs) calls)).length : Int) := by
  obtain ⟨_, _, _, c4, _, c6, _, _⟩ := create_lengths K io_descs layer_descs
  obtain ⟨_, _, r3, r4, _⟩ := run_frame K io_descs layer_descs calls
  obtain ⟨_, l2, _⟩ := run_lengths K io_descs layer_descs calls
  refine size_eq_length_write K _ hInt3 hLayer hParams henc hdec hact ?_ ?_ hfit
  · rw [run_ticks_per_update, c6, l2]
  · rw [r3, r4, List.length_map, List.length_map]

/-! ## The ring of a layer above the first during `step` -/

theorem histories_forward_layer_other (K : Kernels) (le : Bool) (h : Hierarchy) (k l : Nat)
    (hkl : k + 1 ≠ l) : (forward_layer K le h k).histories[l]? = h.histories[l]? := by
  rw [histories_forward_layer]
  split_ifs
  · rw [getElem?_Array_update, if_neg (fun hh => hkl hh.1)]
  · rfl

theorem histories_forward_upto_below (K : Kernels) (le : Bool) (h : Hierarchy) (j k : Nat)
    (hk : k ≤ j) : (forward_upto K le h k).histories[j + 1]? = h.histories[j + 1]? := by
  induction k with
  | zero => rfl
  | succ k ih =>
    rw [forward_upto_succ, histories_forward_layer_other K le _ k (j + 1) (by omega),
      ih (by omega)]

theorem histories_forward_upto_above (K : Kernels) (le : Bool) (h : Hierarchy) (j k : Nat)
    (hk : j + 1 ≤ k) :
    (forward_upto K le h k).histories[j + 1]? =
      (forward_upto K le h (j + 1)).histories[j + 1]? := by
  induction k with
  | zero => omega
  | succ k ih =>
    by_cases hkj : k = j
    · subst hkj; rfl
    · rw [forward_upto_succ, histories_forward_layer_other K le _ k (j + 1) (by omega),
        ih (by omega)]

/-- The rings of layer `j + 1` after `step`: when layer `j` is updated, the hidden code
its encoder has after the call has been pushed to the front of ring `0`; otherwise the
rings are those before the call. -/
theorem step_ring_above (K : Kernels) (h : Hierarchy) (input_cis : List Int_Buffer_View)
    (le : Bool) (reward mimic : float) (j : Nat)
    (hlen : h.ticks.length = h.encoders.length)
    (hlen2 : h.updates.length = h.encoders.length) (hj : j + 1 < h.encoders.length) :
    (step K h input_cis le reward mimic).histories[j + 1]? =
      if updated_at h.ticks_per_update h.ticks j = true then
        (h.histories[j + 1]?).map (fun hs => Array_update hs 0 (fun b =>
          b.pushFront.put 0
            ((step K h input_cis le reward mimic).encoders.getD j default).hidden_cis))
      else h.histories[j + 1]? := by
  have hb := sched_step_begin input_cis h
  simp only [sched, Prod.mk.injEq] at hb
  obtain ⟨b1, b2, b3, b4⟩ := hb
  have hlb : (step_begin input_cis h).ticks.length = (step_begin input_cis h).encoders.length := by
    rw [b1, b4]; simpa using hlen
  have hlb2 : (step_begin input_cis h).updates.length =
      (step_begin input_cis h).encoders.length := by
    rw [b2, b4]; simpa using hlen2
  have hj' : j + 1 < (step_begin input_cis h).encoders.length := by rw [b4]; exact hj
  have e1 : (step K h input_cis le reward mimic).histories =
      (forward_upto K le (step_begin input_cis h) (step_begin input_cis h).encoders.length
        ).histories := by
    simp only [step, histories_step_backward]
    rfl
  have e2 : (step K h input_cis le reward mimic).encoders =
      (forward_upto K le (step_begin input_cis h) (step_begin input_cis h).encoders.length
        ).encoders := by
    simp only [step, encoders_step_backward]
    rfl
  have e3 : (step K h input_cis le reward mimic).encoders.getD j default =
      (forward_layer K le (forward_upto K le (step_begin input_cis h) j) j).encoders.getD j
        default := by
    rw [List.getD_eq_getElem?_getD, List.getD_eq_getElem?_getD, e2,
      encoders_forward_upto_above K le _ j _ (by omega), forward_upto_succ]
  have e4 : (step_begin input_cis h).histories[j + 1]? = h.histories[j + 1]? := by
    rw [histories_step_begin, getElem?_Array_update, if_neg (fun hh => by omega)]
  have ht := is_time_to_tick_forward_upto K le (step_begin input_cis h) hlb hlb2 j (by omega)
  rw [b3, b1, updated_at_congr _ _ _ (getD_set_zero_succ h.ticks) j] at ht
  rw [e1, histories_forward_upto_above K le _ j _ (by omega), forward_upto_succ,
    histories_forward_layer, (forward_upto_frame K le _ j).2.1, ht, e3]
  by_cases hu : updated_at h.ticks_per_update h.ticks j = true
  · rw [if_pos ⟨hu, hj'⟩, if_pos hu, getElem?_Array_update,
      histories_forward_upto_below K le _ j j (le_refl _), e4]
    by_cases hlt : j + 1 < (forward_upto K le (step_begin input_cis h) j).histories.length
    · rw [if_pos ⟨rfl, hlt⟩]
      have : (forward_upto K le (step_begin input_cis h) j).histories[j + 1]? =
          some ((forward_upto K le (step_begin input_cis h) j).histories.getD (j + 1) default) :=
        getElem?_eq_some_getD _ _ hlt _
      rw [histories_forward_upto_below K le _ j j (le_refl _), e4] at this
      rw [this]
      rfl
    · rw [if_neg (fun hh => hlt hh.2)]
      have : (forward_upto K le (step_begin input_cis h) j).histories[j + 1]? = none :=
        List.getElem?_eq_none (Nat.le_of_not_lt hlt)
      rw [histories_forward_upto_below K le _ j j (le_refl _), e4] at this
      rw [this]
      rfl
  · rw [if_neg (fun hh => hu hh.1), if_neg hu,
      histories_forward_upto_below K le _ j j (le_refl _), e4]

/-- The ring of a layer above the first, in a hierarchy reached from `init_random`. -/
theorem run_ring_above (K : Kernels) (io_descs : List IO_Desc) (layer_descs : List Layer_Desc)
    (calls : List Call) (j : Nat) (hj : j + 1 < layer_descs.length)
    (hth : 1 ≤ (layer_descs.getD (j + 1) default).temporal_horizon) :
    ∃ b, (run K (Hierarchy.create K io_descs layer_descs) calls).histories[j + 1]? = some [b] ∧
      b.size = (layer_descs.getD (j + 1) default).temporal_horizon ∧
      0 ≤ b.start ∧ b.start < b.size := by
  have hs := hist_shape_run K calls (Hierarchy.create K io_descs layer_descs)
  have hc := create_histories K io_descs layer_descs (j + 1) hj
  rw [if_neg (by omega)] at hc
  have hok := Rings_ok_run K calls _ (j + 1)
    (Rings_ok_create K io_descs layer_descs (j + 1) hj hth)
  have e := congrArg (fun x => x[j + 1]?) hs
  simp only [hist_shape, List.getElem?_map, hc, Option.map_some'] at e
  cases hr : (run K (Hierarchy.create K io_descs layer_descs) calls).histories[j + 1]? with
  | none => rw [hr] at e; simp at e
  | some hs' =>
    rw [hr] at e
    simp only [Option.map_some', Option.some.injEq, List.map_cons, List.map_nil] at e
    cases hs' with
    | nil => simp at e
    | cons b tl =>
      cases tl with
      | cons b2 tl2 => simp at e
      | nil =>
        simp only [List.map_cons, List.map_nil, List.cons.injEq, and_true] at e
        have hb := hok 0 b (by rw [getD_of_getElem? _ _ _ _ hr]; rfl)
        refine ⟨b, rfl, ?_, hb⟩
        simp only [CircleBuffer.size]
        rw [e, init_history_default]
        simp only [List.length_replicate]
        exact Int.toNat_of_nonneg (by omega)

theorem create_ticks_per_update_above (K : Kernels) (io_descs : List IO_Desc)
    (layer_descs : List Layer_Desc) (calls : List Call) (j : Nat)
    (hj : j + 1 < layer_descs.length) :
    (run K (Hierarchy.create K io_descs layer_descs) calls).ticks_per_update.getD (j + 1) 0 =
      (layer_descs.getD (j + 1) default).ticks_per_update := by
  have e := sched_init_random K default io_descs layer_descs
  simp only [sched, Prod.mk.injEq] at e
  have hc : Hierarchy.create K io_descs layer_descs =
    init_random K default io_descs layer_descs := rfl
  rw [run_ticks_per_update, hc, e.2.2.1, List.getD_eq_getElem?_getD, List.getElem?_map,
    List.getElem?_range hj]
  simp

theorem log_call_fst (K : Kernels) (j : Nat) (s : Hierarchy × Code_Log) (c : Call) :
    (log_call K j s c).1 = Call.apply K s.1 c := by
  cases c with
  | step input_cis le reward mimic =>
    simp only [log_call, Call.apply]
    split_ifs <;> rfl
  | clear_state => rfl

theorem log_run_fst (K : Kernels) (j : Nat) (h : Hierarchy) (calls : List Call) :
    (log_run K j h calls).1 = run K h calls := by
  unfold log_run run
  exact foldl_proj (fun s : Hierarchy × Code_Log => s.1) (log_call K j) (Call.apply K)
    (fun s c => log_call_fst K j s c) _ _

/-- One call keeps the log of the encoder of layer `j` in agreement with the
hierarchy. -/
theorem Log_ok_call (K : Kernels) (io_descs : List IO_Desc) (layer_descs : List Layer_Desc)
    (j : Nat) (hj : j + 1 < layer_descs.length)
    (h1 : 1 ≤ (layer_descs.getD (j + 1) default).ticks_per_update)
    (h2 : (layer_descs.getD (j + 1) default).ticks_per_update ≤
      (layer_descs.getD (j + 1) default).temporal_horizon)
    (calls : List Call) (g : Code_Log) (c : Call)
    (hok : Log_ok j (layer_descs.getD (j + 1) default).ticks_per_update
      (run K (Hierarchy.create K io_descs layer_descs) calls, g)) :
    Log_ok j (layer_descs.getD (j + 1) default).ticks_per_update
      (log_call K j (run K (Hierarchy.create K io_descs layer_descs) calls, g) c) := by
  obtain ⟨l1, l2, l3⟩ := run_lengths K io_descs layer_descs calls
  have htpu := create_ticks_per_update_above K io_descs layer_descs calls j hj
  obtain ⟨b, hb, hsz, hs0, hs1⟩ := run_ring_above K io_descs layer_descs calls j hj (by omega)
  obtain ⟨o1, o2, o3, o4, o5⟩ := hok
  simp only at o1 o2 o3 o4 o5
  generalize hH : run K (Hierarchy.create K io_descs layer_descs) calls = H at *
  generalize hn : (layer_descs.getD (j + 1) default).ticks_per_update = n at *
  generalize hT : (layer_descs.getD (j + 1) default).temporal_horizon = T at *
  generalize hk : H.ticks.getD (j + 1) 0 = k at *
  have hring : (H.histories.getD (j + 1) default)[0]? = some b := by
    rw [getD_of_getElem? _ _ _ _ hb]; rfl
  have hpre : ∀ d : Nat, d < k.toNat → g.codes[d]? = some (b.get d) := by
    intro d hd
    by_cases hf : H.updates.getD (j + 1) 0 ≠ 0
    · have := o3 hf
      omega
    · rw [if_neg hf] at o4
      exact o5 d b (by omega) hring
  have hsr : (if H.updates.getD (j + 1) 0 ≠ 0 then 0 else g.since_reset) = k.toNat := by
    by_cases hf : H.updates.getD (j + 1) 0 ≠ 0
    · rw [if_pos hf]
      have := o3 hf
      omega
    · rw [if_neg hf, o4, if_neg hf]
  cases c with
  | clear_state =>
    have e := sched_clear_state K H
    simp only [sched, Prod.mk.injEq] at e
    have et : (clear_state K H).ticks.getD (j + 1) 0 = 0 := by
      rw [e.1]; exact getD_Array_fill _ _ _ (by omega) _
    have eu : (clear_state K H).updates.getD (j + 1) 0 = 0 := by
      rw [e.2.1]; exact getD_Array_fill _ _ _ (by omega) _
    simp only [log_call, Log_ok, et, eu, ne_eq, not_true_eq_false, if_false]
    refine ⟨le_refl _, by omega, fun hh => False.elim hh, by simp, fun d b' hd => ?_⟩
    omega
  | step input_cis le reward mimic =>
    obtain ⟨_, _, _, _, sj⟩ := step_sched K H input_cis le reward mimic (by omega) (by omega)
    obtain ⟨_, uj⟩ := sj j (by omega)
    obtain ⟨tl, ul⟩ := sj (j + 1) (by omega)
    have hr := step_ring_above K H input_cis le reward mimic j (by omega) (by omega) (by omega)
    rw [hb] at hr
    simp only [updated_at, reach_tick, htpu, hk] at tl ul
    simp only [log_call, hsr]
    by_cases hu : updated_at H.ticks_per_update H.ticks j = true
    · rw [if_pos hu] at uj hr
      simp only [hu, if_true] at tl ul
      have hne : (step K H input_cis le reward mimic).updates.getD j 0 ≠ 0 := by
        rw [uj]; decide
      rw [if_pos hne]
      simp only [Option.map_some'] at hr
      have hring' : ((step K H input_cis le reward mimic).histories.getD (j + 1) default)[0]? =
          some (b.pushFront.put 0
            ((step K H input_cis le reward mimic).encoders.getD j default).hidden_cis) := by
        rw [getD_of_getElem? _ _ _ _ hr]
        rfl
      obtain ⟨p1, p2, p3, p4, p5, _⟩ := ring_push_spec b
        ((step K H input_cis le reward mimic).encoders.getD j default).hidden_cis hs0 hs1
      refine ⟨?_, ?_, ?_, ?_, ?_⟩
      · show 0 ≤ (step K H input_cis le reward mimic).ticks.getD (j + 1) 0
        rw [tl]; split_ifs <;> omega
      · show (step K H input_cis le reward mimic).ticks.getD (j + 1) 0 < n
        rw [tl]
        split_ifs with hc
        · omega
        · simp only [decide_eq_true_eq, ge_iff_le, not_le] at hc
          exact hc
      · intro hf
        show (step K H input_cis le reward mimic).ticks.getD (j + 1) 0 = 0
        have hf' : (step K H input_cis le reward mimic).updates.getD (j + 1) 0 ≠ 0 := hf
        rw [tl]
        rw [ul] at hf'
        split_ifs with hc
        · rfl
        · rw [if_neg hc] at hf'; exact absurd rfl hf'
      · show k.toNat + 1 = if (step K H input_cis le reward mimic).updates.getD (j + 1) 0 ≠ 0
          then n.toNat else ((step K H input_cis le reward mimic).ticks.getD (j + 1) 0).toNat
        rw [tl, ul]
        by_cases hc : decide (k + 1 ≥ n) = true
        · rw [if_pos hc, if_pos (by decide)]
          simp only [decide_eq_true_eq, ge_iff_le] at hc
          omega
        · rw [if_neg hc, if_neg hc, if_neg (by decide)]
          omega
      · intro d b' hd hb'
        have hd' : d < k.toNat + 1 := hd
        have hb'' : ((step K H input_cis le reward mimic).histories.getD (j + 1) default)[0]? =
            some b' := hb'
        rw [hring'] at hb''
        have eb := Option.some.inj hb''
        show (((step K H input_cis le reward mimic).encoders.getD j default).hidden_cis ::
          g.codes)[d]? = some (b'.get d)
        rw [← eb]
        cases d with
        | zero =>
          rw [List.getElem?_cons_zero]
          exact congrArg some p4.symm
        | succ d =>
          have e : ((d + 1 : Nat) : Int) - 1 = (d : Int) := by push_cast; ring
          rw [List.getElem?_cons_succ, hpre d (by omega),
            p5 (d + 1) (by omega) (by rw [hsz]; omega), e]
    · rw [if_neg hu] at uj hr
      simp only [hu, if_false, add_zero, Bool.false_eq_true] at tl ul
      have hne : ¬ (step K H input_cis le reward mimic).updates.getD j 0 ≠ 0 := by
        rw [uj]; decide
      rw [if_neg hne]
      have hc : ¬ decide (k ≥ n) = true := by
        simp only [decide_eq_true_eq, ge_iff_le, not_le]
        exact o2
      rw [if_neg hc] at tl ul
      have hring' : ((step K H input_cis le reward mimic).histories.getD (j + 1) default)[0]? =
          some b := by
        rw [getD_of_getElem? _ _ _ _ hr]
        rfl
      refine ⟨?_, ?_, ?_, ?_, ?_⟩
      · show 0 ≤ (step K H input_cis le reward mimic).ticks.getD (j + 1) 0
        rw [tl]; exact o1
      · show (step K H input_cis le reward mimic).ticks.getD (j + 1) 0 < n
        rw [tl]; exact o2
      · intro hf
        have hf' : (step K H input_cis le reward mimic).updates.getD (j + 1) 0 ≠ 0 := hf
        rw [ul] at hf'
        exact absurd rfl hf'
      · show k.toNat = if (step K H input_cis le reward mimic).updates.getD (j + 1) 0 ≠ 0
          then n.toNat else ((step K H input_cis le reward mimic).ticks.getD (j + 1) 0).toNat
        rw [tl, ul, if_neg (by decide)]
      · intro d b' hd hb'
        have hd' : d < k.toNat := hd
        have hb'' : ((step K H input_cis le reward mimic).histories.getD (j + 1) default)[0]? =
            some b' := hb'
        rw [hring'] at hb''
        have eb := Option.some.inj hb''
        show g.codes[d]? = some (b'.get d)
        rw [← eb]
        exact hpre d hd'

theorem Log_ok_create (K : Kernels) (io_descs : List IO_Desc) (layer_descs : List Layer_Desc)
    (j : Nat) (hj : j + 1 < layer_descs.length)
    (h1 : 1 ≤ (layer_descs.getD (j + 1) default).ticks_per_update) :
    Log_ok j (layer_descs.getD (j + 1) default).ticks_per_update
      (Hierarchy.create K io_descs layer_descs, ⟨[], 0, 0⟩) := by
  have e := sched_init_random K default io_descs layer_descs
  simp only [sched, Prod.mk.injEq] at e
  obtain ⟨e1, e2, _, _⟩ := e
  have hc : Hierarchy.create K io_descs layer_descs =
    init_random K default io_descs layer_descs := rfl
  have hd : (default : Hierarchy).ticks = [] := rfl
  have hd2 : (default : Hierarchy).updates = [] := rfl
  have et : (Hierarchy.create K io_descs layer_descs).ticks.getD (j + 1) 0 = 0 := by
    rw [hc, e1, hd, Array_resize_fill_nil]
    simp [List.getD_eq_getElem?_getD, List.getElem?_replicate, hj]
  have eu : (Hierarchy.create K io_descs layer_descs).updates.getD (j + 1) 0 = 0 := by
    rw [hc, e2, hd2, Array_resize_fill_nil]
    simp [List.getD_eq_getElem?_getD, List.getElem?_replicate, hj]
  simp only [Log_ok, et, eu, ne_eq, not_true_eq_false, if_false]
  refine ⟨le_refl _, by omega, fun hh => False.elim hh, by simp, fun d b hd => ?_⟩
  omega

theorem run_snoc (K : Kernels) (h : Hierarchy) (calls : List Call) (c : Call) :
    run K h (calls ++ [c]) = Call.apply K (run K h calls) c := by
  simp only [run, List.foldl_append, List.foldl_cons, List.foldl_nil]

theorem log_run_snoc (K : Kernels) (j : Nat) (h : Hierarchy) (calls : List Call) (c : Call) :
    log_run K j h (calls ++ [c]) = log_call K j (log_run K j h calls) c := by
  simp only [log_run, List.foldl_append, List.foldl_cons, List.foldl_nil]

theorem log_run_eta (K : Kernels) (j : Nat) (h : Hierarchy) (calls : List Call) :
    log_run K j h calls = (run K h calls, (log_run K j h calls).2) :=
  Prod.ext (log_run_fst K j h calls) rfl

/-- The log of the encoder of layer `j` agrees with the hierarchy after any calls. -/
theorem Log_ok_run (K : Kernels) (io_descs : List IO_Desc) (layer_descs : List Layer_Desc)
    (j : Nat) (hj : j + 1 < layer_descs.length)
    (h1 : 1 ≤ (layer_descs.getD (j + 1) default).ticks_per_update)
    (h2 : (layer_descs.getD (j + 1) default).ticks_per_update ≤
      (layer_descs.getD (j + 1) default).temporal_horizon)
    (calls : List Call) :
    Log_ok j (layer_descs.getD (j + 1) default).ticks_per_update
      (log_run K j (Hierarchy.create K io_descs layer_descs) calls) := by
  induction calls using List.reverseRecOn with
  | nil => exact Log_ok_create K io_descs layer_descs j hj h1
  | append_singleton calls c ih =>
    rw [log_run_snoc, log_run_eta]
    rw [log_run_eta] at ih
    exact Log_ok_call K io_descs layer_descs j hj h1 h2 calls _ c ih

theorem log_call_since (K : Kernels) (j : Nat) (s : Hierarchy × Code_Log) (c : Call)
    (hc : c ≠ Call.clear_state) (hs : s.2.since_update = s.2.since_reset) :
    (log_call K j s c).2.since_update = (log_call K j s c).2.since_reset := by
  cases c with
  | clear_state => exact absurd rfl hc
  | step input_cis le reward mimic =>
    simp only [log_call, hs]
    split_ifs <;> rfl

/-- Without `clear_state` the two counts of the log are the same. -/
theorem log_run_since (K : Kernels) (j : Nat) (h : Hierarchy) (calls : List Call)
    (hc : ∀ c ∈ calls, c ≠ Call.clear_state) :
    (log_run K j h calls).2.since_update = (log_run K j h calls).2.since_reset := by
  induction calls using List.reverseRecOn with
  | nil => rfl
  | append_singleton calls c ih =>
    rw [log_run_snoc]
    exact log_call_since K j _ c (hc c (by simp))
      (ih (fun c' hc' => hc c' (by simp [hc'])))

/-- The positions `(start + d) % size` of fewer than `size` consecutive entries of a ring
are distinct. -/
theorem ring_slots_distinct {α : Type} (b : CircleBuffer α) (h0 : 0 ≤ b.start)
    (d1 d2 : Nat) (h12 : d1 < d2) (h2 : (d2 : Int) < b.size) :
    b.slot d1 ≠ b.slot d2 := by
  simp only [CircleBuffer.slot, CircleBuffer.size] at h2 ⊢
  have hT : (0 : Int) < (b.data.length : Int) := by omega
  rw [Int.tmod_eq_emod (by omega) (by omega), Int.tmod_eq_emod (by omega) (by omega)]
  intro he
  have hd : (b.data.length : Int) ∣ (b.start + (d2 : Int)) - (b.start + (d1 : Int)) :=
    (Int.emod_eq_emod_iff_emod_sub_eq_zero.1 he.symm) |> Int.dvd_of_emod_eq_zero
  have e : (b.start + (d2 : Int)) - (b.start + (d1 : Int)) = (d2 : Int) - (d1 : Int) := by ring
  rw [e] at hd
  have := Int.le_of_dvd (by omega) hd
  omega

theorem log_call_step (K : Kernels) (j : Nat) (s : Hierarchy × Code_Log)
    (input_cis : List Int_Buffer_View) (le : Bool) (reward mimic : float) :
    log_call K j s (Call.step input_cis le reward mimic) =
      (step K s.1 input_cis le reward mimic,
        if (step K s.1 input_cis le reward mimic).updates.getD j 0 ≠ 0 then
          ⟨((step K s.1 input_cis le reward mimic).encoders.getD j default).hidden_cis ::
              s.2.codes,
            (if s.1.updates.getD (j + 1) 0 ≠ 0 then 0 else s.2.since_update) + 1,
            (if s.1.updates.getD (j + 1) 0 ≠ 0 then 0 else s.2.since_reset) + 1⟩
        else
          ⟨s.2.codes, if s.1.updates.getD (j + 1) 0 ≠ 0 then 0 else s.2.since_update,
            if s.1.updates.getD (j + 1) 0 ≠ 0 then 0 else s.2.since_reset⟩) := by
  simp only [log_call]
  split_ifs <;> rfl

/-- C16 (amended): for a hierarchy reached from `init_random` by any calls, with
`1 <= ticks_per_update[l] <= temporal_horizon[l]` for a layer `l = j + 1`, at every
`step` in which layer `l` is updated (`H` the hierarchy and `G` the log of the encoder of
layer `l - 1` after the step, `B` the state when the descending loop reaches layer `l`):
layer `l` has `ticks_per_update[l]` decoders; the target `histories[l][0][d]` of decoder
`d` is the hidden code that encoder `l - 1` produced at its `d`-th most recent update,
`d = 0` being the update of this same step; these targets are pairwise distinct ring
slots; and they are exactly the codes produced since layer `l`'s previous update or the
last `clear_state`, whichever came later, hence exactly the codes produced since the
previous update when there was no `clear_state`. -/
theorem decoder_targets_recent (K : Kernels) (io_descs : List IO_Desc)
    (layer_descs : List Layer_Desc) (j : Nat) (hj : j + 1 < layer_descs.length)
    (h1 : 1 ≤ (layer_descs.getD (j + 1) default).ticks_per_update)
    (h2 : (layer_descs.getD (j + 1) default).ticks_per_update ≤
      (layer_descs.getD (j + 1) default).temporal_horizon)
    (calls : List Call) (input_cis : List Int_Buffer_View) (learn_enabled : Bool)
    (reward mimic : float) (H : Hierarchy) (G : Code_Log) (B : Hierarchy)
    (hHG : (H, G) = log_call K j (log_run K j (Hierarchy.create K io_descs layer_descs) calls)
      (Call.step input_cis learn_enabled reward mimic))
    (hB : B = backward_upto K input_cis learn_enabled reward mimic
      (step_forward K learn_enabled (step_begin input_cis
        (run K (Hierarchy.create K io_descs layer_descs) calls))) (j + 1))
    (hup : H.updates.getD (j + 1) 0 ≠ 0) :
    H = step K (run K (Hierarchy.create K io_descs layer_descs) calls) input_cis
      learn_enabled reward mimic ∧
    (B.decoders.getD (j + 1) default).length =
      (layer_descs.getD (j + 1) default).ticks_per_update.toNat ∧
    (∃ b, (B.histories.getD (j + 1) default)[0]? = some b ∧
      b.size = (layer_descs.getD (j + 1) default).temporal_horizon ∧
      (∀ d, d < (layer_descs.getD (j + 1) default).ticks_per_update.toNat →
        decoder_target B (j + 1) d = b.get d ∧ G.codes[d]? = some (b.get d)) ∧
      (∀ d1 d2, d1 < d2 → d2 < (layer_descs.getD (j + 1) default).ticks_per_update.toNat →
        b.slot d1 ≠ b.slot d2)) ∧
    H.updates.getD j 0 ≠ 0 ∧
    G.codes[0]? = some (H.encoders.getD j default).hidden_cis ∧
    G.since_reset = (layer_descs.getD (j + 1) default).ticks_per_update.toNat ∧
    (List.range (layer_descs.getD (j + 1) default).ticks_per_update.toNat).map
      (decoder_target B (j + 1)) = G.codes.take G.since_reset ∧
    ((∀ c ∈ calls, c ≠ Call.clear_state) → G.since_update = G.since_reset) := by
  have hok := Log_ok_run K io_descs layer_descs j hj h1 h2
    (calls ++ [Call.step input_cis learn_enabled reward mimic])
  rw [log_run_snoc, ← hHG] at hok
  obtain ⟨o1, o2, o3, o4, o5⟩ := hok
  simp only at o1 o2 o3 o4 o5
  rw [if_pos hup] at o4
  have hHG' := hHG
  rw [log_call_step, log_run_fst] at hHG'
  obtain ⟨hH, hG⟩ := Prod.mk.inj hHG'
  rw [← hH] at hG
  have hrun : run K (Hierarchy.create K io_descs layer_descs)
      (calls ++ [Call.step input_cis learn_enabled reward mimic]) = H := by
    rw [run_snoc, hH]
    rfl
  obtain ⟨b, hb, hsz, hs0, hs1⟩ := run_ring_above K io_descs layer_descs
    (calls ++ [Call.step input_cis learn_enabled reward mimic]) j hj (by omega)
  rw [hrun] at hb
  obtain ⟨_, _, _, _, r5, _⟩ := backward_upto_reached K io_descs layer_descs calls input_cis
    learn_enabled reward mimic (j + 1) hj B hB
  rw [← hH] at r5
  have hring : (H.histories.getD (j + 1) default)[0]? = some b := by
    rw [getD_of_getElem? _ _ _ _ hb]; rfl
  have htarget : ∀ d : Nat, decoder_target B (j + 1) d = b.get d := by
    intro d
    simp only [decoder_target, r5, getD_of_getElem? _ _ _ _ hb, if_neg (Nat.succ_ne_zero j)]
    rfl
  have hcodes : ∀ d : Nat, d < (layer_descs.getD (j + 1) default).ticks_per_update.toNat →
      G.codes[d]? = some (b.get d) := fun d hd => o5 d b (by rw [o4]; exact hd) hring
  have hlay := (backward_upto_frame K io_descs layer_descs calls input_cis learn_enabled
    reward mimic (j + 1)).2
  rw [← hB] at hlay
  have hdec : dec_counts B = dec_counts (Hierarchy.create K io_descs layer_descs) := by
    simp only [layout, Prod.mk.injEq] at hlay
    exact hlay.2.2.2.2.2.2
  have hjupd : H.updates.getD j 0 ≠ 0 := by
    intro h0
    rw [if_neg (fun hh => hh h0)] at hG
    have e2 : G.since_reset =
        if (run K (Hierarchy.create K io_descs layer_descs) calls).updates.getD (j + 1) 0 ≠ 0
        then 0 else (log_run K j (Hierarchy.create K io_descs layer_descs) calls).2.since_reset := by
      rw [hG]
    have hpre := Log_ok_run K io_descs layer_descs j hj h1 h2 calls
    rw [log_run_eta] at hpre
    obtain ⟨q1, q2, q3, q4, _⟩ := hpre
    simp only at q1 q2 q3 q4
    rw [o4] at e2
    by_cases hf : (run K (Hierarchy.create K io_descs layer_descs) calls).updates.getD
        (j + 1) 0 ≠ 0
    · rw [if_pos hf] at e2
      omega
    · rw [if_neg hf] at e2 q4
      omega
  refine ⟨hH, ?_, ⟨b, ?_, hsz, fun d hd => ⟨htarget d, hcodes d hd⟩, ?_⟩, hjupd, ?_, o4, ?_, ?_⟩
  · rw [dec_counts_getD _ _ hdec (j + 1),
      getD_of_getElem? _ _ _ _ (create_next K io_descs layer_descs (j + 1) (by omega) hj).2,
      List.length_replicate]
  · rw [r5]; exact hring
  · intro d1 d2 h12 hd2
    exact ring_slots_distinct b hs0 d1 d2 h12 (by rw [hsz]; omega)
  · rw [if_pos hjupd] at hG
    rw [hG]
    exact List.getElem?_cons_zero
  · apply List.ext_getElem?
    intro d
    rw [List.getElem?_map, List.getElem?_take, o4]
    by_cases hd : d < (layer_descs.getD (j + 1) default).ticks_per_update.toNat
    · rw [List.getElem?_range hd, if_pos hd, hcodes d hd]
      exact congrArg some (htarget d)
    · rw [List.getElem?_eq_none (by rw [List.length_range]; omega), if_neg hd]
      rfl
  · intro hc
    have e1 := congrArg (fun x => x.2.since_update) hHG
    have e2 := congrArg (fun x => x.2.since_reset) hHG
    simp only at e1 e2
    rw [e1, e2]
    exact log_call_since K j _ _ (fun hh => by cases hh) (log_run_since K j _ calls hc)

theorem decoder_targets_recent_witness :
    (1 ≤ (small_layer_descs.getD (0 + 1) default).ticks_per_update ∧
      (small_layer_descs.getD (0 + 1) default).ticks_per_update ≤
        (small_layer_descs.getD (0 + 1) default).temporal_horizon) ∧
    (List.range (small_layer_descs.getD (0 + 1) default).ticks_per_update.toNat).map
      (decoder_target (backward_upto sample_kernels [[2]] true 0 0
        (step_forward sample_kernels true (step_begin [[2]]
          (run sample_kernels (Hierarchy.create sample_kernels small_io_descs small_layer_descs)
            [Call.step [[1]] true 0 0]))) (0 + 1)) (0 + 1)) =
      (log_call sample_kernels 0
        (log_run sample_kernels 0
          (Hierarchy.create sample_kernels small_io_descs small_layer_descs)
          [Call.step [[1]] true 0 0]) (Call.step [[2]] true 0 0)).2.codes.take
        (log_call sample_kernels 0
          (log_run sample_kernels 0
            (Hierarchy.create sample_kernels small_io_descs small_layer_descs)
            [Call.step [[1]] true 0 0]) (Call.step [[2]] true 0 0)).2.since_reset :=
  ⟨⟨by decide, by decide⟩,
   (decoder_targets_recent sample_kernels small_io_descs small_layer_descs 0 (by decide)
      (by decide) (by decide) [Call.step [[1]] true 0 0] [[2]] true 0 0 _ _ _ rfl rfl
      (by decide)).2.2.2.2.2.2.1⟩

set_option maxRecDepth 100000 in
/-- C16, the claim as stated fails after `clear_state`: in the small hierarchy
(`ticks_per_update[1] == 2`) layer `1` is updated by the second step and, `clear_state`
having set its counter back to `0` after the third step, next by the fifth step.  Encoder
`0` has produced three codes since the previous update of layer `1` (`[3]`, `[0]` and
`[1]`, at the third, fourth and fifth step); the two targets of the decoders of layer `1`
are the last two of them. -/
theorem decoder_targets_miss_code_before_clear_state :
    (log_run sample_kernels 0
      (Hierarchy.create sample_kernels small_io_descs small_layer_descs)
      (cleared_calls.take 2)).1.updates.getD 1 0 ≠ 0 ∧
    (log_call sample_kernels 0
      (log_run sample_kernels 0
        (Hierarchy.create sample_kernels small_io_descs small_layer_descs) cleared_calls)
      (Call.step [[1]] true 0 0)).1.updates.getD 1 0 ≠ 0 ∧
    (log_call sample_kernels 0
      (log_run sample_kernels 0
        (Hierarchy.create sample_kernels small_io_descs small_layer_descs) cleared_calls)
      (Call.step [[1]] true 0 0)).2.since_update = 3 ∧
    (log_call sample_kernels 0
      (log_run sample_kernels 0
        (Hierarchy.create sample_kernels small_io_descs small_layer_descs) cleared_calls)
      (Call.step [[1]] true 0 0)).2.codes.take 3 = [[1], [0], [3]] ∧
    (small_layer_descs.getD 1 default).ticks_per_update = 2 ∧
    (List.range 2).map (decoder_target (backward_upto sample_kernels [[1]] true 0 0
      (step_forward sample_kernels true (step_begin [[1]]
        (run sample_kernels (Hierarchy.create sample_kernels small_io_descs small_layer_descs)
          cleared_calls))) 1) 1) = [[1], [0]] := by
  decide

/-! ## The sample components -/

theorem sample_kernels_visible : Visible_layers_sized sample_kernels :=
  ⟨fun e hidden_size descs => by simp [sample_kernels, Array_new], fun e input_cis le params => rfl,
    fun e => rfl⟩

theorem sample_kernels_hidden : Hidden_columns_sized sample_kernels :=
  ⟨fun d hidden_size descs => by simp [sample_kernels, Array_new],
    fun a hidden_size history_capacity descs => by simp [sample_kernels, Array_new]⟩

theorem sample_kernels_sizes :
    (∀ v, (sample_kernels.Int3_bytes v).length = sample_kernels.sizeof_Int3) ∧
    (∀ p, (sample_kernels.Layer_Params_bytes p).length = sample_kernels.sizeof_Layer_Params) ∧
    (∀ p, (sample_kernels.IO_Params_bytes p).length = sample_kernels.sizeof_IO_Params) ∧
    (∀ e, sample_kernels.enc_size e = ((sample_kernels.enc_write e).length : Int)) ∧
    (∀ d, sample_kernels.dec_size d = ((sample_kernels.dec_write d).length : Int)) ∧
    (∀ a, sample_kernels.act_size a = ((sample_kernels.act_write a).length : Int)) := by
  refine ⟨fun v => rfl, fun p => rfl, fun p => rfl, fun e => ?_, fun d => ?_, fun a => ?_⟩
  · simp only [sample_kernels, List.length_append, length_write_ints, Int3.bytes, length_le32]
    push_cast
    ring
  · simp only [sample_kernels, List.length_append, length_write_ints, Int3.bytes, length_le32]
    push_cast
    ring
  · simp only [sample_kernels, List.length_append, length_write_ints, Int3.bytes, length_le32]
    push_cast
    ring

/-! ## The statements at the sample hierarchy -/

set_option maxRecDepth 100000 in
theorem input_history_shift_witness :
    ((0 < (Hierarchy.create sample_kernels sample_io_descs sample_layer_descs).io_sizes.length ∧
      0 < (sample_inputs 5).length) ∧
     ((Hierarchy.create sample_kernels sample_io_descs sample_layer_descs).histories.getD 0
        default)[0]? = some ⟨[[0, 0, 0, 0], [0, 0, 0, 0]], 0⟩) ∧
    ∃ b', ((step sample_kernels
        (Hierarchy.create sample_kernels sample_io_descs sample_layer_descs)
        (sample_inputs 5) true 0 0).histories.getD 0 default)[0]? = some b' ∧
      b'.size = (CircleBuffer.mk [[0, 0, 0, 0], [0, 0, 0, 0]] 0 : Circle_Buffer Int_Buffer).size ∧
      some (b'.get 0) = (sample_inputs 5)[0]? ∧
      (∀ t : Nat, 1 ≤ t →
        (t : Int) < (CircleBuffer.mk [[0, 0, 0, 0], [0, 0, 0, 0]] 0 : Circle_Buffer Int_Buffer).size →
        b'.get (t : Int) =
          (CircleBuffer.mk [[0, 0, 0, 0], [0, 0, 0, 0]] 0 : Circle_Buffer Int_Buffer).get
            ((t : Int) - 1)) ∧
      b'.slot 0 =
        (CircleBuffer.mk [[0, 0, 0, 0], [0, 0, 0, 0]] 0 : Circle_Buffer Int_Buffer).slot
          ((CircleBuffer.mk [[0, 0, 0, 0], [0, 0, 0, 0]] 0 : Circle_Buffer Int_Buffer).size - 1) :=
  ⟨⟨⟨by decide, by decide⟩, by decide⟩,
   input_history_shift sample_kernels
    (Hierarchy.create sample_kernels sample_io_descs sample_layer_descs) (sample_inputs 5)
    true 0 0 0 ⟨[[0, 0, 0, 0], [0, 0, 0, 0]], 0⟩ (by decide) (by decide) (by decide)
    (by decide) (by decide)⟩

theorem encoder_inputs_order_witness :
    (0 < sample_layer_descs.length ∧
      0 ≤ (sample_layer_descs.getD 0 default).temporal_horizon) ∧
    (encoder_input_cis (forward_upto sample_kernels true
      (step_begin (sample_inputs 0)
        (run sample_kernels (Hierarchy.create sample_kernels sample_io_descs sample_layer_descs)
          [])) 0) 0).length =
      (if 0 = 0 then sample_io_descs.length else 1) *
        (sample_layer_descs.getD 0 default).temporal_horizon.toNat :=
  ⟨⟨by decide, by decide⟩,
   (encoder_inputs_order sample_kernels sample_kernels_visible sample_io_descs
      sample_layer_descs [] (sample_inputs 0) true 0 (by decide) (by decide) _ rfl).2.2.1⟩

set_option maxRecDepth 100000 in
theorem feedback_decoder_index_witness :
    (0 ≤ feedback_index (backward_upto sample_kernels (sample_inputs 0) true 0 0
      (step_forward sample_kernels true (step_begin (sample_inputs 0)
        (run sample_kernels (Hierarchy.create sample_kernels sample_io_descs sample_layer_descs)
          []))) 0) 0 ∧
    feedback_index (backward_upto sample_kernels (sample_inputs 0) true 0 0
      (step_forward sample_kernels true (step_begin (sample_inputs 0)
        (run sample_kernels (Hierarchy.create sample_kernels sample_io_descs sample_layer_descs)
          []))) 0) 0 <
      (backward_upto sample_kernels (sample_inputs 0) true 0 0
        (step_forward sample_kernels true (step_begin (sample_inputs 0)
          (run sample_kernels (Hierarchy.create sample_kernels sample_io_descs sample_layer_descs)
            []))) 0).ticks_per_update.getD (0 + 1) 0) ∧
    (feedback_index (run sample_kernels
        (clear_state sample_kernels (run sample_kernels
          (Hierarchy.create sample_kernels small_io_descs small_layer_descs)
          (cleared_calls.take 3)))
        [Call.step [[0]] true 0 0, Call.step [[1]] true 0 0, Call.step [[2]] true 0 0]) 0 =
      (small_layer_descs.getD (0 + 1) default).ticks_per_update - 1 - ((1 : Nat) : Int) ∧
    (run sample_kernels
        (clear_state sample_kernels (run sample_kernels
          (Hierarchy.create sample_kernels small_io_descs small_layer_descs)
          (cleared_calls.take 3)))
        [Call.step [[0]] true 0 0, Call.step [[1]] true 0 0,
          Call.step [[2]] true 0 0]).updates[0 + 1]? = some (if 1 = 0 then 1 else 0)) :=
  ⟨⟨((feedback_decoder_index sample_kernels sample_io_descs sample_layer_descs
      (by intro k h1 h2
          have h3 : k < 3 := h2
          interval_cases k <;> decide)).1 [] (sample_inputs 0) true 0 0 0 (by decide) _
      rfl).2.2.2.1,
   ((feedback_decoder_index sample_kernels sample_io_descs sample_layer_descs
      (by intro k h1 h2
          have h3 : k < 3 := h2
          interval_cases k <;> decide)).1 [] (sample_inputs 0) true 0 0 0 (by decide) _
      rfl).2.2.2.2.1⟩,
   ((feedback_decoder_index sample_kernels small_io_descs small_layer_descs
      (by intro k h1 h2
          have h3 : k < 2 := h2
          interval_cases k
          decide)).2 _ (Or.inr ⟨cleared_calls.take 3, rfl⟩)
      [Call.step [[0]] true 0 0, Call.step [[1]] true 0 0, Call.step [[2]] true 0 0]
      (by decide) 0 1 1 (by decide) (by decide) (by decide) (by decide)).2⟩

set_option maxRecDepth 100000 in
/-- C14, the claim as stated fails when `clear_state` is called inside a period: in the
small hierarchy (`ticks_per_update[1] == 2`) the second call updates layer `1`; the third
call, `clear_state`, and the fifth and sixth call follow, and layer `1` is next updated by
the sixth call.  Layer `0` is updated by every step, so between the two updates of layer
`1` it is updated three times and not twice, and the index of line 244 at layer `0` is `0`
at the third step and `0` again at the fifth step. -/
theorem feedback_index_repeats_after_clear_state :
    (small_layer_descs.getD 1 default).ticks_per_update = 2 ∧
    ([2, 3, 5, 6].map (fun n =>
      (run sample_kernels (Hierarchy.create sample_kernels small_io_descs small_layer_descs)
        ((cleared_calls ++ [Call.step [[1]] true 0 0]).take n)).updates.getD 1 0)) =
      [1, 0, 0, 1] ∧
    ([2, 3, 5, 6].map (fun n =>
      (run sample_kernels (Hierarchy.create sample_kernels small_io_descs small_layer_descs)
        ((cleared_calls ++ [Call.step [[1]] true 0 0]).take n)).updates.getD 0 0)) =
      [1, 1, 1, 1] ∧
    feedback_index (backward_upto sample_kernels [[2]] true 0 0
      (step_forward sample_kernels true (step_begin [[2]]
        (run sample_kernels (Hierarchy.create sample_kernels small_io_descs small_layer_descs)
          (cleared_calls.take 1)))) 0) 0 = 1 ∧
    feedback_index (backward_upto sample_kernels [[3]] true 0 0
      (step_forward sample_kernels true (step_begin [[3]]
        (run sample_kernels (Hierarchy.create sample_kernels small_io_descs small_layer_descs)
          (cleared_calls.take 2)))) 0) 0 = 0 ∧
    feedback_index (backward_upto sample_kernels [[0]] true 0 0
      (step_forward sample_kernels true (step_begin [[0]]
        (run sample_kernels (Hierarchy.create sample_kernels small_io_descs small_layer_descs)
          (cleared_calls.take 4)))) 0) 0 = 0 ∧
    feedback_index (backward_upto sample_kernels [[1]] true 0 0
      (step_forward sample_kernels true (step_begin [[1]]
        (run sample_kernels (Hierarchy.create sample_kernels small_io_descs small_layer_descs)
          cleared_calls))) 0) 0 = 1 := by
  decide

set_option maxRecDepth 100000 in
theorem decoder_step_arguments_witness :
    (1 ≤ (sample_layer_descs.getD 0 default).temporal_horizon ∧
      (∀ u ∈ sample_uses,
        Use.fits sample_layer_descs.length sample_io_descs.length u = true) ∧
      1 < ((run_uses sample_kernels
        (Hierarchy.create sample_kernels sample_io_descs sample_layer_descs)
        sample_uses).decoders.getD 0 default).length) ∧
    (∃ c, c < sample_io_descs.length ∧
      (sample_io_descs.getD c default).type = IO_Type.prediction ∧
      (backward_upto sample_kernels (sample_inputs 1) true 0 0
        (step_forward sample_kernels true (step_begin (sample_inputs 1)
          (run_uses sample_kernels
            (Hierarchy.create sample_kernels sample_io_descs sample_layer_descs)
            sample_uses))) 0).i_indices[1]? = some (c : Int) ∧
      decoder_params (backward_upto sample_kernels (sample_inputs 1) true 0 0
        (step_forward sample_kernels true (step_begin (sample_inputs 1)
          (run_uses sample_kernels
            (Hierarchy.create sample_kernels sample_io_descs sample_layer_descs)
            sample_uses))) 0) 0 1 = (sample_params.ios.getD c default).decoder) ∧
    decoder_params (backward_upto sample_kernels (sample_inputs 1) true 0 0
      (step_forward sample_kernels true (step_begin (sample_inputs 1)
        (run_uses sample_kernels
          (Hierarchy.create sample_kernels sample_io_descs sample_layer_descs)
          sample_uses))) 0) 0 1 = ⟨130, 131, 132⟩ :=
  ⟨⟨by decide, by decide, by decide⟩,
   (by
      obtain ⟨c, h1, h2, h3, h4, _, h6, _⟩ :=
        (decoder_step_arguments sample_kernels sample_io_descs sample_layer_descs
          (by decide) sample_uses (by decide) (sample_inputs 1) true 0 0 _ rfl).1 1
          (by decide) _ rfl
      exact ⟨c, h1, h2, h3, by rw [h6, h4]; rfl⟩),
   by decide⟩

set_option maxRecDepth 100000 in
theorem actor_step_arguments_witness :
    ((∀ u ∈ sample_uses,
        Use.fits sample_layer_descs.length sample_io_descs.length u = true) ∧
      0 < (run_uses sample_kernels
        (Hierarchy.create sample_kernels sample_io_descs sample_layer_descs)
        sample_uses).actors.length) ∧
    (∃ c, c < sample_io_descs.length ∧
      (sample_io_descs.getD c default).type = IO_Type.action ∧
      actor_channel (backward_upto sample_kernels (sample_inputs 1) true 0 0
        (step_forward sample_kernels true (step_begin (sample_inputs 1)
          (run_uses sample_kernels
            (Hierarchy.create sample_kernels sample_io_descs sample_layer_descs)
            sample_uses))) 0) 0 = (c : Int) ∧
      (step sample_kernels (run_uses sample_kernels
          (Hierarchy.create sample_kernels sample_io_descs sample_layer_descs)
          sample_uses) (sample_inputs 1) true 0 0).actors[0]? =
        some (sample_kernels.act_step ((run_uses sample_kernels
            (Hierarchy.create sample_kernels sample_io_descs sample_layer_descs)
            sample_uses).actors.getD 0 default)
          (decoder_input_cis (backward_upto sample_kernels (sample_inputs 1) true 0 0
            (step_forward sample_kernels true (step_begin (sample_inputs 1)
              (run_uses sample_kernels
                (Hierarchy.create sample_kernels sample_io_descs sample_layer_descs)
                sample_uses))) 0) 0)
          ((sample_inputs 1).getD c default) 0 true 0
          (sample_params.ios.getD c default).actor)) ∧
    (sample_params.ios.getD 1 default).actor = ⟨113, 114, 115, 2, 2⟩ ∧
    actor_channel (backward_upto sample_kernels (sample_inputs 1) true 0 0
      (step_forward sample_kernels true (step_begin (sample_inputs 1)
        (run_uses sample_kernels
          (Hierarchy.create sample_kernels sample_io_descs sample_layer_descs)
          sample_uses))) 0) 0 = 1 :=
  ⟨⟨by decide, by decide⟩,
   (by
      obtain ⟨c, h1, h2, h3, _, h5, _, h7⟩ :=
        (actor_step_arguments sample_kernels sample_io_descs sample_layer_descs
          sample_uses (by decide) (sample_inputs 1) true 0 0 _ rfl).1 0 (by decide) _ rfl
      refine ⟨c, h1, h2, h3, ?_⟩
      rw [h7, h5]
      rfl),
   by decide, by decide⟩

theorem prediction_accessors_witness :
    (0 < sample_layer_descs.length ∧ 2 < sample_io_descs.length ∧
      (sample_io_descs.getD 2 default).type = IO_Type.none) ∧
    Array_at (run sample_kernels
      (Hierarchy.create sample_kernels sample_io_descs sample_layer_descs) []).d_indices
        ((2 : Nat) : Int) = -1 ∧
    io_layer_exists (run sample_kernels
      (Hierarchy.create sample_kernels sample_io_descs sample_layer_descs) [])
        ((2 : Nat) : Int) = false :=
  ⟨⟨by decide, by decide, by decide⟩,
   ((prediction_accessors sample_kernels sample_io_descs sample_layer_descs (by decide) [] _
      rfl 2 (by decide)).2.2 (by decide)).1,
   ((prediction_accessors sample_kernels sample_io_descs sample_layer_descs (by decide) [] _
      rfl 2 (by decide)).2.2 (by decide)).2.1⟩

theorem prediction_size_witness :
    (0 < sample_layer_descs.length ∧ 0 < sample_io_descs.length ∧
      (sample_io_descs.getD 0 default).type = IO_Type.prediction) ∧
    ((get_prediction_cis (Hierarchy.create sample_kernels sample_io_descs sample_layer_descs)
        ((0 : Nat) : Int)).length : Int) =
      ((Hierarchy.create sample_kernels sample_io_descs sample_layer_descs).io_sizes.getD 0
          default).x *
        ((Hierarchy.create sample_kernels sample_io_descs sample_layer_descs).io_sizes.getD 0
          default).y :=
  ⟨⟨by decide, by decide, by decide⟩,
   (prediction_size sample_kernels sample_kernels_hidden sample_io_descs sample_layer_descs
      (by decide) 0 (by decide)).2.2 (Or.inl (by decide)) (by decide)⟩

set_option maxRecDepth 100000 in
theorem size_counts_write_witness :
    (write sample_kernels
      (run sample_kernels (Hierarchy.create sample_kernels small_io_descs small_layer_descs)
        [Call.step [[1]] true 0 0])).length < 2147483648 ∧
    size sample_kernels
      (run sample_kernels (Hierarchy.create sample_kernels small_io_descs small_layer_descs)
        [Call.step [[1]] true 0 0]) =
      ((write sample_kernels
        (run sample_kernels (Hierarchy.create sample_kernels small_io_descs small_layer_descs)
          [Call.step [[1]] true 0 0])).length : Int) :=
  ⟨by decide,
   size_counts_write sample_kernels sample_kernels_sizes.1 sample_kernels_sizes.2.1
    sample_kernels_sizes.2.2.1 sample_kernels_sizes.2.2.2.1 sample_kernels_sizes.2.2.2.2.1
    sample_kernels_sizes.2.2.2.2.2 small_io_descs small_layer_descs [Call.step [[1]] true 0 0]
    (by decide)⟩

/-! ## `CircleBuffer` -/

theorem emod_sub_self (a n : Int) : (a - n) % n = a % n := by
  rw [show a - n = a + (-1) * n by ring, Int.add_mul_emod_self]

theorem pushFront_start {α : Type} (b : CircleBuffer α) (h0 : 0 ≤ b.start)
    (h1 : b.start < b.size) :
    b.pushFront.start = (b.start - 1) % b.size ∧ b.pushFront.data = b.data := by
  refine ⟨?_, rfl⟩
  simp only [CircleBuffer.pushFront, CircleBuffer.size] at h1 ⊢
  by_cases hs : b.start - 1 < 0
  · rw [if_pos hs]
    have e : b.start = 0 := by omega
    rw [e]
    have hpos : (0 : Int) < (b.data.length : Int) := by omega
    rw [show (0 : Int) - 1 = ((b.data.length : Int) - 1) - (b.data.length : Int) by ring,
      emod_sub_self, Int.emod_eq_of_lt (by omega) (by omega)]
    ring
  · rw [if_neg hs, Int.emod_eq_of_lt (by omega) (by omega)]

theorem pushFront_iterate {α : Type} (b : CircleBuffer α) (h0 : 0 ≤ b.start)
    (h1 : b.start < b.size) (k : Nat) :
    (Nat.iterate CircleBuffer.pushFront k b).start = (b.start - (k : Int)) % b.size ∧
    (Nat.iterate CircleBuffer.pushFront k b).data = b.data := by
  induction k with
  | zero =>
    refine ⟨?_, rfl⟩
    simp only [Function.iterate_zero, id_eq, Nat.cast_zero, sub_zero]
    exact (Int.emod_eq_of_lt h0 h1).symm
  | succ k ih =>
    have hpos : (0 : Int) < b.size := by omega
    have hsz : (Nat.iterate CircleBuffer.pushFront k b).size = b.size := by
      simp only [CircleBuffer.size, ih.2]
    have a0 : 0 ≤ (Nat.iterate CircleBuffer.pushFront k b).start := by
      rw [ih.1]; exact Int.emod_nonneg _ (by omega)
    have a1 : (Nat.iterate CircleBuffer.pushFront k b).start <
        (Nat.iterate CircleBuffer.pushFront k b).size := by
      rw [hsz, ih.1]; exact Int.emod_lt_of_pos _ hpos
    obtain ⟨p1, p2⟩ := pushFront_start _ a0 a1
    rw [Function.iterate_succ_apply']
    refine ⟨?_, p2.trans ih.2⟩
    rw [p1, hsz, ih.1, Int.sub_emod ((b.start - (k : Int)) % b.size), Int.emod_emod,
      ← Int.sub_emod]
    congr 1
    push_cast
    ring

/-- C29: for every `CircleBuffer` of size `n >= 1` with `0 <= start < n`, `pushFront`
keeps the size `n` and the storage, and keeps `start` in `[0, n)`; afterwards the element
at the logical index `k + 1` is the element that was at the logical index `k`, for every
`0 <= k < n - 1`; the logical index `0` addresses the slot that held the back element, so
the element read there is the old `back()`; `front()` is `operator[](0)` and `back()` is
`operator[](n - 1)`, before and after; and `n` consecutive `pushFront` calls return
`start` to its original value. -/
theorem pushFront_ring {α : Type} [Inhabited α] (b : CircleBuffer α) (n : Nat)
    (hn : 1 ≤ n) (hsize : b.size = (n : Int)) (h0 : 0 ≤ b.start) (h1 : b.start < (n : Int)) :
    b.pushFront.size = (n : Int) ∧ b.pushFront.data = b.data ∧
    0 ≤ b.pushFront.start ∧ b.pushFront.start < (n : Int) ∧
    (∀ k : Nat, k + 1 < n → b.pushFront.get ((k : Int) + 1) = b.get (k : Int)) ∧
    b.pushFront.slot 0 = b.slot ((n : Int) - 1) ∧
    b.pushFront.get 0 = b.back ∧
    (b.front = b.get 0 ∧ b.back = b.get ((n : Int) - 1)) ∧
    (b.pushFront.front = b.pushFront.get 0 ∧
      b.pushFront.back = b.pushFront.get ((n : Int) - 1)) ∧
    (Nat.iterate CircleBuffer.pushFront n b).start = b.start ∧
    Nat.iterate CircleBuffer.pushFront n b = b := by
  have hlen : (b.data.length : Int) = (n : Int) := hsize
  obtain ⟨p1, p2⟩ := pushFront_start b h0 (by rw [hsize]; exact h1)
  rw [hsize] at p1
  have q0 : 0 ≤ b.pushFront.start := by rw [p1]; exact Int.emod_nonneg _ (by omega)
  have q1 : b.pushFront.start < (n : Int) := by rw [p1]; exact Int.emod_lt_of_pos _ (by omega)
  have hlen' : (b.pushFront.data.length : Int) = (n : Int) := by rw [p2]; exact hlen
  have hslot : ∀ (c : CircleBuffer α) (i : Int), (c.data.length : Int) = (n : Int) →
      0 ≤ c.start + i → c.slot i = (c.start + i) % (n : Int) := by
    intro c i hc hi
    simp only [CircleBuffer.slot]
    rw [hc, Int.tmod_eq_emod hi (by omega)]
  have hshift : ∀ i : Int, 0 ≤ i → b.pushFront.slot (i + 1) = b.slot i := by
    intro i hi
    rw [hslot _ _ hlen' (by omega), hslot _ _ hlen (by omega), p1, Int.emod_add_emod]
    congr 1
    ring
  have hzero : b.pushFront.slot 0 = b.slot ((n : Int) - 1) := by
    rw [hslot _ _ hlen' (by omega), hslot _ _ hlen (by omega), p1, add_zero, Int.emod_emod,
      show b.start + ((n : Int) - 1) = (b.start - 1) + 1 * (n : Int) by ring,
      Int.add_mul_emod_self]
  have hfront : ∀ c : CircleBuffer α, (c.data.length : Int) = (n : Int) → 0 ≤ c.start →
      c.start < (n : Int) → c.front = c.get 0 ∧ c.back = c.get ((n : Int) - 1) := by
    intro c hc c0 c1
    constructor
    · simp only [CircleBuffer.front, CircleBuffer.get]
      rw [hslot c 0 hc (by omega), add_zero, Int.emod_eq_of_lt c0 c1]
    · simp only [CircleBuffer.back, CircleBuffer.get, CircleBuffer.slot, hc]
      rw [show c.start + (n : Int) - 1 = c.start + ((n : Int) - 1) by ring]
  obtain ⟨i1, i2⟩ := pushFront_iterate b h0 (by rw [hsize]; exact h1) n
  have istart : (Nat.iterate CircleBuffer.pushFront n b).start = b.start := by
    rw [i1, hsize, emod_sub_self, Int.emod_eq_of_lt h0 h1]
  refine ⟨by simp only [CircleBuffer.size]; exact hlen', p2, q0, q1, ?_, hzero, ?_,
    hfront b hlen h0 h1, hfront _ hlen' q0 q1, istart, ?_⟩
  · intro k hk
    simp only [CircleBuffer.get, p2]
    rw [hshift k (by omega)]
  · simp only [CircleBuffer.get, CircleBuffer.back, p2, hzero]
    simp only [CircleBuffer.slot, hlen]
    rw [show b.start + (n : Int) - 1 = b.start + ((n : Int) - 1) by ring]
  · cases hb : Nat.iterate CircleBuffer.pushFront n b with
    | mk d s =>
      rw [hb] at i2 istart
      simp only at i2 istart
      cases b
      simp only at i2 istart ⊢
      rw [i2, istart]

theorem pushFront_ring_witness :
    ((1 : Nat) ≤ 3 ∧ (CircleBuffer.mk [10, 11, 12] 0 : CircleBuffer Int).size = ((3 : Nat) : Int)) ∧
    (CircleBuffer.mk [10, 11, 12] 0 : CircleBuffer Int).pushFront.start = 2 ∧
    (CircleBuffer.mk [10, 11, 12] 0 : CircleBuffer Int).pushFront.get 0 =
      (CircleBuffer.mk [10, 11, 12] 0 : CircleBuffer Int).back ∧
    Nat.iterate CircleBuffer.pushFront 3 (CircleBuffer.mk [10, 11, 12] 0 : CircleBuffer Int) =
      (CircleBuffer.mk [10, 11, 12] 0 : CircleBuffer Int) :=
  ⟨⟨by decide, by decide⟩, by decide,
   (pushFront_ring (CircleBuffer.mk [10, 11, 12] 0 : CircleBuffer Int) 3 (by decide)
      (by decide) (by decide) (by decide)).2.2.2.2.2.2.1,
   (pushFront_ring (CircleBuffer.mk [10, 11, 12] 0 : CircleBuffer Int) 3 (by decide)
      (by decide) (by decide) (by decide)).2.2.2.2.2.2.2.2.2.2⟩

/-! ## `Hierarchy::state_size` -/

theorem length_write_state_history (b : Circle_Buffer Int_Buffer) (size : Int) :
    (List.range b.data.length).foldl (fun (size : Int) (t : Nat) =>
      size + ((b.get t).length : Int) * 4) (size + 4) =
      size + ((write_state_history b).length : Int) := by
  rw [foldl_size _ (fun (t : Nat) => write_ints (b.get t))
    (fun s t => by
      simp only [length_write_ints, Nat.cast_mul, Nat.cast_ofNat]
      ring)]
  simp only [write_state_history, List.length_append, length_le32, Nat.cast_add,
    Nat.cast_ofNat]
  ring

theorem state_size_histories_eq (h : Hierarchy) (l : Nat) (size : Int) :
    state_size_histories h l size =
      size + (((List.range (h.histories.getD l default).length).flatMap (fun (i : Nat) =>
        write_state_history ((h.histories.getD l default).getD i default))).length : Int) := by
  unfold state_size_histories
  rw [foldl_size _ (fun (i : Nat) =>
    write_state_history ((h.histories.getD l default).getD i default))
    (fun s i => length_write_state_history ((h.histories.getD l default).getD i default) s)]

theorem state_size_layer_eq (K : Kernels) (h : Hierarchy)
    (henc : ∀ e, K.enc_state_size e = ((K.enc_write_state e).length : Int))
    (hdec : ∀ d, K.dec_state_size d = ((K.dec_write_state d).length : Int)) (size : Int)
    (l : Nat) :
    state_size_layer K h size l = size + ((write_state_layer K h l).length : Int) := by
  simp only [state_size_layer]
  rw [foldl_size _
    (fun (d : Nat) => K.dec_write_state ((h.decoders.getD l default).getD d default))
    (fun s d => by rw [hdec]), state_size_histories_eq, henc]
  simp only [write_state_layer, List.length_append, Nat.cast_add]
  ring

/-- C22: for every hierarchy, an initialised one in particular, `state_size()` equals the
total number of bytes that `write_state` passes to the writer, assuming that the
`state_size()` of every encoder, decoder and actor equals the number of bytes its
`write_state` emits and that the number of bytes is a value of the type `int` of the
result. -/
theorem state_size_counts_write_state (K : Kernels) (h : Hierarchy)
    (henc : ∀ e, K.enc_state_size e = ((K.enc_write_state e).length : Int))
    (hdec : ∀ d, K.dec_state_size d = ((K.dec_write_state d).length : Int))
    (hact : ∀ a, K.act_state_size a = ((K.act_write_state a).length : Int))
    (hfit : (write_state K h).length < 2147483648) :
    state_size K h = ((write_state K h).length : Int) := by
  have htotal : state_size K h = wrap_int ((write_state K h).length : Int) := by
    unfold state_size
    simp only []
    rw [foldl_size (state_size_layer K h) (write_state_layer K h)
        (fun s l => state_size_layer_eq K h henc hdec s l),
      foldl_size _ (fun (d : Nat) => K.act_write_state (h.actors.getD d default))
        (fun s d => by rw [hact])]
    refine congrArg wrap_int ?_
    simp only [write_state, List.length_append, Nat.cast_add, length_write_ints,
      Nat.cast_mul, Nat.cast_ofNat]
    ring
  rw [htotal, wrap_int_of_fits _ hfit]

theorem sample_kernels_state_sizes :
    (∀ e, sample_kernels.enc_state_size e = ((sample_kernels.enc_write_state e).length : Int)) ∧
    (∀ d, sample_kernels.dec_state_size d = ((sample_kernels.dec_write_state d).length : Int)) ∧
    (∀ a, sample_kernels.act_state_size a = ((sample_kernels.act_write_state a).length : Int)) := by
  refine ⟨fun e => ?_, fun d => ?_, fun a => ?_⟩ <;>
    simp only [sample_kernels, length_write_ints] <;> push_cast <;> ring

set_option maxRecDepth 100000 in
theorem state_size_counts_write_state_witness :
    (write_state sample_kernels
      (run sample_kernels (Hierarchy.create sample_kernels sample_io_descs sample_layer_descs)
        [Call.step (sample_inputs 0) true 0 0])).length < 2147483648 ∧
    state_size sample_kernels
      (run sample_kernels (Hierarchy.create sample_kernels sample_io_descs sample_layer_descs)
        [Call.step (sample_inputs 0) true 0 0]) =
      ((write_state sample_kernels
        (run sample_kernels (Hierarchy.create sample_kernels sample_io_descs sample_layer_descs)
          [Call.step (sample_inputs 0) true 0 0])).length : Int) :=
  ⟨by decide,
   state_size_counts_write_state sample_kernels _ sample_kernels_state_sizes.1
    sample_kernels_state_sizes.2.1 sample_kernels_state_sizes.2.2 (by decide)⟩

/-! ## Reading back what was written -/

/-- A loop that reads, chunk after chunk, a stream made of the chunks `g 0, g 1, ...`:
when every iteration consumes its chunk and keeps the invariant, the loop consumes the
chunks and nothing more. -/
theorem read_fold {σ : Type} (f : σ × List Byte → Nat → σ × List Byte) (g : Nat → List Byte)
    (Inv : Nat → σ → Prop) (n : Nat)
    (hstep : ∀ k, k < n → ∀ (s : σ) (tail : List Byte), Inv k s →
      (f (s, g k ++ tail) k).2 = tail ∧ Inv (k + 1) (f (s, g k ++ tail) k).1)
    (s0 : σ) (h0 : Inv 0 s0) (tail : List Byte) :
    ((List.range n).foldl f (s0, (List.range n).flatMap g ++ tail)).2 = tail ∧
    Inv n ((List.range n).foldl f (s0, (List.range n).flatMap g ++ tail)).1 := by
  induction n generalizing tail with
  | zero => exact ⟨rfl, h0⟩
  | succ n ih =>
    obtain ⟨i1, i2⟩ := ih (fun k hk => hstep k (by omega)) (g n ++ tail)
    rw [List.range_succ, List.foldl_append, List.flatMap_append, List.append_assoc]
    simp only [List.flatMap_cons, List.flatMap_nil, List.append_nil, List.foldl_cons,
      List.foldl_nil]
    have e : (List.range n).foldl f (s0, (List.range n).flatMap g ++ (g n ++ tail)) =
        (((List.range n).foldl f (s0, (List.range n).flatMap g ++ (g n ++ tail))).1,
          g n ++ tail) := Prod.ext rfl i1
    rw [e]
    exact hstep n (by omega) _ tail i2

theorem ring_put_natCast {α : Type} (data : List α) (s t : Nat) (v : α) :
    (CircleBuffer.mk data (s : Int)).put (t : Int) v =
      CircleBuffer.mk (data.set ((s + t) % data.length) v) (s : Int) := by
  simp only [CircleBuffer.put, ring_slot_natCast]
  congr 1

theorem ring_pos_ne (s t t' n : Nat) (ht : t < n) (ht' : t' < n) (hne : t' ≠ t) :
    (s + t') % n ≠ (s + t) % n := by
  intro he
  have h1 : (s + t') % n = (s + t) % n := he
  rcases Nat.lt_or_gt_of_ne hne with hlt | hgt
  · have := (Nat.modEq_iff_dvd' (by omega : s + t' ≤ s + t)).1 h1
    have e : s + t - (s + t') = t - t' := by omega
    rw [e] at this
    have := Nat.le_of_dvd (by omega) this
    omega
  · have := (Nat.modEq_iff_dvd' (by omega : s + t ≤ s + t')).1 h1.symm
    have e : s + t' - (s + t) = t' - t := by omega
    rw [e] at this
    have := Nat.le_of_dvd (by omega) this
    omega

/-- Writing the logical entry `t` of a ring: the entry is the value written, the other
entries, the start and the number of slots are kept. -/
theorem ring_put_spec {α : Type} [Inhabited α] (data : List α) (s t : Nat) (v : α)
    (ht : t < data.length) :
    ((CircleBuffer.mk data (s : Int)).put (t : Int) v).start = (s : Int) ∧
    ((CircleBuffer.mk data (s : Int)).put (t : Int) v).data.length = data.length ∧
    ((CircleBuffer.mk data (s : Int)).put (t : Int) v).get (t : Int) = v ∧
    ∀ t', t' < data.length → t' ≠ t →
      ((CircleBuffer.mk data (s : Int)).put (t : Int) v).get (t' : Int) =
        (CircleBuffer.mk data (s : Int)).get (t' : Int) := by
  rw [ring_put_natCast]
  have hpos : 0 < data.length := by omega
  refine ⟨rfl, by simp, ?_, ?_⟩
  · rw [ring_get_natCast, List.length_set, getD_set,
      if_pos ⟨rfl, Nat.mod_lt _ hpos⟩]
  · intro t' ht' hne
    rw [ring_get_natCast, ring_get_natCast, List.length_set, getD_set,
      if_neg (fun hh => ring_pos_ne s t' t data.length ht' ht (Ne.symm hne) hh.1)]

/-- Two rings with the same start inside the ring and the same logical entries are the
same ring. -/
theorem ring_ext {α : Type} [Inhabited α] (data data' : List α) (s : Nat)
    (hs : s < data.length) (hlen : data'.length = data.length)
    (hget : ∀ t, t < data.length →
      (CircleBuffer.mk data' (s : Int)).get (t : Int) =
        (CircleBuffer.mk data (s : Int)).get (t : Int)) :
    data' = data := by
  apply List.ext_getElem hlen
  intro p hp' hp
  have h := hget ((p + data.length - s) % data.length) (Nat.mod_lt _ (by omega))
  rw [ring_get_natCast, ring_get_natCast, hlen] at h
  have e : (s + (p + data.length - s) % data.length) % data.length = p := by
    rw [Nat.add_mod_mod, show s + (p + data.length - s) = p + data.length by omega,
      Nat.add_mod_right, Nat.mod_eq_of_lt hp]
  rw [e] at h
  simp only [List.getD_eq_getElem?_getD, List.getElem?_eq_getElem hp,
    List.getElem?_eq_getElem hp', Option.getD_some] at h
  exact h

theorem ring_get_mem {α : Type} [Inhabited α] (data : List α) (s t : Nat)
    (hpos : 0 < data.length) :
    (CircleBuffer.mk data (s : Int)).get (t : Int) ∈ data := by
  rw [ring_get_natCast, List.getD_eq_getElem?_getD,
    List.getElem?_eq_getElem (Nat.mod_lt _ hpos)]
  exact List.getElem_mem _

theorem ring_mk_start {α : Type} (b : CircleBuffer α) (h0 : 0 ≤ b.start) :
    b = CircleBuffer.mk b.data ((b.start.toNat : Nat) : Int) := by
  cases b with
  | mk d s =>
    simp only at h0 ⊢
    rw [Int.toNat_of_nonneg h0]

/-- Lines 468-476 on the bytes that lines 378-384 wrote for slot `k` of a ring. -/
theorem read_history_slot_spec (data cd : List Int_Buffer) (s k : Nat) (tail : List Byte)
    (hk : k < data.length) (hcd : cd.length = data.length)
    (hbuf : ∀ buf ∈ data, buf.length < 2147483648 ∧ ∀ x ∈ buf, is_int x)
    (hprev : ∀ t', t' < k → (CircleBuffer.mk cd (s : Int)).get (t' : Int) =
      (CircleBuffer.mk data (s : Int)).get (t' : Int)) :
    ∃ cd', read_history_slot (CircleBuffer.mk cd (s : Int),
        (le32 ((CircleBuffer.mk data (s : Int)).get (k : Int)).length ++
          write_ints ((CircleBuffer.mk data (s : Int)).get (k : Int))) ++ tail) k =
        (CircleBuffer.mk cd' (s : Int), tail) ∧
      cd'.length = data.length ∧
      ∀ t', t' < k + 1 → (CircleBuffer.mk cd' (s : Int)).get (t' : Int) =
        (CircleBuffer.mk data (s : Int)).get (t' : Int) := by
  have hpos : 0 < data.length := by omega
  obtain ⟨hb1, hb2⟩ := hbuf _ (ring_get_mem data s k hpos)
  generalize hv : (CircleBuffer.mk data (s : Int)).get (k : Int) = buf at hb1 hb2 ⊢
  have hk' : k < cd.length := by omega
  simp only [read_history_slot, List.append_assoc]
  rw [read_int_le32 _ (is_int_natCast _ hb1)]
  simp only
  obtain ⟨a1, a2, a3, a4⟩ := ring_put_spec cd s k
    (Array_resize ((CircleBuffer.mk cd (s : Int)).get (k : Int)) (buf.length : Int)) hk'
  generalize (CircleBuffer.mk cd (s : Int)).put (k : Int)
    (Array_resize ((CircleBuffer.mk cd (s : Int)).get (k : Int)) (buf.length : Int)) = X
    at a1 a2 a3 a4 ⊢
  obtain ⟨d1, s1⟩ := X
  simp only at a1 a2
  subst a1
  have hl : ((CircleBuffer.mk d1 (s : Int)).get (k : Int)).length = buf.length := by
    rw [a3, length_Array_resize]
  rw [hl, show read_ints buf.length (write_ints buf ++ tail) = (buf, tail) from
    Prod.ext (read_ints_write_ints buf hb2 tail) (read_ints_snd buf tail)]
  simp only
  obtain ⟨c1, c2, c3, c4⟩ := ring_put_spec d1 s k buf (by omega)
  generalize (CircleBuffer.mk d1 (s : Int)).put (k : Int) buf = Y at c1 c2 c3 c4 ⊢
  obtain ⟨d2, s2⟩ := Y
  simp only at c1 c2
  subst c1
  refine ⟨d2, rfl, by omega, ?_⟩
  intro t' ht'
  by_cases hkt : t' = k
  · subst hkt
    rw [c3, hv]
  · rw [c4 t' (by omega) hkt, a4 t' (by omega) hkt]
    exact hprev t' (by omega)

/-- Lines 457-476 on the bytes that lines 371-385 wrote for a ring: the ring is read
back, and nothing more is consumed. -/
theorem read_history_write_history (b0 b : Circle_Buffer Int_Buffer) (tail : List Byte)
    (hlen : b.data.length < 2147483648) (hst : is_int b.start)
    (hring : b.data = [] ∨ (0 ≤ b.start ∧ b.start < b.size))
    (hbuf : ∀ buf ∈ b.data, buf.length < 2147483648 ∧ ∀ x ∈ buf, is_int x) :
    read_history b0 (write_history b ++ tail) = (b, tail) := by
  simp only [read_history, write_history, List.append_assoc]
  rw [read_int_le32 _ (is_int_natCast _ hlen)]
  simp only
  rw [read_int_le32 _ hst]
  simp only [CircleBuffer.resize, length_Array_resize]
  rcases hring with hnil | ⟨h0, h1⟩
  · cases b with
    | mk d s =>
      simp only at hnil
      subst hnil
      simp only [List.length_nil, List.range_zero, List.foldl_nil, List.flatMap_nil,
        List.nil_append, Prod.mk.injEq, and_true]
      congr 1
      exact List.eq_nil_of_length_eq_zero (length_Array_resize _ 0)
  · have hb := ring_mk_start b h0
    generalize hs : b.start.toNat = s at hb
    have hs' : b.start = (s : Int) := by rw [← hs, Int.toNat_of_nonneg h0]
    have hsn : s < b.data.length := by
      simp only [CircleBuffer.size] at h1
      omega
    rw [hs']
    obtain ⟨r1, r2⟩ := read_fold read_history_slot
      (fun t => le32 (b.get (t : Int)).length ++ write_ints (b.get (t : Int)))
      (fun k c => c.start = (s : Int) ∧ c.data.length = b.data.length ∧
        ∀ t', t' < k → c.get (t' : Int) = b.get (t' : Int)) b.data.length
      (fun k hk c tl hc => by
        obtain ⟨i1, i2, i3⟩ := hc
        obtain ⟨cd, cs⟩ := c
        simp only at i1 i2 i3
        subst i1
        rw [hb] at i3 ⊢
        obtain ⟨cd', e1, e2, e3⟩ := read_history_slot_spec b.data cd s k tl hk i2 hbuf i3
        rw [e1]
        exact ⟨rfl, rfl, e2, e3⟩)
      (CircleBuffer.mk (Array_resize b0.data (b.data.length : Int)) (s : Int))
      ⟨rfl, length_Array_resize _ _, fun t' ht' => absurd ht' (Nat.not_lt_zero _)⟩ tail
    generalize (List.range b.data.length).foldl read_history_slot
      (CircleBuffer.mk (Array_resize b0.data (b.data.length : Int)) (s : Int),
        (List.range b.data.length).flatMap
          (fun t => le32 (b.get (t : Int)).length ++ write_ints (b.get (t : Int))) ++ tail) = R
      at r1 r2 ⊢
    obtain ⟨⟨rd, rs⟩, rt⟩ := R
    simp only at r1 r2
    obtain ⟨q1, q2, q3⟩ := r2
    subst q1 r1
    have : rd = b.data := by
      refine ring_ext b.data rd s hsn q2 (fun t ht => ?_)
      have := q3 t ht
      rw [hb] at this
      exact this
    rw [this]
    exact Prod.ext hb.symm rfl

theorem read_structs_flatMap {α : Type} (of_bytes : List Byte → α) (bytes : α → List Byte)
    (size : Nat) (xs : List α) (s : List Byte)
    (hlen : ∀ v, (bytes v).length = size) (hinv : ∀ v ∈ xs, of_bytes (bytes v) = v) :
    read_structs of_bytes size xs.length (xs.flatMap bytes ++ s) = (xs, s) := by
  refine Prod.ext ?_ (read_structs_snd of_bytes size xs.length _ s
    (length_flatMap_const bytes size xs hlen))
  simp only [read_structs]
  apply List.ext_getElem
  · simp
  · intro i h1 h2
    simp only [List.getElem_map, List.getElem_range]
    have hsplit : xs.flatMap bytes = (xs.take i).flatMap bytes ++ (bytes xs[i] ++
        (xs.drop (i + 1)).flatMap bytes) := by
      conv_lhs => rw [← List.take_append_drop i xs, List.drop_eq_getElem_cons h2]
      simp only [List.flatMap_append, List.flatMap_cons]
    have hl : ((xs.take i).flatMap bytes).length = size * i := by
      rw [length_flatMap_const bytes size _ hlen, List.length_take]
      congr 1
      omega
    rw [hsplit, List.append_assoc, List.drop_left' hl, List.append_assoc,
      List.take_left' (hlen _)]
    exact hinv _ (List.getElem_mem _)

theorem read_ints_append (xs : List Int) (hxs : ∀ x ∈ xs, is_int x) (s : List Byte) :
    read_ints xs.length (write_ints xs ++ s) = (xs, s) :=
  Prod.ext (read_ints_write_ints xs hxs s) (read_ints_snd xs s)

/-- Lines 410-447 on a dump: the head of the dump of `h` is read back. -/
theorem read_head_dump (K : Kernels) (h h0 : Hierarchy) (tail : List Byte)
    (hInt3 : ∀ v, (K.Int3_bytes v).length = K.sizeof_Int3)
    (hInt3r : ∀ v ∈ h.io_sizes, K.Int3_of_bytes (K.Int3_bytes v) = v)
    (hs : Dump_shape h) (hf : Fits_int h) :
    (read_head K h0 (write_head K h ++ tail)).rest = tail ∧
    (read_head K h0 (write_head K h ++ tail)).num_layers = h.encoders.length ∧
    (read_head K h0 (write_head K h ++ tail)).num_io = h.io_sizes.length ∧
    (read_head K h0 (write_head K h ++ tail)).num_predictions =
      (h.decoders.getD 0 default).length ∧
    (read_head K h0 (write_head K h ++ tail)).num_actions = h.actors.length ∧
    (read_head K h0 (write_head K h ++ tail)).hier.io_sizes = h.io_sizes ∧
    (read_head K h0 (write_head K h ++ tail)).hier.io_types = h.io_types ∧
    (read_head K h0 (write_head K h ++ tail)).hier.updates = h.updates ∧
    (read_head K h0 (write_head K h ++ tail)).hier.ticks = h.ticks ∧
    (read_head K h0 (write_head K h ++ tail)).hier.ticks_per_update = h.ticks_per_update ∧
    (read_head K h0 (write_head K h ++ tail)).hier.i_indices = h.i_indices ∧
    (read_head K h0 (write_head K h ++ tail)).hier.d_indices = h.d_indices ∧
    (read_head K h0 (write_head K h ++ tail)).hier.encoders.length = h.encoders.length ∧
    (read_head K h0 (write_head K h ++ tail)).hier.decoders.length = h.encoders.length ∧
    (read_head K h0 (write_head K h ++ tail)).hier.histories.length = h.encoders.length ∧
    (read_head K h0 (write_head K h ++ tail)).hier.actors = h0.actors ∧
    (read_head K h0 (write_head K h ++ tail)).hier.params = h0.params := by
  obtain ⟨_, _, s3, s4, s5, s6, s7, s8, _, _, _, _⟩ := hs
  obtain ⟨i1, i2, i3, i4, f1, f2, f3, f4, _⟩ := hf
  have e0 : write_head K h ++ tail =
      le32 h.encoders.length ++ (le32 h.io_sizes.length ++
        (le32 (h.decoders.getD 0 default).length ++ (le32 h.actors.length ++
          ((Array_first h.io_sizes h.io_sizes.length default).flatMap K.Int3_bytes ++
            (Array_first h.io_types h.io_sizes.length 0 ++ (h.updates ++
              (write_ints h.ticks ++ (write_ints h.ticks_per_update ++
                (write_ints h.i_indices ++ (write_ints h.d_indices ++ tail)))))))))) := by
    simp only [write_head, List.append_assoc]
  have l6 : Array_first h.io_types h.io_sizes.length 0 = h.io_types := by
    rw [← s6, Array_first_self]
  have r5 := read_structs_flatMap K.Int3_of_bytes K.Int3_bytes K.sizeof_Int3 h.io_sizes
    (h.io_types ++ (h.updates ++
      (write_ints h.ticks ++ (write_ints h.ticks_per_update ++
        (write_ints h.i_indices ++ (write_ints h.d_indices ++ tail)))))) hInt3 hInt3r
  have r6 := read_bytes_append h.io_types (h.updates ++
      (write_ints h.ticks ++ (write_ints h.ticks_per_update ++
        (write_ints h.i_indices ++ (write_ints h.d_indices ++ tail)))))
  rw [s6] at r6
  have r7 := read_bytes_append h.updates
      (write_ints h.ticks ++ (write_ints h.ticks_per_update ++
        (write_ints h.i_indices ++ (write_ints h.d_indices ++ tail))))
  rw [s3] at r7
  have r8 := read_ints_append h.ticks f1 (write_ints h.ticks_per_update ++
        (write_ints h.i_indices ++ (write_ints h.d_indices ++ tail)))
  rw [s4] at r8
  have r9 := read_ints_append h.ticks_per_update f2
        (write_ints h.i_indices ++ (write_ints h.d_indices ++ tail))
  rw [s5] at r9
  have r10 := read_ints_append h.i_indices f3 (write_ints h.d_indices ++ tail)
  rw [s7] at r10
  have r11 := read_ints_append h.d_indices f4 tail
  rw [s8] at r11
  have c2 : ((h.io_sizes.length : Int) * 2) = ((h.io_sizes.length * 2 : Nat) : Int) := by
    push_cast; rfl
  rw [e0, Array_first_self, l6]
  simp only [read_head, read_int_le32 _ (is_int_natCast _ i1),
    read_int_le32 _ (is_int_natCast _ i2), read_int_le32 _ (is_int_natCast _ i3),
    read_int_le32 _ (is_int_natCast _ i4), Int.toNat_ofNat, r5, r6, length_Array_resize, r7,
    r8, r9, c2, r10, r11, and_self]

theorem getD_mem_of_lt {α : Type} (xs : List α) (i : Nat) (d : α) (hi : i < xs.length) :
    xs.getD i d ∈ xs := by
  rw [List.getD_eq_getElem?_getD, List.getElem?_eq_getElem hi]
  exact List.getElem_mem _

/-- Lines 450-477 on the bytes that lines 366-386 wrote for the rings `rings` of a
layer: the rings of layer `l` become `rings`, nothing else changes and nothing more is
consumed. -/
theorem read_layer_histories_dump (l : Nat) (x : Hierarchy)
    (rings : List (Circle_Buffer Int_Buffer)) (tail : List Byte)
    (hl : l < x.histories.length) (hn : rings.length < 2147483648)
    (hrings : ∀ b ∈ rings, b.data.length < 2147483648 ∧ is_int b.start ∧
      (b.data = [] ∨ (0 ≤ b.start ∧ b.start < b.size)) ∧
      ∀ buf ∈ b.data, buf.length < 2147483648 ∧ ∀ x ∈ buf, is_int x) :
    (read_layer_histories l (x, le32 rings.length ++
      ((List.range rings.length).flatMap (fun (i : Nat) =>
        write_history (rings.getD i default)) ++ tail))).2 = tail ∧
    (read_layer_histories l (x, le32 rings.length ++
      ((List.range rings.length).flatMap (fun (i : Nat) =>
        write_history (rings.getD i default)) ++ tail))).1.histories =
      x.histories.set l rings ∧
    dump_frame (read_layer_histories l (x, le32 rings.length ++
      ((List.range rings.length).flatMap (fun (i : Nat) =>
        write_history (rings.getD i default)) ++ tail))).1 = dump_frame x ∧
    (read_layer_histories l (x, le32 rings.length ++
      ((List.range rings.length).flatMap (fun (i : Nat) =>
        write_history (rings.getD i default)) ++ tail))).1.encoders = x.encoders ∧
    (read_layer_histories l (x, le32 rings.length ++
      ((List.range rings.length).flatMap (fun (i : Nat) =>
        write_history (rings.getD i default)) ++ tail))).1.decoders = x.decoders := by
  simp only [read_layer_histories]
  rw [read_int_le32 _ (is_int_natCast _ hn)]
  simp only
  have hlen : ((Array_update x.histories l (fun hs =>
      Array_resize hs (rings.length : Int))).getD l default).length = rings.length := by
    rw [getD_Array_update, if_pos ⟨rfl, hl⟩, length_Array_resize]
  rw [hlen]
  obtain ⟨r1, r2⟩ := read_fold (read_layer_history l)
    (fun (i : Nat) => write_history (rings.getD i default))
    (fun k y => y.histories.length = x.histories.length ∧
      (y.histories.getD l default).length = rings.length ∧
      (∀ i, i < k → (y.histories.getD l default)[i]? = rings[i]?) ∧
      (∀ l', l' ≠ l → y.histories[l']? = x.histories[l']?) ∧
      dump_frame y = dump_frame x ∧ y.encoders = x.encoders ∧ y.decoders = x.decoders)
    rings.length
    (fun k hk y tl hy => by
      obtain ⟨y1, y2, y3, y4, y5, y6, y7⟩ := hy
      obtain ⟨b1, b2, b3, b4⟩ := hrings _ (getD_mem_of_lt rings k default hk)
      simp only [read_layer_history]
      rw [read_history_write_history _ _ _ b1 b2 b3 b4]
      simp only
      have hly : l < y.histories.length := by omega
      refine ⟨trivial, ?_, ?_, ?_, ?_, y5, y6, y7⟩
      · rw [length_Array_update]; exact y1
      · rw [getD_Array_update, if_pos ⟨rfl, hly⟩, List.length_set]; exact y2
      · intro i hi
        rw [getD_Array_update, if_pos ⟨rfl, hly⟩, List.getElem?_set]
        by_cases hik : k = i
        · subst hik
          rw [if_pos rfl, if_pos (by omega)]
          exact (getElem?_eq_some_getD rings k hk default).symm
        · rw [if_neg hik]
          exact y3 i (by omega)
      · intro l' hl'
        rw [getElem?_Array_update, if_neg (fun hh => hl' hh.1.symm)]
        exact y4 l' hl')
    ({ x with histories := Array_update x.histories l (fun hs =>
        Array_resize hs (rings.length : Int)) })
    ⟨by simp, hlen, fun i hi => absurd hi (Nat.not_lt_zero _),
      fun l' hl' => by
        simp only
        rw [getElem?_Array_update, if_neg (fun hh => hl' hh.1.symm)], rfl, rfl, rfl⟩ tail
  obtain ⟨q1, q2, q3, q4, q5, q6, q7⟩ := r2
  refine ⟨r1, ?_, q5, q6, q7⟩
  apply List.ext_getElem?
  intro j
  rw [List.getElem?_set]
  by_cases hj : l = j
  · subst hj
    rw [if_pos rfl, if_pos hl, getElem?_eq_some_getD _ l (by omega) default]
    congr 1
    apply List.ext_getElem? 
    intro i
    by_cases hi : i < rings.length
    · exact q3 i hi
    · rw [List.getElem?_eq_none (by omega), List.getElem?_eq_none (by omega)]
  · rw [if_neg hj]
    exact q4 j (fun hh => hj hh.symm)

/-- Lines 481-485 on the bytes that lines 391-392 wrote for the decoders `ds` of a
layer: the layer gets `ds.length` decoders, the members other than `decoders` are kept and
nothing more is consumed. -/
theorem read_layer_decoders_dump (K : Kernels) (np : Int) (l : Nat) (x : Hierarchy)
    (ds : List Decoder) (tail : List Byte) (hl : l < x.decoders.length)
    (hcount : (if l = 0 then np else x.ticks_per_update.getD l default).toNat = ds.length)
    (hdec : ∀ d, d < ds.length → ∀ (e0 : Decoder) (tl : List Byte),
      (K.dec_read e0 (K.dec_write (ds.getD d default) ++ tl)).2 = tl) :
    (read_layer_decoders K np l (x, (List.range ds.length).flatMap (fun (d : Nat) =>
      K.dec_write (ds.getD d default)) ++ tail)).2 = tail ∧
    (read_layer_decoders K np l (x, (List.range ds.length).flatMap (fun (d : Nat) =>
      K.dec_write (ds.getD d default)) ++ tail)).1.histories = x.histories ∧
    dump_frame (read_layer_decoders K np l (x, (List.range ds.length).flatMap
      (fun (d : Nat) => K.dec_write (ds.getD d default)) ++ tail)).1 = dump_frame x ∧
    (read_layer_decoders K np l (x, (List.range ds.length).flatMap (fun (d : Nat) =>
      K.dec_write (ds.getD d default)) ++ tail)).1.encoders = x.encoders ∧
    (read_layer_decoders K np l (x, (List.range ds.length).flatMap (fun (d : Nat) =>
      K.dec_write (ds.getD d default)) ++ tail)).1.decoders.length = x.decoders.length ∧
    ((read_layer_decoders K np l (x, (List.range ds.length).flatMap (fun (d : Nat) =>
      K.dec_write (ds.getD d default)) ++ tail)).1.decoders.getD l default).length =
      ds.length ∧
    ∀ l', l' ≠ l →
      (read_layer_decoders K np l (x, (List.range ds.length).flatMap (fun (d : Nat) =>
        K.dec_write (ds.getD d default)) ++ tail)).1.decoders[l']? = x.decoders[l']? := by
  simp only [read_layer_decoders]
  have hlen : ((Array_update x.decoders l (fun dd => Array_resize dd
      (if l = 0 then np else x.ticks_per_update.getD l default))).getD l default).length =
      ds.length := by
    rw [getD_Array_update, if_pos ⟨rfl, hl⟩]
    generalize hc : (if l = 0 then np else x.ticks_per_update.getD l default) = c at hcount
    simp only [Array_resize, Array_resize_fill, List.length_append, List.length_take,
      List.length_replicate]
    omega
  rw [hlen]
  obtain ⟨r1, r2⟩ := read_fold (read_decoder K l)
    (fun (d : Nat) => K.dec_write (ds.getD d default))
    (fun _ y => y.histories = x.histories ∧ dump_frame y = dump_frame x ∧
      y.encoders = x.encoders ∧ y.decoders.length = x.decoders.length ∧
      (y.decoders.getD l default).length = ds.length ∧
      ∀ l', l' ≠ l → y.decoders[l']? = x.decoders[l']?)
    ds.length
    (fun k hk y tl hy => by
      obtain ⟨y1, y2, y3, y4, y5, y6⟩ := hy
      simp only [read_decoder]
      refine ⟨hdec k hk _ tl, y1, y2, y3, ?_, ?_, ?_⟩
      · rw [length_Array_update]; exact y4
      · rw [getD_Array_update, if_pos ⟨rfl, by omega⟩, List.length_set]; exact y5
      · intro l' hl'
        rw [getElem?_Array_update, if_neg (fun hh => hl' hh.1.symm)]
        exact y6 l' hl')
    ({ x with decoders := Array_update x.decoders l (fun dd => Array_resize dd
        (if l = 0 then np else x.ticks_per_update.getD l default)) })
    ⟨rfl, rfl, rfl, by simp, hlen, fun l' hl' => by
      simp only
      rw [getElem?_Array_update, if_neg (fun hh => hl' hh.1.symm)]⟩ tail
  exact ⟨r1, r2⟩

/-- Lines 449-486 on the bytes that lines 365-393 wrote for layer `l` of `H`: the rings
of layer `l` become those of `H`, the layer gets as many decoders as it has in `H`, and
nothing more is consumed. -/
theorem read_layer_dump (K : Kernels) (np : Int) (l : Nat) (x H : Hierarchy)
    (tail : List Byte) (hlh : l < x.histories.length) (hld : l < x.decoders.length)
    (hcount : (if l = 0 then np else x.ticks_per_update.getD l default).toNat =
      (H.decoders.getD l default).length)
    (hn : (H.histories.getD l default).length < 2147483648)
    (hrings : ∀ b ∈ H.histories.getD l default, b.data.length < 2147483648 ∧
      is_int b.start ∧ (b.data = [] ∨ (0 ≤ b.start ∧ b.start < b.size)) ∧
      ∀ buf ∈ b.data, buf.length < 2147483648 ∧ ∀ x ∈ buf, is_int x)
    (henc : ∀ (e0 : Encoder) (tl : List Byte),
      (K.enc_read e0 (K.enc_write (H.encoders.getD l default) ++ tl)).2 = tl)
    (hdec : ∀ d, d < (H.decoders.getD l default).length → ∀ (e0 : Decoder) (tl : List Byte),
      (K.dec_read e0 (K.dec_write ((H.decoders.getD l default).getD d default) ++ tl)).2 = tl)
    (R : Hierarchy × List Byte)
    (hR : R = read_layer K np (x, write_layer K H l ++ tail) l) :
    R.2 = tail ∧ R.1.histories = x.histories.set l (H.histories.getD l default) ∧
    dump_frame R.1 = dump_frame x ∧ R.1.encoders.length = x.encoders.length ∧
    R.1.decoders.length = x.decoders.length ∧
    (R.1.decoders.getD l default).length = (H.decoders.getD l default).length ∧
    ∀ l', l' ≠ l → R.1.decoders[l']? = x.decoders[l']? := by
  obtain ⟨a1, a2, a3, a4, a5⟩ := read_layer_histories_dump l x (H.histories.getD l default)
    (K.enc_write (H.encoders.getD l default) ++
      ((List.range (H.decoders.getD l default).length).flatMap (fun (d : Nat) =>
        K.dec_write ((H.decoders.getD l default).getD d default)) ++ tail)) hlh hn hrings
  have e0 : write_layer K H l ++ tail =
      le32 (H.histories.getD l default).length ++
        ((List.range (H.histories.getD l default).length).flatMap (fun (i : Nat) =>
          write_history ((H.histories.getD l default).getD i default)) ++
        (K.enc_write (H.encoders.getD l default) ++
          ((List.range (H.decoders.getD l default).length).flatMap (fun (d : Nat) =>
            K.dec_write ((H.decoders.getD l default).getD d default)) ++ tail))) := by
    simp only [write_layer, List.append_assoc]
  rw [e0] at hR
  simp only [read_layer] at hR
  generalize read_layer_histories l (x, le32 (H.histories.getD l default).length ++
    ((List.range (H.histories.getD l default).length).flatMap (fun (i : Nat) =>
      write_history ((H.histories.getD l default).getD i default)) ++
    (K.enc_write (H.encoders.getD l default) ++
      ((List.range (H.decoders.getD l default).length).flatMap (fun (d : Nat) =>
        K.dec_write ((H.decoders.getD l default).getD d default)) ++ tail)))) = Y
    at a1 a2 a3 a4 a5 hR
  obtain ⟨y, ys⟩ := Y
  simp only at a1 a2 a3 a4 a5
  subst a1
  have hE : read_layer_encoder K l (y, K.enc_write (H.encoders.getD l default) ++
      ((List.range (H.decoders.getD l default).length).flatMap (fun (d : Nat) =>
        K.dec_write ((H.decoders.getD l default).getD d default)) ++ tail)) =
      ({ y with encoders := y.encoders.set l (K.enc_read (y.encoders.getD l default)
          (K.enc_write (H.encoders.getD l default) ++
            ((List.range (H.decoders.getD l default).length).flatMap (fun (d : Nat) =>
              K.dec_write ((H.decoders.getD l default).getD d default)) ++ tail))).1 },
        (List.range (H.decoders.getD l default).length).flatMap (fun (d : Nat) =>
          K.dec_write ((H.decoders.getD l default).getD d default)) ++ tail) := by
    simp only [read_layer_encoder]
    rw [henc]
  rw [hE] at hR
  have hf3 : y.ticks_per_update = x.ticks_per_update := by
    simp only [dump_frame, Prod.mk.injEq] at a3
    exact a3.2.2.2.2.1
  obtain ⟨b1, b2, b3, b4, b5, b6, b7⟩ := read_layer_decoders_dump K np l
    ({ y with encoders := y.encoders.set l (K.enc_read (y.encoders.getD l default)
        (K.enc_write (H.encoders.getD l default) ++
          ((List.range (H.decoders.getD l default).length).flatMap (fun (d : Nat) =>
            K.dec_write ((H.decoders.getD l default).getD d default)) ++ tail))).1 })
    (H.decoders.getD l default) tail (by simp only; rw [a5]; exact hld)
    (by simp only; rw [hf3]; exact hcount) hdec
  rw [← hR] at b1 b2 b3 b4 b5 b6 b7
  simp only at b2 b3 b4 b5 b7
  refine ⟨b1, b2.trans a2, b3.trans a3, ?_, b5.trans (by rw [a5]), b6, fun l' hl' => ?_⟩
  · rw [b4, List.length_set, a4]
  · rw [b7 l' hl', a5]

theorem flatMap_range_getD {α : Type} (xs : List α) (d : α) (f : α → List Byte) :
    (List.range xs.length).flatMap (fun i => f (xs.getD i d)) = xs.flatMap f := by
  rw [List.flatMap_def, List.flatMap_def, map_getD_range]

/-- Lines 488-492 on the bytes that lines 396-397 wrote for the actors `as`: only the
actors change, their number is kept, and nothing more is consumed. -/
theorem read_actors_dump (K : Kernels) (x : Hierarchy) (as : List Actor) (tail : List Byte)
    (hdec : ∀ d, d < as.length → ∀ (e0 : Actor) (tl : List Byte),
      (K.act_read e0 (K.act_write (as.getD d default) ++ tl)).2 = tl) :
    ((List.range as.length).foldl (read_actor K) (x, (List.range as.length).flatMap
      (fun (d : Nat) => K.act_write (as.getD d default)) ++ tail)).2 = tail ∧
    ({ ((List.range as.length).foldl (read_actor K) (x, (List.range as.length).flatMap
      (fun (d : Nat) => K.act_write (as.getD d default)) ++ tail)).1 with actors := [] } =
      { x with actors := [] }) ∧
    ((List.range as.length).foldl (read_actor K) (x, (List.range as.length).flatMap
      (fun (d : Nat) => K.act_write (as.getD d default)) ++ tail)).1.actors.length =
      x.actors.length := by
  obtain ⟨r1, r2⟩ := read_fold (read_actor K)
    (fun (d : Nat) => K.act_write (as.getD d default))
    (fun _ y => { y with actors := [] } = { x with actors := [] } ∧
      y.actors.length = x.actors.length) as.length
    (fun k hk y tl hy => by
      simp only [read_actor]
      refine ⟨hdec k hk _ tl, hy.1, ?_⟩
      rw [List.length_set]
      exact hy.2) x ⟨rfl, rfl⟩ tail
  exact ⟨r1, r2⟩

/-- The loop over the layers of `read` on the bytes that the loop over the layers of
`write` wrote. -/
theorem read_layers_dump (K : Kernels) (H x : Hierarchy) (tail : List Byte)
    (hx1 : x.encoders.length = H.encoders.length)
    (hx2 : x.decoders.length = H.encoders.length)
    (hx3 : x.histories.length = H.encoders.length)
    (hx4 : x.ticks_per_update = H.ticks_per_update)
    (henc : ∀ l, l < H.encoders.length → ∀ (e0 : Encoder) (tl : List Byte),
      (K.enc_read e0 (K.enc_write (H.encoders.getD l default) ++ tl)).2 = tl)
    (hdec : ∀ l, l < H.encoders.length → ∀ d, d < (H.decoders.getD l default).length →
      ∀ (e0 : Decoder) (tl : List Byte),
        (K.dec_read e0 (K.dec_write ((H.decoders.getD l default).getD d default) ++ tl)).2 =
          tl)
    (hs : Dump_shape H) (hf : Fits_int H) (R : Hierarchy × List Byte)
    (hR : R = (List.range H.encoders.length).foldl
      (read_layer K ((H.decoders.getD 0 default).length : Int))
      (x, (List.range H.encoders.length).flatMap (write_layer K H) ++ tail)) :
    R.2 = tail ∧ dump_frame R.1 = dump_frame x ∧ R.1.encoders.length = H.encoders.length ∧
    R.1.histories = H.histories ∧ dec_counts R.1 = dec_counts H := by
  obtain ⟨s1, s2, _, _, _, _, _, _, _, _, s11, s12⟩ := hs
  obtain ⟨_, _, _, _, _, _, _, _, f9⟩ := hf
  obtain ⟨r1, r2⟩ := read_fold (read_layer K ((H.decoders.getD 0 default).length : Int))
    (write_layer K H)
    (fun k y => dump_frame y = dump_frame x ∧ y.encoders.length = H.encoders.length ∧
      y.decoders.length = H.encoders.length ∧ y.histories.length = H.encoders.length ∧
      (∀ l, l < k → y.histories[l]? = H.histories[l]?) ∧
      (∀ l, l < k → (y.decoders.getD l default).length = (H.decoders.getD l default).length))
    H.encoders.length
    (fun k hk y tl hy => by
      obtain ⟨y1, y2, y3, y4, y5, y6⟩ := hy
      have ytpu : y.ticks_per_update = H.ticks_per_update := by
        have := y1
        simp only [dump_frame, Prod.mk.injEq] at this
        exact this.2.2.2.2.1.trans hx4
      have hmem : H.histories.getD k default ∈ H.histories :=
        getD_mem_of_lt _ _ _ (by rw [s2]; exact hk)
      obtain ⟨g1, g2⟩ := f9 _ hmem
      obtain ⟨b1, b2, b3, b4, b5, b6, b7⟩ := read_layer_dump K
        ((H.decoders.getD 0 default).length : Int) k y H tl (by rw [y4]; exact hk)
        (by rw [y3]; exact hk)
        (by
          rw [ytpu]
          by_cases h0 : k = 0
          · subst h0
            rw [if_pos rfl, Int.toNat_ofNat]
          · rw [if_neg h0]
            exact (s11 k (Nat.pos_of_ne_zero h0) hk).symm)
        g1 (fun b hb => ⟨(g2 b hb).1, (g2 b hb).2.1, s12 _ hmem b hb, (g2 b hb).2.2⟩)
        (henc k hk) (hdec k hk) _ rfl
      refine ⟨b1, b3.trans y1, b4.trans y2, b5.trans y3, ?_, ?_, ?_⟩
      · rw [b2, List.length_set]; exact y4
      · intro l hl
        rw [b2, List.getElem?_set]
        by_cases hlk : k = l
        · subst hlk
          rw [if_pos rfl, if_pos (by rw [y4]; exact hk)]
          exact (getElem?_eq_some_getD _ _ (by rw [s2]; exact hk) _).symm
        · rw [if_neg hlk]
          exact y5 l (Nat.lt_of_le_of_ne (Nat.le_of_lt_succ hl) (fun hh => hlk hh.symm))
      · intro l hl
        by_cases hlk : l = k
        · subst hlk
          exact b6
        · rw [List.getD_eq_getElem?_getD, b7 l hlk, ← List.getD_eq_getElem?_getD]
          exact y6 l (Nat.lt_of_le_of_ne (Nat.le_of_lt_succ hl) hlk))
    x ⟨rfl, hx1, hx2, hx3, fun l hl => absurd hl (Nat.not_lt_zero _),
      fun l hl => absurd hl (Nat.not_lt_zero _)⟩ tail
  rw [← hR] at r1 r2
  obtain ⟨q1, q2, q3, q4, q5, q6⟩ := r2
  refine ⟨r1, q1, q2, ?_, ?_⟩
  · apply List.ext_getElem?
    intro l
    by_cases hl : l < H.encoders.length
    · exact q5 l hl
    · have h1 : R.1.histories.length ≤ l := by rw [q4]; exact Nat.le_of_not_lt hl
      have h2 : H.histories.length ≤ l := by rw [s2]; exact Nat.le_of_not_lt hl
      rw [List.getElem?_eq_none h1, List.getElem?_eq_none h2]
  · simp only [dec_counts]
    apply List.ext_getElem?
    intro l
    rw [List.getElem?_map, List.getElem?_map]
    by_cases hl : l < H.encoders.length
    · rw [getElem?_eq_some_getD R.1.decoders l (by rw [q3]; exact hl) default,
        getElem?_eq_some_getD H.decoders l (by rw [s1]; exact hl) default]
      simp only [Option.map_some']
      rw [q6 l hl]
    · have h1 : R.1.decoders.length ≤ l := by rw [q3]; exact Nat.le_of_not_lt hl
      have h2 : H.decoders.length ≤ l := by rw [s1]; exact Nat.le_of_not_lt hl
      rw [List.getElem?_eq_none h1, List.getElem?_eq_none h2]

/-- The method `read` on the bytes that `write` wrote for `H`: every member of the
hierarchy itself is read back and nothing more is consumed, when the components consume
what they wrote and the structs copied from memory are read back. -/
theorem read_write_dump (K : Kernels) (H h0 : Hierarchy) (tail : List Byte)
    (hInt3 : ∀ v, (K.Int3_bytes v).length = K.sizeof_Int3)
    (hInt3r : ∀ v ∈ H.io_sizes, K.Int3_of_bytes (K.Int3_bytes v) = v)
    (hLayer : ∀ p, (K.Layer_Params_bytes p).length = K.sizeof_Layer_Params)
    (hLayerr : ∀ p ∈ H.params.layers, K.Layer_Params_of_bytes (K.Layer_Params_bytes p) = p)
    (hParams : ∀ p, (K.IO_Params_bytes p).length = K.sizeof_IO_Params)
    (hParamsr : ∀ p ∈ H.params.ios, K.IO_Params_of_bytes (K.IO_Params_bytes p) = p)
    (henc : ∀ l, l < H.encoders.length → ∀ (e0 : Encoder) (tl : List Byte),
      (K.enc_read e0 (K.enc_write (H.encoders.getD l default) ++ tl)).2 = tl)
    (hdec : ∀ l, l < H.encoders.length → ∀ d, d < (H.decoders.getD l default).length →
      ∀ (e0 : Decoder) (tl : List Byte),
        (K.dec_read e0 (K.dec_write ((H.decoders.getD l default).getD d default) ++ tl)).2 =
          tl)
    (hact : ∀ d, d < H.actors.length → ∀ (e0 : Actor) (tl : List Byte),
      (K.act_read e0 (K.act_write (H.actors.getD d default) ++ tl)).2 = tl)
    (hs : Dump_shape H) (hf : Fits_int H) (R : Hierarchy × List Byte)
    (hR : R = read K h0 (write K H ++ tail)) :
    R.2 = tail ∧ R.1.io_sizes = H.io_sizes ∧ R.1.io_types = H.io_types ∧
    R.1.updates = H.updates ∧ R.1.ticks = H.ticks ∧
    R.1.ticks_per_update = H.ticks_per_update ∧ R.1.i_indices = H.i_indices ∧
    R.1.d_indices = H.d_indices ∧ R.1.histories = H.histories ∧
    dec_counts R.1 = dec_counts H ∧ R.1.actors.length = H.actors.length ∧
    R.1.encoders.length = H.encoders.length ∧ R.1.params = H.params := by
  have e0 : write K H ++ tail = write_head K H ++
      ((List.range H.encoders.length).flatMap (write_layer K H) ++
        ((List.range H.actors.length).flatMap (fun (d : Nat) =>
            K.act_write (H.actors.getD d default)) ++
          ((List.range H.encoders.length).flatMap (fun (l : Nat) =>
              K.Layer_Params_bytes (H.params.layers.getD l default)) ++
            ((List.range H.io_sizes.length).flatMap (fun (i : Nat) =>
              K.IO_Params_bytes (H.params.ios.getD i default)) ++ tail)))) := by
    simp only [write, List.append_assoc]
  obtain ⟨d1, d2, d3, d4, d5, d6, d7, d8, d9, d10, d11, d12, d13, d14, d15, d16, d17⟩ :=
    read_head_dump K H h0 ((List.range H.encoders.length).flatMap (write_layer K H) ++
        ((List.range H.actors.length).flatMap (fun (d : Nat) =>
            K.act_write (H.actors.getD d default)) ++
          ((List.range H.encoders.length).flatMap (fun (l : Nat) =>
              K.Layer_Params_bytes (H.params.layers.getD l default)) ++
            ((List.range H.io_sizes.length).flatMap (fun (i : Nat) =>
              K.IO_Params_bytes (H.params.ios.getD i default)) ++ tail)))) hInt3 hInt3r hs hf
  rw [e0] at hR
  simp only [read] at hR
  generalize read_head K h0 (write_head K H ++
      ((List.range H.encoders.length).flatMap (write_layer K H) ++
        ((List.range H.actors.length).flatMap (fun (d : Nat) =>
            K.act_write (H.actors.getD d default)) ++
          ((List.range H.encoders.length).flatMap (fun (l : Nat) =>
              K.Layer_Params_bytes (H.params.layers.getD l default)) ++
            ((List.range H.io_sizes.length).flatMap (fun (i : Nat) =>
              K.IO_Params_bytes (H.params.ios.getD i default)) ++ tail))))) = hd
    at d1 d2 d3 d4 d5 d6 d7 d8 d9 d10 d11 d12 d13 d14 d15 d16 d17 hR
  obtain ⟨x, rest, nl, nio, np, na⟩ := hd
  simp only at d1 d2 d3 d4 d5 d6 d7 d8 d9 d10 d11 d12 d13 d14 d15 d16 d17 hR
  subst d1 d2 d3 d4 d5
  simp only [Int.toNat_ofNat] at hR
  obtain ⟨a1, a2, a3, a4, a5⟩ := read_layers_dump K H x
    ((List.range H.actors.length).flatMap (fun (d : Nat) =>
        K.act_write (H.actors.getD d default)) ++
      ((List.range H.encoders.length).flatMap (fun (l : Nat) =>
          K.Layer_Params_bytes (H.params.layers.getD l default)) ++
        ((List.range H.io_sizes.length).flatMap (fun (i : Nat) =>
          K.IO_Params_bytes (H.params.ios.getD i default)) ++ tail)))
    d13 d14 d15 d10 henc hdec hs hf _ rfl
  generalize (List.range H.encoders.length).foldl
    (read_layer K ((H.decoders.getD 0 default).length : Int))
    (x, (List.range H.encoders.length).flatMap (write_layer K H) ++
      ((List.range H.actors.length).flatMap (fun (d : Nat) =>
          K.act_write (H.actors.getD d default)) ++
        ((List.range H.encoders.length).flatMap (fun (l : Nat) =>
            K.Layer_Params_bytes (H.params.layers.getD l default)) ++
          ((List.range H.io_sizes.length).flatMap (fun (i : Nat) =>
            K.IO_Params_bytes (H.params.ios.getD i default)) ++ tail)))) = Y
    at a1 a2 a3 a4 a5 hR
  obtain ⟨y, ys⟩ := Y
  simp only at a1 a2 a3 a4 a5 hR
  subst a1
  simp only [length_Array_resize] at hR
  obtain ⟨b1, b2, b3⟩ := read_actors_dump K
    ({ y with actors := Array_resize y.actors (H.actors.length : Int) }) H.actors
    ((List.range H.encoders.length).flatMap (fun (l : Nat) =>
        K.Layer_Params_bytes (H.params.layers.getD l default)) ++
      ((List.range H.io_sizes.length).flatMap (fun (i : Nat) =>
        K.IO_Params_bytes (H.params.ios.getD i default)) ++ tail)) hact
  generalize (List.range H.actors.length).foldl (read_actor K)
    ({ y with actors := Array_resize y.actors (H.actors.length : Int) },
      (List.range H.actors.length).flatMap (fun (d : Nat) =>
          K.act_write (H.actors.getD d default)) ++
        ((List.range H.encoders.length).flatMap (fun (l : Nat) =>
            K.Layer_Params_bytes (H.params.layers.getD l default)) ++
          ((List.range H.io_sizes.length).flatMap (fun (i : Nat) =>
            K.IO_Params_bytes (H.params.ios.getD i default)) ++ tail))) = Z
    at b1 b2 b3 hR
  obtain ⟨z, zs⟩ := Z
  simp only at b1 b2 b3 hR
  subst b1
  obtain ⟨_, _, _, _, _, _, _, _, s9, s10, _, _⟩ := hs
  have p1 := read_structs_flatMap K.Layer_Params_of_bytes K.Layer_Params_bytes
    K.sizeof_Layer_Params H.params.layers
    ((List.range H.io_sizes.length).flatMap (fun (i : Nat) =>
      K.IO_Params_bytes (H.params.ios.getD i default)) ++ tail) hLayer hLayerr
  rw [← flatMap_range_getD H.params.layers default, s9] at p1
  have p2 := read_structs_flatMap K.IO_Params_of_bytes K.IO_Params_bytes
    K.sizeof_IO_Params H.params.ios tail hParams hParamsr
  rw [← flatMap_range_getD H.params.ios default, s10] at p2
  rw [p1] at hR
  simp only at hR
  rw [p2] at hR
  simp only [Hierarchy.mk.injEq, true_and] at b2
  obtain ⟨ze, zd, z6, z7, zh, z3, z4, z5, z1, z2, _⟩ := b2
  simp only [dump_frame, Prod.mk.injEq] at a2
  obtain ⟨y1, y2, y3, y4, y5, y6, y7, _, _⟩ := a2
  rw [hR]
  refine ⟨rfl, ?_, ?_, ?_, ?_, ?_, ?_, ?_, ?_, ?_, ?_, ?_, rfl⟩
  · exact z1.trans (y1.trans d6)
  · exact z2.trans (y2.trans d7)
  · exact z3.trans (y3.trans d8)
  · exact z4.trans (y4.trans d9)
  · exact z5.trans (y5.trans d10)
  · exact z6.trans (y6.trans d11)
  · exact z7.trans (y7.trans d12)
  · exact zh.trans a4
  · simp only [dec_counts] at a5 ⊢
    rw [zd]; exact a5
  · simp only
    rw [b3]
    simp only [length_Array_resize]
  · simp only
    rw [ze]; exact a3

theorem mem_getD_index {α : Type} [Inhabited α] (xs : List α) (x : α) (hx : x ∈ xs) :
    ∃ i, i < xs.length ∧ xs.getD i default = x ∧ xs[i]? = some x := by
  obtain ⟨i, hi, e⟩ := List.getElem_of_mem hx
  refine ⟨i, hi, ?_, ?_⟩
  · rw [List.getD_eq_getElem?_getD, List.getElem?_eq_getElem hi, e]
    rfl
  · rw [List.getElem?_eq_getElem hi, e]

theorem init_first_index_lengths (K : Kernels) (io_descs : List IO_Desc) (layer_descs : List Layer_Desc)
    (hN : 0 < layer_descs.length) :
    (init_upto K io_descs layer_descs 1).i_indices.length = io_descs.length * 2 ∧
    (init_upto K io_descs layer_descs 1).d_indices.length = io_descs.length := by
  have h := init_first_spec K io_descs layer_descs hN
  simp only at h
  exact ⟨h.2.1.1, h.1.1⟩

/-- A hierarchy reached from `init_random`, with at least one layer and a history of at
least one slot at every layer, has the shape `Dump_shape`. -/
theorem Dump_shape_run (K : Kernels) (io_descs : List IO_Desc) (layer_descs : List Layer_Desc)
    (hN : 0 < layer_descs.length)
    (hth : ∀ l, l < layer_descs.length → 1 ≤ (layer_descs.getD l default).temporal_horizon)
    (calls : List Call) :
    Dump_shape (run K (Hierarchy.create K io_descs layer_descs) calls) := by
  obtain ⟨l1, l2, l3⟩ := run_lengths K io_descs layer_descs calls
  obtain ⟨f1, f2, f3, f4, f5, f6, f7, f8⟩ := run_frame K io_descs layer_descs calls
  obtain ⟨c1, c2, c3, c4, c5, c6, c7, c8⟩ := create_lengths K io_descs layer_descs
  obtain ⟨hil', hdl'⟩ := init_first_index_lengths K io_descs layer_descs hN
  obtain ⟨_, e2, e3, _, _⟩ := create_first K io_descs layer_descs hN
  have hlay := layout_run K calls (Hierarchy.create K io_descs layer_descs)
  simp only [layout, Prod.mk.injEq] at hlay
  have hpar : (run K (Hierarchy.create K io_descs layer_descs) calls).params =
      ⟨Array_new layer_descs.length default, Array_new io_descs.length default⟩ :=
    hlay.2.2.2.2.1.trans (create_params K io_descs layer_descs)
  have hhist : (run K (Hierarchy.create K io_descs layer_descs) calls).histories.length =
      layer_descs.length := by
    have := congrArg List.length (hist_shape_run K calls (Hierarchy.create K io_descs layer_descs))
    simp only [hist_shape, List.length_map] at this
    rw [this, c3]
  have hio : (run K (Hierarchy.create K io_descs layer_descs) calls).io_sizes.length =
      io_descs.length := by rw [f3, List.length_map]
  have g1 : (run K (Hierarchy.create K io_descs layer_descs) calls).i_indices.length =
      (run K (Hierarchy.create K io_descs layer_descs) calls).io_sizes.length * 2 := by
    rw [f1, e2, hio, hil']
  have g2 : (run K (Hierarchy.create K io_descs layer_descs) calls).d_indices.length =
      (run K (Hierarchy.create K io_descs layer_descs) calls).io_sizes.length := by
    rw [f2, e3, hio, hdl']
  have g3 : (run K (Hierarchy.create K io_descs layer_descs) calls).params.layers.length =
      (run K (Hierarchy.create K io_descs layer_descs) calls).encoders.length := by
    rw [hpar, l1]
    simp only [Array_new, List.length_replicate, Int.toNat_ofNat]
  have g4 : (run K (Hierarchy.create K io_descs layer_descs) calls).params.ios.length =
      (run K (Hierarchy.create K io_descs layer_descs) calls).io_sizes.length := by
    rw [hpar, hio]
    simp only [Array_new, List.length_replicate, Int.toNat_ofNat]
  refine ⟨by rw [f6, l1], by rw [hhist, l1], by rw [l3, l1], by rw [l2, l1],
    by rw [run_ticks_per_update, c6, l1], by rw [f4, List.length_map, hio],
    g1, g2, g3, g4, ?_, ?_⟩
  · intro l hl0 hl
    rw [l1] at hl
    rw [f7 l, getD_of_getElem? _ _ _ _ (create_next K io_descs layer_descs l hl0 hl).2,
      List.length_replicate, run_ticks_per_update,
      create_ticks_per_update_getD K io_descs layer_descs l hl, if_neg (by omega)]
  · intro hs hhs b hb
    obtain ⟨l, hl, el, _⟩ := mem_getD_index _ hs hhs
    obtain ⟨i, hi, _, ei⟩ := mem_getD_index _ b hb
    rw [hhist] at hl
    have hok := Rings_ok_run K calls _ l (Rings_ok_create K io_descs layer_descs l hl (hth l hl))
    exact Or.inr (hok i b (by rw [el]; exact ei))

/-- C21: for every hierarchy `H1` built by `init_random` (with at least one layer and a
history of at least one slot at every layer) and advanced by any calls of `step` and
`clear_state`, `read`, called on any hierarchy `H2` (a default-constructed one in
particular), on the bytes that `H1.write` produced gives a hierarchy that agrees with `H1`
in every member of the hierarchy itself: `io_sizes`, `io_types`, `updates`, `ticks`,
`ticks_per_update`, `i_indices`, `d_indices`, the histories (the number of rings, and the
slots, start and contents of every ring), the number of layers, of decoders of every
layer and of actors, and `params`; and `read` consumes exactly the bytes that `write`
produced.  This is under the assumptions that each component's `read` consumes the bytes
its `write` produced, that the structs copied from memory are read back, and that every
number stored as an `int` is a value of the type `int`. -/
theorem read_inverts_write (K : Kernels) (io_descs : List IO_Desc)
    (layer_descs : List Layer_Desc) (hN : 0 < layer_descs.length)
    (hth : ∀ l, l < layer_descs.length → 1 ≤ (layer_descs.getD l default).temporal_horizon)
    (calls : List Call) (H1 : Hierarchy)
    (hH : H1 = run K (Hierarchy.create K io_descs layer_descs) calls)
    (hInt3 : ∀ v, (K.Int3_bytes v).length = K.sizeof_Int3)
    (hInt3r : ∀ v ∈ H1.io_sizes, K.Int3_of_bytes (K.Int3_bytes v) = v)
    (hLayer : ∀ p, (K.Layer_Params_bytes p).length = K.sizeof_Layer_Params)
    (hLayerr : ∀ p ∈ H1.params.layers, K.Layer_Params_of_bytes (K.Layer_Params_bytes p) = p)
    (hParams : ∀ p, (K.IO_Params_bytes p).length = K.sizeof_IO_Params)
    (hParamsr : ∀ p ∈ H1.params.ios, K.IO_Params_of_bytes (K.IO_Params_bytes p) = p)
    (henc : ∀ l, l < H1.encoders.length → ∀ (e0 : Encoder) (tl : List Byte),
      (K.enc_read e0 (K.enc_write (H1.encoders.getD l default) ++ tl)).2 = tl)
    (hdec : ∀ l, l < H1.encoders.length → ∀ d, d < (H1.decoders.getD l default).length →
      ∀ (e0 : Decoder) (tl : List Byte),
        (K.dec_read e0 (K.dec_write ((H1.decoders.getD l default).getD d default) ++ tl)).2 =
          tl)
    (hact : ∀ d, d < H1.actors.length → ∀ (e0 : Actor) (tl : List Byte),
      (K.act_read e0 (K.act_write (H1.actors.getD d default) ++ tl)).2 = tl)
    (hf : Fits_int H1) (H2 : Hierarchy) (tail : List Byte) :
    (read K H2 (write K H1 ++ tail)).2 = tail ∧
    (read K H2 (write K H1 ++ tail)).1.io_sizes = H1.io_sizes ∧
    (read K H2 (write K H1 ++ tail)).1.io_types = H1.io_types ∧
    (read K H2 (write K H1 ++ tail)).1.updates = H1.updates ∧
    (read K H2 (write K H1 ++ tail)).1.ticks = H1.ticks ∧
    (read K H2 (write K H1 ++ tail)).1.ticks_per_update = H1.ticks_per_update ∧
    (read K H2 (write K H1 ++ tail)).1.i_indices = H1.i_indices ∧
    (read K H2 (write K H1 ++ tail)).1.d_indices = H1.d_indices ∧
    (read K H2 (write K H1 ++ tail)).1.histories = H1.histories ∧
    dec_counts (read K H2 (write K H1 ++ tail)).1 = dec_counts H1 ∧
    (read K H2 (write K H1 ++ tail)).1.actors.length = H1.actors.length ∧
    (read K H2 (write K H1 ++ tail)).1.encoders.length = H1.encoders.length ∧
    (read K H2 (write K H1 ++ tail)).1.params = H1.params := by
  have hs : Dump_shape H1 := by
    rw [hH]; exact Dump_shape_run K io_descs layer_descs hN hth calls
  exact read_write_dump K H1 H2 tail hInt3 hInt3r hLayer hLayerr hParams hParamsr henc hdec
    hact hs hf _ rfl

/-! ## The sample components read back what they wrote -/

theorem Int3_of_bytes_bytes (v : Int3) (hx : is_int v.x) (hy : is_int v.y) (hz : is_int v.z)
    (tl : List Byte) :
    Int3.of_bytes ((Int3.bytes v ++ tl).take 12) = v := by
  have e : (Int3.bytes v ++ tl).take 12 = le32 v.x ++ (le32 v.y ++ le32 v.z) := by
    rw [List.take_left' (by simp [Int3.bytes])]
    simp only [Int3.bytes, List.append_assoc]
  rw [e]
  simp only [Int3.of_bytes]
  rw [List.take_left' (length_le32 _), List.drop_left' (length_le32 _)]
  have e8 : (le32 v.x ++ (le32 v.y ++ le32 v.z)).drop 8 = le32 v.z := by
    rw [← List.append_assoc]
    exact List.drop_left' (by simp)
  rw [e8, List.take_left' (length_le32 _), int_of_le32_le32 _ hx, int_of_le32_le32 _ hy]
  have e4 : (le32 v.z).take 4 = le32 v.z := List.take_of_length_le (by simp)
  rw [e4, int_of_le32_le32 _ hz]

theorem sample_read_rest (size : Int3) (cis : List Int) (tl : List Byte)
    (hx : is_int size.x) (hy : is_int size.y) (hz : is_int size.z)
    (hl : cis.length = (size.x * size.y).toNat) :
    (read_ints ((Int3.of_bytes ((size.bytes ++ write_ints cis ++ tl).take 12)).x *
        (Int3.of_bytes ((size.bytes ++ write_ints cis ++ tl).take 12)).y).toNat
      ((size.bytes ++ write_ints cis ++ tl).drop 12)).2 = tl := by
  rw [List.append_assoc, Int3_of_bytes_bytes size hx hy hz, ← hl,
    List.drop_left' (by simp [Int3.bytes])]
  exact read_ints_snd cis tl

theorem sample_enc_consumes (e : Encoder) (hx : is_int e.hidden_size.x)
    (hy : is_int e.hidden_size.y) (hz : is_int e.hidden_size.z)
    (hl : e.hidden_cis.length = (e.hidden_size.x * e.hidden_size.y).toNat)
    (e0 : Encoder) (tl : List Byte) :
    (sample_kernels.enc_read e0 (sample_kernels.enc_write e ++ tl)).2 = tl :=
  sample_read_rest e.hidden_size e.hidden_cis tl hx hy hz hl

theorem sample_dec_consumes (e : Decoder) (hx : is_int e.hidden_size.x)
    (hy : is_int e.hidden_size.y) (hz : is_int e.hidden_size.z)
    (hl : e.hidden_cis.length = (e.hidden_size.x * e.hidden_size.y).toNat)
    (e0 : Decoder) (tl : List Byte) :
    (sample_kernels.dec_read e0 (sample_kernels.dec_write e ++ tl)).2 = tl :=
  sample_read_rest e.hidden_size e.hidden_cis tl hx hy hz hl

theorem sample_act_consumes (e : Actor) (hx : is_int e.hidden_size.x)
    (hy : is_int e.hidden_size.y) (hz : is_int e.hidden_size.z)
    (hl : e.hidden_cis.length = (e.hidden_size.x * e.hidden_size.y).toNat)
    (e0 : Actor) (tl : List Byte) :
    (sample_kernels.act_read e0 (sample_kernels.act_write e ++ tl)).2 = tl :=
  sample_read_rest e.hidden_size e.hidden_cis tl hx hy hz hl

set_option maxRecDepth 100000 in
theorem read_inverts_write_witness :
    (0 < small_layer_descs.length ∧
      Fits_int (run sample_kernels
        (Hierarchy.create sample_kernels small_io_descs small_layer_descs)
        [Call.step [[1]] true 0 0])) ∧
    (read sample_kernels default
      (write sample_kernels (run sample_kernels
        (Hierarchy.create sample_kernels small_io_descs small_layer_descs)
        [Call.step [[1]] true 0 0]) ++ [7])).2 = [7] ∧
    (read sample_kernels default
      (write sample_kernels (run sample_kernels
        (Hierarchy.create sample_kernels small_io_descs small_layer_descs)
        [Call.step [[1]] true 0 0]) ++ [7])).1.histories =
      (run sample_kernels (Hierarchy.create sample_kernels small_io_descs small_layer_descs)
        [Call.step [[1]] true 0 0]).histories :=
  ⟨⟨by decide, by decide⟩,
   (read_inverts_write sample_kernels small_io_descs small_layer_descs (by decide)
      (by intro l hl
          have h2 : l < 2 := hl
          interval_cases l <;> decide)
      [Call.step [[1]] true 0 0] _ rfl sample_kernels_sizes.1 (by decide)
      sample_kernels_sizes.2.1 (by decide) sample_kernels_sizes.2.2.1 (by decide)
      (by intro l hl
          have h2 : l < 2 := hl
          interval_cases l <;>
            exact sample_enc_consumes _ (by decide) (by decide) (by decide) (by decide))
      (by intro l hl d hd
          have h2 : l < 2 := hl
          interval_cases l
          · have h3 : d < 1 := hd
            interval_cases d
            exact sample_dec_consumes _ (by decide) (by decide) (by decide) (by decide)
          · have h3 : d < 2 := hd
            interval_cases d <;>
              exact sample_dec_consumes _ (by decide) (by decide) (by decide) (by decide))
      (by intro d hd
          have h0 : d < 0 := hd
          exact absurd h0 (Nat.not_lt_zero d))
      (by decide) default [7]).1,
   (read_inverts_write sample_kernels small_io_descs small_layer_descs (by decide)
      (by intro l hl
          have h2 : l < 2 := hl
          interval_cases l <;> decide)
      [Call.step [[1]] true 0 0] _ rfl sample_kernels_sizes.1 (by decide)
      sample_kernels_sizes.2.1 (by decide) sample_kernels_sizes.2.2.1 (by decide)
      (by intro l hl
          have h2 : l < 2 := hl
          interval_cases l <;>
            exact sample_enc_consumes _ (by decide) (by decide) (by decide) (by decide))
      (by intro l hl d hd
          have h2 : l < 2 := hl
          interval_cases l
          · have h3 : d < 1 := hd
            interval_cases d
            exact sample_dec_consumes _ (by decide) (by decide) (by decide) (by decide)
          · have h3 : d < 2 := hd
            interval_cases d <;>
              exact sample_dec_consumes _ (by decide) (by decide) (by decide) (by decide))
      (by intro d hd
          have h0 : d < 0 := hd
          exact absurd h0 (Nat.not_lt_zero d))
      (by decide) default [7]).2.2.2.2.2.2.2.2.1⟩

/-! ## `Hierarchy::read_state` on what `write_state` wrote -/

theorem map_length_set_same {α : Type} (xs : List (List α)) (p : Nat) (v : List α)
    (hv : v.length = (xs.getD p []).length) (hp : p < xs.length) :
    (xs.set p v).map List.length = xs.map List.length := by
  apply List.ext_getElem?
  intro i
  rw [List.getElem?_map, List.getElem?_map, List.getElem?_set]
  by_cases hi : p = i
  · subst hi
    rw [if_pos rfl, if_pos hp, List.getElem?_eq_getElem hp]
    simp only [Option.map_some', Option.some.injEq]
    rw [hv, List.getD_eq_getElem?_getD, List.getElem?_eq_getElem hp]
    rfl
  · rw [if_neg hi]

theorem getD_length_of_map_length {α : Type} (xs ys : List (List α))
    (h : xs.map List.length = ys.map List.length) (p : Nat) :
    (xs.getD p []).length = (ys.getD p []).length := by
  have := congrArg (fun l => (l[p]?).getD 0) h
  simp only [List.getElem?_map] at this
  rw [List.getD_eq_getElem?_getD, List.getD_eq_getElem?_getD]
  cases hx : xs[p]? <;> cases hy : ys[p]? <;> simp only [hx, hy, Option.map_some',
    Option.map_none', Option.getD_some, Option.getD_none] at this ⊢ <;> exact this

/-- Lines 544-545 on the bytes that lines 518-519 wrote for slot `k` of a ring. -/
theorem read_state_slot_spec (data cd : List Int_Buffer) (s k : Nat) (tail : List Byte)
    (hk : k < data.length) (hcd : cd.map List.length = data.map List.length)
    (hbuf : ∀ buf ∈ data, buf.length < 2147483648 ∧ ∀ x ∈ buf, is_int x)
    (hprev : ∀ t', t' < k → (CircleBuffer.mk cd (s : Int)).get (t' : Int) =
      (CircleBuffer.mk data (s : Int)).get (t' : Int)) :
    ∃ cd', read_state_slot (CircleBuffer.mk cd (s : Int),
        write_ints ((CircleBuffer.mk data (s : Int)).get (k : Int)) ++ tail) k =
        (CircleBuffer.mk cd' (s : Int), tail) ∧
      cd'.map List.length = data.map List.length ∧
      ∀ t', t' < k + 1 → (CircleBuffer.mk cd' (s : Int)).get (t' : Int) =
        (CircleBuffer.mk data (s : Int)).get (t' : Int) := by
  have hpos : 0 < data.length := by omega
  have hlen : cd.length = data.length := by
    have := congrArg List.length hcd
    simpa using this
  obtain ⟨hb1, hb2⟩ := hbuf _ (ring_get_mem data s k hpos)
  have hl : ((CircleBuffer.mk cd (s : Int)).get (k : Int)).length =
      ((CircleBuffer.mk data (s : Int)).get (k : Int)).length := by
    rw [ring_get_natCast, ring_get_natCast, hlen]
    exact getD_length_of_map_length cd data hcd _
  generalize hv : (CircleBuffer.mk data (s : Int)).get (k : Int) = buf at hb1 hb2 hl ⊢
  simp only [read_state_slot]
  rw [hl, show read_ints buf.length (write_ints buf ++ tail) = (buf, tail) from
    Prod.ext (read_ints_write_ints buf hb2 tail) (read_ints_snd buf tail)]
  simp only
  have hcd' : ((CircleBuffer.mk cd (s : Int)).put (k : Int) buf).data.map List.length =
      data.map List.length := by
    rw [ring_put_natCast]
    simp only
    rw [map_length_set_same cd _ buf ?_ (by rw [hlen]; exact Nat.mod_lt _ hpos), hcd]
    rw [← hl, ring_get_natCast]
    rfl
  obtain ⟨c1, c2, c3, c4⟩ := ring_put_spec cd s k buf (by omega)
  generalize (CircleBuffer.mk cd (s : Int)).put (k : Int) buf = Y at c1 c2 c3 c4 hcd' ⊢
  obtain ⟨d2, s2⟩ := Y
  simp only at c1 c2 hcd'
  subst c1
  refine ⟨d2, rfl, hcd', ?_⟩
  intro t' ht'
  by_cases hkt : t' = k
  · subst hkt
    rw [c3, hv]
  · rw [c4 t' (by omega) hkt]
    exact hprev t' (by omega)

/-- Lines 538-545 on the bytes that lines 512-519 wrote for a ring `a`, read into a ring
`b` with slots of the same sizes: the ring becomes `a`, and nothing more is consumed. -/
theorem read_state_history_spec (b a : Circle_Buffer Int_Buffer) (tail : List Byte)
    (hst : is_int a.start)
    (hshape : b.data.map List.length = a.data.map List.length)
    (hring : a.data = [] ∨ (0 ≤ a.start ∧ a.start < a.size))
    (hbuf : ∀ buf ∈ a.data, buf.length < 2147483648 ∧ ∀ x ∈ buf, is_int x) :
    read_state_history b (write_state_history a ++ tail) = (a, tail) := by
  have hlen : b.data.length = a.data.length := by
    have := congrArg List.length hshape
    simpa using this
  simp only [read_state_history, write_state_history, List.append_assoc]
  rw [read_int_le32 _ hst]
  simp only [hlen]
  rcases hring with hnil | ⟨h0, h1⟩
  · cases a with
    | mk d s =>
      simp only at hnil hlen
      subst hnil
      simp only [List.length_nil, List.range_zero, List.foldl_nil, List.flatMap_nil,
        List.nil_append, Prod.mk.injEq, and_true]
      congr 1
      exact List.eq_nil_of_length_eq_zero hlen
  · have ha := ring_mk_start a h0
    generalize hs : a.start.toNat = s at ha
    have hs' : a.start = (s : Int) := by rw [← hs, Int.toNat_of_nonneg h0]
    have hsn : s < a.data.length := by
      simp only [CircleBuffer.size] at h1
      omega
    rw [hs']
    obtain ⟨r1, r2⟩ := read_fold read_state_slot
      (fun t => write_ints (a.get (t : Int)))
      (fun k c => c.start = (s : Int) ∧ c.data.map List.length = a.data.map List.length ∧
        ∀ t', t' < k → c.get (t' : Int) = a.get (t' : Int)) a.data.length
      (fun k hk c tl hc => by
        obtain ⟨i1, i2, i3⟩ := hc
        obtain ⟨cd, cs⟩ := c
        simp only at i1 i2 i3
        subst i1
        rw [ha] at i3 ⊢
        obtain ⟨cd', e1, e2, e3⟩ := read_state_slot_spec a.data cd s k tl hk i2 hbuf i3
        rw [e1]
        exact ⟨rfl, rfl, e2, e3⟩)
      (CircleBuffer.mk b.data (s : Int))
      ⟨rfl, hshape, fun t' ht' => absurd ht' (Nat.not_lt_zero _)⟩ tail
    generalize (List.range a.data.length).foldl read_state_slot
      (CircleBuffer.mk b.data (s : Int),
        (List.range a.data.length).flatMap (fun t => write_ints (a.get (t : Int))) ++ tail) = R
      at r1 r2 ⊢
    obtain ⟨⟨rd, rs⟩, rt⟩ := R
    simp only at r1 r2
    obtain ⟨q1, q2, q3⟩ := r2
    subst q1 r1
    have q2' : rd.length = a.data.length := by
      have := congrArg List.length q2
      simpa using this
    have : rd = a.data := by
      refine ring_ext a.data rd s hsn q2' (fun t ht => ?_)
      have := q3 t ht
      rw [ha] at this
      exact this
    rw [this]
    exact Prod.ext ha.symm rfl

/-- The rings of layer `l` in `read_state`, on the bytes that `write_state` wrote for
the rings `rings` of the same shape. -/
theorem read_state_histories_spec (l : Nat) (y : Hierarchy)
    (rings : List (Circle_Buffer Int_Buffer)) (tail : List Byte)
    (hl : l < y.histories.length)
    (hshape : (y.histories.getD l default).map (fun b => b.data.map List.length) =
      rings.map (fun b => b.data.map List.length))
    (hrings : ∀ b ∈ rings, is_int b.start ∧
      (b.data = [] ∨ (0 ≤ b.start ∧ b.start < b.size)) ∧
      ∀ buf ∈ b.data, buf.length < 2147483648 ∧ ∀ x ∈ buf, is_int x)
    (R : Hierarchy × List Byte)
    (hR : R = (List.range rings.length).foldl (read_state_layer_history l)
      (y, (List.range rings.length).flatMap (fun (i : Nat) =>
        write_state_history (rings.getD i default)) ++ tail)) :
    R.2 = tail ∧ R.1.histories = y.histories.set l rings ∧
    dump_frame R.1 = dump_frame y ∧ R.1.encoders = y.encoders ∧
    R.1.decoders = y.decoders := by
  have hlen : (y.histories.getD l default).length = rings.length := by
    have := congrArg List.length hshape
    simpa using this
  obtain ⟨r1, r2⟩ := read_fold (read_state_layer_history l)
    (fun (i : Nat) => write_state_history (rings.getD i default))
    (fun k z => z.histories.length = y.histories.length ∧
      (z.histories.getD l default).length = rings.length ∧
      (∀ i, k ≤ i → (z.histories.getD l default)[i]? = (y.histories.getD l default)[i]?) ∧
      (∀ i, i < k → (z.histories.getD l default)[i]? = rings[i]?) ∧
      (∀ l', l' ≠ l → z.histories[l']? = y.histories[l']?) ∧
      dump_frame z = dump_frame y ∧ z.encoders = y.encoders ∧ z.decoders = y.decoders)
    rings.length
    (fun k hk z tl hz => by
      obtain ⟨z1, z2, z3, z4, z5, z6, z7, z8⟩ := hz
      obtain ⟨b1, b2, b3⟩ := hrings _ (getD_mem_of_lt rings k default hk)
      have hsh : ((z.histories.getD l default).getD k default).data.map List.length =
          (rings.getD k default).data.map List.length := by
        have e1 := z3 k (le_refl _)
        have e2 := congrArg (fun x => x[k]?) hshape
        simp only [List.getElem?_map] at e2
        rw [getElem?_eq_some_getD _ k (by rw [hlen]; exact hk) default,
          getElem?_eq_some_getD rings k hk default] at e2
        simp only [Option.map_some', Option.some.injEq] at e2
        rw [List.getD_eq_getElem?_getD (z.histories.getD l default), e1,
          ← List.getD_eq_getElem?_getD]
        exact e2
      simp only [read_state_layer_history]
      rw [read_state_history_spec _ _ _ b1 hsh b2 b3]
      simp only
      have hly : l < z.histories.length := by rw [z1]; exact hl
      refine ⟨trivial, ?_, ?_, ?_, ?_, ?_, z6, z7, z8⟩
      · rw [length_Array_update]; exact z1
      · rw [getD_Array_update, if_pos ⟨rfl, hly⟩, List.length_set]; exact z2
      · intro i hi
        rw [getD_Array_update, if_pos ⟨rfl, hly⟩, List.getElem?_set,
          if_neg (fun hh => by omega)]
        exact z3 i (by omega)
      · intro i hi
        rw [getD_Array_update, if_pos ⟨rfl, hly⟩, List.getElem?_set]
        by_cases hik : k = i
        · subst hik
          rw [if_pos rfl, if_pos (by rw [z2]; exact hk)]
          exact (getElem?_eq_some_getD rings k hk default).symm
        · rw [if_neg hik]
          exact z4 i (by omega)
      · intro l' hl'
        rw [getElem?_Array_update, if_neg (fun hh => hl' hh.1.symm)]
        exact z5 l' hl')
    y ⟨rfl, hlen, fun i _ => rfl, fun i hi => absurd hi (Nat.not_lt_zero _),
      fun l' _ => rfl, rfl, rfl, rfl⟩ tail
  rw [← hR] at r1 r2
  obtain ⟨q1, q2, _, q4, q5, q6, q7, q8⟩ := r2
  refine ⟨r1, ?_, q6, q7, q8⟩
  apply List.ext_getElem?
  intro j
  rw [List.getElem?_set]
  by_cases hj : l = j
  · subst hj
    rw [if_pos rfl, if_pos hl, getElem?_eq_some_getD _ l (by rw [q1]; exact hl) default]
    congr 1
    apply List.ext_getElem?
    intro i
    by_cases hi : i < rings.length
    · exact q4 i hi
    · have h1 : (R.1.histories.getD l default).length ≤ i := by
        rw [q2]; exact Nat.le_of_not_lt hi
      rw [List.getElem?_eq_none h1, List.getElem?_eq_none (Nat.le_of_not_lt hi)]
  · rw [if_neg hj]
    exact q5 j (fun hh => hj hh.symm)

/-- The decoders of layer `l` in `read_state`, on the bytes that `write_state` wrote
for decoders `ds` with states of the same sizes. -/
theorem read_state_decoders_spec (K : Kernels) (hK : State_blobs K) (l : Nat) (y : Hierarchy)
    (ds : List Decoder) (tail : List Byte) (hl : l < y.decoders.length)
    (hn : (y.decoders.getD l default).length = ds.length)
    (hdec : ∀ d, d < ds.length →
      K.dec_state_size (ds.getD d default) =
        K.dec_state_size ((y.decoders.getD l default).getD d default))
    (R : Hierarchy × List Byte)
    (hR : R = (List.range ds.length).foldl (read_state_decoder K l)
      (y, (List.range ds.length).flatMap (fun (d : Nat) =>
        K.dec_write_state (ds.getD d default)) ++ tail)) :
    R.2 = tail ∧ R.1.histories = y.histories ∧ dump_frame R.1 = dump_frame y ∧
    R.1.encoders = y.encoders ∧ R.1.decoders.length = y.decoders.length ∧
    (R.1.decoders.getD l default).length = ds.length ∧
    ∀ l', l' ≠ l → R.1.decoders[l']? = y.decoders[l']? := by
  obtain ⟨_, _, k3, k4, _, _⟩ := hK
  obtain ⟨r1, r2⟩ := read_fold (read_state_decoder K l)
    (fun (d : Nat) => K.dec_write_state (ds.getD d default))
    (fun k z => z.histories = y.histories ∧ dump_frame z = dump_frame y ∧
      z.encoders = y.encoders ∧ z.decoders.length = y.decoders.length ∧
      (z.decoders.getD l default).length = ds.length ∧
      (∀ d, k ≤ d → (z.decoders.getD l default)[d]? = (y.decoders.getD l default)[d]?) ∧
      ∀ l', l' ≠ l → z.decoders[l']? = y.decoders[l']?)
    ds.length
    (fun k hk z tl hz => by
      obtain ⟨z1, z2, z3, z4, z5, z6, z7⟩ := hz
      have hlz : l < z.decoders.length := by rw [z4]; exact hl
      have hcur : (z.decoders.getD l default).getD k default =
          (y.decoders.getD l default).getD k default := by
        rw [List.getD_eq_getElem?_getD, z6 k (le_refl _), ← List.getD_eq_getElem?_getD]
      simp only [read_state_decoder]
      refine ⟨?_, z1, z2, z3, ?_, ?_, ?_, ?_⟩
      · rw [k4, hcur, ← hdec k hk, ← k3, Int.toNat_ofNat]
        exact List.drop_left' rfl
      · rw [length_Array_update]; exact z4
      · rw [getD_Array_update, if_pos ⟨rfl, hlz⟩, List.length_set]; exact z5
      · intro d hd
        rw [getD_Array_update, if_pos ⟨rfl, hlz⟩, List.getElem?_set,
          if_neg (fun hh => by omega)]
        exact z6 d (by omega)
      · intro l' hl'
        rw [getElem?_Array_update, if_neg (fun hh => hl' hh.1.symm)]
        exact z7 l' hl')
    y ⟨rfl, rfl, rfl, rfl, hn, fun d _ => rfl, fun l' _ => rfl⟩ tail
  rw [← hR] at r1 r2
  obtain ⟨q1, q2, q3, q4, q5, _, q7⟩ := r2
  exact ⟨r1, q1, q2, q3, q4, q5, q7⟩

/-- One layer of `read_state`, on the bytes that `write_state` wrote for layer `l` of a
hierarchy `A` whose layer has the same shape: the rings of the layer become those of `A`
and exactly the bytes of the layer are consumed. -/
theorem read_state_layer_spec (K : Kernels) (hK : State_blobs K) (l : Nat) (y A : Hierarchy)
    (tail : List Byte) (hlh : l < y.histories.length) (hld : l < y.decoders.length)
    (hshape : (y.histories.getD l default).map (fun b => b.data.map List.length) =
      (A.histories.getD l default).map (fun b => b.data.map List.length))
    (hrings : ∀ b ∈ A.histories.getD l default, is_int b.start ∧
      (b.data = [] ∨ (0 ≤ b.start ∧ b.start < b.size)) ∧
      ∀ buf ∈ b.data, buf.length < 2147483648 ∧ ∀ x ∈ buf, is_int x)
    (henc : K.enc_state_size (A.encoders.getD l default) =
      K.enc_state_size (y.encoders.getD l default))
    (hn : (y.decoders.getD l default).length = (A.decoders.getD l default).length)
    (hdec : ∀ d, d < (A.decoders.getD l default).length →
      K.dec_state_size ((A.decoders.getD l default).getD d default) =
        K.dec_state_size ((y.decoders.getD l default).getD d default))
    (R : Hierarchy × List Byte)
    (hR : R = read_state_layer K (y, write_state_layer K A l ++ tail) l) :
    R.2 = tail ∧ R.1.histories = y.histories.set l (A.histories.getD l default) ∧
    dump_frame R.1 = dump_frame y ∧ R.1.encoders.length = y.encoders.length ∧
    (∀ l', l' ≠ l → R.1.encoders[l']? = y.encoders[l']?) ∧
    R.1.decoders.length = y.decoders.length ∧
    ∀ l', l' ≠ l → R.1.decoders[l']? = y.decoders[l']? := by
  have hlen : (y.histories.getD l default).length = (A.histories.getD l default).length := by
    have := congrArg List.length hshape
    simpa using this
  obtain ⟨a1, a2, a3, a4, a5⟩ := read_state_histories_spec l y (A.histories.getD l default)
    (K.enc_write_state (A.encoders.getD l default) ++
      ((List.range (A.decoders.getD l default).length).flatMap (fun (d : Nat) =>
        K.dec_write_state ((A.decoders.getD l default).getD d default)) ++ tail))
    hlh hshape hrings _ rfl
  have e0 : write_state_layer K A l ++ tail =
      (List.range (A.histories.getD l default).length).flatMap (fun (i : Nat) =>
          write_state_history ((A.histories.getD l default).getD i default)) ++
        (K.enc_write_state (A.encoders.getD l default) ++
          ((List.range (A.decoders.getD l default).length).flatMap (fun (d : Nat) =>
            K.dec_write_state ((A.decoders.getD l default).getD d default)) ++ tail)) := by
    simp only [write_state_layer, List.append_assoc]
  rw [e0] at hR
  simp only [read_state_layer] at hR
  rw [hlen] at hR
  generalize (List.range (A.histories.getD l default).length).foldl
    (read_state_layer_history l)
    (y, (List.range (A.histories.getD l default).length).flatMap (fun (i : Nat) =>
          write_state_history ((A.histories.getD l default).getD i default)) ++
        (K.enc_write_state (A.encoders.getD l default) ++
          ((List.range (A.decoders.getD l default).length).flatMap (fun (d : Nat) =>
            K.dec_write_state ((A.decoders.getD l default).getD d default)) ++ tail))) = Y
    at a1 a2 a3 a4 a5 hR
  obtain ⟨z, zs⟩ := Y
  simp only at a1 a2 a3 a4 a5 hR
  subst a1
  have hE : (K.enc_read_state (z.encoders.getD l default)
      (K.enc_write_state (A.encoders.getD l default) ++
        ((List.range (A.decoders.getD l default).length).flatMap (fun (d : Nat) =>
          K.dec_write_state ((A.decoders.getD l default).getD d default)) ++ tail))).2 =
      (List.range (A.decoders.getD l default).length).flatMap (fun (d : Nat) =>
          K.dec_write_state ((A.decoders.getD l default).getD d default)) ++ tail := by
    rw [hK.2.1, a4, ← henc, ← hK.1, Int.toNat_ofNat]
    exact List.drop_left' rfl
  have hcnt : (z.decoders.getD l default).length = (A.decoders.getD l default).length := by
    rw [a5]; exact hn
  rw [hE, hcnt] at hR
  obtain ⟨b1, b2, b3, b4, b5, _, b7⟩ := read_state_decoders_spec K hK l
    ({ z with encoders := z.encoders.set l (K.enc_read_state (z.encoders.getD l default)
        (K.enc_write_state (A.encoders.getD l default) ++
          ((List.range (A.decoders.getD l default).length).flatMap (fun (d : Nat) =>
            K.dec_write_state ((A.decoders.getD l default).getD d default)) ++ tail))).1 })
    (A.decoders.getD l default) tail (by simp only; rw [a5]; exact hld)
    (by simp only; rw [a5]; exact hn) (by simp only; rw [a5]; exact hdec) R
    (by rw [hR])
  simp only at b2 b3 b4 b5 b7
  refine ⟨b1, b2.trans a2, b3.trans a3, ?_, fun l' hl' => ?_, b5.trans (by rw [a5]),
    fun l' hl' => ?_⟩
  · rw [b4, List.length_set, a4]
  · rw [b4, List.getElem?_set, if_neg (fun hh => hl' hh.symm), a4]
  · rw [b7 l' hl', a5]

/-- The loop of `read_state` over the layers, on the bytes that `write_state` wrote for
the layers of a hierarchy `A` of the same shape. -/
theorem read_state_layers_spec (K : Kernels) (hK : State_blobs K) (y0 A : Hierarchy)
    (tail : List Byte) (hH : y0.histories.length = A.encoders.length)
    (hD : y0.decoders.length = A.encoders.length)
    (hHA : A.histories.length = A.encoders.length)
    (hshape : ∀ l, l < A.encoders.length →
      (y0.histories.getD l default).map (fun b => b.data.map List.length) =
        (A.histories.getD l default).map (fun b => b.data.map List.length))
    (hrings : ∀ l, l < A.encoders.length → ∀ b ∈ A.histories.getD l default,
      is_int b.start ∧ (b.data = [] ∨ (0 ≤ b.start ∧ b.start < b.size)) ∧
      ∀ buf ∈ b.data, buf.length < 2147483648 ∧ ∀ x ∈ buf, is_int x)
    (henc : ∀ l, l < A.encoders.length →
      K.enc_state_size (A.encoders.getD l default) =
        K.enc_state_size (y0.encoders.getD l default))
    (hn : ∀ l, l < A.encoders.length →
      (y0.decoders.getD l default).length = (A.decoders.getD l default).length)
    (hdec : ∀ l, l < A.encoders.length → ∀ d, d < (A.decoders.getD l default).length →
      K.dec_state_size ((A.decoders.getD l default).getD d default) =
        K.dec_state_size ((y0.decoders.getD l default).getD d default))
    (R : Hierarchy × List Byte)
    (hR : R = (List.range A.encoders.length).foldl (read_state_layer K)
      (y0, (List.range A.encoders.length).flatMap (write_state_layer K A) ++ tail)) :
    R.2 = tail ∧ R.1.histories = A.histories ∧ dump_frame R.1 = dump_frame y0 ∧
    R.1.encoders.length = y0.encoders.length ∧ R.1.decoders.length = y0.decoders.length := by
  obtain ⟨r1, r2⟩ := read_fold (read_state_layer K) (write_state_layer K A)
    (fun k y => y.histories.length = y0.histories.length ∧
      (∀ l, l < k → y.histories[l]? = A.histories[l]?) ∧
      (∀ l, k ≤ l → y.histories[l]? = y0.histories[l]?) ∧
      y.encoders.length = y0.encoders.length ∧
      (∀ l, k ≤ l → y.encoders[l]? = y0.encoders[l]?) ∧
      y.decoders.length = y0.decoders.length ∧
      (∀ l, k ≤ l → y.decoders[l]? = y0.decoders[l]?) ∧
      dump_frame y = dump_frame y0)
    A.encoders.length
    (fun k hk y tl hy => by
      obtain ⟨y1, y2, y3, y4, y5, y6, y7, y8⟩ := hy
      have eh : y.histories.getD k default = y0.histories.getD k default := by
        rw [List.getD_eq_getElem?_getD, y3 k (le_refl _), ← List.getD_eq_getElem?_getD]
      have ee : y.encoders.getD k default = y0.encoders.getD k default := by
        rw [List.getD_eq_getElem?_getD, y5 k (le_refl _), ← List.getD_eq_getElem?_getD]
      have ed : y.decoders.getD k default = y0.decoders.getD k default := by
        rw [List.getD_eq_getElem?_getD, y7 k (le_refl _), ← List.getD_eq_getElem?_getD]
      obtain ⟨b1, b2, b3, b4, b5, b6, b7⟩ := read_state_layer_spec K hK k y A tl
        (by rw [y1, hH]; exact hk) (by rw [y6, hD]; exact hk)
        (by rw [eh]; exact hshape k hk) (hrings k hk) (by rw [ee]; exact henc k hk)
        (by rw [ed]; exact hn k hk) (by rw [ed]; exact hdec k hk) _ rfl
      refine ⟨b1, ?_, ?_, ?_, b4.trans y4, ?_, b6.trans y6, ?_, b3.trans y8⟩
      · rw [b2, List.length_set]; exact y1
      · intro l hl
        rw [b2, List.getElem?_set]
        by_cases hlk : k = l
        · subst hlk
          rw [if_pos rfl, if_pos (by rw [y1, hH]; exact hk)]
          exact (getElem?_eq_some_getD A.histories k (by rw [hHA]; exact hk) default).symm
        · rw [if_neg hlk]
          exact y2 l (by omega)
      · intro l hl
        rw [b2, List.getElem?_set, if_neg (fun hh => by omega)]
        exact y3 l (by omega)
      · intro l hl
        rw [b5 l (fun hh => by omega)]
        exact y5 l (by omega)
      · intro l hl
        rw [b7 l (fun hh => by omega)]
        exact y7 l (by omega))
    y0 ⟨rfl, fun l hl => absurd hl (Nat.not_lt_zero _), fun l _ => rfl, rfl, fun l _ => rfl,
      rfl, fun l _ => rfl, rfl⟩ tail
  rw [← hR] at r1 r2
  obtain ⟨q1, q2, _, q4, _, q6, _, q8⟩ := r2
  refine ⟨r1, ?_, q8, q4, q6⟩
  apply List.ext_getElem?
  intro l
  by_cases hl : l < A.encoders.length
  · exact q2 l hl
  · rw [List.getElem?_eq_none (by rw [q1, hH]; exact Nat.le_of_not_lt hl),
      List.getElem?_eq_none (by rw [hHA]; exact Nat.le_of_not_lt hl)]

/-- The loop of `read_state` over the actors, on the bytes that `write_state` wrote for
actors `acts` with states of the same sizes: only the actors change and exactly these
bytes are consumed. -/
theorem read_state_actors_spec (K : Kernels) (hK : State_blobs K) (y : Hierarchy)
    (acts : List Actor) (tail : List Byte)
    (hsz : ∀ d, d < acts.length →
      K.act_state_size (acts.getD d default) = K.act_state_size (y.actors.getD d default))
    (R : Hierarchy × List Byte)
    (hR : R = (List.range acts.length).foldl (read_state_actor K)
      (y, (List.range acts.length).flatMap (fun (d : Nat) =>
        K.act_write_state (acts.getD d default)) ++ tail)) :
    R.2 = tail ∧ { R.1 with actors := [] } = { y with actors := [] } ∧
    R.1.actors.length = y.actors.length := by
  obtain ⟨_, _, _, _, k5, k6⟩ := hK
  obtain ⟨r1, r2⟩ := read_fold (read_state_actor K)
    (fun (d : Nat) => K.act_write_state (acts.getD d default))
    (fun k z => { z with actors := [] } = { y with actors := [] } ∧
      z.actors.length = y.actors.length ∧
      ∀ d, k ≤ d → z.actors[d]? = y.actors[d]?)
    acts.length
    (fun k hk z tl hz => by
      obtain ⟨z1, z2, z3⟩ := hz
      have hcur : z.actors.getD k default = y.actors.getD k default := by
        rw [List.getD_eq_getElem?_getD, z3 k (le_refl _), ← List.getD_eq_getElem?_getD]
      simp only [read_state_actor]
      refine ⟨?_, z1, ?_, ?_⟩
      · rw [k6, hcur, ← hsz k hk, ← k5, Int.toNat_ofNat]
        exact List.drop_left' rfl
      · rw [List.length_set]; exact z2
      · intro d hd
        rw [List.getElem?_set, if_neg (fun hh => by omega)]
        exact z3 d (by omega))
    y ⟨rfl, rfl, fun d _ => rfl⟩ tail
  rw [← hR] at r1 r2
  exact ⟨r1, r2.1, r2.2.1⟩

theorem sample_kernels_state_blobs : State_blobs sample_kernels := by
  refine ⟨fun e => ?_, fun e s => ?_, fun d => ?_, fun d s => ?_, fun a => ?_, fun a s => ?_⟩
  · simp only [sample_kernels, length_write_ints]; push_cast; ring
  · simp only [sample_kernels, read_ints]
    congr 1
  · simp only [sample_kernels, length_write_ints]; push_cast; ring
  · simp only [sample_kernels, read_ints]
    congr 1
  · simp only [sample_kernels, length_write_ints]; push_cast; ring
  · simp only [sample_kernels, read_ints]
    congr 1

/-- C23: for two hierarchies `A` and `B` of identical shape, `B.read_state` on the stream
that `A.write_state` produced (followed by any bytes `tail`) consumes exactly the bytes
written and makes the `updates`, the `ticks` and every history ring of `B` (its start
and every slot `histories[l][i][t]`) equal to those of `A`, and leaves
`ticks_per_update`, `i_indices`, `d_indices`, `io_sizes`, `io_types` and `params` of `B`
as they were. -/
theorem read_state_restores_write_state (K : Kernels) (hK : State_blobs K) (A B : Hierarchy)
    (hs : Same_shape K A B) (hA : State_fits A) (tail : List Byte)
    (R : Hierarchy × List Byte) (hR : R = read_state K B (write_state K A ++ tail)) :
    R.2 = tail ∧ R.1.updates = A.updates ∧ R.1.ticks = A.ticks ∧
    R.1.histories = A.histories ∧
    (∀ l i, ((R.1.histories.getD l default).getD i default).start =
      ((A.histories.getD l default).getD i default).start) ∧
    (∀ l i t, ((R.1.histories.getD l default).getD i default).get t =
      ((A.histories.getD l default).getD i default).get t) ∧
    R.1.ticks_per_update = B.ticks_per_update ∧ R.1.i_indices = B.i_indices ∧
    R.1.d_indices = B.d_indices ∧ R.1.io_sizes = B.io_sizes ∧ R.1.io_types = B.io_types ∧
    R.1.params = B.params := by
  obtain ⟨s1, s2, s3, s4, s5, s6, s7, s8, s9⟩ := hs
  obtain ⟨f1, f2, f3, f4⟩ := hA
  have hBH : B.histories.length = A.encoders.length := by
    have := congrArg List.length s5
    simp only [slot_shape, List.length_map] at this
    rw [← this, f1]
  have hBD : B.decoders.length = A.encoders.length := by
    have := congrArg List.length s6
    simp only [dec_counts, List.length_map] at this
    rw [← this, f2]
  have hshape : ∀ l, l < A.encoders.length →
      (B.histories.getD l default).map (fun b => b.data.map List.length) =
        (A.histories.getD l default).map (fun b => b.data.map List.length) := by
    intro l hl
    have e := congrArg (fun x => x[l]?) s5
    simp only [slot_shape, List.getElem?_map] at e
    rw [getElem?_eq_some_getD A.histories l (by rw [f1]; exact hl) default,
      getElem?_eq_some_getD B.histories l (by rw [hBH]; exact hl) default] at e
    simp only [Option.map_some', Option.some.injEq] at e
    exact e.symm
  have hn : ∀ l, l < A.encoders.length →
      (B.decoders.getD l default).length = (A.decoders.getD l default).length := by
    intro l hl
    have e := congrArg (fun x => x[l]?) s6
    simp only [dec_counts, List.getElem?_map] at e
    rw [getElem?_eq_some_getD A.decoders l (by rw [f2]; exact hl) default,
      getElem?_eq_some_getD B.decoders l (by rw [hBD]; exact hl) default] at e
    simp only [Option.map_some', Option.some.injEq] at e
    exact e.symm
  have hrings : ∀ l, l < A.encoders.length → ∀ b ∈ A.histories.getD l default,
      is_int b.start ∧ (b.data = [] ∨ (0 ≤ b.start ∧ b.start < b.size)) ∧
      ∀ buf ∈ b.data, buf.length < 2147483648 ∧ ∀ x ∈ buf, is_int x :=
    fun l hl b hb =>
      f4 _ (getD_mem_of_lt A.histories l default (by rw [f1]; exact hl)) b hb
  have e0 : write_state K A ++ tail =
      A.updates ++ (write_ints A.ticks ++
        ((List.range A.encoders.length).flatMap (write_state_layer K A) ++
          ((List.range A.actors.length).flatMap (fun (d : Nat) =>
            K.act_write_state (A.actors.getD d default)) ++ tail))) := by
    simp only [write_state, List.append_assoc]
  rw [e0] at hR
  simp only [read_state] at hR
  rw [← s2, read_bytes_append, ← s3] at hR
  simp only at hR
  rw [read_ints_append A.ticks f3, ← s1] at hR
  simp only at hR
  obtain ⟨a1, a2, a3, a4, a5⟩ := read_state_layers_spec K hK
    { B with updates := A.updates, ticks := A.ticks } A
    ((List.range A.actors.length).flatMap (fun (d : Nat) =>
      K.act_write_state (A.actors.getD d default)) ++ tail)
    hBH hBD f1 hshape hrings s7 hn s8 _ rfl
  generalize (List.range A.encoders.length).foldl (read_state_layer K)
    ({ B with updates := A.updates, ticks := A.ticks },
      (List.range A.encoders.length).flatMap (write_state_layer K A) ++
        ((List.range A.actors.length).flatMap (fun (d : Nat) =>
          K.act_write_state (A.actors.getD d default)) ++ tail)) = Y at a1 a2 a3 a4 a5 hR
  obtain ⟨y, ys⟩ := Y
  simp only at a1 a2 a3 a4 a5 hR
  subst a1
  simp only [dump_frame, Prod.mk.injEq] at a3
  obtain ⟨c1, c2, c3, c4, c5, c6, c7, c8, c9⟩ := a3
  rw [c8, ← s4] at hR
  obtain ⟨b1, b2, _⟩ := read_state_actors_spec K hK y A.actors tail
    (fun d hd => by rw [c8]; exact s9 d hd) R hR
  simp only [Hierarchy.mk.injEq, true_and] at b2
  obtain ⟨_, _, z6, z7, zh, z3, z4, z5, z1, z2, zp⟩ := b2
  have hh : R.1.histories = A.histories := zh.trans a2
  refine ⟨b1, z3.trans c3, z4.trans c4, hh, fun l i => by rw [hh], fun l i t => by rw [hh],
    z5.trans c5, z6.trans c6, z7.trans c7, z1.trans c1, z2.trans c2, zp.trans c9⟩

set_option maxRecDepth 100000 in
theorem read_state_restores_write_state_witness :
    Same_shape sample_kernels
      (run sample_kernels (Hierarchy.create sample_kernels sample_io_descs sample_layer_descs)
        [Call.step (sample_inputs 0) true 0 0])
      (Hierarchy.create sample_kernels sample_io_descs sample_layer_descs) ∧
    State_fits
      (run sample_kernels (Hierarchy.create sample_kernels sample_io_descs sample_layer_descs)
        [Call.step (sample_inputs 0) true 0 0]) ∧
    (read_state sample_kernels
      (Hierarchy.create sample_kernels sample_io_descs sample_layer_descs)
      (write_state sample_kernels
        (run sample_kernels
          (Hierarchy.create sample_kernels sample_io_descs sample_layer_descs)
          [Call.step (sample_inputs 0) true 0 0]) ++ [7])).1.histories =
      (run sample_kernels (Hierarchy.create sample_kernels sample_io_descs sample_layer_descs)
        [Call.step (sample_inputs 0) true 0 0]).histories :=
  ⟨by decide, by decide,
   (read_state_restores_write_state sample_kernels sample_kernels_state_blobs
      (run sample_kernels (Hierarchy.create sample_kernels sample_io_descs sample_layer_descs)
        [Call.step (sample_inputs 0) true 0 0])
      (Hierarchy.create sample_kernels sample_io_descs sample_layer_descs)
      (by decide) (by decide) [7] _ rfl).2.2.2.1⟩

/-! ## `clear_state` -/

/-- A loop that changes `xs[t]` to `f(xs[t])` for every position `t` applies `f` to every
element. -/
theorem foldl_update_map {α : Type} [Inhabited α] (f : α → α) (xs : List α) :
    (List.range xs.length).foldl (fun (ys : List α) (t : Nat) => Array_update ys t f) xs =
      xs.map f := by
  rw [foldl_update_range (fun _ => f) xs.length xs (le_refl _)]
  apply List.ext_getElem
  · simp
  · intro i h1 h2
    simp only [List.drop_length, List.append_nil, List.getElem_map, List.getElem_range]
    rw [List.getD_eq_getElem?_getD, List.getElem?_eq_getElem (by simpa using h2)]
    rfl

/-- A loop over `l < n` that changes `xs[l]` to `g(xs[l])`. -/
theorem getElem?_foldl_update_upto {α : Type} [Inhabited α] (g : α → α) (n : Nat)
    (xs : List α) (l : Nat) :
    ((List.range n).foldl (fun (ys : List α) (l : Nat) => Array_update ys l g) xs)[l]? =
      if l < n then (xs[l]?).map g else xs[l]? := by
  induction n with
  | zero => simp
  | succ n ih =>
    rw [List.range_succ, List.foldl_append]
    simp only [List.foldl_cons, List.foldl_nil]
    rw [getElem?_Array_update]
    by_cases h1 : n = l
    · subst h1
      by_cases h2 : n < ((List.range n).foldl
          (fun (ys : List α) (l : Nat) => Array_update ys l g) xs).length
      · rw [if_pos ⟨rfl, h2⟩, if_pos (Nat.lt_succ_self n)]
        have e := ih
        rw [if_neg (Nat.lt_irrefl n)] at e
        rw [List.getD_eq_getElem?_getD, e]
        have h3 : n < xs.length := by
          by_contra hc
          rw [List.getElem?_eq_none (Nat.le_of_not_lt hc)] at e
          rw [List.getElem?_eq_getElem h2] at e
          exact Option.noConfusion e
        rw [List.getElem?_eq_getElem h3]
        rfl
      · rw [if_neg (fun hh => h2 hh.2), if_pos (Nat.lt_succ_self n), ih,
          if_neg (Nat.lt_irrefl n)]
        have e := ih
        rw [if_neg (Nat.lt_irrefl n), List.getElem?_eq_none (Nat.le_of_not_lt h2)] at e
        rw [← e]
        rfl
    · rw [if_neg (fun hh => h1 hh.1), ih]
      by_cases h3 : l < n
      · rw [if_pos h3, if_pos (by omega)]
      · rw [if_neg h3, if_neg (by omega)]

/-- Lines 263-264 on one ring, slot after slot. -/
theorem clear_ring_loop (data : List Int_Buffer) (s k : Nat) (hk : k ≤ data.length) :
    ∃ cd, (List.range k).foldl (fun (b : Circle_Buffer Int_Buffer) (t : Nat) =>
        b.put t (Array_fill (b.get t) 0)) (CircleBuffer.mk data (s : Int)) =
        CircleBuffer.mk cd (s : Int) ∧
      cd.length = data.length ∧
      (∀ t, t < k → (CircleBuffer.mk cd (s : Int)).get (t : Int) =
        Array_fill ((CircleBuffer.mk data (s : Int)).get (t : Int)) 0) ∧
      ∀ t, k ≤ t → t < data.length → (CircleBuffer.mk cd (s : Int)).get (t : Int) =
        (CircleBuffer.mk data (s : Int)).get (t : Int) := by
  induction k with
  | zero => exact ⟨data, rfl, rfl, fun t ht => absurd ht (Nat.not_lt_zero _), fun t _ _ => rfl⟩
  | succ k ih =>
    obtain ⟨cd, e1, e2, e3, e4⟩ := ih (by omega)
    rw [List.range_succ, List.foldl_append, e1]
    simp only [List.foldl_cons, List.foldl_nil]
    obtain ⟨a1, a2, a3, a4⟩ := ring_put_spec cd s k
      (Array_fill ((CircleBuffer.mk cd (s : Int)).get (k : Int)) 0) (by omega)
    rw [ring_put_natCast] at a1 a2 a3 a4 ⊢
    refine ⟨_, rfl, a2.trans e2, fun t ht => ?_, fun t ht1 ht2 => ?_⟩
    · by_cases htk : t = k
      · subst htk
        rw [a3, e4 t (le_refl _) (by omega)]
      · rw [a4 t (by omega) htk]
        exact e3 t (by omega)
    · rw [a4 t (by omega) (by omega)]
      exact e4 t (by omega) ht2

/-- Lines 263-264 on one ring: every slot is filled with `0`, the start is kept. -/
theorem clear_ring_eq (b : Circle_Buffer Int_Buffer)
    (hring : b.data = [] ∨ (0 ≤ b.start ∧ b.start < b.size)) :
    (List.range b.data.length).foldl (fun (b : Circle_Buffer Int_Buffer) (t : Nat) =>
        b.put t (Array_fill (b.get t) 0)) b =
      ⟨b.data.map (fun buf => Array_fill buf 0), b.start⟩ := by
  obtain ⟨data, st⟩ := b
  simp only [CircleBuffer.size] at hring ⊢
  rcases hring with h0 | ⟨h0, h1⟩
  · subst h0
    rfl
  · obtain ⟨s, rfl⟩ := Int.eq_ofNat_of_zero_le h0
    have hs : s < data.length := by exact_mod_cast h1
    obtain ⟨cd, e1, e2, e3, _⟩ := clear_ring_loop data s data.length (le_refl _)
    rw [e1]
    congr 1
    refine ring_ext (data.map (fun buf => Array_fill buf 0)) cd s (by simpa using hs)
      (by simpa using e2) (fun t ht => ?_)
    rw [e3 t (by simpa using ht), ring_get_natCast, ring_get_natCast, List.length_map,
      List.getD_eq_getElem?_getD, List.getD_eq_getElem?_getD, List.getElem?_map,
      List.getElem?_eq_getElem (Nat.mod_lt _ (by omega))]
    rfl

/-- Lines 263-264: the loop over the slots of ring `i` of layer `l`, on the histories. -/
theorem clear_slots_eq (H : List (List (Circle_Buffer Int_Buffer))) (l i n : Nat) :
    (List.range n).foldl (fun (H : List (List (Circle_Buffer Int_Buffer))) (t : Nat) =>
        Array_update H l (fun hs =>
          Array_update hs i (fun b => b.put t (Array_fill (b.get t) 0)))) H =
      Array_update H l (fun hs => Array_update hs i (fun b =>
        (List.range n).foldl (fun (b : Circle_Buffer Int_Buffer) (t : Nat) =>
          b.put t (Array_fill (b.get t) 0)) b)) := by
  rw [foldl_Array_update_at (fun (t : Nat) (hs : List (Circle_Buffer Int_Buffer)) =>
    Array_update hs i (fun b => b.put t (Array_fill (b.get t) 0))) l (List.range n) H]
  congr 1
  funext hs
  exact foldl_Array_update_at (fun (t : Nat) (b : Circle_Buffer Int_Buffer) =>
    b.put t (Array_fill (b.get t) 0)) i (List.range n) hs

/-- Lines 262-265: the loop over the rings of layer `l`, on the histories. -/
theorem clear_rings_eq (H : List (List (Circle_Buffer Int_Buffer))) (l : Nat) :
    (List.range (H.getD l default).length).foldl
      (fun (H : List (List (Circle_Buffer Int_Buffer))) (i : Nat) =>
        (List.range ((H.getD l default).getD i default).data.length).foldl
          (fun (H : List (List (Circle_Buffer Int_Buffer))) (t : Nat) =>
            Array_update H l (fun hs =>
              Array_update hs i (fun b => b.put t (Array_fill (b.get t) 0)))) H) H =
      Array_update H l (List.map (fun b =>
        (List.range b.data.length).foldl (fun (b : Circle_Buffer Int_Buffer) (t : Nat) =>
          b.put t (Array_fill (b.get t) 0)) b)) := by
  have e : (fun (H : List (List (Circle_Buffer Int_Buffer))) (i : Nat) =>
        (List.range ((H.getD l default).getD i default).data.length).foldl
          (fun (H : List (List (Circle_Buffer Int_Buffer))) (t : Nat) =>
            Array_update H l (fun hs =>
              Array_update hs i (fun b => b.put t (Array_fill (b.get t) 0)))) H) =
      fun (H : List (List (Circle_Buffer Int_Buffer))) (i : Nat) =>
        Array_update H l (fun hs => Array_update hs i (fun b =>
          (List.range b.data.length).foldl (fun (b : Circle_Buffer Int_Buffer) (t : Nat) =>
            b.put t (Array_fill (b.get t) 0)) b)) := by
    funext H i
    rw [clear_slots_eq]
    rfl
  rw [e, foldl_Array_update_at (fun (i : Nat) (hs : List (Circle_Buffer Int_Buffer)) =>
    Array_update hs i (fun b =>
      (List.range b.data.length).foldl (fun (b : Circle_Buffer Int_Buffer) (t : Nat) =>
        b.put t (Array_fill (b.get t) 0)) b)) l (List.range (H.getD l default).length) H]
  unfold Array_update
  rw [← foldl_update_map]
  rfl

/-- Lines 261-266: the rings of every layer `l < encoders.size()` after the loops. -/
theorem histories_clear_histories (h : Hierarchy) (l : Nat) :
    (clear_histories h).histories[l]? =
      if l < h.encoders.length then
        (h.histories[l]?).map (List.map (fun b =>
          (List.range b.data.length).foldl (fun (b : Circle_Buffer Int_Buffer) (t : Nat) =>
            b.put t (Array_fill (b.get t) 0)) b))
      else h.histories[l]? := by
  have e : (clear_histories h).histories =
      (List.range h.encoders.length).foldl
        (fun (H : List (List (Circle_Buffer Int_Buffer))) (l : Nat) =>
          Array_update H l (List.map (fun b =>
            (List.range b.data.length).foldl
              (fun (b : Circle_Buffer Int_Buffer) (t : Nat) =>
                b.put t (Array_fill (b.get t) 0)) b))) h.histories := by
    unfold clear_histories
    refine foldl_proj (fun x : Hierarchy => x.histories) _ _ (fun s a => ?_) _ _
    rw [← clear_rings_eq]
    refine foldl_proj (fun x : Hierarchy => x.histories) _ _ (fun s i => ?_) _ _
    exact foldl_proj (fun x : Hierarchy => x.histories) _ _ (fun s t => rfl) _ _
  rw [e]
  exact getElem?_foldl_update_upto _ _ _ _

theorem getD_of_getElem?_map {α : Type} (f : α → α) (xs ys : List (List α)) (l : Nat)
    (h : xs[l]? = (ys[l]?).map (List.map f)) :
    xs.getD l default = (ys.getD l default).map f := by
  rw [List.getD_eq_getElem?_getD, List.getD_eq_getElem?_getD, h]
  cases ys[l]? <;> rfl

/-- Lines 268-270: `clear_state` calls `clear_state` once on every encoder. -/
theorem encoders_clear_state (K : Kernels) (h : Hierarchy) :
    (clear_state K h).encoders = h.encoders.map K.enc_clear_state := by
  have hh : ∀ s : Hierarchy, (clear_histories s).encoders = s.encoders := fun s => by
    unfold clear_histories
    exact foldl_keeps (fun x : Hierarchy => x.encoders) _ (fun s a =>
      foldl_keeps (fun x : Hierarchy => x.encoders) _ (fun s a =>
        foldl_keeps (fun x : Hierarchy => x.encoders) _ (fun s a => by rfl) _ _) _ _) _ _
  have he : ∀ (n : Nat) (s : Hierarchy), ((List.range n).foldl
      (fun (h : Hierarchy) (l : Nat) =>
        { h with encoders := Array_update h.encoders l K.enc_clear_state }) s).encoders =
      (List.range n).foldl (fun (es : List Encoder) (l : Nat) =>
        Array_update es l K.enc_clear_state) s.encoders :=
    fun n s => foldl_proj (fun x : Hierarchy => x.encoders) _ _ (fun s a => rfl) _ _
  have hd : ∀ (n : Nat) (s : Hierarchy), ((List.range n).foldl
      (fun (h : Hierarchy) (l : Nat) =>
        (List.range (h.decoders.getD l default).length).foldl (fun (h : Hierarchy) (d : Nat) =>
          { h with decoders := Array_update h.decoders l (fun ds =>
              Array_update ds d K.dec_clear_state) }) h) s).encoders = s.encoders :=
    fun n s => foldl_keeps (fun x : Hierarchy => x.encoders) _ (fun s a =>
      foldl_keeps (fun x : Hierarchy => x.encoders) _ (fun s a => by rfl) _ _) _ _
  have ha : ∀ (n : Nat) (s : Hierarchy), ((List.range n).foldl
      (fun (h : Hierarchy) (d : Nat) =>
        { h with actors := Array_update h.actors d K.act_clear_state }) s).encoders =
        s.encoders :=
    fun n s => foldl_keeps (fun x : Hierarchy => x.encoders) _ (fun s a => by rfl) _ _
  simp only [clear_state]
  rw [ha, hd, he, hh]
  exact foldl_update_map K.enc_clear_state h.encoders

/-- Lines 272-276: `clear_state` calls `clear_state` once on every decoder of every layer
`l < encoders.size()`. -/
theorem decoders_clear_state (K : Kernels) (h : Hierarchy) (l : Nat) :
    (clear_state K h).decoders[l]? =
      if l < h.encoders.length then (h.decoders[l]?).map (List.map K.dec_clear_state)
      else h.decoders[l]? := by
  have hh : ∀ s : Hierarchy, (clear_histories s).decoders = s.decoders := fun s => by
    unfold clear_histories
    exact foldl_keeps (fun x : Hierarchy => x.decoders) _ (fun s a =>
      foldl_keeps (fun x : Hierarchy => x.decoders) _ (fun s a =>
        foldl_keeps (fun x : Hierarchy => x.decoders) _ (fun s a => by rfl) _ _) _ _) _ _
  have he : ∀ (n : Nat) (s : Hierarchy), ((List.range n).foldl
      (fun (h : Hierarchy) (l : Nat) =>
        { h with encoders := Array_update h.encoders l K.enc_clear_state }) s).decoders =
      s.decoders :=
    fun n s => foldl_keeps (fun x : Hierarchy => x.decoders) _ (fun s a => by rfl) _ _
  have hd : ∀ (n : Nat) (s : Hierarchy), ((List.range n).foldl
      (fun (h : Hierarchy) (l : Nat) =>
        (List.range (h.decoders.getD l default).length).foldl (fun (h : Hierarchy) (d : Nat) =>
          { h with decoders := Array_update h.decoders l (fun ds =>
              Array_update ds d K.dec_clear_state) }) h) s).decoders =
      (List.range n).foldl (fun (D : List (List Decoder)) (l : Nat) =>
        Array_update D l (List.map K.dec_clear_state)) s.decoders := by
    intro n s
    refine foldl_proj (fun x : Hierarchy => x.decoders) _ _ (fun s a => ?_) _ _
    have e : (List.range (s.decoders.getD a default).length).foldl
        (fun (D : List (List Decoder)) (d : Nat) =>
          Array_update D a (fun ds => Array_update ds d K.dec_clear_state)) s.decoders =
        Array_update s.decoders a (List.map K.dec_clear_state) := by
      rw [foldl_Array_update_at (fun (d : Nat) (ds : List Decoder) =>
        Array_update ds d K.dec_clear_state) a]
      unfold Array_update
      rw [← foldl_update_map]
      rfl
    rw [← e]
    exact foldl_proj (fun x : Hierarchy => x.decoders) _ _ (fun s d => rfl) _ _
  have ha : ∀ (n : Nat) (s : Hierarchy), ((List.range n).foldl
      (fun (h : Hierarchy) (d : Nat) =>
        { h with actors := Array_update h.actors d K.act_clear_state }) s).decoders =
        s.decoders :=
    fun n s => foldl_keeps (fun x : Hierarchy => x.decoders) _ (fun s a => by rfl) _ _
  have hen : ∀ (n : Nat) (s : Hierarchy), ((List.range n).foldl
      (fun (h : Hierarchy) (l : Nat) =>
        { h with encoders := Array_update h.encoders l K.enc_clear_state }) s).encoders.length =
      s.encoders.length :=
    fun n s => foldl_keeps (fun x : Hierarchy => x.encoders.length) _
      (fun s a => by simp) _ _
  have hhn : ∀ s : Hierarchy, (clear_histories s).encoders.length = s.encoders.length :=
    fun s => by
      unfold clear_histories
      exact foldl_keeps (fun x : Hierarchy => x.encoders.length) _ (fun s a =>
        foldl_keeps (fun x : Hierarchy => x.encoders.length) _ (fun s a =>
          foldl_keeps (fun x : Hierarchy => x.encoders.length) _ (fun s a => by rfl) _ _)
            _ _) _ _
  simp only [clear_state]
  rw [ha, hd, he, hh, hen, hhn]
  exact getElem?_foldl_update_upto _ _ _ _

/-- Lines 279-280: `clear_state` calls `clear_state` once on every actor. -/
theorem actors_clear_state (K : Kernels) (h : Hierarchy) :
    (clear_state K h).actors = h.actors.map K.act_clear_state := by
  have hh : ∀ s : Hierarchy, (clear_histories s).actors = s.actors := fun s => by
    unfold clear_histories
    exact foldl_keeps (fun x : Hierarchy => x.actors) _ (fun s a =>
      foldl_keeps (fun x : Hierarchy => x.actors) _ (fun s a =>
        foldl_keeps (fun x : Hierarchy => x.actors) _ (fun s a => by rfl) _ _) _ _) _ _
  have he : ∀ (n : Nat) (s : Hierarchy), ((List.range n).foldl
      (fun (h : Hierarchy) (l : Nat) =>
        { h with encoders := Array_update h.encoders l K.enc_clear_state }) s).actors =
      s.actors :=
    fun n s => foldl_keeps (fun x : Hierarchy => x.actors) _ (fun s a => by rfl) _ _
  have hd : ∀ (n : Nat) (s : Hierarchy), ((List.range n).foldl
      (fun (h : Hierarchy) (l : Nat) =>
        (List.range (h.decoders.getD l default).length).foldl (fun (h : Hierarchy) (d : Nat) =>
          { h with decoders := Array_update h.decoders l (fun ds =>
              Array_update ds d K.dec_clear_state) }) h) s).actors = s.actors :=
    fun n s => foldl_keeps (fun x : Hierarchy => x.actors) _ (fun s a =>
      foldl_keeps (fun x : Hierarchy => x.actors) _ (fun s a => by rfl) _ _) _ _
  have ha : ∀ (n : Nat) (s : Hierarchy), ((List.range n).foldl
      (fun (h : Hierarchy) (d : Nat) =>
        { h with actors := Array_update h.actors d K.act_clear_state }) s).actors =
      (List.range n).foldl (fun (acts : List Actor) (d : Nat) =>
        Array_update acts d K.act_clear_state) s.actors :=
    fun n s => foldl_proj (fun x : Hierarchy => x.actors) _ _ (fun s a => rfl) _ _
  simp only [clear_state]
  rw [ha, hd, he, hh]
  exact foldl_update_map K.act_clear_state h.actors

/-- C24: after `clear_state` on a hierarchy whose history rings (of the layers
`l < encoders.size()`) have their start inside the ring, every history ring holds the same
number of slots, of the same sizes, with every entry `0` and the start it had; every
`ticks[l]` is `0` and every `updates[l]` is false (`0`); the encoders, the decoders of
every layer and the actors are those before the call after one call of their own
`clear_state` each, which is all the hierarchy does to them (it writes no weight of
theirs itself); and `ticks_per_update`, `i_indices`, `d_indices`, `io_sizes`, `io_types`,
`params` and the lengths of `ticks` and `updates` are unchanged. -/
theorem clear_state_effects (K : Kernels) (h : Hierarchy)
    (hrings : ∀ l, l < h.encoders.length → ∀ b ∈ h.histories.getD l default,
      b.data = [] ∨ (0 ≤ b.start ∧ b.start < b.size)) :
    (∀ l, l < h.encoders.length →
      (clear_state K h).histories.getD l default =
        (h.histories.getD l default).map (fun b =>
          ⟨b.data.map (fun buf => Array_fill buf 0), b.start⟩)) ∧
    (∀ l, l < h.encoders.length → ∀ b ∈ (clear_state K h).histories.getD l default,
      ∀ buf ∈ b.data, ∀ x ∈ buf, x = 0) ∧
    slot_shape (clear_state K h) = slot_shape h ∧
    (clear_state K h).ticks.length = h.ticks.length ∧
    (∀ x ∈ (clear_state K h).ticks, x = 0) ∧
    (clear_state K h).updates.length = h.updates.length ∧
    (∀ x ∈ (clear_state K h).updates, x = 0) ∧
    (clear_state K h).encoders = h.encoders.map K.enc_clear_state ∧
    (∀ l, l < h.encoders.length →
      (clear_state K h).decoders.getD l default =
        (h.decoders.getD l default).map K.dec_clear_state) ∧
    (∀ l, h.encoders.length ≤ l → (clear_state K h).decoders[l]? = h.decoders[l]?) ∧
    (clear_state K h).actors = h.actors.map K.act_clear_state ∧
    (clear_state K h).ticks_per_update = h.ticks_per_update ∧
    (clear_state K h).i_indices = h.i_indices ∧ (clear_state K h).d_indices = h.d_indices ∧
    (clear_state K h).io_sizes = h.io_sizes ∧ (clear_state K h).io_types = h.io_types ∧
    (clear_state K h).params = h.params := by
  have hs := sched_clear_state K h
  have hl := layout_clear_state K h
  simp only [sched, Prod.mk.injEq] at hs
  simp only [layout, Prod.mk.injEq] at hl
  obtain ⟨s1, s2, s3, _⟩ := hs
  obtain ⟨l1, l2, l3, l4, l5, _, _⟩ := hl
  have hH : ∀ l, (clear_state K h).histories[l]? =
      if l < h.encoders.length then
        (h.histories[l]?).map (List.map (fun b =>
          (List.range b.data.length).foldl (fun (b : Circle_Buffer Int_Buffer) (t : Nat) =>
            b.put t (Array_fill (b.get t) 0)) b))
      else h.histories[l]? := by
    intro l
    rw [histories_clear_state]
    exact histories_clear_histories _ l
  have hG : ∀ l, l < h.encoders.length →
      (clear_state K h).histories.getD l default =
        (h.histories.getD l default).map (fun b =>
          ⟨b.data.map (fun buf => Array_fill buf 0), b.start⟩) := by
    intro l hl
    have e := hH l
    rw [if_pos hl] at e
    rw [getD_of_getElem?_map _ _ _ l e]
    exact List.map_congr_left (fun b hb => clear_ring_eq b (hrings l hl b hb))
  refine ⟨hG, ?_, ?_, ?_, ?_, ?_, ?_, encoders_clear_state K h, ?_, ?_,
    actors_clear_state K h, s3, l1, l2, l3, l4, l5⟩
  · intro l hl b hb buf hbuf x hx
    rw [hG l hl] at hb
    obtain ⟨b0, _, rfl⟩ := List.mem_map.1 hb
    obtain ⟨buf0, _, rfl⟩ := List.mem_map.1 hbuf
    simp only [Array_fill, List.mem_map] at hx
    obtain ⟨_, _, rfl⟩ := hx
    rfl
  · apply List.ext_getElem?
    intro l
    simp only [slot_shape, List.getElem?_map]
    by_cases hl : l < h.encoders.length
    · have e := hH l
      rw [if_pos hl] at e
      rw [e]
      cases hc : h.histories[l]? with
      | none => rfl
      | some hs =>
        simp only [Option.map_some', Option.some.injEq, List.map_map]
        apply List.map_congr_left
        intro b hb
        have hm : b ∈ h.histories.getD l default := by
          rw [List.getD_eq_getElem?_getD, hc]
          exact hb
        simp only [Function.comp]
        rw [clear_ring_eq b (hrings l hl b hm)]
        simp [Array_fill]
    · have e := hH l
      rw [if_neg hl] at e
      rw [e]
  · rw [s1]; simp [Array_fill]
  · intro x hx
    rw [s1] at hx
    simp only [Array_fill, List.mem_map] at hx
    obtain ⟨_, _, rfl⟩ := hx
    rfl
  · rw [s2]; simp [Array_fill]
  · intro x hx
    rw [s2] at hx
    simp only [Array_fill, List.mem_map] at hx
    obtain ⟨_, _, rfl⟩ := hx
    rfl
  · intro l hl
    have e := decoders_clear_state K h l
    rw [if_pos hl] at e
    exact getD_of_getElem?_map _ _ _ l e
  · intro l hl
    have e := decoders_clear_state K h l
    rw [if_neg (Nat.not_lt.2 hl)] at e
    exact e

set_option maxRecDepth 100000 in
theorem clear_state_effects_witness :
    (∀ l, l < (run sample_kernels
        (Hierarchy.create sample_kernels small_io_descs small_layer_descs)
        [Call.step [[1]] true 0 0, Call.step [[2]] true 0 0]).encoders.length →
      ∀ b ∈ (run sample_kernels
        (Hierarchy.create sample_kernels small_io_descs small_layer_descs)
        [Call.step [[1]] true 0 0, Call.step [[2]] true 0 0]).histories.getD l default,
      b.data = [] ∨ (0 ≤ b.start ∧ b.start < b.size)) ∧
    ∀ x ∈ (clear_state sample_kernels (run sample_kernels
        (Hierarchy.create sample_kernels small_io_descs small_layer_descs)
        [Call.step [[1]] true 0 0, Call.step [[2]] true 0 0])).ticks, x = 0 :=
  ⟨by decide,
   (clear_state_effects sample_kernels (run sample_kernels
        (Hierarchy.create sample_kernels small_io_descs small_layer_descs)
        [Call.step [[1]] true 0 0, Call.step [[2]] true 0 0]) (by decide)).2.2.2.2.1⟩

/-! ## `step` without learning -/

theorem map_encoders_set_input_importance {β : Type} (we : Encoder → β)
    (himp : ∀ (e : Encoder) (j : Nat) (x : float),
      we { e with visible_layers := Array_update e.visible_layers j (fun v =>
        { v with importance := x }) } = we e)
    (h : Hierarchy) (i : Nat) (imp : float) :
    (set_input_importance h i imp).encoders.map we = h.encoders.map we := by
  unfold set_input_importance
  exact foldl_keeps (fun x : Hierarchy => x.encoders.map we) _
    (fun s t => map_Array_update we _ (fun e => himp e _ _) s.encoders 0) _ _

theorem map_encoders_step_begin {β : Type} (we : Encoder → β)
    (himp : ∀ (e : Encoder) (j : Nat) (x : float),
      we { e with visible_layers := Array_update e.visible_layers j (fun v =>
        { v with importance := x }) } = we e)
    (input_cis : List Int_Buffer_View) (h : Hierarchy) :
    (step_begin input_cis h).encoders.map we = h.encoders.map we := by
  have e1 : (step_importances h).encoders.map we = h.encoders.map we := by
    unfold step_importances
    exact foldl_keeps (fun x : Hierarchy => x.encoders.map we) _
      (fun s i => map_encoders_set_input_importance we himp s i _) _ _
  have e2 : ∀ s : Hierarchy, (step_inputs input_cis s).encoders = s.encoders := fun s => by
    unfold step_inputs
    exact foldl_keeps (fun x : Hierarchy => x.encoders) _ (fun s a => by rfl) _ _
  simp only [step_begin]
  rw [e2]
  exact e1

theorem map_encoders_forward_layer {β : Type} (K : Kernels) (we : Encoder → β)
    (hwe : ∀ e i p, we (K.enc_step e i false p) = we e) (h : Hierarchy) (l : Nat) :
    (forward_layer K false h l).encoders.map we = h.encoders.map we := by
  simp only [forward_layer]
  split_ifs
  · exact map_Array_update we _ (fun e => hwe e _ _) h.encoders l
  · exact map_Array_update we _ (fun e => hwe e _ _) h.encoders l
  · rfl

theorem decoders_step_begin (input_cis : List Int_Buffer_View) (h : Hierarchy) :
    (step_begin input_cis h).decoders = h.decoders ∧
    (step_begin input_cis h).actors = h.actors := by
  have e1 : ∀ (s : Hierarchy) (i : Nat) (x : float),
      (set_input_importance s i x).decoders = s.decoders ∧
      (set_input_importance s i x).actors = s.actors := fun s i x => by
    unfold set_input_importance
    exact ⟨foldl_keeps (fun x : Hierarchy => x.decoders) _ (fun s t => by rfl) _ _,
      foldl_keeps (fun x : Hierarchy => x.actors) _ (fun s t => by rfl) _ _⟩
  have e2 : (step_importances h).decoders = h.decoders ∧
      (step_importances h).actors = h.actors := by
    unfold step_importances
    exact ⟨foldl_keeps (fun x : Hierarchy => x.decoders) _ (fun s i => (e1 s i _).1) _ _,
      foldl_keeps (fun x : Hierarchy => x.actors) _ (fun s i => (e1 s i _).2) _ _⟩
  have e3 : ∀ s : Hierarchy, (step_inputs input_cis s).decoders = s.decoders ∧
      (step_inputs input_cis s).actors = s.actors := fun s => by
    unfold step_inputs
    exact ⟨foldl_keeps (fun x : Hierarchy => x.decoders) _ (fun s a => by rfl) _ _,
      foldl_keeps (fun x : Hierarchy => x.actors) _ (fun s a => by rfl) _ _⟩
  simp only [step_begin]
  exact ⟨(e3 _).1.trans e2.1, (e3 _).2.trans e2.2⟩

theorem decoders_forward_layer (K : Kernels) (le : Bool) (h : Hierarchy) (l : Nat) :
    (forward_layer K le h l).decoders = h.decoders ∧
    (forward_layer K le h l).actors = h.actors := by
  simp only [forward_layer]
  split_ifs <;> exact ⟨rfl, rfl⟩

theorem observables_backward_layer {β γ δ : Type} (K : Kernels) (we : Encoder → β)
    (wd : Decoder → γ) (wa : Actor → δ)
    (hwd : ∀ d i t p, wd (K.dec_step d i t false p) = wd d)
    (hwa : ∀ a i t r m p, wa (K.act_step a i t r false m p) = wa a)
    (input_cis : List Int_Buffer_View) (reward mimic : float) (h : Hierarchy) (l : Nat) :
    (fun x : Hierarchy =>
      (x.encoders.map we, x.decoders.map (List.map wd), x.actors.map wa))
      (backward_layer K input_cis false reward mimic h l) =
    (h.encoders.map we, h.decoders.map (List.map wd), h.actors.map wa) := by
  have hd : ∀ (v : List Int_Buffer_View) (n : Nat) (s : Hierarchy),
      (fun x : Hierarchy =>
        (x.encoders.map we, x.decoders.map (List.map wd), x.actors.map wa))
        ((List.range n).foldl (backward_decoder K false l v) s) =
      (s.encoders.map we, s.decoders.map (List.map wd), s.actors.map wa) :=
    fun v n s => foldl_keeps (fun x : Hierarchy =>
      (x.encoders.map we, x.decoders.map (List.map wd), x.actors.map wa)) _
      (fun s a => by
        simp only [backward_decoder, Prod.mk.injEq, true_and, and_true]
        exact map_Array_update (List.map wd) _
          (fun ds => map_Array_update wd _ (fun d => hwd d _ _ _) ds a) s.decoders l) _ _
  have ha : ∀ (v : List Int_Buffer_View) (n : Nat) (s : Hierarchy),
      (fun x : Hierarchy =>
        (x.encoders.map we, x.decoders.map (List.map wd), x.actors.map wa))
        ((List.range n).foldl (backward_actor K input_cis false reward mimic v) s) =
      (s.encoders.map we, s.decoders.map (List.map wd), s.actors.map wa) :=
    fun v n s => foldl_keeps (fun x : Hierarchy =>
      (x.encoders.map we, x.decoders.map (List.map wd), x.actors.map wa)) _
      (fun s a => by
        simp only [backward_actor, Prod.mk.injEq, true_and]
        exact map_Array_update wa _ (fun a => hwa a _ _ _ _ _) s.actors a) _ _
  simp only [backward_layer]
  split_ifs
  · exact (ha _ _ _).trans (hd _ _ _)
  · exact hd _ _ _
  · rfl

/-- C25: a call to `step` with `learn_enabled = false` invokes the `step` of the encoders,
decoders and actors with `learn_enabled = false` only: the result is the same whatever
these methods do when `learn_enabled` is true (`fe`, `fd`, `fa`).  And the hierarchy
writes no weight itself: every property `we` of an encoder that `Encoder::step` keeps when
`learn_enabled` is false and that does not depend on the `importance` of the visible
layers (the one member of an encoder that the hierarchy writes) is kept by the call for
every encoder, and so is every property `wd` of a decoder and `wa` of an actor that their
`step` keeps when `learn_enabled` is false.  The weight tensors are such properties. -/
theorem step_without_learning {β γ δ : Type} (K : Kernels) (h : Hierarchy)
    (input_cis : List Int_Buffer_View) (reward mimic : float)
    (fe : Encoder → List Int_Buffer_View → Encoder.Params → Encoder)
    (fd : Decoder → List Int_Buffer_View → Int_Buffer_View → Decoder.Params → Decoder)
    (fa : Actor → List Int_Buffer_View → Int_Buffer_View → float → float → Actor.Params →
      Actor)
    (we : Encoder → β) (wd : Decoder → γ) (wa : Actor → δ)
    (hwe : ∀ e i p, we (K.enc_step e i false p) = we e)
    (himp : ∀ (e : Encoder) (j : Nat) (x : float),
      we { e with visible_layers := Array_update e.visible_layers j (fun v =>
        { v with importance := x }) } = we e)
    (hwd : ∀ d i t p, wd (K.dec_step d i t false p) = wd d)
    (hwa : ∀ a i t r m p, wa (K.act_step a i t r false m p) = wa a) :
    step { K with
        enc_step := fun e i le p => if le then fe e i p else K.enc_step e i le p,
        dec_step := fun d i t le p => if le then fd d i t p else K.dec_step d i t le p,
        act_step := fun a i t r le m p =>
          if le then fa a i t r m p else K.act_step a i t r le m p }
      h input_cis false reward mimic = step K h input_cis false reward mimic ∧
    (step K h input_cis false reward mimic).encoders.map we = h.encoders.map we ∧
    (step K h input_cis false reward mimic).decoders.map (List.map wd) =
      h.decoders.map (List.map wd) ∧
    (step K h input_cis false reward mimic).actors.map wa = h.actors.map wa := by
  refine ⟨rfl, ?_⟩
  have hb := foldl_keeps (fun x : Hierarchy =>
      (x.encoders.map we, x.decoders.map (List.map wd), x.actors.map wa))
    (backward_layer K input_cis false reward mimic)
    (fun s l => observables_backward_layer K we wd wa hwd hwa input_cis reward mimic s l)
    (List.range (step_forward K false (step_begin input_cis h)).decoders.length).reverse
    (step_forward K false (step_begin input_cis h))
  have hf1 : (step_forward K false (step_begin input_cis h)).encoders.map we =
      (step_begin input_cis h).encoders.map we := by
    unfold step_forward
    exact foldl_keeps (fun x : Hierarchy => x.encoders.map we) _
      (fun s l => map_encoders_forward_layer K we hwe s l) _ _
  have hf2 : (step_forward K false (step_begin input_cis h)).decoders =
      (step_begin input_cis h).decoders := by
    unfold step_forward
    exact foldl_keeps (fun x : Hierarchy => x.decoders) _
      (fun s l => (decoders_forward_layer K false s l).1) _ _
  have hf3 : (step_forward K false (step_begin input_cis h)).actors =
      (step_begin input_cis h).actors := by
    unfold step_forward
    exact foldl_keeps (fun x : Hierarchy => x.actors) _
      (fun s l => (decoders_forward_layer K false s l).2) _ _
  simp only [Prod.mk.injEq] at hb
  obtain ⟨b1, b2, b3⟩ := hb
  have e : step K h input_cis false reward mimic =
      (List.range (step_forward K false (step_begin input_cis h)).decoders.length).reverse.foldl
        (backward_layer K input_cis false reward mimic)
        (step_forward K false (step_begin input_cis h)) := rfl
  rw [e]
  refine ⟨?_, ?_, ?_⟩
  · rw [b1, hf1]
    exact map_encoders_step_begin we himp input_cis h
  · rw [b2, hf2, (decoders_step_begin input_cis h).1]
  · rw [b3, hf3, (decoders_step_begin input_cis h).2]

theorem step_without_learning_witness :
    (∀ e i p, (fun (e : Encoder) => e.visible_layers.map (fun v => v.weights))
        (sample_kernels.enc_step e i false p) =
      (fun (e : Encoder) => e.visible_layers.map (fun v => v.weights)) e) ∧
    (step sample_kernels (Hierarchy.create sample_kernels sample_io_descs sample_layer_descs)
        (sample_inputs 0) false 0 0).encoders.map
        (fun (e : Encoder) => e.visible_layers.map (fun v => v.weights)) =
      (Hierarchy.create sample_kernels sample_io_descs sample_layer_descs).encoders.map
        (fun (e : Encoder) => e.visible_layers.map (fun v => v.weights)) ∧
    (step sample_kernels (Hierarchy.create sample_kernels sample_io_descs sample_layer_descs)
        (sample_inputs 0) false 0 0).decoders.map
        (List.map (fun (d : Decoder) => d.visible_layers.map (fun v => v.weights))) =
      (Hierarchy.create sample_kernels sample_io_descs sample_layer_descs).decoders.map
        (List.map (fun (d : Decoder) => d.visible_layers.map (fun v => v.weights))) ∧
    (step sample_kernels (Hierarchy.create sample_kernels sample_io_descs sample_layer_descs)
        (sample_inputs 0) false 0 0).actors.map (fun (a : Actor) => a.visible_layers) =
      (Hierarchy.create sample_kernels sample_io_descs sample_layer_descs).actors.map
        (fun (a : Actor) => a.visible_layers) :=
  ⟨by intro e i p; rfl,
   (step_without_learning sample_kernels
      (Hierarchy.create sample_kernels sample_io_descs sample_layer_descs)
      (sample_inputs 0) 0 0 (fun e _ _ => e) (fun d _ _ _ => d) (fun a _ _ _ _ _ => a)
      (fun (e : Encoder) => e.visible_layers.map (fun v => v.weights))
      (fun (d : Decoder) => d.visible_layers.map (fun v => v.weights))
      (fun (a : Actor) => a.visible_layers)
      (by intro e i p; rfl)
      (by intro e j x
          exact map_Array_update (fun (v : Encoder.Visible_Layer) => v.weights)
            (fun v => { v with importance := x }) (fun _ => rfl) e.visible_layers j)
      (by intro d i t p; rfl) (by intro a i t r m p; rfl)).2⟩

/-! ## The importance of the inputs -/

/-- A loop over `k < n` with an invariant that knows the position of the loop. -/
theorem foldl_range_inv {σ : Type} (f : σ → Nat → σ) (Inv : Nat → σ → Prop) (n : Nat)
    (hstep : ∀ k, k < n → ∀ s, Inv k s → Inv (k + 1) (f s k)) (s0 : σ) (h0 : Inv 0 s0) :
    Inv n ((List.range n).foldl f s0) := by
  induction n with
  | zero => exact h0
  | succ n ih =>
    rw [List.range_succ, List.foldl_append]
    exact hstep n (Nat.lt_succ_self n) _ (ih (fun k hk => hstep k (by omega)))

/-- A loop that changes `xs[c + t]` to `f(xs[c + t])` for every `t < m`. -/
theorem getD_foldl_update_shift {α : Type} [Inhabited α] (f : α → α) (c m : Nat)
    (xs : List α) (k : Nat) :
    ((List.range m).foldl (fun (ys : List α) (t : Nat) => Array_update ys (c + t) f) xs).length =
      xs.length ∧
    ((List.range m).foldl (fun (ys : List α) (t : Nat) => Array_update ys (c + t) f) xs).getD k
        default =
      if c ≤ k ∧ k < c + m ∧ k < xs.length then f (xs.getD k default)
      else xs.getD k default := by
  induction m with
  | zero =>
    refine ⟨rfl, ?_⟩
    rw [if_neg (by omega)]
    rfl
  | succ m ih =>
    obtain ⟨i1, i2⟩ := ih
    rw [List.range_succ, List.foldl_append]
    simp only [List.foldl_cons, List.foldl_nil]
    refine ⟨by rw [length_Array_update, i1], ?_⟩
    rw [getD_Array_update, i1]
    by_cases h1 : c + m = k
    · by_cases h2 : c + m < xs.length
      · rw [if_pos ⟨h1, h2⟩, if_pos (by omega)]
        have e := i2
        rw [if_neg (by omega)] at e
        rw [h1, e]
      · rw [if_neg (fun hh => h2 hh.2), i2, if_neg (by omega), if_neg (by omega)]
    · rw [if_neg (fun hh => h1 hh.1), i2]
      by_cases h3 : c ≤ k ∧ k < c + m ∧ k < xs.length
      · rw [if_pos h3, if_pos (by omega)]
      · rw [if_neg h3, if_neg (by omega)]

theorem foldl_visible_layers {β : Type}
    (G : β → List Encoder.Visible_Layer → List Encoder.Visible_Layer) (ts : List β)
    (e : Encoder) :
    ts.foldl (fun (e : Encoder) (t : β) =>
        { e with visible_layers := G t e.visible_layers }) e =
      { e with visible_layers :=
        (ts.foldl (fun (ys : List Encoder.Visible_Layer) (t : β) => G t ys)
          e.visible_layers) } := by
  induction ts generalizing e with
  | nil => rfl
  | cons t ts ih =>
    simp only [List.foldl_cons]
    rw [ih]

/-- The method `set_input_importance(i, importance)` on the encoders: the visible layers
`i * size + t`, `t < size`, of encoder `0` receive the importance, `size` being the
number of slots of the history ring of channel `i`. -/
theorem encoders_set_input_importance (h : Hierarchy) (i : Nat) (imp : float) :
    (set_input_importance h i imp).encoders =
      Array_update h.encoders 0 (fun e =>
        { e with visible_layers :=
          ((List.range ((h.histories.getD 0 default).getD i default).data.length).foldl
            (fun (ys : List Encoder.Visible_Layer) (t : Nat) =>
              Array_update ys (i * ((h.histories.getD 0 default).getD i default).data.length + t)
                (fun v => { v with importance := imp })) e.visible_layers) }) ∧
    (set_input_importance h i imp).params = h.params := by
  constructor
  · unfold set_input_importance
    simp only
    rw [foldl_proj (fun x : Hierarchy => x.encoders) _
      (fun (es : List Encoder) (t : Nat) => Array_update es 0 (fun e =>
        { e with visible_layers := (Array_update e.visible_layers
          (i * ((h.histories.getD 0 default).getD i default).data.length + t)
          (fun v => { v with importance := imp })) })) (fun s a => rfl)]
    rw [foldl_Array_update_at (fun (t : Nat) (e : Encoder) =>
        { e with visible_layers := (Array_update e.visible_layers
          (i * ((h.histories.getD 0 default).getD i default).data.length + t)
          (fun v => { v with importance := imp })) }) 0]
    congr 1
    funext e
    exact foldl_visible_layers (fun (t : Nat) (ys : List Encoder.Visible_Layer) =>
      Array_update ys (i * ((h.histories.getD 0 default).getD i default).data.length + t)
        (fun v => { v with importance := imp })) _ e
  · unfold set_input_importance
    exact foldl_keeps (fun x : Hierarchy => x.params) _ (fun s a => by rfl) _ _

/-- Lines 181-183: after the loop, the visible layer `i * T + t` of encoder `0` has the
importance `params.ios[i].importance`, for every channel `i` and every `t < T`, when all
the history rings of layer `0` have `T` slots and encoder `0` has one visible layer per
channel and slot. -/
theorem importances_step_importances (h : Hierarchy) (T : Nat) (hen : 0 < h.encoders.length)
    (hring : ∀ i, i < h.io_sizes.length →
      ((h.histories.getD 0 default).getD i default).data.length = T)
    (hvis : (h.encoders.getD 0 default).visible_layers.length = h.io_sizes.length * T) :
    (step_importances h).encoders.length = h.encoders.length ∧
    ((step_importances h).encoders.getD 0 default).visible_layers.length =
      h.io_sizes.length * T ∧
    ∀ i, i < h.io_sizes.length → ∀ t, t < T →
      (((step_importances h).encoders.getD 0 default).visible_layers.getD (i * T + t)
        default).importance = (h.params.ios.getD i default).importance := by
  have key := foldl_range_inv
    (fun (s : Hierarchy) (i : Nat) =>
      set_input_importance s i (s.params.ios.getD i default).importance)
    (fun k s => s.histories = h.histories ∧ s.params = h.params ∧
      s.encoders.length = h.encoders.length ∧
      (s.encoders.getD 0 default).visible_layers.length = h.io_sizes.length * T ∧
      ∀ i, i < k → ∀ t, t < T →
        ((s.encoders.getD 0 default).visible_layers.getD (i * T + t) default).importance =
          (h.params.ios.getD i default).importance)
    h.io_sizes.length
    (fun k hk s hs => by
      obtain ⟨s1, s2, s3, s4, s5⟩ := hs
      obtain ⟨e1, e2⟩ := encoders_set_input_importance s k
        (s.params.ios.getD k default).importance
      obtain ⟨e3, _⟩ := histories_set_input_importance s k
        (s.params.ios.getD k default).importance
      have hsz : ((s.histories.getD 0 default).getD k default).data.length = T := by
        rw [s1]; exact hring k hk
      rw [hsz] at e1
      have h0 : 0 < s.encoders.length := by rw [s3]; exact hen
      have hv : ((set_input_importance s k (s.params.ios.getD k default).importance
          ).encoders.getD 0 default).visible_layers =
          (List.range T).foldl (fun (ys : List Encoder.Visible_Layer) (t : Nat) =>
            Array_update ys (k * T + t)
              (fun v => { v with importance := (s.params.ios.getD k default).importance }))
            (s.encoders.getD 0 default).visible_layers := by
        rw [e1, getD_Array_update, if_pos ⟨rfl, h0⟩]
      have hb : ∀ i, i < k + 1 → ∀ t, t < T → i * T + t < h.io_sizes.length * T := by
        intro i hi t ht
        calc i * T + t < i * T + T := by omega
          _ = (i + 1) * T := by ring
          _ ≤ _ := Nat.mul_le_mul_right _ (by omega)
      refine ⟨e3.trans s1, e2.trans s2, ?_, ?_, ?_⟩
      · rw [e1, length_Array_update]; exact s3
      · rw [hv, (getD_foldl_update_shift _ (k * T) T _ 0).1]; exact s4
      · intro i hi t ht
        rw [hv, (getD_foldl_update_shift _ (k * T) T _ (i * T + t)).2]
        by_cases hik : i = k
        · subst hik
          rw [if_pos ⟨by omega, by omega, by rw [s4]; exact hb i hi t ht⟩, s2]
        · have hlt : i * T + t < k * T := by
            calc i * T + t < i * T + T := by omega
              _ = (i + 1) * T := by ring
              _ ≤ _ := Nat.mul_le_mul_right _ (by omega)
          rw [if_neg (by omega)]
          exact s5 i (by omega) t ht)
    h ⟨rfl, rfl, rfl, hvis, fun i hi => absurd hi (Nat.not_lt_zero _)⟩
  have e : step_importances h = (List.range h.io_sizes.length).foldl
      (fun (s : Hierarchy) (i : Nat) =>
        set_input_importance s i (s.params.ios.getD i default).importance) h := rfl
  rw [e]
  exact ⟨key.2.2.1, key.2.2.2.1, key.2.2.2.2⟩

/-- C28: in every `step` on a hierarchy reached from `init_random` by calls of `step` and
`clear_state` and by assignments to the public member `params` that keep its sizes (with
at least one layer; `T` is the `temporal_horizon` of layer `0`), every history ring of
layer `0` has `T` slots and after lines 181-183, and still when the inputs have been
stored, the visible layer `i * T + t` of encoder `0` has the importance
`params.ios[i].importance` of the `params` of the hierarchy at the call (`i` is an index
inside `params.ios`), for every channel `i` and every `t < T`.  Encoder `0` has `|io_descs| * T` visible layers, every one
of them is `i * T + t` for exactly one channel `i` and one `t < T`; `i * T + t` is the
index `t + T * i` of the construction, whose descriptor has the size of channel `i`, and
the input of that visible layer is `histories[0][i][t]`. -/
theorem importance_reaches_channel (K : Kernels) (hK : Visible_layers_sized K)
    (io_descs : List IO_Desc) (layer_descs : List Layer_Desc) (hN : 0 < layer_descs.length)
    (uses : List Use)
    (hfit : ∀ u ∈ uses, Use.fits layer_descs.length io_descs.length u = true)
    (input_cis : List Int_Buffer_View) (H : Hierarchy)
    (hH : H = run_uses K (Hierarchy.create K io_descs layer_descs) uses) (T : Nat)
    (hT : T = (layer_descs.getD 0 default).temporal_horizon.toNat) :
    ((step_importances H).encoders.getD 0 default).visible_layers.length =
      io_descs.length * T ∧
    (step_begin input_cis H).encoders = (step_importances H).encoders ∧
    (∀ i, i < io_descs.length → ∀ t, t < T →
      ((H.histories.getD 0 default).getD i default).size = (T : Int) ∧
      (((step_importances H).encoders.getD 0 default).visible_layers.getD (i * T + t)
        default).importance = (H.params.ios.getD i default).importance ∧
      i < H.params.ios.length ∧
      i * T + t < io_descs.length * T ∧
      i * T + t = t + T * i ∧
      (e_visible_layer_descs_first (io_descs.map (fun d => d.size)) io_descs
        (layer_descs.getD 0 default).temporal_horizon)[t + T * i]? =
        some ⟨(io_descs.getD i default).size, (io_descs.getD i default).up_radius⟩ ∧
      (encoder_input_cis (step_begin input_cis H) 0)[i * T + t]? =
        some ((((step_begin input_cis H).histories.getD 0 default).getD i default).get
          (t : Int))) ∧
    ∀ k, k < io_descs.length * T →
      k / T < io_descs.length ∧ k % T < T ∧ k = k / T * T + k % T ∧
      ∀ i t, t < T → k = i * T + t → i = k / T ∧ t = k % T := by
  obtain ⟨c1, c2, c3⟩ := create_shape K hK io_descs layer_descs 0 hN
  simp only [if_true] at c1 c2 c3
  rw [← hT] at c2 c3
  obtain ⟨_, _, f3, _, _, _, hshape, ⟨l1, _, _, _⟩, ⟨_, p2'⟩, _, hvis'⟩ :=
    run_uses_frame K io_descs layer_descs uses hfit
  rw [← hH] at l1 f3 hshape p2'
  have hio : H.io_sizes.length = io_descs.length := by rw [f3, List.length_map]
  have hvis : vis_counts H = vis_counts (Hierarchy.create K io_descs layer_descs) := by
    rw [hH]; exact hvis' hK
  obtain ⟨r1, r2⟩ := hist_shape_rings _ _ hshape 0
  have hring : ∀ i, i < H.io_sizes.length →
      ((H.histories.getD 0 default).getD i default).data.length = T := by
    intro i hi
    rw [r2 i]
    exact c2 i (by rw [← hio]; exact hi)
  have hV : (H.encoders.getD 0 default).visible_layers.length = H.io_sizes.length * T := by
    have := congrArg (fun x => x.getD 0 0) hvis
    simp only at this
    rw [c3, vis_counts, getD_map_of_lt _ _ 0 (by rw [l1]; exact hN) 0 default] at this
    rw [this, hio]
  obtain ⟨p1, p2, p3⟩ := importances_step_importances H T (by rw [l1]; exact hN) hring hV
  rw [hio] at p2 p3
  have henc : (step_begin input_cis H).encoders = (step_importances H).encoders := by
    simp only [step_begin]
    unfold step_inputs
    exact foldl_keeps (fun x : Hierarchy => x.encoders) _ (fun s a => by rfl) _ _
  have hshape2 : hist_shape (step_begin input_cis H) = hist_shape H :=
    hist_shape_step_begin input_cis H
  obtain ⟨u1, u2⟩ := hist_shape_rings _ _ hshape2 0
  have hcount : ((step_begin input_cis H).histories.getD 0 default).length =
      io_descs.length := by
    rw [u1, r1, c1]
  obtain ⟨_, q2⟩ := encoder_input_cis_spec (step_begin input_cis H) 0 T
    (fun i hi => by rw [u2 i]; exact hring i (by rw [hio, ← hcount]; exact hi))
    (by rw [henc, p2, hcount])
  rw [hcount] at q2
  refine ⟨p2, henc, fun i hi t ht => ?_, fun k hk => ?_⟩
  · have hk : i * T + t < io_descs.length * T := by
      calc i * T + t < i * T + T := by omega
        _ = (i + 1) * T := by ring
        _ ≤ _ := Nat.mul_le_mul_right _ hi
    have hdiv : (i * T + t) / T = i := by
      rw [Nat.mul_comm, Nat.mul_add_div (by omega), Nat.div_eq_of_lt ht, Nat.add_zero]
    have hmod : (i * T + t) % T = t := by
      rw [Nat.mul_comm, Nat.mul_add_mod, Nat.mod_eq_of_lt ht]
    refine ⟨?_, p3 i hi t ht, by rw [p2']; exact hi, hk, by ring, ?_, ?_⟩
    · simp only [CircleBuffer.size]
      rw [hring i (by rw [hio]; exact hi)]
    · have := (e_visible_layer_descs_first_spec (io_descs.map (fun d => d.size)) io_descs
        (layer_descs.getD 0 default).temporal_horizon).2 i t (by simpa using hi)
        (by rw [hT] at ht; omega)
      rw [← hT] at this
      rw [this, getD_map_of_lt _ _ i hi default default]
    · rw [q2 _ hk, hdiv, hmod]
  · have hpos : 0 < T := by
      rcases Nat.eq_zero_or_pos T with h0 | h0
      · rw [h0] at hk; simp at hk
      · exact h0
    refine ⟨?_, Nat.mod_lt _ hpos, ?_, fun i t ht hkit => ?_⟩
    · exact Nat.div_lt_of_lt_mul (by rw [Nat.mul_comm]; exact hk)
    · rw [Nat.mul_comm]; exact (Nat.div_add_mod k T).symm
    · subst hkit
      constructor
      · rw [Nat.mul_comm, Nat.mul_add_div hpos, Nat.div_eq_of_lt ht, Nat.add_zero]
      · rw [Nat.mul_comm, Nat.mul_add_mod, Nat.mod_eq_of_lt ht]

set_option maxRecDepth 100000 in
theorem importance_reaches_channel_witness :
    (0 < sample_layer_descs.length ∧
      (∀ u ∈ sample_uses,
        Use.fits sample_layer_descs.length sample_io_descs.length u = true) ∧
      2 = (sample_layer_descs.getD 0 default).temporal_horizon.toNat ∧
      3 < sample_io_descs.length ∧ 1 < 2) ∧
    (((step_importances (run_uses sample_kernels
        (Hierarchy.create sample_kernels sample_io_descs sample_layer_descs)
        sample_uses)).encoders.getD 0 default).visible_layers.getD (3 * 2 + 1)
      default).importance =
      ((run_uses sample_kernels
        (Hierarchy.create sample_kernels sample_io_descs sample_layer_descs)
        sample_uses).params.ios.getD 3 default).importance ∧
    ((run_uses sample_kernels
      (Hierarchy.create sample_kernels sample_io_descs sample_layer_descs)
      sample_uses).params.ios.getD 3 default).importance = 136 :=
  ⟨⟨by decide, by decide, by decide, by decide, by decide⟩,
   ((importance_reaches_channel sample_kernels sample_kernels_visible sample_io_descs
      sample_layer_descs (by decide) sample_uses (by decide) (sample_inputs 1) _ rfl 2
      (by decide)).2.2.1 3 (by decide) 1 (by decide)).2.1,
   by decide⟩

/-! ## Arguments that are not checked -/

/-- C26 (amended): `init_random` makes no check of its arguments and has no failing
result.  For every list of channels and every list of layers, empty ones included, it
returns a hierarchy with one encoder, one list of decoders, one list of history rings,
one counter and one flag per layer descriptor and one size and type per channel
descriptor.  A layer `l >= 1` gets `ticks_per_update[l] = layer_descs[l].ticks_per_update`
and that many decoders, whatever its `temporal_horizon`, and one history ring of
`temporal_horizon` slots, whatever its `ticks_per_update`. -/
theorem init_random_unchecked (K : Kernels) (io_descs : List IO_Desc)
    (layer_descs : List Layer_Desc) :
    (Hierarchy.create K io_descs layer_descs).encoders.length = layer_descs.length ∧
    (Hierarchy.create K io_descs layer_descs).decoders.length = layer_descs.length ∧
    (Hierarchy.create K io_descs layer_descs).histories.length = layer_descs.length ∧
    (Hierarchy.create K io_descs layer_descs).ticks.length = layer_descs.length ∧
    (Hierarchy.create K io_descs layer_descs).updates.length = layer_descs.length ∧
    (Hierarchy.create K io_descs layer_descs).ticks_per_update.length = layer_descs.length ∧
    (Hierarchy.create K io_descs layer_descs).io_sizes = io_descs.map (fun d => d.size) ∧
    (Hierarchy.create K io_descs layer_descs).io_types =
      io_descs.map (fun d => d.type.toByte) ∧
    ∀ l, 0 < l → l < layer_descs.length →
      (Hierarchy.create K io_descs layer_descs).ticks_per_update.getD l 0 =
        (layer_descs.getD l default).ticks_per_update ∧
      ((Hierarchy.create K io_descs layer_descs).decoders.getD l default).length =
        (layer_descs.getD l default).ticks_per_update.toNat ∧
      ((Hierarchy.create K io_descs layer_descs).histories.getD l default).length = 1 ∧
      (0 ≤ (layer_descs.getD l default).temporal_horizon →
        (((Hierarchy.create K io_descs layer_descs).histories.getD l default).getD 0
          default).size = (layer_descs.getD l default).temporal_horizon) := by
  obtain ⟨c1, c2, c3, c4, c5, c6, c7, c8⟩ := create_lengths K io_descs layer_descs
  refine ⟨c1, c2, c3, c4, c5, c6, c7, c8, fun l hl0 hl => ?_⟩
  have ht := create_ticks_per_update_getD K io_descs layer_descs l hl
  rw [if_neg (by omega)] at ht
  obtain ⟨_, n2⟩ := create_next K io_descs layer_descs l hl0 hl
  have hh := create_histories K io_descs layer_descs l hl
  rw [if_neg (by omega)] at hh
  refine ⟨ht, ?_, ?_, fun hth => ?_⟩
  · rw [List.getD_eq_getElem?_getD, n2]
    simp
  · rw [List.getD_eq_getElem?_getD, hh]
    rfl
  · have e : (Hierarchy.create K io_descs layer_descs).histories.getD l default =
        [init_history (layer_descs.getD l default).temporal_horizon
          ((layer_descs.getD (l - 1) default).hidden_size.x *
            (layer_descs.getD (l - 1) default).hidden_size.y) default] := by
      rw [List.getD_eq_getElem?_getD, hh]
      rfl
    rw [e]
    exact (init_history_slots _ _).2.1 hth

theorem init_random_unchecked_witness :
    (0 < 1 ∧ 1 < unchecked_layer_descs.length) ∧
    (Hierarchy.create sample_kernels small_io_descs unchecked_layer_descs).ticks_per_update.getD
        1 0 = (unchecked_layer_descs.getD 1 default).ticks_per_update :=
  ⟨⟨by decide, by decide⟩,
   ((init_random_unchecked sample_kernels small_io_descs unchecked_layer_descs).2.2.2.2.2.2.2.2
      1 (by decide) (by decide)).1⟩

set_option maxRecDepth 100000 in
/-- C26, the claim as stated fails: `init_random` returns a hierarchy for a layer `1` with
`ticks_per_update = 3 > temporal_horizon = 2` (and `step` updates both layers of it at the
third call), for an empty list of channels and for an empty list of layers. -/
theorem init_random_returns_on_bad_configuration :
    ((unchecked_layer_descs.getD 1 default).temporal_horizon <
      (unchecked_layer_descs.getD 1 default).ticks_per_update ∧
    (Hierarchy.create sample_kernels small_io_descs unchecked_layer_descs).encoders.length = 2 ∧
    (Hierarchy.create sample_kernels small_io_descs unchecked_layer_descs).ticks_per_update =
      [1, 3] ∧
    dec_counts (Hierarchy.create sample_kernels small_io_descs unchecked_layer_descs) =
      [1, 3] ∧
    hist_shape (Hierarchy.create sample_kernels small_io_descs unchecked_layer_descs) =
      [[1], [2]] ∧
    (run sample_kernels (Hierarchy.create sample_kernels small_io_descs unchecked_layer_descs)
      [Call.step [[1]] true 0 0, Call.step [[2]] true 0 0, Call.step [[3]] true 0 0]).updates =
      [1, 1]) ∧
    ((Hierarchy.create sample_kernels [] small_layer_descs).encoders.length = 2 ∧
    (Hierarchy.create sample_kernels [] small_layer_descs).io_sizes = [] ∧
    hist_shape (Hierarchy.create sample_kernels [] small_layer_descs) = [[], [2]] ∧
    (step sample_kernels (Hierarchy.create sample_kernels [] small_layer_descs) [] true 0
      0).updates = [1, 0]) ∧
    ((Hierarchy.create sample_kernels small_io_descs []).encoders = [] ∧
    (Hierarchy.create sample_kernels small_io_descs []).io_sizes = [⟨1, 1, 4⟩] ∧
    (Hierarchy.create sample_kernels small_io_descs []).ticks_per_update = []) := by
  decide

/-- C27 (amended): `step` makes no check of `input_cis` (its two `assert`s compare the
sizes of `params` with the numbers of layers and channels) and has no failing result.
For every hierarchy with at least one layer and every `input_cis`, the call updates layer
`0` (`updates[0]` is true, `ticks[0]` is `0`), and for every channel `i` for which
`input_cis` holds a buffer, of whatever size, the buffer is stored as it is at the front
of the history ring of the channel (the start of the ring being inside the ring). -/
theorem step_unchecked_input (K : Kernels) (h : Hierarchy) (input_cis : List Int_Buffer_View)
    (learn_enabled : Bool) (reward mimic : float)
    (hn : 0 < h.encoders.length) (hticks : h.ticks.length = h.encoders.length)
    (hupdates : h.updates.length = h.encoders.length) :
    (step K h input_cis learn_enabled reward mimic).updates.getD 0 0 = 1 ∧
    (step K h input_cis learn_enabled reward mimic).ticks.getD 0 0 = 0 ∧
    ∀ i, i < h.io_sizes.length → i < input_cis.length →
      ∀ b, (h.histories.getD 0 default)[i]? = some b → 0 ≤ b.start → b.start < b.size →
        ∃ b', ((step K h input_cis learn_enabled reward mimic).histories.getD 0 default)[i]? =
            some b' ∧
          b'.size = b.size ∧ b'.get 0 = input_cis.getD i default ∧
          ∀ t : Nat, 1 ≤ t → (t : Int) < b.size → b'.get (t : Int) = b.get ((t : Int) - 1) := by
  obtain ⟨_, _, _, _, hj⟩ := step_sched K h input_cis learn_enabled reward mimic hticks hupdates
  obtain ⟨t0, u0⟩ := hj 0 hn
  simp only [updated_at, if_true] at t0 u0
  refine ⟨u0, t0, fun i hi _ b hb h0 h1 => ?_⟩
  obtain ⟨p1, _, _, p4, p5, _⟩ := ring_push_spec b (input_cis.getD i default) h0 h1
  refine ⟨b.pushFront.put 0 (input_cis.getD i default), ?_, ?_, p4, p5⟩
  · rw [histories_step_zero K h input_cis learn_enabled reward mimic i hi, hb]
    rfl
  · simp only [CircleBuffer.size]
    rw [p1]

set_option maxRecDepth 100000 in
theorem step_unchecked_input_witness :
    (0 < (Hierarchy.create sample_kernels sample_io_descs sample_layer_descs).encoders.length ∧
      (Hierarchy.create sample_kernels sample_io_descs sample_layer_descs).ticks.length =
        (Hierarchy.create sample_kernels sample_io_descs sample_layer_descs).encoders.length ∧
      (Hierarchy.create sample_kernels sample_io_descs sample_layer_descs).updates.length =
        (Hierarchy.create sample_kernels sample_io_descs sample_layer_descs).encoders.length) ∧
    (step sample_kernels (Hierarchy.create sample_kernels sample_io_descs sample_layer_descs)
      oversized_inputs false 0 0).updates.getD 0 0 = 1 :=
  ⟨⟨by decide, by decide, by decide⟩,
   (step_unchecked_input sample_kernels
      (Hierarchy.create sample_kernels sample_io_descs sample_layer_descs)
      oversized_inputs false 0 0 (by decide) (by decide) (by decide)).1⟩

set_option maxRecDepth 100000 in
/-- C27, the claim as stated fails: `oversized_inputs` holds five buffers for the four
channels of the sample hierarchy and its first buffer has five entries where the channel
has `1 * 4` columns; `step` raises no error and changes the state: the buffer is at the
front of the history ring of channel `0` and `updates[0]` has become true. -/
theorem step_stores_mismatched_input :
    oversized_inputs.length ≠
      (Hierarchy.create sample_kernels sample_io_descs sample_layer_descs).io_sizes.length ∧
    ((oversized_inputs.getD 0 default).length : Int) ≠
      ((Hierarchy.create sample_kernels sample_io_descs sample_layer_descs).io_sizes.getD 0
          default).x *
        ((Hierarchy.create sample_kernels sample_io_descs sample_layer_descs).io_sizes.getD 0
          default).y ∧
    step sample_kernels (Hierarchy.create sample_kernels sample_io_descs sample_layer_descs)
        oversized_inputs true 0 0 ≠
      Hierarchy.create sample_kernels sample_io_descs sample_layer_descs ∧
    (((step sample_kernels (Hierarchy.create sample_kernels sample_io_descs sample_layer_descs)
        oversized_inputs true 0 0).histories.getD 0 default).getD 0 default).get 0 =
      [0, 1, 2, 3, 4] ∧
    (Hierarchy.create sample_kernels sample_io_descs sample_layer_descs).updates.getD 0 0 = 0 ∧
    (step sample_kernels (Hierarchy.create sample_kernels sample_io_descs sample_layer_descs)
        oversized_inputs true 0 0).updates.getD 0 0 = 1 := by
  decide

/-! ## The random number generator -/

theorem MWC64X_eq (s : Nat) (hs : s < 18446744073709551616) :
    MWC64X s = ((s % 4294967296) ^^^ (s / 4294967296),
      (s % 4294967296) * 4294883355 + s / 4294967296) ∧
    (s % 4294967296) * 4294883355 + s / 4294967296 < 18446744073709551616 := by
  have hc : s / 4294967296 < 4294967296 := by omega
  have hx : s % 4294967296 < 4294967296 := by omega
  have hsum : (s % 4294967296) * 4294883355 + s / 4294967296 < 18446744073709551616 := by
    have : (s % 4294967296) * 4294883355 ≤ 4294967295 * 4294883355 :=
      Nat.mul_le_mul_right _ (by omega)
    omega
  have e1 : s >>> 32 = s / 4294967296 := by
    rw [Nat.shiftRight_eq_div_pow]
  have e2 : s &&& 0xffffffff = s % 4294967296 := by
    have := Nat.and_pow_two_sub_one_eq_mod s 32
    simpa using this
  refine ⟨?_, hsum⟩
  simp only [MWC64X, e1, e2]
  rw [Nat.mod_eq_of_lt hc, Nat.mod_mod, Nat.mod_eq_of_lt (a := s % 4294967296 * 4294883355)
    (by omega), Nat.mod_eq_of_lt hsum]

/-- C32: for every 64-bit state `s`, with `x = s mod 2^32` and `c = s div 2^32`, `MWC64X`
returns `x XOR c`, a 32-bit value, and sets the state to `x * 4294883355 + c`; this number
is below `2^64`, so the 64-bit update never wraps, and the state it leaves is a 64-bit
state again.  The result and the new state are a function of `s` alone: two calls on
equal states give the same draw and the same state. -/
theorem MWC64X_spec (s : Nat) (hs : s < 18446744073709551616) :
    (MWC64X s).1 = (s % 4294967296) ^^^ (s / 4294967296) ∧
    (MWC64X s).1 < 4294967296 ∧
    (MWC64X s).2 = (s % 4294967296) * 4294883355 + s / 4294967296 ∧
    (s % 4294967296) * 4294883355 + s / 4294967296 < 18446744073709551616 ∧
    (MWC64X s).2 < 18446744073709551616 ∧
    ∀ s', s' = s → MWC64X s' = MWC64X s := by
  obtain ⟨e, hsum⟩ := MWC64X_eq s hs
  rw [e]
  refine ⟨rfl, ?_, rfl, hsum, hsum, fun s' h => by rw [h, e]⟩
  exact Nat.xor_lt_two_pow (n := 32) (by omega) (by omega)

theorem MWC64X_spec_witness :
    (4294967297 : Nat) < 18446744073709551616 ∧
    (MWC64X 4294967297).1 = 0 ∧ (MWC64X 4294967297).2 = 4294883356 :=
  ⟨by decide,
   (MWC64X_spec 4294967297 (by decide)).1.trans (by decide),
   (MWC64X_spec 4294967297 (by decide)).2.2.1.trans (by decide)⟩

/-- C37: the all-zero state is a fixed point of the generator: `MWC64X` on the state `0`
returns `0` and leaves the state `0`, so after any number of draws from a generator
seeded with `0` the state is `0` and the next draw is `0`; `rand`, taken as one draw of
`MWC64X`, returns `0` as well, and `randBits<T>` yields `0` and leaves the state `0` for
every number of bytes of `T`. -/
theorem MWC64X_zero_fixed :
    MWC64X 0 = (0, 0) ∧
    (∀ n : Nat, Nat.iterate (fun s => (MWC64X s).2) n 0 = 0 ∧
      (MWC64X (Nat.iterate (fun s => (MWC64X s).2) n 0)).1 = 0) ∧
    rand 0 = (0, 0) ∧
    ∀ numBytes : Nat, randBits numBytes 0 = (0, 0) := by
  have h0 : MWC64X 0 = (0, 0) := by decide
  have hit : ∀ n : Nat, Nat.iterate (fun s => (MWC64X s).2) n 0 = 0 := by
    intro n
    induction n with
    | zero => rfl
    | succ n ih =>
      rw [Function.iterate_succ_apply', ih, h0]
  refine ⟨h0, fun n => ⟨hit n, by rw [hit n, h0]⟩, h0, fun numBytes => ?_⟩
  unfold randBits
  refine foldl_inv (fun r : Nat × Nat => r = (0, 0)) _ (fun r i hr => ?_) _ _ rfl
  subst hr
  simp only [rand, h0, Nat.zero_mod, Nat.or_self, Nat.zero_shiftLeft, ite_self]

/-! ## Addressing -/

theorem wrap_int_of_range (v : Int) (h0 : 0 ≤ v) (h1 : v < 2147483648) : wrap_int v = v := by
  simp only [wrap_int]
  split_ifs <;> omega

/-- A digit `a < B` and the digits above it: the number `a + B * b` is below `B * N` when
`b < N`, and it determines `a` and `b`. -/
theorem radix_bound (a b B N : Int) (ha : 0 ≤ a) (ha' : a < B) (hb : 0 ≤ b) (hb' : b < N) :
    0 ≤ a + B * b ∧ a + B * b < B * N ∧ B * b ≤ a + B * b ∧ 0 ≤ B * b := by
  have hB : 0 < B := lt_of_le_of_lt ha ha'
  have h1 : 0 ≤ B * b := mul_nonneg hB.le hb
  have h2 : B * (b + 1) ≤ B * N := mul_le_mul_of_nonneg_left (by omega) hB.le
  refine ⟨by omega, ?_, by omega, h1⟩
  have : B * (b + 1) = B * b + B := by ring
  omega

theorem radix_inj (a a' b b' B : Int) (ha : 0 ≤ a) (ha' : a < B) (hc : 0 ≤ a')
    (hc' : a' < B) (h : a + B * b = a' + B * b') : a = a' ∧ b = b' := by
  have hB : 0 < B := lt_of_le_of_lt ha ha'
  have e1 : (a + B * b) % B = a := by
    rw [Int.add_mul_emod_self_left, Int.emod_eq_of_lt ha ha']
  have e2 : (a' + B * b') % B = a' := by
    rw [Int.add_mul_emod_self_left, Int.emod_eq_of_lt hc hc']
  have ea : a = a' := by rw [← e1, ← e2, h]
  subst ea
  refine ⟨rfl, ?_⟩
  have : B * b = B * b' := by omega
  exact Int.eq_of_mul_eq_mul_left (ne_of_gt hB) this

theorem address2_eq (pos dims : Int2) (hfit : dims.x * dims.y < 2147483648)
    (hx : 0 ≤ pos.x) (hx' : pos.x < dims.x) (hy : 0 ≤ pos.y) (hy' : pos.y < dims.y) :
    address2 pos dims = pos.y + dims.y * pos.x ∧
    0 ≤ pos.y + dims.y * pos.x ∧ pos.y + dims.y * pos.x < dims.x * dims.y := by
  obtain ⟨r1, r2, r3, r4⟩ := radix_bound pos.y pos.x dims.y dims.x hy hy' hx hx'
  have e : pos.x * dims.y = dims.y * pos.x := by ring
  have e2 : dims.y * dims.x = dims.x * dims.y := by ring
  rw [e2] at r2
  refine ⟨?_, r1, r2⟩
  simp only [address2]
  rw [e, wrap_int_of_range _ r4 (by omega), wrap_int_of_range _ r1 (by omega)]

theorem address3_eq (pos dims : Int3) (hfit : dims.x * dims.y * dims.z < 2147483648)
    (hx : 0 ≤ pos.x) (hx' : pos.x < dims.x) (hy : 0 ≤ pos.y) (hy' : pos.y < dims.y)
    (hz : 0 ≤ pos.z) (hz' : pos.z < dims.z) :
    address3 pos dims = pos.z + dims.z * (pos.y + dims.y * pos.x) ∧
    0 ≤ pos.z + dims.z * (pos.y + dims.y * pos.x) ∧
    pos.z + dims.z * (pos.y + dims.y * pos.x) < dims.x * dims.y * dims.z := by
  obtain ⟨r1, r2, _, r4⟩ := radix_bound pos.y pos.x dims.y dims.x hy hy' hx hx'
  obtain ⟨q1, q2, _, _⟩ := radix_bound pos.z (pos.y + dims.y * pos.x) dims.z
    (dims.y * dims.x) hz hz' r1 r2
  have e2 : dims.z * (dims.y * dims.x) = dims.x * dims.y * dims.z := by ring
  rw [e2] at q2
  have hZ : 0 < dims.z := lt_of_le_of_lt hz hz'
  have hY : 0 < dims.y := lt_of_le_of_lt hy hy'
  have p1 : 0 ≤ pos.y * dims.z := mul_nonneg hy hZ.le
  have p2 : 0 ≤ pos.x * dims.z := mul_nonneg hx hZ.le
  have p3 : pos.x * dims.z ≤ pos.x * dims.z * dims.y := by
    have := mul_le_mul_of_nonneg_left (show (1 : Int) ≤ dims.y by omega) p2
    simpa using this
  have ht : pos.z + dims.z * (pos.y + dims.y * pos.x) =
      pos.z + pos.y * dims.z + pos.x * dims.z * dims.y := by ring
  rw [ht] at q1 q2 ⊢
  refine ⟨?_, q1, q2⟩
  simp only [address3]
  rw [wrap_int_of_range (pos.y * dims.z) p1 (by omega),
    wrap_int_of_range (pos.z + pos.y * dims.z) (by omega) (by omega),
    wrap_int_of_range (pos.x * dims.z) p2 (by omega),
    wrap_int_of_range (pos.x * dims.z * dims.y) (by omega) (by omega),
    wrap_int_of_range _ q1 (by omega)]

theorem address4_eq (pos dims : Int4)
    (hfit : dims.x * dims.y * dims.z * dims.w < 2147483648)
    (hx : 0 ≤ pos.x) (hx' : pos.x < dims.x) (hy : 0 ≤ pos.y) (hy' : pos.y < dims.y)
    (hz : 0 ≤ pos.z) (hz' : pos.z < dims.z) (hw : 0 ≤ pos.w) (hw' : pos.w < dims.w) :
    address4 pos dims = pos.w + dims.w * (pos.z + dims.z * (pos.y + dims.y * pos.x)) ∧
    0 ≤ pos.w + dims.w * (pos.z + dims.z * (pos.y + dims.y * pos.x)) ∧
    pos.w + dims.w * (pos.z + dims.z * (pos.y + dims.y * pos.x)) <
      dims.x * dims.y * dims.z * dims.w := by
  obtain ⟨r1, r2, _, _⟩ := radix_bound pos.y pos.x dims.y dims.x hy hy' hx hx'
  obtain ⟨q1, q2, _, _⟩ := radix_bound pos.z (pos.y + dims.y * pos.x) dims.z
    (dims.y * dims.x) hz hz' r1 r2
  obtain ⟨u1, u2, _, _⟩ := radix_bound pos.w (pos.z + dims.z * (pos.y + dims.y * pos.x))
    dims.w (dims.z * (dims.y * dims.x)) hw hw' q1 q2
  have e2 : dims.w * (dims.z * (dims.y * dims.x)) = dims.x * dims.y * dims.z * dims.w := by
    ring
  rw [e2] at u2
  have hW : 0 < dims.w := lt_of_le_of_lt hw hw'
  have hZ : 0 < dims.z := lt_of_le_of_lt hz hz'
  have hY : 0 < dims.y := lt_of_le_of_lt hy hy'
  have p1 : 0 ≤ pos.z * dims.w := mul_nonneg hz hW.le
  have p2 : 0 ≤ pos.y * dims.w := mul_nonneg hy hW.le
  have p3 : pos.y * dims.w ≤ pos.y * dims.w * dims.z := by
    have := mul_le_mul_of_nonneg_left (show (1 : Int) ≤ dims.z by omega) p2
    simpa using this
  have p4 : 0 ≤ pos.x * dims.w := mul_nonneg hx hW.le
  have p5 : pos.x * dims.w ≤ pos.x * dims.w * dims.z := by
    have := mul_le_mul_of_nonneg_left (show (1 : Int) ≤ dims.z by omega) p4
    simpa using this
  have p6 : pos.x * dims.w * dims.z ≤ pos.x * dims.w * dims.z * dims.y := by
    have := mul_le_mul_of_nonneg_left (show (1 : Int) ≤ dims.y by omega)
      (show 0 ≤ pos.x * dims.w * dims.z by omega)
    simpa using this
  have ht : pos.w + dims.w * (pos.z + dims.z * (pos.y + dims.y * pos.x)) =
      pos.w + pos.z * dims.w + pos.y * dims.w * dims.z +
        pos.x * dims.w * dims.z * dims.y := by ring
  rw [ht] at u1 u2 ⊢
  refine ⟨?_, u1, u2⟩
  simp only [address4]
  rw [wrap_int_of_range (pos.z * dims.w) p1 (by omega),
    wrap_int_of_range (pos.w + pos.z * dims.w) (by omega) (by omega),
    wrap_int_of_range (pos.y * dims.w) p2 (by omega),
    wrap_int_of_range (pos.y * dims.w * dims.z) (by omega) (by omega),
    wrap_int_of_range (pos.w + pos.z * dims.w + pos.y * dims.w * dims.z) (by omega)
      (by omega),
    wrap_int_of_range (pos.x * dims.w) p4 (by omega),
    wrap_int_of_range (pos.x * dims.w * dims.z) (by omega) (by omega),
    wrap_int_of_range (pos.x * dims.w * dims.z * dims.y) (by omega) (by omega),
    wrap_int_of_range _ u1 (by omega)]

/-- C35: for dimensions whose product is a value of the type `int`, `address2`, `address3`
and `address4` on positions inside the grid (every coordinate at least `0` and below its
dimension, so the dimensions are positive) take values in `[0, product of the dimensions)`
with the last coordinate varying fastest, `address3((x, y, z), (X, Y, Z)) =
z + Z * (y + Y * x)`, and are injective: two positions inside the grid with the same
address are the same position. -/
theorem address_injective :
    (∀ pos pos' dims : Int2, dims.x * dims.y < 2147483648 →
      0 ≤ pos.x → pos.x < dims.x → 0 ≤ pos.y → pos.y < dims.y →
      0 ≤ pos'.x → pos'.x < dims.x → 0 ≤ pos'.y → pos'.y < dims.y →
      address2 pos dims = pos.y + dims.y * pos.x ∧
      0 ≤ address2 pos dims ∧ address2 pos dims < dims.x * dims.y ∧
      (address2 pos dims = address2 pos' dims → pos = pos')) ∧
    (∀ pos pos' dims : Int3, dims.x * dims.y * dims.z < 2147483648 →
      0 ≤ pos.x → pos.x < dims.x → 0 ≤ pos.y → pos.y < dims.y → 0 ≤ pos.z → pos.z < dims.z →
      0 ≤ pos'.x → pos'.x < dims.x → 0 ≤ pos'.y → pos'.y < dims.y →
      0 ≤ pos'.z → pos'.z < dims.z →
      address3 pos dims = pos.z + dims.z * (pos.y + dims.y * pos.x) ∧
      0 ≤ address3 pos dims ∧ address3 pos dims < dims.x * dims.y * dims.z ∧
      (address3 pos dims = address3 pos' dims → pos = pos')) ∧
    (∀ pos pos' dims : Int4, dims.x * dims.y * dims.z * dims.w < 2147483648 →
      0 ≤ pos.x → pos.x < dims.x → 0 ≤ pos.y → pos.y < dims.y → 0 ≤ pos.z → pos.z < dims.z →
      0 ≤ pos.w → pos.w < dims.w →
      0 ≤ pos'.x → pos'.x < dims.x → 0 ≤ pos'.y → pos'.y < dims.y →
      0 ≤ pos'.z → pos'.z < dims.z → 0 ≤ pos'.w → pos'.w < dims.w →
      address4 pos dims = pos.w + dims.w * (pos.z + dims.z * (pos.y + dims.y * pos.x)) ∧
      0 ≤ address4 pos dims ∧ address4 pos dims < dims.x * dims.y * dims.z * dims.w ∧
      (address4 pos dims = address4 pos' dims → pos = pos')) := by
  refine ⟨?_, ?_, ?_⟩
  · intro pos pos' dims hfit hx hx' hy hy' kx kx' ky ky'
    obtain ⟨a1, a2, a3⟩ := address2_eq pos dims hfit hx hx' hy hy'
    obtain ⟨b1, _, _⟩ := address2_eq pos' dims hfit kx kx' ky ky'
    refine ⟨a1, by rw [a1]; exact a2, by rw [a1]; exact a3, fun h => ?_⟩
    rw [a1, b1] at h
    obtain ⟨e1, e2⟩ := radix_inj _ _ _ _ _ hy hy' ky ky' h
    cases pos; cases pos'
    simp only at e1 e2
    rw [e1, e2]
  · intro pos pos' dims hfit hx hx' hy hy' hz hz' kx kx' ky ky' kz kz'
    obtain ⟨a1, a2, a3⟩ := address3_eq pos dims hfit hx hx' hy hy' hz hz'
    obtain ⟨b1, _, _⟩ := address3_eq pos' dims hfit kx kx' ky ky' kz kz'
    refine ⟨a1, by rw [a1]; exact a2, by rw [a1]; exact a3, fun h => ?_⟩
    rw [a1, b1] at h
    obtain ⟨e1, e2⟩ := radix_inj _ _ _ _ _ hz hz' kz kz' h
    obtain ⟨e3, e4⟩ := radix_inj _ _ _ _ _ hy hy' ky ky' e2
    cases pos; cases pos'
    simp only at e1 e3 e4
    rw [e1, e3, e4]
  · intro pos pos' dims hfit hx hx' hy hy' hz hz' hw hw' kx kx' ky ky' kz kz' kw kw'
    obtain ⟨a1, a2, a3⟩ := address4_eq pos dims hfit hx hx' hy hy' hz hz' hw hw'
    obtain ⟨b1, _, _⟩ := address4_eq pos' dims hfit kx kx' ky ky' kz kz' kw kw'
    refine ⟨a1, by rw [a1]; exact a2, by rw [a1]; exact a3, fun h => ?_⟩
    rw [a1, b1] at h
    obtain ⟨e1, e2⟩ := radix_inj _ _ _ _ _ hw hw' kw kw' h
    obtain ⟨e3, e4⟩ := radix_inj _ _ _ _ _ hz hz' kz kz' e2
    obtain ⟨e5, e6⟩ := radix_inj _ _ _ _ _ hy hy' ky ky' e4
    cases pos; cases pos'
    simp only at e1 e3 e5 e6
    rw [e1, e3, e5, e6]

theorem address_injective_witness :
    address3 ⟨1, 2, 3⟩ ⟨4, 4, 16⟩ = 3 + 16 * (2 + 4 * 1) ∧
    address3 ⟨1, 2, 3⟩ ⟨4, 4, 16⟩ < 4 * 4 * 16 :=
  ⟨(address_injective.2.1 ⟨1, 2, 3⟩ ⟨0, 0, 0⟩ ⟨4, 4, 16⟩ (by decide) (by decide) (by decide)
      (by decide) (by decide) (by decide) (by decide) (by decide) (by decide) (by decide)
      (by decide) (by decide) (by decide)).1,
   (address_injective.2.1 ⟨1, 2, 3⟩ ⟨0, 0, 0⟩ ⟨4, 4, 16⟩ (by decide) (by decide) (by decide)
      (by decide) (by decide) (by decide) (by decide) (by decide) (by decide) (by decide)
      (by decide) (by decide) (by decide)).2.2.1⟩

/-! ## The layers that a step updates -/

/-- A hierarchy reached from `init_random` with periods of at least `1`: its counters are
in step. -/
theorem In_step_reached (K : Kernels) (io_descs : List IO_Desc) (layer_descs : List Layer_Desc)
    (htpu : ∀ l, 1 ≤ l → l < layer_descs.length →
      1 ≤ (layer_descs.getD l default).ticks_per_update)
    (calls : List Call) :
    In_step layer_descs.length (Hierarchy.create K io_descs layer_descs).ticks_per_update
      (run K (Hierarchy.create K io_descs layer_descs) calls) ∧
    ∀ j, 1 ≤ j → j < layer_descs.length →
      1 ≤ (Hierarchy.create K io_descs layer_descs).ticks_per_update.getD j 0 := by
  have htpu' : ∀ j, 1 ≤ j → j < layer_descs.length →
      1 ≤ (Hierarchy.create K io_descs layer_descs).ticks_per_update.getD j 0 := by
    intro j hj1 hjn
    rw [create_ticks_per_update_getD K io_descs layer_descs j hjn]
    have : j ≠ 0 := by omega
    simp only [this, if_false]
    exact htpu j hj1 hjn
  exact ⟨In_step_run K _ _ calls _ (In_step_create K io_descs layer_descs htpu) htpu', htpu'⟩

/-- In a state whose counters are in step, a layer above the first is updated only when
the layer below it is. -/
theorem updated_at_below (n : Nat) (tpu : List Int) (h : Hierarchy) (hin : In_step n tpu h)
    (l : Nat) (hl : l + 1 < n) (hu : updated_at tpu h.ticks (l + 1) = true) :
    updated_at tpu h.ticks l = true := by
  obtain ⟨_, _, _, _, h5⟩ := hin
  obtain ⟨_, q⟩ := h5 (l + 1) (by omega) hl
  by_contra hc
  simp only [updated_at, decide_eq_true_eq] at hu
  rw [if_neg hc] at hu
  omega

/-- C33: in every state reached from `init_random` by `step` and `clear_state` calls, with
`ticks_per_update[l] >= 1` for every layer `l >= 1`, after each `step` the updated layers
are a prefix of the layer stack: for every layer `l >= 1`, `updates[l]` true implies
`updates[l - 1]` true, and so `updates[k]` is true for every `k <= l`. -/
theorem updated_layers_initial_segment (K : Kernels) (io_descs : List IO_Desc)
    (layer_descs : List Layer_Desc)
    (htpu : ∀ l, 1 ≤ l → l < layer_descs.length →
      1 ≤ (layer_descs.getD l default).ticks_per_update)
    (calls : List Call) (input_cis : List Int_Buffer_View) (learn_enabled : Bool)
    (reward mimic : float) (l : Nat) (hl1 : 1 ≤ l) (hl : l < layer_descs.length)
    (hu : (step K (run K (Hierarchy.create K io_descs layer_descs) calls) input_cis
      learn_enabled reward mimic).updates.getD l 0 ≠ 0) :
    (step K (run K (Hierarchy.create K io_descs layer_descs) calls) input_cis
      learn_enabled reward mimic).updates.getD (l - 1) 0 ≠ 0 ∧
    ∀ k, k ≤ l →
      (step K (run K (Hierarchy.create K io_descs layer_descs) calls) input_cis
        learn_enabled reward mimic).updates.getD k 0 = 1 := by
  obtain ⟨hin, _⟩ := In_step_reached K io_descs layer_descs htpu calls
  obtain ⟨h1, h2, h3, h4, _⟩ := hin
  obtain ⟨_, _, _, _, s5⟩ := step_sched K
    (run K (Hierarchy.create K io_descs layer_descs) calls) input_cis learn_enabled reward mimic
    (by rw [h2, h1]) (by rw [h3, h1])
  rw [h1, h4] at s5
  have hul : updated_at (Hierarchy.create K io_descs layer_descs).ticks_per_update
      (run K (Hierarchy.create K io_descs layer_descs) calls).ticks l = true := by
    by_contra hc
    apply hu
    rw [(s5 l hl).2, if_neg hc]
  have hdown : ∀ d, d ≤ l →
      updated_at (Hierarchy.create K io_descs layer_descs).ticks_per_update
        (run K (Hierarchy.create K io_descs layer_descs) calls).ticks (l - d) = true := by
    intro d hd
    induction d with
    | zero => exact hul
    | succ d ih =>
      have := updated_at_below _ _ _ ⟨h1, h2, h3, h4, (In_step_reached K io_descs layer_descs
        htpu calls).1.2.2.2.2⟩ (l - (d + 1)) (by omega)
        (by rw [show l - (d + 1) + 1 = l - d by omega]; exact ih (by omega))
      exact this
  have hall : ∀ k, k ≤ l →
      (step K (run K (Hierarchy.create K io_descs layer_descs) calls) input_cis
        learn_enabled reward mimic).updates.getD k 0 = 1 := by
    intro k hk
    have := hdown (l - k) (by omega)
    rw [show l - (l - k) = k by omega] at this
    rw [(s5 k (by omega)).2, if_pos this]
  refine ⟨?_, hall⟩
  rw [hall (l - 1) (by omega)]
  decide

set_option maxRecDepth 100000 in
theorem updated_layers_initial_segment_witness :
    ((1 ≤ 1 ∧ 1 < small_layer_descs.length) ∧
      (step sample_kernels (run sample_kernels
        (Hierarchy.create sample_kernels small_io_descs small_layer_descs)
        [Call.step [[1]] true 0 0]) [[2]] true 0 0).updates.getD 1 0 ≠ 0) ∧
    (step sample_kernels (run sample_kernels
        (Hierarchy.create sample_kernels small_io_descs small_layer_descs)
        [Call.step [[1]] true 0 0]) [[2]] true 0 0).updates.getD (1 - 1) 0 ≠ 0 :=
  ⟨⟨⟨by decide, by decide⟩, by decide⟩,
   (updated_layers_initial_segment sample_kernels small_io_descs small_layer_descs
      (by intro l h1 h2
          have h3 : l < 2 := h2
          interval_cases l
          decide)
      [Call.step [[1]] true 0 0] [[2]] true 0 0 1 (by decide) (by decide) (by decide)).1⟩

/-! ## A layer that a step does not update -/

theorem encoders_step_begin_other (input_cis : List Int_Buffer_View) (h : Hierarchy) (l : Nat)
    (hl : l ≠ 0) : (step_begin input_cis h).encoders[l]? = h.encoders[l]? := by
  have e0 : ∀ (s : Hierarchy) (i : Nat) (imp : float),
      (set_input_importance s i imp).encoders[l]? = s.encoders[l]? := by
    intro s i imp
    rw [(encoders_set_input_importance s i imp).1, getElem?_Array_update,
      if_neg (fun hh => hl hh.1.symm)]
  have e1 : (step_importances h).encoders[l]? = h.encoders[l]? := by
    unfold step_importances
    exact foldl_keeps (fun x : Hierarchy => x.encoders[l]?) _ (fun s i => e0 s i _) _ _
  have e2 : ∀ s : Hierarchy, (step_inputs input_cis s).encoders = s.encoders := fun s => by
    unfold step_inputs
    exact foldl_keeps (fun x : Hierarchy => x.encoders) _ (fun s a => by rfl) _ _
  simp only [step_begin]
  rw [e2]
  exact e1

theorem encoders_forward_upto_below (K : Kernels) (le : Bool) (h : Hierarchy) (l k : Nat)
    (hk : k ≤ l) : (forward_upto K le h k).encoders[l]? = h.encoders[l]? := by
  induction k with
  | zero => rfl
  | succ k ih =>
    rw [forward_upto_succ, encoders_forward_layer_other K le _ k l (by omega), ih (by omega)]

theorem forward_layer_idle (K : Kernels) (le : Bool) (h : Hierarchy) (l : Nat)
    (ht : is_time_to_tick h l = false) : forward_layer K le h l = h := by
  simp only [forward_layer, ht, Bool.false_eq_true, if_false]

/-- The encoder of a layer above the first that `step` does not update is the one before
the call. -/
theorem encoders_step_not_updated (K : Kernels) (h : Hierarchy)
    (input_cis : List Int_Buffer_View) (le : Bool) (reward mimic : float) (l : Nat)
    (hlen : h.ticks.length = h.encoders.length)
    (hlen2 : h.updates.length = h.encoders.length) (hl0 : l ≠ 0) (hl : l < h.encoders.length)
    (hnu : updated_at h.ticks_per_update h.ticks l = false) :
    (step K h input_cis le reward mimic).encoders[l]? = h.encoders[l]? := by
  have hb := sched_step_begin input_cis h
  simp only [sched, Prod.mk.injEq] at hb
  obtain ⟨b1, b2, b3, b4⟩ := hb
  have hlb : (step_begin input_cis h).ticks.length = (step_begin input_cis h).encoders.length := by
    rw [b1, b4]; simpa using hlen
  have hlb2 : (step_begin input_cis h).updates.length =
      (step_begin input_cis h).encoders.length := by
    rw [b2, b4]; simpa using hlen2
  have e2 : (step K h input_cis le reward mimic).encoders =
      (forward_upto K le (step_begin input_cis h) (step_begin input_cis h).encoders.length
        ).encoders := by
    simp only [step, encoders_step_backward]
    rfl
  have ht := is_time_to_tick_forward_upto K le (step_begin input_cis h) hlb hlb2 l
    (by rw [b4]; exact hl)
  rw [b3, b1, updated_at_congr _ _ _ (getD_set_zero_succ h.ticks) l, hnu] at ht
  rw [e2, encoders_forward_upto_above K le _ l _ (by rw [b4]; omega), forward_upto_succ,
    forward_layer_idle K le _ l ht, encoders_forward_upto_below K le _ l l (le_refl _),
    encoders_step_begin_other input_cis h l hl0]

/-- The decoders of a layer that `step` does not update are those before the call. -/
theorem decoders_step_not_updated (K : Kernels) (h : Hierarchy)
    (input_cis : List Int_Buffer_View) (le : Bool) (reward mimic : float) (l : Nat)
    (hl : l < h.decoders.length)
    (hnu : (step K h input_cis le reward mimic).updates.getD l 0 = 0) :
    (step K h input_cis le reward mimic).decoders[l]? = h.decoders[l]? := by
  have hs := sched_backward_upto K input_cis le reward mimic
    (step_forward K le (step_begin input_cis h)) l
  have hs2 := sched_step_backward K input_cis le reward mimic
    (step_forward K le (step_begin input_cis h))
  simp only [sched, Prod.mk.injEq] at hs hs2
  have hu : (backward_upto K input_cis le reward mimic
      (step_forward K le (step_begin input_cis h)) l).updates.getD l 0 = 0 := by
    rw [hs.2.1, ← hs2.2.1]
    exact hnu
  have hlay := layout_step K h input_cis le reward mimic
  simp only [layout, Prod.mk.injEq] at hlay
  have hdc : dec_counts (step K h input_cis le reward mimic) = dec_counts h := hlay.2.2.2.2.2.2
  have hlen : (step K h input_cis le reward mimic).decoders.length = h.decoders.length := by
    have := congrArg List.length hdc
    simpa [dec_counts] using this
  rw [getElem?_eq_some_getD _ l (by rw [hlen]; exact hl) default,
    getElem?_eq_some_getD _ l hl default]
  refine congrArg some ?_
  apply List.ext_getElem?
  intro d
  rw [step_decoders K h input_cis le reward mimic l hl _ rfl d,
    if_neg (fun hh => hh.1 hu)]

/-- C34: in every `step` on a state reached from `init_random` by `step` and `clear_state`
calls (with `ticks_per_update[l] >= 1` for every layer `l >= 1`), for every layer `l >= 1`
that the step does not update: the encoder of layer `l` and every decoder of layer `l` are
those before the call, whatever the `step` of the components does, so the call invokes
neither; when a layer `l + 1` exists, `histories[l + 1]` and `ticks[l + 1]` are exactly as
they were (and the layer is not updated either); and `histories[l]` and `ticks[l]` change
only if layer `l - 1` was updated, and then by exactly one push, of the hidden code of
encoder `l - 1`, to the front of ring `0` and by an increment of exactly `1`. -/
theorem idle_layer_frame (K : Kernels) (io_descs : List IO_Desc)
    (layer_descs : List Layer_Desc)
    (htpu : ∀ l, 1 ≤ l → l < layer_descs.length →
      1 ≤ (layer_descs.getD l default).ticks_per_update)
    (calls : List Call) (input_cis : List Int_Buffer_View) (learn_enabled : Bool)
    (reward mimic : float) (H : Hierarchy)
    (hH : H = run K (Hierarchy.create K io_descs layer_descs) calls)
    (l : Nat) (hl1 : 1 ≤ l) (hl : l < layer_descs.length)
    (hnu : (step K H input_cis learn_enabled reward mimic).updates.getD l 0 = 0) :
    (step K H input_cis learn_enabled reward mimic).encoders[l]? = H.encoders[l]? ∧
    (step K H input_cis learn_enabled reward mimic).decoders[l]? = H.decoders[l]? ∧
    (l + 1 < layer_descs.length →
      (step K H input_cis learn_enabled reward mimic).histories[l + 1]? =
        H.histories[l + 1]? ∧
      (step K H input_cis learn_enabled reward mimic).ticks[l + 1]? = H.ticks[l + 1]? ∧
      (step K H input_cis learn_enabled reward mimic).updates.getD (l + 1) 0 = 0) ∧
    ((step K H input_cis learn_enabled reward mimic).updates.getD (l - 1) 0 ≠ 0 →
      (step K H input_cis learn_enabled reward mimic).histories[l]? =
        (H.histories[l]?).map (fun hs => Array_update hs 0 (fun b =>
          b.pushFront.put 0
            ((step K H input_cis learn_enabled reward mimic).encoders.getD (l - 1)
              default).hidden_cis)) ∧
      (step K H input_cis learn_enabled reward mimic).ticks.getD l 0 = H.ticks.getD l 0 + 1) ∧
    ((step K H input_cis learn_enabled reward mimic).updates.getD (l - 1) 0 = 0 →
      (step K H input_cis learn_enabled reward mimic).histories[l]? = H.histories[l]? ∧
      (step K H input_cis learn_enabled reward mimic).ticks.getD l 0 = H.ticks.getD l 0) := by
  obtain ⟨hin, _⟩ := In_step_reached K io_descs layer_descs htpu calls
  rw [← hH] at hin
  obtain ⟨h1, h2, h3, h4, h5⟩ := hin
  obtain ⟨_, _, _, _, _, r6, _⟩ := run_frame K io_descs layer_descs calls
  rw [← hH] at r6
  obtain ⟨_, _, s3, _, s5⟩ := step_sched K H input_cis learn_enabled reward mimic
    (by rw [h2, h1]) (by rw [h3, h1])
  rw [h1] at s5 s3
  have hflag : ∀ j, j < layer_descs.length →
      ((step K H input_cis learn_enabled reward mimic).updates.getD j 0 = 0 ↔
        updated_at H.ticks_per_update H.ticks j = false) := by
    intro j hj
    rw [(s5 j hj).2]
    by_cases hu : updated_at H.ticks_per_update H.ticks j = true
    · rw [if_pos hu, hu]
      simp
    · rw [if_neg hu]
      simp only [Bool.not_eq_true] at hu
      rw [hu]
      simp
  have hul : updated_at H.ticks_per_update H.ticks l = false := (hflag l hl).1 hnu
  obtain ⟨l', rfl⟩ : ∃ l', l = l' + 1 := ⟨l - 1, by omega⟩
  simp only [Nat.add_sub_cancel]
  have htl : (step K H input_cis learn_enabled reward mimic).ticks.getD (l' + 1) 0 =
      H.ticks.getD (l' + 1) 0 +
        (if updated_at H.ticks_per_update H.ticks l' = true then 1 else 0) := by
    rw [(s5 (l' + 1) hl).1, hul]
    simp only [Bool.false_eq_true, if_false, reach_tick]
  have hring := step_ring_above K H input_cis learn_enabled reward mimic l'
    (by rw [h2, h1]) (by rw [h3, h1]) (by rw [h1]; exact hl)
  refine ⟨?_, ?_, fun hl2 => ?_, fun hu => ?_, fun hu => ?_⟩
  · exact encoders_step_not_updated K H input_cis learn_enabled reward mimic (l' + 1)
      (by rw [h2, h1]) (by rw [h3, h1]) (by omega) (by rw [h1]; exact hl) hul
  · exact decoders_step_not_updated K H input_cis learn_enabled reward mimic (l' + 1)
      (by rw [r6]; exact hl) hnu
  · have hu2 : updated_at H.ticks_per_update H.ticks (l' + 1 + 1) = false := by
      by_contra hc
      simp only [Bool.not_eq_false] at hc
      have := updated_at_below _ _ H ⟨h1, h2, h3, rfl, by rw [h4]; exact h5⟩ (l' + 1) hl2 hc
      rw [hul] at this
      exact Bool.false_ne_true this
    have hr2 := step_ring_above K H input_cis learn_enabled reward mimic (l' + 1)
      (by rw [h2, h1]) (by rw [h3, h1]) (by rw [h1]; exact hl2)
    rw [hul] at hr2
    simp only [Bool.false_eq_true, if_false] at hr2
    refine ⟨hr2, ?_, (hflag _ hl2).2 hu2⟩
    rw [getElem?_eq_some_getD _ (l' + 1 + 1) (by rw [s3]; exact hl2) 0,
      getElem?_eq_some_getD _ (l' + 1 + 1) (by rw [h2]; exact hl2) 0, (s5 _ hl2).1, hu2]
    simp only [Bool.false_eq_true, if_false, reach_tick, hul, Int.add_zero]
  · have hu' : updated_at H.ticks_per_update H.ticks l' = true := by
      by_contra hc
      simp only [Bool.not_eq_true] at hc
      exact hu ((hflag l' (by omega)).2 hc)
    rw [hu'] at hring
    simp only [if_true] at hring
    rw [hu'] at htl
    simp only [if_true] at htl
    exact ⟨hring, htl⟩
  · have hu' : updated_at H.ticks_per_update H.ticks l' = false := (hflag l' (by omega)).1 hu
    rw [hu'] at hring htl
    simp only [Bool.false_eq_true, if_false, Int.add_zero] at hring htl
    exact ⟨hring, htl⟩

set_option maxRecDepth 100000 in
theorem idle_layer_frame_witness :
    ((1 ≤ 1 ∧ 1 < small_layer_descs.length) ∧
      (step sample_kernels (run sample_kernels
        (Hierarchy.create sample_kernels small_io_descs small_layer_descs) [])
        [[2]] true 0 0).updates.getD 1 0 = 0) ∧
    (step sample_kernels (run sample_kernels
        (Hierarchy.create sample_kernels small_io_descs small_layer_descs) [])
        [[2]] true 0 0).encoders[1]? =
      (run sample_kernels
        (Hierarchy.create sample_kernels small_io_descs small_layer_descs) []).encoders[1]? :=
  ⟨⟨⟨by decide, by decide⟩, by decide⟩,
   (idle_layer_frame sample_kernels small_io_descs small_layer_descs
      (by intro l h1 h2
          have h3 : l < 2 := h2
          interval_cases l
          decide)
      [] [[2]] true 0 0 _ rfl 1 (by decide) (by decide) (by decide)).1⟩

/-! ## The indices of `step` are inside the arrays -/

/-- An access to a slot of a ring whose start is inside the ring stays inside the
storage. -/
theorem ring_in_range_of_ok {α : Type} (b : CircleBuffer α)
    (hok : 0 ≤ b.start ∧ b.start < b.size) (t : Nat) (ht : (t : Int) < b.size) :
    Ring_in_range b (t : Int) := by
  obtain ⟨data, start⟩ := b
  simp only [CircleBuffer.size] at hok ht ⊢
  obtain ⟨s, rfl⟩ := Int.eq_ofNat_of_zero_le hok.1
  have hpos : 0 < data.length := by omega
  refine ⟨Int.natCast_nonneg t, ht, ?_⟩
  simp only [Int.ofNat_eq_coe]
  rw [ring_slot_natCast]
  exact ⟨Int.natCast_nonneg _, by exact_mod_cast Nat.mod_lt _ hpos⟩

theorem pushFront_ok {α : Type} (b : CircleBuffer α) (hok : 0 ≤ b.start ∧ b.start < b.size) :
    0 ≤ b.pushFront.start ∧ b.pushFront.start < b.pushFront.size := by
  have hsz : b.pushFront.size = b.size := rfl
  rw [hsz, (pushFront_start b hok.1 hok.2).1]
  have hpos : (0 : Int) < b.size := by omega
  exact ⟨Int.emod_nonneg _ (by omega), Int.emod_lt_of_pos _ hpos⟩

/-- The access `b[0]` after `push_front` on a ring whose start is inside the ring. -/
theorem ring_in_range_push {α : Type} (b : CircleBuffer α)
    (hok : 0 ≤ b.start ∧ b.start < b.size) : Ring_in_range b.pushFront 0 := by
  have h := ring_in_range_of_ok b.pushFront (pushFront_ok b hok) 0
    (by have := pushFront_ok b hok; simp only [Nat.cast_zero]; omega)
  simpa using h

theorem Rings_ok_step_begin (input_cis : List Int_Buffer_View) (h : Hierarchy) (l : Nat)
    (hok : Rings_ok h l) : Rings_ok (step_begin input_cis h) l := by
  have e1 : Rings_ok (step_importances h) l :=
    Rings_ok_congr _ _ l (histories_step_importances h).1 hok
  have e2' : Rings_ok (step_inputs input_cis
      { step_importances h with ticks := (step_importances h).ticks.set 0 0 }) l := by
    unfold step_inputs
    exact foldl_inv (fun s => Rings_ok s l) _
      (fun s a hs => Rings_ok_update s l 0 a _ (fun b hb => ring_push_ok b _ hb) hs) _ _
      (Rings_ok_congr
        { step_importances h with ticks := (step_importances h).ticks.set 0 0 }
        (step_importances h) l rfl e1)
  exact Rings_ok_congr (step_begin input_cis h) (step_inputs input_cis
    { step_importances h with ticks := (step_importances h).ticks.set 0 0 }) l rfl e2'

theorem Rings_ok_forward_upto (K : Kernels) (le : Bool) (h : Hierarchy) (k l : Nat)
    (hok : Rings_ok h l) : Rings_ok (forward_upto K le h k) l := by
  unfold forward_upto
  refine foldl_inv (fun s => Rings_ok s l) _ (fun s a hs => ?_) _ _ hok
  have hh := histories_forward_layer K le s a
  by_cases hc : is_time_to_tick s a = true ∧ a + 1 < s.encoders.length
  · rw [if_pos hc] at hh
    exact Rings_ok_congr (forward_layer K le s a)
      { s with histories := Array_update s.histories (a + 1) (fun hs =>
          Array_update hs 0 (fun b => b.pushFront.put 0
            ((forward_layer K le s a).encoders.getD a default).hidden_cis)) } l hh
      (Rings_ok_update s l (a + 1) 0 _ (fun b hb => ring_push_ok b _ hb) hs)
  · rw [if_neg hc] at hh
    exact Rings_ok_congr _ s l hh hs

/-- The shape of a hierarchy reached from `init_random` with at least one layer and a
history of at least one slot at every layer. -/
theorem reached_shape (K : Kernels) (io_descs : List IO_Desc) (layer_descs : List Layer_Desc)
    (hN : 0 < layer_descs.length)
    (hth : ∀ l, l < layer_descs.length → 1 ≤ (layer_descs.getD l default).temporal_horizon)
    (calls : List Call) (H : Hierarchy)
    (hH : H = run K (Hierarchy.create K io_descs layer_descs) calls) :
    (H.encoders.length = layer_descs.length ∧ H.decoders.length = layer_descs.length ∧
      H.histories.length = layer_descs.length ∧ H.ticks.length = layer_descs.length ∧
      H.updates.length = layer_descs.length ∧
      H.ticks_per_update.length = layer_descs.length) ∧
    (H.io_sizes.length = io_descs.length ∧ H.params.layers.length = layer_descs.length ∧
      H.params.ios.length = io_descs.length) ∧
    (H.i_indices = (Hierarchy.create K io_descs layer_descs).i_indices ∧
      H.actors.length = (Hierarchy.create K io_descs layer_descs).actors.length ∧
      ∀ l, (H.decoders.getD l default).length =
        ((Hierarchy.create K io_descs layer_descs).decoders.getD l default).length) ∧
    ((∀ l, l < layer_descs.length →
        (H.histories.getD l default).length = if l = 0 then io_descs.length else 1) ∧
      ∀ l, l < layer_descs.length → Rings_ok H l) := by
  obtain ⟨d1, d2, d3, d4, d5, _, _, _, d9, d10, _, _⟩ :=
    Dump_shape_run K io_descs layer_descs hN hth calls
  obtain ⟨l1, _, _⟩ := run_lengths K io_descs layer_descs calls
  obtain ⟨f1, _, f3, _, f5, _, f7, f8⟩ := run_frame K io_descs layer_descs calls
  rw [← hH] at d1 d2 d3 d4 d5 d9 d10 l1 f1 f3 f5 f7 f8
  have hio : H.io_sizes.length = io_descs.length := by rw [f3, List.length_map]
  refine ⟨⟨l1, d1.trans l1, d2.trans l1, d4.trans l1, d3.trans l1, d5.trans l1⟩,
    ⟨hio, d9.trans l1, d10.trans hio⟩, ⟨f1, f5, f7⟩, fun l hl => ?_, fun l hl => ?_⟩
  · rw [f8 l]
    exact create_rings K io_descs layer_descs l hl
  · rw [hH]
    exact Rings_ok_run K calls _ l (Rings_ok_create K io_descs layer_descs l hl (hth l hl))

/-- Lines 178-193 on a reached hierarchy that is given one buffer per channel. -/
theorem begin_in_range_reached (K : Kernels) (io_descs : List IO_Desc)
    (layer_descs : List Layer_Desc) (hN : 0 < layer_descs.length)
    (hth : ∀ l, l < layer_descs.length → 1 ≤ (layer_descs.getD l default).temporal_horizon)
    (calls : List Call) (input_cis : List Int_Buffer_View)
    (hin : input_cis.length = io_descs.length) (H : Hierarchy)
    (hH : H = run K (Hierarchy.create K io_descs layer_descs) calls) :
    begin_in_range input_cis H := by
  obtain ⟨⟨a1, _, a3, a4, _, _⟩, ⟨b1, b2, b3⟩, _, c1, c2⟩ :=
    reached_shape K io_descs layer_descs hN hth calls H hH
  have h0 := c1 0 hN
  rw [if_pos rfl] at h0
  refine ⟨b2.trans a1.symm, b3.trans b1.symm, fun i hi => ?_, by rw [a4]; exact hN,
    fun i hi => ?_⟩
  · rw [b1] at hi
    exact ⟨by rw [b3]; exact hi, by rw [a3]; exact hN, by rw [h0]; exact hi,
      by rw [a1]; exact hN⟩
  · rw [b1] at hi
    refine ⟨by rw [a3]; exact hN, by rw [h0]; exact hi, ?_, by rw [hin]; exact hi⟩
    exact ring_in_range_push _ (c2 0 hN i _
      (getElem?_eq_some_getD _ i (by rw [h0]; exact hi) default))

/-- Lines 199-233 on a state of the ascending loop of a `step` on a reached hierarchy. -/
theorem forward_in_range_reached (K : Kernels) (io_descs : List IO_Desc)
    (layer_descs : List Layer_Desc) (hN : 0 < layer_descs.length)
    (hth : ∀ l, l < layer_descs.length → 1 ≤ (layer_descs.getD l default).temporal_horizon)
    (calls : List Call) (input_cis : List Int_Buffer_View) (le : Bool) (H : Hierarchy)
    (hH : H = run K (Hierarchy.create K io_descs layer_descs) calls)
    (l : Nat) (hl : l < layer_descs.length) :
    forward_in_range (forward_upto K le (step_begin input_cis H) l) l := by
  obtain ⟨⟨a1, _, a3, a4, a5, a6⟩, ⟨_, b2, _⟩, _, c1, c2⟩ :=
    reached_shape K io_descs layer_descs hN hth calls H hH
  have hb := sched_step_begin input_cis H
  simp only [sched, Prod.mk.injEq] at hb
  obtain ⟨q1, q2, q3, q4⟩ := hb
  obtain ⟨f1, f2, f3, f4⟩ := forward_upto_frame K le (step_begin input_cis H) l
  have hlay : layout (forward_upto K le (step_begin input_cis H) l) = layout H := by
    rw [layout_forward_upto, layout_step_begin]
  simp only [layout, Prod.mk.injEq] at hlay
  have hpar : (forward_upto K le (step_begin input_cis H) l).params = H.params :=
    hlay.2.2.2.2.1
  have hshape : hist_shape (forward_upto K le (step_begin input_cis H) l) = hist_shape H := by
    rw [hist_shape_forward_upto, hist_shape_step_begin]
  have hhl : (forward_upto K le (step_begin input_cis H) l).histories.length =
      layer_descs.length := by
    rw [← hist_shape_length, hshape, hist_shape_length, a3]
  have hok : ∀ j, j < layer_descs.length →
      Rings_ok (forward_upto K le (step_begin input_cis H) l) j := fun j hj =>
    Rings_ok_forward_upto K le _ l j (Rings_ok_step_begin input_cis H j (c2 j hj))
  have htl : (forward_upto K le (step_begin input_cis H) l).ticks.length =
      layer_descs.length := by
    rw [f3, q1, List.length_set, a4]
  have hel : (forward_upto K le (step_begin input_cis H) l).encoders.length =
      layer_descs.length := by
    rw [f2, q4, a1]
  refine ⟨fun _ => ⟨by rw [htl]; exact hl, by rw [f1, q3, a6]; exact hl⟩, fun _ => ?_⟩
  refine ⟨by rw [htl]; exact hl, ?_, by rw [hel]; exact hl, by rw [hhl]; exact hl, ?_,
    by rw [hpar, b2]; exact hl, fun ha => ?_⟩
  · rw [f4, q2, length_Array_fill, a5]; exact hl
  · intro i hi t ht
    have hr := hok l hl i _ (getElem?_eq_some_getD _ i hi default)
    exact ring_in_range_of_ok _ hr t (by simp only [CircleBuffer.size]; exact_mod_cast ht)
  · have hl2 : l + 1 < layer_descs.length := by
      rw [hel] at ha
      exact (has_layer_above_iff _ _).1 ha
    obtain ⟨r1, _⟩ := hist_shape_rings _ _ hshape (l + 1)
    have hcount : ((forward_upto K le (step_begin input_cis H) l).histories.getD (l + 1)
        default).length = 1 := by
      rw [r1, c1 (l + 1) hl2, if_neg (by omega)]
    refine ⟨by rw [hhl]; exact hl2, by rw [hcount]; exact Nat.one_pos, ?_,
      by rw [htl]; exact hl2⟩
    exact ring_in_range_push _ (hok (l + 1) hl2 0 _
      (getElem?_eq_some_getD _ 0 (by rw [hcount]; exact Nat.one_pos) default))

/-- Lines 237-253 on a state of the descending loop of a `step` on a reached hierarchy
that is given one buffer per channel. -/
theorem backward_in_range_reached (K : Kernels) (io_descs : List IO_Desc)
    (layer_descs : List Layer_Desc) (hN : 0 < layer_descs.length)
    (hth : ∀ l, l < layer_descs.length → 1 ≤ (layer_descs.getD l default).temporal_horizon)
    (htpu : ∀ l, 1 ≤ l → l < layer_descs.length →
      1 ≤ (layer_descs.getD l default).ticks_per_update ∧
      (layer_descs.getD l default).ticks_per_update ≤
        (layer_descs.getD l default).temporal_horizon)
    (calls : List Call) (input_cis : List Int_Buffer_View)
    (hin : input_cis.length = io_descs.length) (le : Bool) (reward mimic : float)
    (l : Nat) (hl : l < layer_descs.length) (B : Hierarchy)
    (hB : B = backward_upto K input_cis le reward mimic
      (step_forward K le (step_begin input_cis
        (run K (Hierarchy.create K io_descs layer_descs) calls))) l) :
    backward_in_range input_cis B l := by
  -- the state after the call is a reached state
  have hS : step K (run K (Hierarchy.create K io_descs layer_descs) calls) input_cis le reward
      mimic = run K (Hierarchy.create K io_descs layer_descs)
        (calls ++ [Call.step input_cis le reward mimic]) := by
    rw [run_snoc]
    rfl
  obtain ⟨⟨a1, a2, a3, a4, a5, a6⟩, ⟨b1, b2, b3⟩, ⟨e1, e2, e3⟩, c1, c2⟩ :=
    reached_shape K io_descs layer_descs hN hth
      (calls ++ [Call.step input_cis le reward mimic]) _ hS
  obtain ⟨hin1, htpu1⟩ := In_step_reached K io_descs layer_descs
    (fun j hj1 hj => (htpu j hj1 hj).1) (calls ++ [Call.step input_cis le reward mimic])
  rw [← hS] at hin1
  obtain ⟨_, _, _, i4, i5⟩ := hin1
  obtain ⟨hs, hlay⟩ := backward_upto_frame K io_descs layer_descs calls input_cis le reward
    mimic l
  rw [← hB] at hs hlay
  obtain ⟨_, _, _, _, k5, k6⟩ := backward_upto_reached K io_descs layer_descs calls input_cis
    le reward mimic l hl B hB
  simp only [sched, Prod.mk.injEq] at hs
  obtain ⟨s1, s2, s3, s4⟩ := hs
  have hlayS := layout_run K (calls ++ [Call.step input_cis le reward mimic])
    (Hierarchy.create K io_descs layer_descs)
  rw [← hS] at hlayS
  rw [← hlayS] at hlay
  simp only [layout, Prod.mk.injEq] at hlay
  obtain ⟨y1, _, y3, _, y5, y6, y7⟩ := hlay
  have hBdl : B.decoders.length = layer_descs.length := by
    have := congrArg List.length y7
    simp only [dec_counts, List.length_map] at this
    rw [this, a2]
  have hBd : ∀ j, (B.decoders.getD j default).length =
      ((Hierarchy.create K io_descs layer_descs).decoders.getD j default).length :=
    fun j => (dec_counts_getD _ _ y7 j).trans (e3 j)
  have hBio : B.io_sizes.length = io_descs.length := by rw [y3, b1]
  have hBi : B.i_indices = (Hierarchy.create K io_descs layer_descs).i_indices := y1.trans e1
  have hcnt : ∀ j, 0 < j → j < layer_descs.length →
      ((Hierarchy.create K io_descs layer_descs).decoders.getD j default).length =
        (layer_descs.getD j default).ticks_per_update.toNat := by
    intro j hj0 hj
    rw [List.getD_eq_getElem?_getD, (create_next K io_descs layer_descs j hj0 hj).2]
    simp
  have htv : ∀ j, 0 < j → j < layer_descs.length →
      (Hierarchy.create K io_descs layer_descs).ticks_per_update.getD j 0 =
        (layer_descs.getD j default).ticks_per_update := by
    intro j hj0 hj
    rw [create_ticks_per_update_getD K io_descs layer_descs j hj, if_neg (by omega)]
  refine ⟨by rw [s2, a5]; exact hl, fun _ => ⟨by rw [s4, a1]; exact hl, fun ha => ?_,
    fun d hd => ?_, fun h0 d hd => ?_⟩⟩
  · -- the decoder of the layer above whose code is fed back
    have hl2 : l + 1 < layer_descs.length := by
      rw [s4, a1] at ha
      exact (has_layer_above_iff _ _).1 ha
    obtain ⟨t0, t1⟩ := i5 (l + 1) (by omega) hl2
    have hp := (htpu (l + 1) (by omega) hl2).1
    refine ⟨by rw [hBdl]; exact hl2, by rw [s3, a6]; exact hl2, by rw [s1, a4]; exact hl2, ?_⟩
    show 0 ≤ B.ticks_per_update.getD (l + 1) 0 - 1 - B.ticks.getD (l + 1) 0 ∧
      B.ticks_per_update.getD (l + 1) 0 - 1 - B.ticks.getD (l + 1) 0 <
        ((B.decoders.getD (l + 1) default).length : Int)
    rw [hBd (l + 1), hcnt (l + 1) (by omega) hl2, s3, s1, i4, htv (l + 1) (by omega) hl2]
    rw [htv (l + 1) (by omega) hl2] at t1
    rw [Int.toNat_of_nonneg (by omega)]
    omega
  · -- decoder `d` of the layer
    refine ⟨by rw [k5, a3]; exact hl, ?_⟩
    by_cases h0 : l = 0
    · subst h0
      rw [if_pos rfl]
      rw [hBd 0] at hd
      obtain ⟨_, c, hc, _, _, hi⟩ := create_decoder_channel K io_descs layer_descs d hd
      have hdl : d < B.i_indices.length := by
        rw [hBi]
        by_contra hcon
        rw [List.getElem?_eq_none (Nat.le_of_not_lt hcon)] at hi
        exact Option.noConfusion hi
      have hv : Array_at B.i_indices (d : Int) = (c : Int) := by
        rw [Array_at_natCast, hBi, List.getD_eq_getElem?_getD, hi]
        rfl
      have hh0 := c1 0 hN
      rw [if_pos rfl] at hh0
      have hcount : (B.histories.getD 0 default).length = io_descs.length := by
        rw [k5, hh0]
      rw [hv]
      refine ⟨⟨Int.natCast_nonneg d, by exact_mod_cast hdl⟩,
        ⟨Int.natCast_nonneg c, by rw [hcount]; exact_mod_cast hc⟩, ?_,
        ⟨Int.natCast_nonneg c, by rw [y5, b3]; exact_mod_cast hc⟩⟩
      rw [Array_at_natCast, k5]
      have hr := c2 0 hN c _ (getElem?_eq_some_getD _ c (by rw [hh0]; exact hc) default)
      have := ring_in_range_of_ok _ hr 0 (by simp only [Nat.cast_zero]; omega)
      simpa using this
    · rw [if_neg h0]
      obtain ⟨j, rfl⟩ : ∃ j, l = j + 1 := ⟨l - 1, by omega⟩
      obtain ⟨b, hb1, hb2, hb3, hb4⟩ := run_ring_above K io_descs layer_descs
        (calls ++ [Call.step input_cis le reward mimic]) j hl (hth (j + 1) hl)
      rw [← hS, ← k5] at hb1
      have hg : B.histories.getD (j + 1) default = [b] := by
        rw [List.getD_eq_getElem?_getD, hb1]
        rfl
      rw [hg]
      rw [hBd (j + 1), hcnt (j + 1) (by omega) hl] at hd
      have hq := htpu (j + 1) (by omega) hl
      refine ⟨Nat.one_pos, ?_, by rw [y5, b2]; exact hl⟩
      exact ring_in_range_of_ok b ⟨hb3, hb4⟩ d (by rw [hb2]; omega)
  · -- actor `d`
    rw [y6, e2] at hd
    obtain ⟨_, c, hc, _, _, hi, _⟩ := create_actor_channel K io_descs layer_descs d hd
    have hdl : io_descs.length + d < B.i_indices.length := by
      rw [hBi]
      by_contra hcon
      rw [List.getElem?_eq_none (Nat.le_of_not_lt hcon)] at hi
      exact Option.noConfusion hi
    have hv : actor_channel B d = (c : Int) := by
      simp only [actor_channel]
      rw [hBio, show (d : Int) + (io_descs.length : Int) = ((io_descs.length + d : Nat) : Int)
        by push_cast; ring, Array_at_natCast, hBi, List.getD_eq_getElem?_getD, hi]
      rfl
    refine ⟨⟨by omega, ?_⟩, ?_, ?_⟩
    · rw [hBio]
      have : ((d : Int) + (io_descs.length : Int)) = ((io_descs.length + d : Nat) : Int) := by
        push_cast; ring
      rw [this]
      exact_mod_cast hdl
    · rw [hv]
      exact ⟨Int.natCast_nonneg c, by rw [hin]; exact_mod_cast hc⟩
    · rw [hv]
      exact ⟨Int.natCast_nonneg c, by rw [y5, b3]; exact_mod_cast hc⟩

/-! ## The indices of `init_random` are inside the arrays -/

theorem pair_in_range_all (num_layers l : Nat) : pair_in_range num_layers l := by
  unfold pair_in_range
  by_cases h : has_layer_above num_layers l = true
  · simp [h, Array_new]
  · simp [h, Array_new]

theorem length_Array_resize_nil {α : Type} [Inhabited α] (size : Int) :
    (Array_resize ([] : List α) size).length = size.toNat := by
  simp [Array_resize, Array_resize_fill]

/-- Lines 34-49 on the arrays that lines 17-32 have sized. -/
theorem init_counts_in_range_default (io_descs : List IO_Desc) (layer_descs : List Layer_Desc) :
    init_counts_in_range (init_arrays default io_descs layer_descs) io_descs layer_descs := by
  rw [init_arrays_default]
  refine ⟨fun l hl => ?_, fun i hi => ?_⟩
  · simpa using hl
  · have hi' : i < io_descs.length := by simpa using hi
    exact ⟨hi', by simpa using hi'⟩

/-- Lines 58-67: the index `t + temporal_horizon * i` is below
`io_sizes.size() * temporal_horizon`. -/
theorem e_descs_in_range_all (io_sizes : List Int3) (io_descs : List IO_Desc) (th : Int)
    (hlen : io_sizes.length = io_descs.length) : e_descs_in_range io_sizes io_descs th := by
  intro i hi
  refine ⟨by rw [← hlen]; exact hi, fun t ht => ?_⟩
  have hth : (t : Int) < th := by omega
  have h0 : (0 : Int) ≤ th := by omega
  have h1 : (0 : Int) ≤ th * (i : Int) := mul_nonneg h0 (Int.natCast_nonneg i)
  refine ⟨by omega, ?_⟩
  rw [length_Array_resize_nil]
  have h2 : th * ((i : Int) + 1) ≤ th * (io_sizes.length : Int) :=
    mul_le_mul_of_nonneg_left (by exact_mod_cast hi) h0
  have h3 : (0 : Int) ≤ (io_sizes.length : Int) * th :=
    mul_nonneg (Int.natCast_nonneg _) h0
  rw [Int.toNat_of_nonneg h3]
  have h4 : th * ((i : Int) + 1) = th * (i : Int) + th := by ring
  have h5 : th * (io_sizes.length : Int) = (io_sizes.length : Int) * th := by ring
  omega

/-- The accesses to the slots of a ring that has just been created and resized. -/
theorem ring_in_range_resize (th : Int) (t : Nat)
    (ht : t < ((default : Circle_Buffer Int_Buffer).resize th).data.length) :
    Ring_in_range ((default : Circle_Buffer Int_Buffer).resize th) (t : Int) := by
  have hs : ((default : Circle_Buffer Int_Buffer).resize th).start = 0 := rfl
  exact ring_in_range_of_ok _
    ⟨by rw [hs], by rw [hs]; simp only [CircleBuffer.size]; omega⟩ t
    (by simp only [CircleBuffer.size]; exact_mod_cast ht)

/-- Lines 70-79 on a hierarchy whose layer `l` has no ring yet. -/
theorem init_histories_first_in_range_new (th : Int) (h : Hierarchy) (l : Nat)
    (hl : l < h.histories.length) (hnil : h.histories.getD l default = []) :
    init_histories_first_in_range th h l := by
  refine ⟨hl, fun i hi => ?_⟩
  rw [hnil, Array_resize_nil] at hi ⊢
  simp only [List.length_replicate] at hi
  refine ⟨hi, fun t ht => ?_⟩
  have e : (List.replicate h.io_sizes.length (default : Circle_Buffer Int_Buffer)).getD i
      default = default := by
    simp [List.getD_eq_getElem?_getD, List.getElem?_replicate, hi]
  rw [e] at ht ⊢
  exact ring_in_range_resize th t ht

/-- Lines 130-161 on a hierarchy whose layer `l >= 1` has no ring yet. -/
theorem init_next_in_range_new (layer_descs : List Layer_Desc) (h : Hierarchy) (l : Nat)
    (hl0 : 0 < l) (hl : l < layer_descs.length) (hh : l < h.histories.length)
    (hd : l < h.decoders.length) (hnil : h.histories.getD l default = []) :
    init_next_in_range layer_descs h l := by
  refine ⟨fun t ht => ?_, ⟨by omega, by omega⟩, hh, ?_, fun t ht => ?_, hd,
    pair_in_range_all _ _⟩
  · rw [length_Array_resize_nil]; exact ht
  · rw [hnil]; simp [Array_resize, Array_resize_fill]
  · rw [hnil] at ht ⊢
    have e : (Array_resize ([] : List (Circle_Buffer Int_Buffer)) 1).getD 0 default =
        default := by
      simp [Array_resize, Array_resize_fill]
    rw [e] at ht ⊢
    exact ring_in_range_resize _ t ht

/-- The loop of lines 90-107 when it reaches channel `k`: the arrays have kept their
sizes and `d_index` is the number of prediction channels before `k`. -/
theorem init_decoder_first_upto (K : Kernels) (io_descs : List IO_Desc)
    (layer_descs : List Layer_Desc) (l : Nat) (x : Hierarchy) (k : Nat) :
    let s := (List.range k).foldl (init_decoder_first K io_descs layer_descs l)
      { hier := x, d_index := 0 }
    s.hier.encoders.length = x.encoders.length ∧
    s.hier.decoders.length = x.decoders.length ∧
    (s.hier.decoders.getD l default).length = (x.decoders.getD l default).length ∧
    s.hier.io_sizes.length = x.io_sizes.length ∧
    s.hier.i_indices.length = x.i_indices.length ∧
    s.hier.d_indices.length = x.d_indices.length ∧
    s.d_index = rank (fun j => decide ((io_descs.getD j default).type = IO_Type.prediction)) k := by
  have key := foldl_range_inv (init_decoder_first K io_descs layer_descs l)
    (fun j (s : Init_Index) =>
      s.hier.encoders.length = x.encoders.length ∧
      s.hier.decoders.length = x.decoders.length ∧
      (s.hier.decoders.getD l default).length = (x.decoders.getD l default).length ∧
      s.hier.io_sizes.length = x.io_sizes.length ∧
      s.hier.i_indices.length = x.i_indices.length ∧
      s.hier.d_indices.length = x.d_indices.length ∧
      s.d_index =
        rank (fun j => decide ((io_descs.getD j default).type = IO_Type.prediction)) j) k
    (fun j _ s hs => by
      obtain ⟨h1, h2, h3, h4, h5, h6, h7⟩ := hs
      rw [rank_succ]
      by_cases hp : (io_descs.getD j default).type = IO_Type.prediction
      · have e : init_decoder_first K io_descs layer_descs l s j =
            { hier := { s.hier with
                decoders := Array_update s.hier.decoders l (fun ds =>
                  Array_update ds s.d_index (fun d =>
                    K.dec_init_random d (s.hier.io_sizes.getD j default)
                      (d_visible_layer_descs s.hier.encoders.length l
                        (layer_descs.getD l default).hidden_size
                        (io_descs.getD j default).down_radius))),
                i_indices := s.hier.i_indices.set s.d_index (j : Int),
                d_indices := s.hier.d_indices.set j (s.d_index : Int) },
              d_index := s.d_index + 1 } := by
          simp only [init_decoder_first, if_pos hp]
        rw [e]
        dsimp only
        refine ⟨h1, ?_, ?_, h4, ?_, ?_, ?_⟩
        · simp only [Array_update, List.length_set]; exact h2
        · rw [getD_Array_update]
          split_ifs
          · simp only [Array_update, List.length_set]; exact h3
          · exact h3
        · rw [List.length_set]; exact h5
        · rw [List.length_set]; exact h6
        · rw [h7]; simp only [decide_eq_true_eq, hp, if_true]
      · have e : init_decoder_first K io_descs layer_descs l s j = s := by
          simp only [init_decoder_first, if_neg hp]
        rw [e]
        exact ⟨h1, h2, h3, h4, h5, h6, by rw [h7]; simp only [decide_eq_true_eq, hp, if_false, Nat.add_zero]⟩)
    { hier := x, d_index := 0 } ⟨rfl, rfl, rfl, rfl, rfl, rfl, by simp [rank]⟩
  exact key

/-- The loop of lines 111-128 when it reaches channel `k`: the arrays have kept their
sizes and `d_index` is the number of action channels before `k`. -/
theorem init_actor_first_upto (K : Kernels) (io_descs : List IO_Desc)
    (layer_descs : List Layer_Desc) (l : Nat) (x : Hierarchy) (k : Nat) :
    let s := (List.range k).foldl (init_actor_first K io_descs layer_descs l)
      { hier := x, d_index := 0 }
    s.hier.encoders.length = x.encoders.length ∧
    s.hier.actors.length = x.actors.length ∧
    s.hier.io_sizes.length = x.io_sizes.length ∧
    s.hier.i_indices.length = x.i_indices.length ∧
    s.hier.d_indices.length = x.d_indices.length ∧
    s.d_index = rank (fun j => decide ((io_descs.getD j default).type = IO_Type.action)) k := by
  have key := foldl_range_inv (init_actor_first K io_descs layer_descs l)
    (fun j (s : Init_Index) =>
      s.hier.encoders.length = x.encoders.length ∧
      s.hier.actors.length = x.actors.length ∧
      s.hier.io_sizes.length = x.io_sizes.length ∧
      s.hier.i_indices.length = x.i_indices.length ∧
      s.hier.d_indices.length = x.d_indices.length ∧
      s.d_index =
        rank (fun j => decide ((io_descs.getD j default).type = IO_Type.action)) j) k
    (fun j _ s hs => by
      obtain ⟨h1, h2, h4, h5, h6, h7⟩ := hs
      rw [rank_succ]
      by_cases hp : (io_descs.getD j default).type = IO_Type.action
      · have e : init_actor_first K io_descs layer_descs l s j =
            { hier := { s.hier with
                actors := Array_update s.hier.actors s.d_index (fun a =>
                  K.act_init_random a (s.hier.io_sizes.getD j default)
                    (io_descs.getD j default).history_capacity
                    (a_visible_layer_descs s.hier.encoders.length l
                      (layer_descs.getD l default).hidden_size
                      (io_descs.getD j default).down_radius)),
                i_indices := Array_put s.hier.i_indices
                  ((s.hier.io_sizes.length : Int) + (s.d_index : Int)) (j : Int),
                d_indices := s.hier.d_indices.set j (s.d_index : Int) },
              d_index := s.d_index + 1 } := by
          simp only [init_actor_first, if_pos hp]
        rw [e]
        dsimp only
        refine ⟨h1, ?_, h4, ?_, ?_, ?_⟩
        · simp only [Array_update, List.length_set]; exact h2
        · rw [Array_put_natCast, List.length_set]; exact h5
        · rw [List.length_set]; exact h6
        · rw [h7]; simp only [decide_eq_true_eq, hp, if_true]
      · have e : init_actor_first K io_descs layer_descs l s j = s := by
          simp only [init_actor_first, if_neg hp]
        rw [e]
        exact ⟨h1, h2, h4, h5, h6, by rw [h7]; simp only [decide_eq_true_eq, hp, if_false, Nat.add_zero]⟩)
    { hier := x, d_index := 0 } ⟨rfl, rfl, rfl, rfl, rfl, by simp [rank]⟩
  exact key

/-- Lines 57-129 for layer `0` of `init_random` on a default-constructed object. -/
theorem init_first_in_range_base (K : Kernels) (io_descs : List IO_Desc)
    (layer_descs : List Layer_Desc) (hN : 0 < layer_descs.length) :
    init_first_in_range K io_descs layer_descs (num_channels io_descs IO_Type.prediction)
      (num_channels io_descs IO_Type.action) (init_base io_descs layer_descs) 0 := by
  have bsz : (init_base io_descs layer_descs).io_sizes = io_descs.map (fun d => d.size) := rfl
  have benc : (init_base io_descs layer_descs).encoders =
    List.replicate layer_descs.length default := rfl
  have bdec : (init_base io_descs layer_descs).decoders =
    List.replicate layer_descs.length [] := rfl
  have bhis : (init_base io_descs layer_descs).histories =
    List.replicate layer_descs.length [] := rfl
  have h1 := foldl_keeps (fun x : Hierarchy => (x.encoders, x.decoders, x.actors, x.i_indices,
    x.d_indices, x.io_sizes))
    (fun (h : Hierarchy) (i : Nat) =>
      { h with histories := Array_update h.histories 0 (fun hs =>
          Array_update hs i (init_history (layer_descs.getD 0 default).temporal_horizon
            ((h.io_sizes.getD i default).x * (h.io_sizes.getD i default).y))) })
    (fun s a => rfl)
  have y1b : ((init_histories_first (layer_descs.getD 0 default).temporal_horizon
      (init_base io_descs layer_descs) 0).encoders,
      (init_histories_first (layer_descs.getD 0 default).temporal_horizon
      (init_base io_descs layer_descs) 0).decoders,
      (init_histories_first (layer_descs.getD 0 default).temporal_horizon
      (init_base io_descs layer_descs) 0).actors,
      (init_histories_first (layer_descs.getD 0 default).temporal_horizon
      (init_base io_descs layer_descs) 0).i_indices,
      (init_histories_first (layer_descs.getD 0 default).temporal_horizon
      (init_base io_descs layer_descs) 0).d_indices,
      (init_histories_first (layer_descs.getD 0 default).temporal_horizon
      (init_base io_descs layer_descs) 0).io_sizes) =
      ((init_base io_descs layer_descs).encoders, (init_base io_descs layer_descs).decoders,
        (init_base io_descs layer_descs).actors, (init_base io_descs layer_descs).i_indices,
        (init_base io_descs layer_descs).d_indices,
        (init_base io_descs layer_descs).io_sizes) := by
    simp only [init_histories_first]
    exact h1 _ _
  simp only [Prod.mk.injEq] at y1b
  obtain ⟨a1, a2, a3, a4, a5, a6⟩ := y1b
  unfold init_first_in_range
  generalize hY1 : init_histories_first (layer_descs.getD 0 default).temporal_horizon
    (init_base io_descs layer_descs) 0 = Y1 at a1 a2 a3 a4 a5 a6
  have szlen : Y1.io_sizes.length = io_descs.length := by rw [a6, bsz]; simp
  generalize hY2 : init_slots_first (num_channels io_descs IO_Type.prediction)
    (num_channels io_descs IO_Type.action) Y1 0 = Y2
  have c1 : Y2.encoders.length = layer_descs.length := by
    rw [← hY2]; simp only [init_slots_first]; rw [a1, benc]; simp
  have c2 : Y2.io_sizes.length = io_descs.length := by
    rw [← hY2]; simp only [init_slots_first]; exact szlen
  have c3 : Y2.decoders.length = layer_descs.length := by
    rw [← hY2]; simp only [init_slots_first, Array_update, List.length_set]; rw [a2, bdec]; simp
  have c4 : (Y2.decoders.getD 0 default).length =
      rank (fun j => decide ((io_descs.getD j default).type = IO_Type.prediction))
        io_descs.length := by
    have hrep : (List.replicate layer_descs.length ([] : List Decoder)).getD 0 default = [] := by
      simp [List.getD_eq_getElem?_getD, List.getElem?_replicate, hN]
    rw [← hY2]
    simp only [init_slots_first]
    rw [getD_Array_update, if_pos ⟨rfl, by rw [a2, bdec]; simpa using hN⟩, a2, bdec, hrep]
    show (Array_resize ([] : List Decoder)
      ((num_channels io_descs IO_Type.prediction : Nat) : Int)).length = _
    rw [Array_resize_nil, List.length_replicate]
    rfl
  have c5 : Y2.actors.length =
      rank (fun j => decide ((io_descs.getD j default).type = IO_Type.action))
        io_descs.length := by
    rw [← hY2]; simp only [init_slots_first]; rw [a3]
    show (Array_resize ([] : List Actor)
      ((num_channels io_descs IO_Type.action : Nat) : Int)).length = _
    rw [Array_resize_nil, List.length_replicate]
    rfl
  have c6 : Y2.i_indices.length = io_descs.length * 2 := by
    rw [← hY2]; simp only [init_slots_first]; rw [a4, szlen]
    show (Array_resize ([] : List Int) (((io_descs.length * 2 : Nat)) : Int)).length = _
    rw [Array_resize_nil, List.length_replicate]
  have c7 : Y2.d_indices.length = io_descs.length := by
    rw [← hY2]; simp only [init_slots_first, Array_new]; rw [szlen]; simp
  obtain ⟨_, _, _, d4, _, d6, _, _⟩ := init_decoders_first_spec K io_descs layer_descs
    Y2 0 (by rw [c3]; exact hN)
  have dU := init_decoder_first_upto K io_descs layer_descs 0 Y2 Y2.io_sizes.length
  simp only at dU
  obtain ⟨u1, _, _, _, u5, u6, _⟩ := dU
  generalize hY3 : init_decoders_first K io_descs layer_descs Y2 0 = Y3 at d4 d6
  have hY3' : ((List.range Y2.io_sizes.length).foldl
      (init_decoder_first K io_descs layer_descs 0) { hier := Y2, d_index := 0 }).hier = Y3 :=
    hY3
  rw [hY3'] at u1 u5 u6
  refine ⟨e_descs_in_range_all _ _ _ (by rw [bsz]; simp), ?_, ?_, fun i hi => ?_,
    fun i hi => ?_⟩
  · exact init_histories_first_in_range_new _ _ 0 (by rw [bhis]; simpa using hN)
      (by rw [bhis]; simp [List.getD_eq_getElem?_getD, List.getElem?_replicate, hN])
  · rw [a2, bdec]; simpa using hN
  · rw [c2] at hi
    obtain ⟨v1, v2, v3, v4, v5, v6, v7⟩ :=
      init_decoder_first_upto K io_descs layer_descs 0 Y2 i
    refine ⟨hi, fun hp => ⟨pair_in_range_all _ _, by rw [v2, c3]; exact hN, ?_,
      by rw [v4, c2]; exact hi, ?_, by rw [v6, c7]; exact hi⟩⟩
    · rw [v7, v3, c4]
      exact rank_lt _ i _ hi (by simpa using hp)
    · rw [v7, v5, c6]
      have := rank_le (fun j => decide ((io_descs.getD j default).type = IO_Type.prediction)) i
      omega
  · rw [d6, c2] at hi
    obtain ⟨v1, v2, v4, v5, v6, v7⟩ :=
      init_actor_first_upto K io_descs layer_descs 0 Y3 i
    refine ⟨hi, fun hp => ⟨pair_in_range_all _ _, ?_, by rw [v4, d6, c2]; exact hi, ?_,
      by rw [v6, u6, c7]; exact hi⟩⟩
    · rw [v7, v2, d4, c5]
      exact rank_lt _ i _ hi (by simpa using hp)
    · have := rank_le (fun j => decide ((io_descs.getD j default).type = IO_Type.action)) i
      refine ⟨by omega, ?_⟩
      rw [v7, v4, v5, u5, c6, d6, c2]
      have e : ((io_descs.length : Int) +
          ((rank (fun j => decide ((io_descs.getD j default).type = IO_Type.action)) i : Nat)
            : Int)) < ((io_descs.length * 2 : Nat) : Int) := by
        push_cast; omega
      exact e

/-- Every index of `init_random`, called on a default-constructed object, is inside its
array. -/
theorem init_in_range_all (K : Kernels) (io_descs : List IO_Desc)
    (layer_descs : List Layer_Desc) : init_in_range K io_descs layer_descs := by
  refine ⟨init_counts_in_range_default io_descs layer_descs, fun l hl => ?_⟩
  obtain ⟨_, _, k3, k4, k5, k6⟩ := init_upto_keeps K io_descs layer_descs l
  obtain ⟨_, k7, k8⟩ := k6 l (le_refl l) hl
  refine ⟨?_, by rw [k3]; exact hl⟩
  by_cases h0 : l = 0
  · subst h0
    rw [if_pos rfl]
    exact init_first_in_range_base K io_descs layer_descs hl
  · rw [if_neg h0]
    exact init_next_in_range_new layer_descs _ l (by omega) hl (by rw [k5]; exact hl)
      (by rw [k4]; exact hl) (by rw [List.getD_eq_getElem?_getD, k8]; rfl)

/-! ## The indices of the encoders' visible layers and inputs -/

/-- The sizes, at layer `l`, of a hierarchy reached from `init_random`: the number of
history rings, the number of slots of every ring and the number of visible layers of the
encoder. -/
theorem reached_sizes (K : Kernels) (hK : Visible_layers_sized K) (io_descs : List IO_Desc)
    (layer_descs : List Layer_Desc) (calls : List Call) (H : Hierarchy)
    (hH : H = run K (Hierarchy.create K io_descs layer_descs) calls)
    (l : Nat) (hl : l < layer_descs.length) :
    (H.histories.getD l default).length = (if l = 0 then io_descs.length else 1) ∧
    (∀ i, i < (if l = 0 then io_descs.length else 1) →
      ((H.histories.getD l default).getD i default).data.length =
        (layer_descs.getD l default).temporal_horizon.toNat) ∧
    (H.encoders.getD l default).visible_layers.length =
      (if l = 0 then io_descs.length else 1) *
        (layer_descs.getD l default).temporal_horizon.toNat := by
  obtain ⟨c1, c2, c3⟩ := create_shape K hK io_descs layer_descs l hl
  obtain ⟨l1, _, _⟩ := run_lengths K io_descs layer_descs calls
  rw [← hH] at l1
  have hvis : vis_counts H = vis_counts (Hierarchy.create K io_descs layer_descs) := by
    rw [hH, vis_counts_run K hK]
  have hshape : hist_shape H = hist_shape (Hierarchy.create K io_descs layer_descs) := by
    rw [hH, hist_shape_run]
  obtain ⟨r1, r2⟩ := hist_shape_rings _ _ hshape l
  refine ⟨r1.trans c1, fun i hi => (r2 i).trans (c2 i hi), ?_⟩
  have := congrArg (fun x => x.getD l 0) hvis
  simp only at this
  rw [c3, vis_counts, getD_map_of_lt _ _ l (by rw [l1]; exact hl) 0 default] at this
  exact this

/-- The loop of lines 182-183 leaves the histories and the numbers of visible layers as
they are. -/
theorem importances_upto_frame (h : Hierarchy) (i : Nat) :
    (importances_upto h i).histories = h.histories ∧
    vis_counts (importances_upto h i) = vis_counts h := by
  unfold importances_upto
  constructor
  · exact foldl_keeps (fun x : Hierarchy => x.histories) _
      (fun s a => (histories_set_input_importance s a _).1) _ _
  · refine foldl_keeps vis_counts _ (fun s a => ?_) _ _
    unfold set_input_importance
    exact foldl_keeps vis_counts _ (fun s a => vis_counts_update s 0 _ (fun e => by
      simp only [Array_update, List.length_set])) _ _

/-- Line 129 of `hierarchy.h` in a `step` on a hierarchy reached from `init_random`. -/
theorem importance_in_range_reached (K : Kernels) (hK : Visible_layers_sized K)
    (io_descs : List IO_Desc) (layer_descs : List Layer_Desc) (hN : 0 < layer_descs.length)
    (calls : List Call) (H : Hierarchy)
    (hH : H = run K (Hierarchy.create K io_descs layer_descs) calls)
    (i : Nat) (hi : i < io_descs.length) :
    importance_in_range (importances_upto H i) i := by
  obtain ⟨s1, s2, s3⟩ := reached_sizes K hK io_descs layer_descs calls H hH 0 hN
  simp only [if_true] at s1 s2 s3
  obtain ⟨f1, f2⟩ := importances_upto_frame H i
  obtain ⟨l1, _, _⟩ := run_lengths K io_descs layer_descs calls
  rw [← hH] at l1
  have hv : ((importances_upto H i).encoders.getD 0 default).visible_layers.length =
      (H.encoders.getD 0 default).visible_layers.length := by
    have hlen : (importances_upto H i).encoders.length = H.encoders.length := by
      have := congrArg List.length f2
      simpa [vis_counts] using this
    have := congrArg (fun x => x.getD 0 0) f2
    simp only at this
    rw [vis_counts, getD_map_of_lt _ _ 0 (by rw [hlen, l1]; exact hN) 0 default,
      vis_counts, getD_map_of_lt _ _ 0 (by rw [l1]; exact hN) 0 default] at this
    exact this
  intro t ht
  rw [f1, s2 i hi] at ht ⊢
  rw [hv, s3]
  calc i * (layer_descs.getD 0 default).temporal_horizon.toNat + t
      < i * (layer_descs.getD 0 default).temporal_horizon.toNat +
          (layer_descs.getD 0 default).temporal_horizon.toNat := by omega
    _ = (i + 1) * (layer_descs.getD 0 default).temporal_horizon.toNat := by ring
    _ ≤ _ := Nat.mul_le_mul_right _ (by omega)

/-- The loop of lines 212-218 over `c` rings of `T` slots each: `index` stays below
`c * T`, so inside an array of at least `c * T` places. -/
theorem inputs_loop_in_range (size T c : Nat) (sizes : Nat → Nat)
    (hs : ∀ i, i < c → sizes i = T) (hn : c * T ≤ size) :
    (List.range c).foldl (fun (r : Bool × Nat) (i : Nat) =>
      (List.range (sizes i)).foldl
        (fun (r : Bool × Nat) (_ : Nat) => (r.1 && decide (r.2 < size), r.2 + 1)) r)
      (true, 0) = (true, c * T) := by
  have inner : ∀ (m : Nat) (b : Nat), b + m ≤ size →
      (List.range m).foldl
        (fun (r : Bool × Nat) (_ : Nat) => (r.1 && decide (r.2 < size), r.2 + 1)) (true, b) =
        (true, b + m) := by
    intro m
    induction m with
    | zero => intro b _; rfl
    | succ m ih =>
      intro b hb
      rw [List.range_succ, List.foldl_append, ih b (by omega)]
      simp only [List.foldl_cons, List.foldl_nil, Bool.true_and, Prod.mk.injEq,
        decide_eq_true_eq]
      exact ⟨by omega, by omega⟩
  have key := foldl_range_inv
    (fun (r : Bool × Nat) (i : Nat) =>
      (List.range (sizes i)).foldl
        (fun (r : Bool × Nat) (_ : Nat) => (r.1 && decide (r.2 < size), r.2 + 1)) r)
    (fun k r => r = (true, k * T)) c
    (fun k hk r hr => by
      subst hr
      show (List.range (sizes k)).foldl _ (true, k * T) = _
      rw [hs k hk, inner T (k * T) (by
        have : (k + 1) * T ≤ c * T := Nat.mul_le_mul_right _ (by omega)
        have e : (k + 1) * T = k * T + T := by ring
        omega)]
      congr 1
      ring)
    (true, 0) (by simp)
  exact key

/-- Lines 208-218 in a `step` on a hierarchy reached from `init_random`, for the state in
which the ascending loop reaches layer `l`. -/
theorem encoder_inputs_in_range_reached (K : Kernels) (hK : Visible_layers_sized K)
    (io_descs : List IO_Desc) (layer_descs : List Layer_Desc)
    (calls : List Call) (input_cis : List Int_Buffer_View) (le : Bool) (H : Hierarchy)
    (hH : H = run K (Hierarchy.create K io_descs layer_descs) calls)
    (l : Nat) (hl : l < layer_descs.length) :
    (encoder_inputs_in_range (forward_upto K le (step_begin input_cis H) l) l).1 = true := by
  obtain ⟨s1, s2, s3⟩ := reached_sizes K hK io_descs layer_descs calls H hH l hl
  obtain ⟨l1, _, _⟩ := run_lengths K io_descs layer_descs calls
  rw [← hH] at l1
  have hshape : hist_shape (forward_upto K le (step_begin input_cis H) l) = hist_shape H := by
    rw [hist_shape_forward_upto, hist_shape_step_begin]
  have hvis : vis_counts (forward_upto K le (step_begin input_cis H) l) = vis_counts H := by
    rw [vis_counts_forward_upto K hK, vis_counts_step_begin]
  obtain ⟨r1, r2⟩ := hist_shape_rings _ _ hshape l
  have hv : ((forward_upto K le (step_begin input_cis H) l).encoders.getD l default
      ).visible_layers.length = (H.encoders.getD l default).visible_layers.length := by
    have hlen : (forward_upto K le (step_begin input_cis H) l).encoders.length =
        H.encoders.length := by
      have := congrArg List.length hvis
      simpa [vis_counts] using this
    have := congrArg (fun x => x.getD l 0) hvis
    simp only at this
    rw [vis_counts, getD_map_of_lt _ _ l (by rw [hlen, l1]; exact hl) 0 default,
      vis_counts, getD_map_of_lt _ _ l (by rw [l1]; exact hl) 0 default] at this
    exact this
  unfold encoder_inputs_in_range
  rw [inputs_loop_in_range _ (layer_descs.getD l default).temporal_horizon.toNat
    ((forward_upto K le (step_begin input_cis H) l).histories.getD l default).length
    (fun i => (((forward_upto K le (step_begin input_cis H) l).histories.getD l default).getD i
      default).data.length)
    (fun i hi => by
      show (((forward_upto K le (step_begin input_cis H) l).histories.getD l default).getD i
        default).data.length = _
      rw [r2 i]; exact s2 i (by rw [← s1, ← r1]; exact hi))
    (by rw [hv, s3, r1, s1])]

/-- C31: for every configuration, every index that `init_random` (on a default-constructed
object) uses is inside its array (`init_in_range`).  For every configuration with at least
one layer, a `temporal_horizon` of at least `1` at every layer and
`1 <= ticks_per_update[l] <= temporal_horizon[l]` at every layer `l >= 1`
(`ticks_per_update[0]` is `1`), in every state reached from `init_random` by `step` and
`clear_state` calls, a `step` that is given one input buffer per channel uses no index
outside its array: the two assertions at the top of `step` hold and every index into
`ticks`, `updates`, `ticks_per_update`, `encoders`, the visible layers of encoder `0`,
`histories` (the rings and their slots), the local arrays `layer_input_cis`, `decoders`,
`actors`, `params.layers`, `params.ios`, `input_cis` and `i_indices` is inside the array
(`step_in_range`).  The number of visible layers of an encoder is the one the spec gives
(`Visible_layers_sized`).  The entries of `i_indices` that are read are the entry `d` for
every decoder `d` of layer `0` and the entry `|io| + d` for every actor `d`; `init_random`
has assigned each of them a channel index below `|io|`, of a channel of type `prediction`
and `action` respectively, so the entries it left unassigned are not read. -/
theorem step_indices_in_range (K : Kernels) (hK : Visible_layers_sized K)
    (io_descs : List IO_Desc)
    (layer_descs : List Layer_Desc) (hN : 0 < layer_descs.length)
    (hth : ∀ l, l < layer_descs.length → 1 ≤ (layer_descs.getD l default).temporal_horizon)
    (htpu : ∀ l, 1 ≤ l → l < layer_descs.length →
      1 ≤ (layer_descs.getD l default).ticks_per_update ∧
      (layer_descs.getD l default).ticks_per_update ≤
        (layer_descs.getD l default).temporal_horizon)
    (calls : List Call) (input_cis : List Int_Buffer_View)
    (hin : input_cis.length = io_descs.length) (learn_enabled : Bool)
    (reward mimic : float) :
    init_in_range K io_descs layer_descs ∧
    step_in_range K (run K (Hierarchy.create K io_descs layer_descs) calls) input_cis
      learn_enabled reward mimic ∧
    (∀ d, d < ((run K (Hierarchy.create K io_descs layer_descs) calls).decoders.getD 0
        default).length →
      ∃ c : Nat, c < io_descs.length ∧ (io_descs.getD c default).type = IO_Type.prediction ∧
        (run K (Hierarchy.create K io_descs layer_descs) calls).i_indices[d]? =
          some (c : Int) ∧
        (Hierarchy.create K io_descs layer_descs).i_indices[d]? = some (c : Int)) ∧
    (∀ d, d < (run K (Hierarchy.create K io_descs layer_descs) calls).actors.length →
      ∃ c : Nat, c < io_descs.length ∧ (io_descs.getD c default).type = IO_Type.action ∧
        (run K (Hierarchy.create K io_descs layer_descs) calls).i_indices[
          io_descs.length + d]? = some (c : Int) ∧
        (Hierarchy.create K io_descs layer_descs).i_indices[io_descs.length + d]? =
          some (c : Int)) := by
  obtain ⟨⟨a1, a2, _⟩, ⟨b1, _, _⟩, ⟨e1, e2, e3⟩, _⟩ :=
    reached_shape K io_descs layer_descs hN hth calls _ rfl
  refine ⟨init_in_range_all K io_descs layer_descs,
    ⟨begin_in_range_reached K io_descs layer_descs hN hth calls input_cis hin _ rfl,
      fun i hi => ?_, fun l hl => ?_, fun l hl => ?_⟩, fun d hd => ?_, fun d hd => ?_⟩
  · rw [b1] at hi
    exact importance_in_range_reached K hK io_descs layer_descs hN calls _ rfl i hi
  · have hb := sched_step_begin input_cis
      (run K (Hierarchy.create K io_descs layer_descs) calls)
    simp only [sched, Prod.mk.injEq] at hb
    rw [hb.2.2.2, a1] at hl
    exact ⟨forward_in_range_reached K io_descs layer_descs hN hth calls input_cis
      learn_enabled _ rfl l hl,
      fun _ => encoder_inputs_in_range_reached K hK io_descs layer_descs calls input_cis
        learn_enabled _ rfl l hl⟩
  · rw [(comps_step_forward K learn_enabled input_cis _).1, a2] at hl
    exact ⟨backward_in_range_reached K io_descs layer_descs hN hth htpu calls input_cis hin
      learn_enabled reward mimic l hl _ rfl, fun _ => pair_in_range_all _ _⟩
  · rw [e3 0] at hd
    obtain ⟨_, c, hc, hty, _, hi⟩ := create_decoder_channel K io_descs layer_descs d hd
    exact ⟨c, hc, hty, by rw [e1]; exact hi, hi⟩
  · rw [e2] at hd
    obtain ⟨_, c, hc, hty, _, hi, _⟩ := create_actor_channel K io_descs layer_descs d hd
    exact ⟨c, hc, hty, by rw [e1]; exact hi, hi⟩

set_option maxRecDepth 100000 in
theorem step_indices_in_range_witness :
    (0 < test_layer_descs.length ∧ test_inputs.length = test_io_descs.length) ∧
    init_in_range sample_kernels test_io_descs test_layer_descs ∧
    step_in_range sample_kernels
      (run sample_kernels (Hierarchy.create sample_kernels test_io_descs test_layer_descs)
        [Call.step test_inputs true 0 0])
      test_inputs true 0 0 :=
  ⟨⟨by decide, by decide⟩,
   (step_indices_in_range sample_kernels sample_kernels_visible test_io_descs
      test_layer_descs (by decide)
      (by intro l hl
          have h2 : l < 2 := hl
          interval_cases l <;> decide)
      (by intro l h1 hl
          have h2 : l < 2 := hl
          interval_cases l
          exact ⟨by decide, by decide⟩)
      [Call.step test_inputs true 0 0] test_inputs (by decide) true 0 0).1,
   (step_indices_in_range sample_kernels sample_kernels_visible test_io_descs
      test_layer_descs (by decide)
      (by intro l hl
          have h2 : l < 2 := hl
          interval_cases l <;> decide)
      (by intro l h1 hl
          have h2 : l < 2 := hl
          interval_cases l
          exact ⟨by decide, by decide⟩)
      [Call.step test_inputs true 0 0] test_inputs (by decide) true 0 0).2.1⟩


end aon
